import Mathlib

/-
  Verification development for sofia-ml (cluster-src): sparse vectors, the set of
  cluster centers, k-means seeding and k-means optimisation.

  Conventions of the embedding
  * `float`/`double` values are rationals (`ℚ`), and the float operations on distances
    (sums, products, quotients) are idealised as exact; `FLT_MAX` keeps its numeric value,
    so a value is a finite single-precision number only if it is at most `FLT_MAX`.
  * The conversion of an `int` to `float` is not idealised: `floatOfInt` rounds to the
    nearest value with a 24-bit significand, as the source does with `rand()` in
    `RandFloat` and with the center ids it keeps in a `vector<float>`.
  * `int` values are `Int`; container indices and sizes are `Nat`.
  * `assert(...)` failures and `exit(1)` are explicit results (`Failure`).
  * `rand()` reads the next element of an explicit sequence `rand_seq : Nat → Nat`;
    the number of calls made so far is part of the state.
-/

namespace SofiaML

/-! ## Constants and failures -/

/-- The constant FLT_MAX of float.h: the largest finite single-precision value,
`(2^24 - 1) * 2^104`. -/
def FLT_MAX : ℚ := 340282346638528859811704183484516925440

/-- The constant RAND_MAX of cstdlib (the glibc value), which bounds every value returned
by `rand()`. -/
def RAND_MAX : Nat := 2147483647

/-- The number of low bits of a magnitude that the conversion to `float` rounds away:
none below `2^24`, otherwise one more than for half the magnitude. The first argument
bounds the number of halvings. -/
def floatShift : Nat → Nat → Nat
  | 0, _ => 0
  | fuel + 1, a => if a < 16777216 then 0 else floatShift fuel (a / 2) + 1

/-- The conversion of an `int` to `float` (IEEE 754 single precision, round to nearest,
ties to even): the 24 leading bits of the magnitude are kept, so an integer of magnitude
up to `2^24` is kept as it is, `2^24 + 1` becomes `2^24` and `2^24 + 3` becomes
`2^24 + 4`. -/
def floatOfInt (n : Int) : ℚ :=
  let a := n.natAbs
  let e := floatShift a a
  let q := a / 2 ^ e
  let r := a % 2 ^ e
  let m := if 2 ^ e < 2 * r ∨ (2 * r = 2 ^ e ∧ q % 2 = 1) then (q + 1) * 2 ^ e else q * 2 ^ e
  if n < 0 then -((m : Nat) : ℚ) else ((m : Nat) : ℚ)

/-- The ways a run ends abnormally. -/
inductive Failure where
  /-- an `assert(...)` did not hold -/
  | assertion
  /-- a diagnostic on `std::cerr` followed by `exit(1)` -/
  | exit1
  /-- integer division by zero (`rand() % 0`) -/
  | divideByZero
  /-- a read or write outside a vector's bounds (undefined behaviour in the source) -/
  | outOfBounds
deriving DecidableEq

instance instDecidableEqExcept {ε α : Type} [DecidableEq ε] [DecidableEq α] :
    DecidableEq (Except ε α) := fun a b =>
  match a, b with
  | .ok x, .ok y =>
    if h : x = y then isTrue (congrArg Except.ok h)
    else isFalse (fun h2 => h (Except.ok.inj h2))
  | .error x, .error y =>
    if h : x = y then isTrue (congrArg Except.error h)
    else isFalse (fun h2 => h (Except.error.inj h2))
  | .ok _, .error _ => isFalse (fun h => Except.noConfusion h)
  | .error _, .ok _ => isFalse (fun h => Except.noConfusion h)

/-! ## SfSparseVector (sf-sparse-vector.cc) -/

/-- One entry of `features_`. -/
structure FeatureValuePair where
  id_ : Int
  value_ : ℚ
deriving DecidableEq

/-- The data members of `SfSparseVector` that sf-sparse-vector.cc reads and writes. -/
structure SfSparseVector where
  features_ : List FeatureValuePair
  y_ : List ℚ
  a_ : ℚ
  squared_norm_ : ℚ
  group_id_ : String
  comment_ : String
deriving DecidableEq

namespace SfSparseVector

/-- The state the constructors' initialiser lists set up: no feature, no label,
`a_ = 0`, `squared_norm_ = 0`, empty group id and comment. -/
def empty : SfSparseVector :=
  { features_ := [], y_ := [], a_ := 0, squared_norm_ := 0, group_id_ := "", comment_ := "" }

def NumFeatures (x : SfSparseVector) : Nat := x.features_.length

def FeatureAt (x : SfSparseVector) (i : Nat) : Int :=
  match x.features_.get? i with
  | some p => p.id_
  | none => 0

def ValueAt (x : SfSparseVector) (i : Nat) : ℚ :=
  match x.features_.get? i with
  | some p => p.value_
  | none => 0

def GetSquaredNorm (x : SfSparseVector) : ℚ := x.squared_norm_

/-- The method `SfSparseVector::PushPair`: `DieFormat` (exit(1)) when `id > 0`, the vector is not
empty and `id` is not above the last feature id; otherwise the pair is appended and
`squared_norm_` grows by `value * value`. -/
def PushPair (x : SfSparseVector) (id : Int) (value : ℚ) : Except Failure SfSparseVector :=
  if 0 < id ∧ 0 < x.NumFeatures ∧ id ≤ x.FeatureAt (x.NumFeatures - 1) then
    .error .exit1
  else
    .ok { x with features_ := x.features_ ++ [{ id_ := id, value_ := value }],
                 squared_norm_ := x.squared_norm_ + value * value }

/-- Pushes the pairs of `ps` in order, stopping at the first format error. -/
def pushAll : SfSparseVector → List (Int × ℚ) → Except Failure SfSparseVector
  | x, [] => .ok x
  | x, p :: ps =>
    match x.PushPair p.1 p.2 with
    | .ok x1 => pushAll x1 ps
    | .error e => .error e

/-- The value a sparse vector holds at coordinate `i`: the sum of the values of its
entries with feature id `i` (a single entry when the ids are strictly ascending). -/
def coord (x : SfSparseVector) (i : Int) : ℚ :=
  ((x.features_.map (fun p => if p.id_ = i then p.value_ else 0))).sum

/-- The data-model invariant of a sparse vector: feature ids strictly ascending and the
cached `squared_norm_` equal to the sum of the squared values. -/
def WellFormed (x : SfSparseVector) : Prop :=
  x.features_.Pairwise (fun p q => p.id_ < q.id_) ∧
  x.squared_norm_ = (x.features_.map (fun p => p.value_ * p.value_)).sum

/-- All feature ids lie in `[0, d)`. -/
def FeaturesBelow (x : SfSparseVector) (d : Nat) : Prop :=
  ∀ p ∈ x.features_, 0 ≤ p.id_ ∧ p.id_ < (d : Int)

/-- A vector with the given feature/value pairs and the matching cached norm. -/
def ofPairs (ps : List (Int × ℚ)) : SfSparseVector :=
  { empty with
    features_ := ps.map (fun p => { id_ := p.1, value_ := p.2 }),
    squared_norm_ := (ps.map (fun p => p.2 * p.2)).sum }

end SfSparseVector

/-! ## SfWeightVector (contract) -/

/-- Modelled from the spec: `SfWeightVector` (sf-weight-vector.h/.cc are not among the
sources). The spec describes it as a dense real-valued vector of fixed dimensionality
with `InnerProduct`, `AddVector` (`w += scale * x`), `ScaleBy`, `GetSquaredNorm`
(always the true squared norm) and `ValueOf`; the model keeps the dense values. -/
structure SfWeightVector where
  weights_ : List ℚ
deriving DecidableEq

namespace SfWeightVector

/-- Modelled from the spec: `SfWeightVector(dimensionality)`, the zero vector of the
given dimensionality. -/
def zero (dimensionality : Int) : SfWeightVector :=
  { weights_ := List.replicate dimensionality.toNat 0 }

/-- Modelled from the spec: `GetDimensions()`, the fixed dimensionality. -/
def GetDimensions (w : SfWeightVector) : Int := (w.weights_.length : Int)

/-- Modelled from the spec: `ValueOf(index)`, the value of one coordinate (0 for an
index outside the vector, where the spec defines nothing). -/
def ValueOf (w : SfWeightVector) (index : Int) : ℚ :=
  if 0 ≤ index then w.weights_.getD index.toNat 0 else 0

/-- Modelled from the spec: `GetSquaredNorm()`, which "always reflects the true norm". -/
def GetSquaredNorm (w : SfWeightVector) : ℚ :=
  (w.weights_.map (fun a => a * a)).sum

/-- Modelled from the spec: `InnerProduct(x, x_scale)`, the inner product of the dense
vector with `x_scale * x`, in one pass over the entries of `x`. -/
def InnerProduct (w : SfWeightVector) (x : SfSparseVector) (x_scale : ℚ) : ℚ :=
  x_scale * (x.features_.map (fun p => w.ValueOf p.id_ * p.value_)).sum

/-- Adds `a` to coordinate `index` (no effect outside the vector). -/
def addAt (w : SfWeightVector) (index : Int) (a : ℚ) : SfWeightVector :=
  if 0 ≤ index then { weights_ := w.weights_.modify (fun v => v + a) index.toNat } else w

/-- Modelled from the spec: `AddVector(x, x_scale)`, `w += x_scale * x`, in one pass over
the entries of `x`. -/
def AddVector (w : SfWeightVector) (x : SfSparseVector) (x_scale : ℚ) : SfWeightVector :=
  x.features_.foldl (fun acc p => acc.addAt p.id_ (x_scale * p.value_)) w

/-- Modelled from the spec: `ScaleBy(scaling_factor)`, `w *= scaling_factor`. -/
def ScaleBy (w : SfWeightVector) (scaling_factor : ℚ) : SfWeightVector :=
  { weights_ := w.weights_.map (fun v => v * scaling_factor) }

end SfWeightVector

/-! ## SfClusterCenters (sf-cluster-centers.cc) -/

structure SfClusterCenters where
  cluster_centers_ : List SfWeightVector
  dimensionality_ : Int
deriving DecidableEq

namespace SfClusterCenters

/-- The constructor `SfClusterCenters(int dimensionality)`. -/
def mk1 (dimensionality : Int) : Except Failure SfClusterCenters :=
  if 0 ≤ dimensionality then
    .ok { cluster_centers_ := [], dimensionality_ := dimensionality }
  else .error .assertion

/-- The constructor `SfClusterCenters(int dimensionality, int num_clusters)`. -/
def mk2 (dimensionality num_clusters : Int) : Except Failure SfClusterCenters :=
  if 0 ≤ dimensionality then
    if 0 ≤ num_clusters then
      .ok { cluster_centers_ :=
              List.replicate num_clusters.toNat (SfWeightVector.zero dimensionality),
            dimensionality_ := dimensionality }
    else .error .assertion
  else .error .assertion

def Size (cc : SfClusterCenters) : Nat := cc.cluster_centers_.length

def GetDimensionality (cc : SfClusterCenters) : Int := cc.dimensionality_

def Clear (cc : SfClusterCenters) : SfClusterCenters :=
  { cc with cluster_centers_ := [] }

/-- The accessor `ClusterCenter(center_id)` (the zero-dimensional vector stands for the undefined
result of an index outside the set). -/
def ClusterCenter (cc : SfClusterCenters) (center_id : Nat) : SfWeightVector :=
  cc.cluster_centers_.getD center_id { weights_ := [] }

/-- Writing through `MutableClusterCenter(center_id)`: the center at `center_id` is
replaced by `f` of it. -/
def modifyCenter (cc : SfClusterCenters) (center_id : Nat)
    (f : SfWeightVector → SfWeightVector) : SfClusterCenters :=
  { cc with cluster_centers_ := cc.cluster_centers_.modify f center_id }

def AddClusterCenter (cc : SfClusterCenters) (new_center : SfWeightVector) :
    SfClusterCenters :=
  { cluster_centers_ := cc.cluster_centers_ ++ [new_center],
    dimensionality_ :=
      if new_center.GetDimensions > cc.dimensionality_ then new_center.GetDimensions
      else cc.dimensionality_ }

def AddClusterCenterAt (cc : SfClusterCenters) (x : SfSparseVector) : SfClusterCenters :=
  cc.AddClusterCenter ((SfWeightVector.zero cc.dimensionality_).AddVector x 1)

/-- The method `SqDistanceToCenterId`: the assertion on `center_id`, then
`x.GetSquaredNorm() - 2 * InnerProduct(x, 1.0) + GetSquaredNorm()` of that center. -/
def SqDistanceToCenterId (cc : SfClusterCenters) (center_id : Int) (x : SfSparseVector) :
    Except Failure ℚ :=
  if 0 ≤ center_id ∧ center_id.toNat < cc.cluster_centers_.length then
    .ok (x.GetSquaredNorm
          - 2 * (cc.ClusterCenter center_id.toNat).InnerProduct x 1
          + (cc.ClusterCenter center_id.toNat).GetSquaredNorm)
  else .error .assertion

/-- The loop of `SqDistanceToClosestCenter` over the indices `is`, from the running
`(min_distance, best_center)`. -/
def closestLoop (cc : SfClusterCenters) (x : SfSparseVector) :
    List Nat → ℚ × Int → Except Failure (ℚ × Int)
  | [], acc => .ok acc
  | i :: is, acc =>
    match cc.SqDistanceToCenterId (i : Int) x with
    | .error e => .error e
    | .ok distance_i =>
      if distance_i < acc.1 then closestLoop cc x is (distance_i, (i : Int))
      else closestLoop cc x is acc

/-- The method `SqDistanceToClosestCenter(x, &closest_center_id)` with a non-null output location:
the returned distance and the id written to the location. -/
def SqDistanceToClosestCenter (cc : SfClusterCenters) (x : SfSparseVector) :
    Except Failure (ℚ × Int) :=
  if cc.cluster_centers_.isEmpty then .error .assertion
  else closestLoop cc x (List.range cc.Size) (FLT_MAX, 0)

end SfClusterCenters

/-! ## SfDataSet (contract) -/

/-- Modelled from the spec: `SfDataSet` (sf-data-set.h/.cc are not among the sources),
the dataset collaborator that supplies `NumExamples()` and `VectorAt(index)`. -/
structure SfDataSet where
  vectors_ : List SfSparseVector
deriving DecidableEq

namespace SfDataSet

def NumExamples (d : SfDataSet) : Int := (d.vectors_.length : Int)

/-- The accessor `VectorAt(index)`; the empty vector stands for the undefined result of an index
outside the dataset. -/
def VectorAt (d : SfDataSet) (index : Int) : SfSparseVector :=
  if 0 ≤ index then d.vectors_.getD index.toNat SfSparseVector.empty
  else SfSparseVector.empty

end SfDataSet

/-! ## std::map<float, int> -/

/-- A `std::map<float, int>`: the entries in ascending key order. -/
abbrev FloatIntMap := List (ℚ × Int)

namespace FloatIntMap

/-- The assignment `m[key] = value`: a new entry at its place in the key order, or the
value of the existing entry with that key overwritten. -/
def set : FloatIntMap → ℚ → Int → FloatIntMap
  | [], key, value => [(key, value)]
  | e :: rest, key, value =>
    if key < e.1 then (key, value) :: e :: rest
    else if key = e.1 then (key, value) :: rest
    else e :: set rest key value

/-- The entry `lower_bound(key)` points to: the first entry whose key is not less than
`key`; `none` for `end()`. -/
def lower_bound : FloatIntMap → ℚ → Option (ℚ × Int)
  | [], _ => none
  | e :: rest, key => if key ≤ e.1 then some e else lower_bound rest key

end FloatIntMap

/-! ## Program state of sf-kmeans-methods.cc -/

/-- What a k-means routine reads and writes besides its arguments: the center set
behind the `cluster_centers` pointer and the number of `rand()` calls made so far. -/
structure KmState where
  cluster_centers : SfClusterCenters
  rand_calls : Nat
deriving DecidableEq

/-- How a routine ends: normally with a value, or by dying; the state is the one
reached at that point. -/
inductive Outcome (α : Type) where
  | ok (a : α) (s : KmState)
  | die (f : Failure) (s : KmState)
deriving DecidableEq

/-- A routine of sf-kmeans-methods.cc. -/
def Km (α : Type) : Type := KmState → Outcome α

namespace Km

def ret {α : Type} (a : α) : Km α := fun s => .ok a s

def andThen {α β : Type} (m : Km α) (f : α → Km β) : Km β := fun s =>
  match m s with
  | .ok a s1 => f a s1
  | .die e s1 => .die e s1

instance : Monad Km where
  pure := ret
  bind := andThen

def die {α : Type} (f : Failure) : Km α := fun s => .die f s

/-- The `assert` of assert.h. -/
def assert (p : Prop) [Decidable p] : Km Unit := fun s =>
  if p then .ok () s else .die .assertion s

/-- A call of a `const` member function of the center set. -/
def ofExcept {α : Type} (f : SfClusterCenters → Except Failure α) : Km α := fun s =>
  match f s.cluster_centers with
  | .ok a => .ok a s
  | .error e => .die e s

/-- A call of a mutating member function of the center set. -/
def modifyCenters (f : SfClusterCenters → SfClusterCenters) : Km Unit := fun s =>
  .ok () { s with cluster_centers := f s.cluster_centers }

/-- A loop over `l` that carries the loop's local variables `σ`. -/
def forFold {β σ : Type} (body : β → σ → Km σ) : List β → σ → Km σ
  | [], acc => ret acc
  | b :: bs, acc => andThen (body b acc) (fun acc1 => forFold body bs acc1)

/-- A loop over `l` without local variables. -/
def forEach {β : Type} (body : β → Km Unit) (l : List β) : Km Unit :=
  forFold (fun b _ => body b) l ()

end Km

/-- The values `lo, lo + 1, ..., hi - 1` of `for (int i = lo; i < hi; ++i)`. -/
def intRange (lo hi : Int) : List Int :=
  (List.range (hi - lo).toNat).map (fun (n : Nat) => lo + (n : Int))

/-- Conversion of a `float` to `int`: truncation toward zero. The conversion is defined in
C++ only for values whose truncation is in the range of `int` (magnitude below `2^31`);
for the other values, on which the behaviour of the source is undefined, the model takes
the truncation as well. -/
def truncToInt (q : ℚ) : Int := if 0 ≤ q then Int.floor q else Int.ceil q

/-! ## Helper functions of sf-kmeans-methods.cc -/

/-- One call of `rand()`. -/
def rand (rand_seq : Nat → Nat) : Km Int := fun s =>
  .ok (rand_seq s.rand_calls : Int) { s with rand_calls := s.rand_calls + 1 }

/-- The helper `RandInt(num_vals)`: `rand() % num_vals`. -/
def RandInt (rand_seq : Nat → Nat) (num_vals : Int) : Km Int := do
  let r ← rand rand_seq
  if num_vals = 0 then Km.die .divideByZero else pure (Int.tmod r num_vals)

/-- The helper `RandFloat()`: `rand() / static_cast<float>(RAND_MAX)`. Both operands are
converted to `float`; the divisor becomes `2^31`, so the quotient is exact. -/
def RandFloat (rand_seq : Nat → Nat) : Km ℚ := do
  let r ← rand rand_seq
  pure (floatOfInt r / floatOfInt (RAND_MAX : Int))

/-- The helper `RandomExample(data_set)`. -/
def RandomExample (rand_seq : Nat → Nat) (data_set : SfDataSet) : Km SfSparseVector := do
  let num_examples := data_set.NumExamples
  let r ← rand rand_seq
  if num_examples = 0 then Km.die .divideByZero
  else
    let i := Int.tmod r num_examples
    let i := if i < 0 then i + num_examples else i
    pure (data_set.VectorAt i)

/-! ## Kmeans initialization functions -/

def InitializeWithKRandomCenters (rand_seq : Nat → Nat) (k : Int) (data_set : SfDataSet) :
    Km Unit := do
  Km.assert (0 < k ∧ k ≤ data_set.NumExamples)
  Km.forEach (fun _ => do
      let x ← RandomExample rand_seq data_set
      Km.modifyCenters (fun cc => cc.AddClusterCenterAt x))
    (intRange 0 k)

/-- The loop over `j` of `SamplingFarthestFirst`, carrying
`(best_distance, best_center)`; `best_distance` is an `int`. -/
def farthestFirstSample (rand_seq : Nat → Nat) (data_set : SfDataSet) (sample_size : Int) :
    Km (Int × Int) :=
  Km.forFold (fun _ (acc : Int × Int) => do
      let temp_id ← RandInt rand_seq data_set.NumExamples
      let r ← Km.ofExcept (fun cc => cc.SqDistanceToClosestCenter (data_set.VectorAt temp_id))
      let temp_distance := r.1
      if temp_distance > ((acc.1 : Int) : ℚ) then pure (truncToInt temp_distance, temp_id)
      else pure acc)
    (intRange 0 sample_size) (0, 0)

def SamplingFarthestFirst (rand_seq : Nat → Nat) (k sample_size : Int)
    (data_set : SfDataSet) : Km Unit := do
  Km.assert (0 < k ∧ k ≤ data_set.NumExamples)
  let id ← RandInt rand_seq data_set.NumExamples
  Km.modifyCenters (fun cc => cc.AddClusterCenterAt (data_set.VectorAt id))
  Km.forEach (fun _ => do
      let best ← farthestFirstSample rand_seq data_set sample_size
      Km.modifyCenters (fun cc => cc.AddClusterCenterAt (data_set.VectorAt best.2)))
    (intRange 1 k)

/-- The loop over `j` of a round of `ClassicKmeansPlusPlus`, carrying
`(total_distance_mass, distance_for_points)`. The running mass and the keys are the exact
sums of the distances: the rounding of the `float` additions is not modelled. -/
def classicTable (cc : SfClusterCenters) (data_set : SfDataSet) :
    List Int → ℚ × FloatIntMap → Except Failure (ℚ × FloatIntMap)
  | [], acc => .ok acc
  | j :: js, acc =>
    match cc.SqDistanceToClosestCenter (data_set.VectorAt j) with
    | .error e => .error e
    | .ok r =>
      let distance := r.1
      if distance > 0 then
        classicTable cc data_set js (acc.1 + distance, acc.2.set (distance + acc.1) j)
      else classicTable cc data_set js acc

/-- The draw of a k-means++ round: `RandFloat() * total_distance_mass`. -/
def sampleDistance (rand_seq : Nat → Nat) (total_distance_mass : ℚ) : Km ℚ := do
  let r ← RandFloat rand_seq
  pure (r * total_distance_mass)

/-- The `lower_bound` lookup of a k-means++ round: `exit(1)` at `end()`, otherwise the
example found is added as a center; the index of the example is returned. -/
def lookupAndAdd (data_set : SfDataSet) (distance_for_points : FloatIntMap)
    (sample_distance : ℚ) : Km Int :=
  match distance_for_points.lower_bound sample_distance with
  | none => Km.die .exit1
  | some e => do
    Km.modifyCenters (fun cc => cc.AddClusterCenterAt (data_set.VectorAt e.2))
    pure e.2

/-- The end of a k-means++ round: the draw and the lookup. -/
def sampleAndAdd (rand_seq : Nat → Nat) (data_set : SfDataSet)
    (total_distance_mass : ℚ) (distance_for_points : FloatIntMap) : Km Int := do
  let sample_distance ← sampleDistance rand_seq total_distance_mass
  lookupAndAdd data_set distance_for_points sample_distance

/-- The body of the loop over `i` of `ClassicKmeansPlusPlus`: one round, returning the
index of the example added as a center. -/
def classicRound (rand_seq : Nat → Nat) (data_set : SfDataSet) : Km Int := do
  let t ← Km.ofExcept (fun cc =>
    classicTable cc data_set (intRange 0 data_set.NumExamples) (0, []))
  sampleAndAdd rand_seq data_set t.1 t.2

def ClassicKmeansPlusPlus (rand_seq : Nat → Nat) (k : Int) (data_set : SfDataSet) :
    Km Unit := do
  Km.assert (0 < k ∧ k ≤ data_set.NumExamples)
  let id ← RandInt rand_seq data_set.NumExamples
  Km.modifyCenters (fun cc => cc.AddClusterCenterAt (data_set.VectorAt id))
  Km.forEach (fun _ => do
      let _ ← classicRound rand_seq data_set
      pure ())
    (intRange 1 k)

/-- The per-example caches of the optimized k-means++ variants: `best_center_ids`
(a `vector<float>`) and `best_distances`. -/
structure BestCache where
  best_center_ids : List ℚ
  best_distances : List ℚ
deriving DecidableEq

/-- The loop that fills `best_distances[i]` with `SqDistanceToCenterId(0, VectorAt(i))`. -/
def initBestDistances (cc : SfClusterCenters) (data_set : SfDataSet) :
    List Int → List ℚ → Except Failure (List ℚ)
  | [], best_distances => .ok best_distances
  | i :: is, best_distances =>
    match cc.SqDistanceToCenterId 0 (data_set.VectorAt i) with
    | .error e => .error e
    | .ok d => initBestDistances cc data_set is (best_distances.set i.toNat d)

/-- The part of the body of the loop over `j` that the optimized variants share: the
comparison of `distance` with `best_distances[j]`, the update of the caches, of
`distance_for_points` and of `total_distance_mass`. The assignment
`best_center_ids[j] = recently_added_center` converts the `int` to `float`, the element
type of `best_center_ids`. -/
def cacheStep (j : Int) (distance : ℚ) (recently_added_center : Int)
    (acc : ℚ × FloatIntMap × BestCache) : ℚ × FloatIntMap × BestCache :=
  let total_distance_mass := acc.1
  let distance_for_points := acc.2.1
  let cache := acc.2.2
  let best_j := cache.best_distances.getD j.toNat 0
  if distance < best_j then
    (total_distance_mass + distance,
     distance_for_points.set (distance + total_distance_mass) j,
     { best_center_ids := cache.best_center_ids.set j.toNat (floatOfInt recently_added_center),
       best_distances := cache.best_distances.set j.toNat distance })
  else
    (total_distance_mass + best_j,
     distance_for_points.set (best_j + total_distance_mass) j,
     cache)

/-- The loop over `j` of a round of `OptimizedKmeansPlusPlus`. -/
def optimizedTable (cc : SfClusterCenters) (data_set : SfDataSet)
    (recently_added_center : Int) :
    List Int → ℚ × FloatIntMap × BestCache → Except Failure (ℚ × FloatIntMap × BestCache)
  | [], acc => .ok acc
  | j :: js, acc =>
    match cc.SqDistanceToCenterId recently_added_center (data_set.VectorAt j) with
    | .error e => .error e
    | .ok distance =>
      optimizedTable cc data_set recently_added_center js
        (cacheStep j distance recently_added_center acc)

def OptimizedKmeansPlusPlus (rand_seq : Nat → Nat) (k : Int) (data_set : SfDataSet) :
    Km Unit := do
  Km.assert (0 < k ∧ k ≤ data_set.NumExamples)
  let cluster_center ← RandInt rand_seq data_set.NumExamples
  Km.modifyCenters (fun cc => cc.AddClusterCenterAt (data_set.VectorAt cluster_center))
  let best_center_ids : List ℚ := List.replicate data_set.NumExamples.toNat 0
  let best_distances : List ℚ := List.replicate data_set.NumExamples.toNat FLT_MAX
  let best_distances ← Km.ofExcept (fun cc =>
    initBestDistances cc data_set (intRange 0 data_set.NumExamples) best_distances)
  let _ ← Km.forFold (fun i (cache : BestCache) => do
      let t ← Km.ofExcept (fun cc =>
        optimizedTable cc data_set (i - 1) (intRange 0 data_set.NumExamples) (0, [], cache))
      let _ ← sampleAndAdd rand_seq data_set t.1 t.2.1
      pure t.2.2)
    (intRange 1 k)
    { best_center_ids := best_center_ids, best_distances := best_distances }
  pure ()

/-- The loop over `j` of a round `i` of `OptimizedKmeansPlusPlusTI`. -/
def optimizedTITable (cc : SfClusterCenters) (data_set : SfDataSet) (i : Int)
    (inter_center_distances : List ℚ) :
    List Int → ℚ × FloatIntMap × BestCache → Except Failure (ℚ × FloatIntMap × BestCache)
  | [], acc => .ok acc
  | j :: js, acc =>
    let cache := acc.2.2
    let best_j := cache.best_distances.getD j.toNat 0
    let computed : Except Failure ℚ :=
      if 2 ≤ i then
        match inter_center_distances.get?
            (truncToInt (cache.best_center_ids.getD j.toNat 0)).toNat with
        | none => .error .outOfBounds
        | some icd =>
          if icd > 2 * best_j then .ok best_j
          else cc.SqDistanceToCenterId (i - 1) (data_set.VectorAt j)
      else cc.SqDistanceToCenterId (i - 1) (data_set.VectorAt j)
    match computed with
    | .error e => .error e
    | .ok distance =>
      optimizedTITable cc data_set i inter_center_distances js
        (cacheStep j distance (i - 1) acc)

/-- The loop that refills `inter_center_distances` with the distances from the centers
`0 .. Size() - 2` to the example just added as a center. -/
def interCenterDistances (cc : SfClusterCenters) (x : SfSparseVector) :
    List Int → List ℚ → Except Failure (List ℚ)
  | [], acc => .ok acc
  | j :: js, acc =>
    match cc.SqDistanceToCenterId j x with
    | .error e => .error e
    | .ok d => interCenterDistances cc x js (acc ++ [d])

def OptimizedKmeansPlusPlusTI (rand_seq : Nat → Nat) (k : Int) (data_set : SfDataSet) :
    Km Unit := do
  Km.assert (0 < k ∧ k ≤ data_set.NumExamples)
  let cluster_center ← RandInt rand_seq data_set.NumExamples
  Km.modifyCenters (fun cc => cc.AddClusterCenterAt (data_set.VectorAt cluster_center))
  let best_center_ids : List ℚ := List.replicate data_set.NumExamples.toNat 0
  let best_distances : List ℚ := List.replicate data_set.NumExamples.toNat 0
  let best_distances ← Km.ofExcept (fun cc =>
    initBestDistances cc data_set (intRange 0 data_set.NumExamples) best_distances)
  let _ ← Km.forFold (fun i (st : BestCache × List ℚ) => do
      let t ← Km.ofExcept (fun cc =>
        optimizedTITable cc data_set i st.2 (intRange 0 data_set.NumExamples)
          (0, [], st.1))
      let chosen ← sampleAndAdd rand_seq data_set t.1 t.2.1
      let inter_center_distances ← Km.ofExcept (fun cc =>
        interCenterDistances cc (data_set.VectorAt chosen)
          (intRange 0 ((cc.Size : Int) - 1)) [])
      pure (t.2.2, inter_center_distances))
    (intRange 1 k)
    ({ best_center_ids := best_center_ids, best_distances := best_distances }, [])
  pure ()

/-- The loop over `j` of a round of `SamplingKmeansPlusPlus`, carrying
`(selected_center, total_distance_mass)`. -/
def samplingPlusPlusSample (rand_seq : Nat → Nat) (data_set : SfDataSet)
    (sample_size : Int) : Km (Int × ℚ) :=
  Km.forFold (fun _ (acc : Int × ℚ) => do
      let proposed_cluster_center ← RandInt rand_seq data_set.NumExamples
      let r ← Km.ofExcept (fun cc =>
        cc.SqDistanceToClosestCenter (data_set.VectorAt proposed_cluster_center))
      let distance := r.1
      let total_distance_mass := acc.2 + distance
      let f ← RandFloat rand_seq
      if f < distance / total_distance_mass then
        pure (proposed_cluster_center, total_distance_mass)
      else pure (acc.1, total_distance_mass))
    (intRange 0 sample_size) (0, 0)

def SamplingKmeansPlusPlus (rand_seq : Nat → Nat) (k sample_size : Int)
    (data_set : SfDataSet) : Km Unit := do
  Km.assert (0 < k ∧ k ≤ data_set.NumExamples)
  Km.assert (0 < sample_size)
  let cluster_center ← RandInt rand_seq data_set.NumExamples
  Km.modifyCenters (fun cc => cc.AddClusterCenterAt (data_set.VectorAt cluster_center))
  Km.forEach (fun _ => do
      let sel ← samplingPlusPlusSample rand_seq data_set sample_size
      Km.modifyCenters (fun cc => cc.AddClusterCenterAt (data_set.VectorAt sel.1)))
    (intRange 1 k)

/-! ## Kmeans optimization functions -/

/-- The two `SfWeightVector::ProjectToL1Ball` overloads, whose code is not among the
sources: they are parameters of the development. -/
structure L1Projection where
  exact : SfWeightVector → ℚ → SfWeightVector
  approximate : SfWeightVector → ℚ → ℚ → SfWeightVector

/-- The function `ProjectToL1Ball(L1_lambda, L1_epsilon, cluster_centers)`. -/
def ProjectToL1Ball (proj : L1Projection) (L1_lambda L1_epsilon : ℚ)
    (cc : SfClusterCenters) : SfClusterCenters :=
  if L1_lambda > 0 then
    (List.range cc.Size).foldl (fun acc i =>
      if L1_epsilon = 0 then acc.modifyCenter i (fun w => proj.exact w L1_lambda)
      else acc.modifyCenter i (fun w => proj.approximate w L1_lambda L1_epsilon)) cc
  else cc

/-- The first loop of `OneBatchKmeansOptimization`, carrying
`(new_centers, examples_per_cluster)`; the closest centers are those of `cc`. -/
def batchAccumulate (cc : SfClusterCenters) (data_set : SfDataSet) :
    List Int → SfClusterCenters × List Int → Except Failure (SfClusterCenters × List Int)
  | [], acc => .ok acc
  | i :: is, acc =>
    match cc.SqDistanceToClosestCenter (data_set.VectorAt i) with
    | .error e => .error e
    | .ok r =>
      let closest_center := r.2
      batchAccumulate cc data_set is
        (acc.1.modifyCenter closest_center.toNat (fun w => w.AddVector (data_set.VectorAt i) 1),
         acc.2.modify (fun c => c + 1) closest_center.toNat)

/-- The second loop of `OneBatchKmeansOptimization`: each center with a positive count
is scaled by `1.0 / examples_per_cluster[i]`. -/
def batchScale (examples_per_cluster : List Int) (new_centers : SfClusterCenters) :
    List Nat → SfClusterCenters
  | [] => new_centers
  | i :: is =>
    batchScale examples_per_cluster
      (if examples_per_cluster.getD i 0 > 0 then
        new_centers.modifyCenter i
          (fun w => w.ScaleBy (1 / ((examples_per_cluster.getD i 0 : Int) : ℚ)))
       else new_centers) is

def OneBatchKmeansOptimization (data_set : SfDataSet) (cc : SfClusterCenters) :
    Except Failure SfClusterCenters :=
  if 0 < cc.Size then
    match SfClusterCenters.mk2 cc.GetDimensionality (cc.Size : Int) with
    | .error e => .error e
    | .ok new_centers =>
      match batchAccumulate cc data_set (intRange 0 data_set.NumExamples)
          (new_centers, List.replicate cc.Size 0) with
      | .error e => .error e
      | .ok acc =>
        let new_centers := batchScale acc.2 acc.1 (List.range cc.Size)
        .ok ((List.range new_centers.Size).foldl
              (fun c i => c.AddClusterCenter (new_centers.ClusterCenter i)) cc.Clear)
  else .error .assertion

/-- The loop of `BatchKmeans` over the iterations `is`. -/
def batchKmeansLoop (proj : L1Projection) (data_set : SfDataSet) (L1_lambda L1_epsilon : ℚ) :
    List Int → SfClusterCenters → Except Failure SfClusterCenters
  | [], cc => .ok cc
  | _ :: is, cc =>
    match OneBatchKmeansOptimization data_set cc with
    | .error e => .error e
    | .ok c1 =>
      batchKmeansLoop proj data_set L1_lambda L1_epsilon is
        (ProjectToL1Ball proj L1_lambda L1_epsilon c1)

def BatchKmeans (proj : L1Projection) (num_iterations : Int) (data_set : SfDataSet)
    (L1_lambda L1_epsilon : ℚ) (cc : SfClusterCenters) : Except Failure SfClusterCenters :=
  batchKmeansLoop proj data_set L1_lambda L1_epsilon (intRange 0 num_iterations) cc

/-- The function `OneStochasticKmeansStep(x, cluster_centers, per_center_step_counts)`: the new
center set and the new step counts. -/
def OneStochasticKmeansStep (x : SfSparseVector) (cc : SfClusterCenters)
    (per_center_step_counts : List Int) : Except Failure (SfClusterCenters × List Int) :=
  match cc.SqDistanceToClosestCenter x with
  | .error e => .error e
  | .ok r =>
    let closest_center := r.2
    match per_center_step_counts.get? closest_center.toNat with
    | none => .error .outOfBounds
    | some count =>
      let c : ℚ := 1
      let eta : ℚ := c / (((count + 1 : Int) : ℚ) + c)
      .ok ((cc.modifyCenter closest_center.toNat (fun w => w.ScaleBy (1 - eta))).modifyCenter
              closest_center.toNat (fun w => w.AddVector x eta),
           per_center_step_counts.set closest_center.toNat (count + 1))

/-- A step of a routine that only touches the center set, run on the state. -/
def Km.stepCenters {α : Type} (f : SfClusterCenters → Except Failure (SfClusterCenters × α)) :
    Km α := fun s =>
  match f s.cluster_centers with
  | .ok r => .ok r.2 { s with cluster_centers := r.1 }
  | .error e => .die e s

def SGDKmeans (proj : L1Projection) (rand_seq : Nat → Nat) (num_iterations : Int)
    (data_set : SfDataSet) (L1_lambda L1_epsilon : ℚ) : Km Unit := do
  let size ← Km.ofExcept (fun cc => .ok cc.Size)
  let per_center_step_counts : List Int := List.replicate size 0
  let _ ← Km.forFold (fun i (counts : List Int) => do
      let x ← RandomExample rand_seq data_set
      let counts ← Km.stepCenters (fun cc => OneStochasticKmeansStep x cc counts)
      if i % 100 = 50 then
        Km.modifyCenters (ProjectToL1Ball proj L1_lambda L1_epsilon)
      pure counts)
    (intRange 0 num_iterations) per_center_step_counts
  Km.modifyCenters (ProjectToL1Ball proj L1_lambda L1_epsilon)

/-- The first loop of `OneMiniBatchKmeansOptimization`, carrying `mini_batch_centers`. -/
def miniBatchAssign (rand_seq : Nat → Nat) (data_set : SfDataSet) (mini_batch_size : Int)
    (mini_batch_centers : List (List Int)) : Km (List (List Int)) :=
  Km.forFold (fun _ (mbc : List (List Int)) => do
      let x_id ← RandInt rand_seq data_set.NumExamples
      let r ← Km.ofExcept (fun cc => cc.SqDistanceToClosestCenter (data_set.VectorAt x_id))
      pure (mbc.modify (fun l => l ++ [x_id]) r.2.toNat))
    (intRange 0 mini_batch_size) mini_batch_centers

/-- The body of the inner loop of the second part of `OneMiniBatchKmeansOptimization`:
one update of center `i` with example `x_id`. -/
def miniBatchApplyOne (data_set : SfDataSet) (i : Nat) (x_id : Int)
    (acc : SfClusterCenters × List Int) : Except Failure (SfClusterCenters × List Int) :=
  match acc.2.get? i with
  | none => .error .outOfBounds
  | some count =>
    let c : ℚ := 1
    let eta : ℚ := c / (((count + 1 : Int) : ℚ) + c)
    .ok ((acc.1.modifyCenter i (fun w => w.ScaleBy (1 - eta))).modifyCenter i
            (fun w => w.AddVector (data_set.VectorAt x_id) eta),
         acc.2.set i (count + 1))

/-- The second part of `OneMiniBatchKmeansOptimization`: the loops over `i` and `j`,
flattened into the list of `(i, mini_batch_centers[i][j])` in loop order. -/
def miniBatchApply (data_set : SfDataSet) :
    List (Nat × Int) → SfClusterCenters × List Int →
      Except Failure (SfClusterCenters × List Int)
  | [], acc => .ok acc
  | p :: ps, acc =>
    match miniBatchApplyOne data_set p.1 p.2 acc with
    | .error e => .error e
    | .ok acc1 => miniBatchApply data_set ps acc1

/-- The pairs `(i, mini_batch_centers[i][j])` in the order of the nested loops. -/
def miniBatchPairs (mini_batch_centers : List (List Int)) : List (Nat × Int) :=
  ((List.range mini_batch_centers.length).zip mini_batch_centers).flatMap
    (fun p => p.2.map (fun x_id => (p.1, x_id)))

def OneMiniBatchKmeansOptimization (rand_seq : Nat → Nat) (data_set : SfDataSet)
    (mini_batch_size : Int) (per_center_step_counts : List Int) : Km (List Int) := do
  let size ← Km.ofExcept (fun cc => .ok cc.Size)
  let mini_batch_centers ←
    miniBatchAssign rand_seq data_set mini_batch_size (List.replicate size [])
  Km.stepCenters (fun cc =>
    miniBatchApply data_set (miniBatchPairs mini_batch_centers) (cc, per_center_step_counts))

def MiniBatchKmeans (proj : L1Projection) (rand_seq : Nat → Nat)
    (num_iterations mini_batch_size : Int) (data_set : SfDataSet)
    (L1_lambda L1_epsilon : ℚ) : Km Unit := do
  let size ← Km.ofExcept (fun cc => .ok cc.Size)
  let per_center_step_counts : List Int := List.replicate size 0
  let _ ← Km.forFold (fun _ (counts : List Int) => do
      let counts ← OneMiniBatchKmeansOptimization rand_seq data_set mini_batch_size counts
      Km.modifyCenters (ProjectToL1Ball proj L1_lambda L1_epsilon)
      pure counts)
    (intRange 0 num_iterations) per_center_step_counts
  Km.modifyCenters (ProjectToL1Ball proj L1_lambda L1_epsilon)

/-! ## Kmeans evaluation functions -/

/-- The loop of `KmeansObjective`, carrying `total_sq_distance`. -/
def objectiveLoop (cc : SfClusterCenters) (data_set : SfDataSet) :
    List Int → ℚ → Except Failure ℚ
  | [], total_sq_distance => .ok total_sq_distance
  | i :: is, total_sq_distance =>
    match cc.SqDistanceToClosestCenter (data_set.VectorAt i) with
    | .error e => .error e
    | .ok r => objectiveLoop cc data_set is (total_sq_distance + r.1)

def KmeansObjective (data_set : SfDataSet) (cc : SfClusterCenters) : Except Failure ℚ :=
  if cc.Size = 0 then .ok FLT_MAX
  else objectiveLoop cc data_set (intRange 0 data_set.NumExamples) 0

/-! ## Vocabulary of the statements -/

/-- The value `SqDistanceToCenterId` computes for a center `w`:
`x.GetSquaredNorm() - 2 * w.InnerProduct(x, 1.0) + w.GetSquaredNorm()`. -/
def sqDist (w : SfWeightVector) (x : SfSparseVector) : ℚ :=
  x.GetSquaredNorm - 2 * w.InnerProduct x 1 + w.GetSquaredNorm

/-- The squared Euclidean distance between `x` and `w` over the coordinates `0 .. d - 1`. -/
def euclidSq (w : SfWeightVector) (x : SfSparseVector) (d : Nat) : ℚ :=
  ∑ i in Finset.range d, (x.coord (i : Int) - w.ValueOf (i : Int)) ^ 2

/-- The class invariant of `SfClusterCenters`: the dimensionality bound is not negative
and no center has more dimensions than the bound. -/
def SfClusterCenters.Valid (cc : SfClusterCenters) : Prop :=
  0 ≤ cc.dimensionality_ ∧ ∀ w ∈ cc.cluster_centers_, w.GetDimensions ≤ cc.dimensionality_

/-- Every distance from `x` to a center of `cc` is a finite single-precision value:
none exceeds `FLT_MAX`. -/
def DistancesFinite (cc : SfClusterCenters) (x : SfSparseVector) : Prop :=
  ∀ w ∈ cc.cluster_centers_, sqDist w x ≤ FLT_MAX

/-- Center `j` is the closest center of `x`, the lowest index among the closest. -/
def IsClosestCenter (cc : SfClusterCenters) (x : SfSparseVector) (j : Nat) : Prop :=
  j < cc.Size ∧
  (∀ i, i < cc.Size → sqDist (cc.ClusterCenter j) x ≤ sqDist (cc.ClusterCenter i) x) ∧
  (∀ i, i < j → sqDist (cc.ClusterCenter j) x < sqDist (cc.ClusterCenter i) x)

/-- The center id `SqDistanceToClosestCenter` writes for `x` (0 when it fails). -/
def closestCenterId (cc : SfClusterCenters) (x : SfSparseVector) : Nat :=
  match cc.SqDistanceToClosestCenter x with
  | .ok r => r.2.toNat
  | .error _ => 0

/-- The distance `SqDistanceToClosestCenter` returns for `x` (0 when it fails). -/
def closestDistance (cc : SfClusterCenters) (x : SfSparseVector) : ℚ :=
  match cc.SqDistanceToClosestCenter x with
  | .ok r => r.1
  | .error _ => 0

/-- The loop of `SqDistanceToClosestCenter` as a fold over distances `ds` of the centers
`s, s + 1, ...`. -/
def scanMin : List ℚ → Nat → ℚ × Int → ℚ × Int
  | [], _, acc => acc
  | d :: ds, s, acc => if d < acc.1 then scanMin ds (s + 1) (d, (s : Int)) else scanMin ds (s + 1) acc


/-- The part of the cached squared norm of `x` that the coordinates `0 .. d - 1` do not
account for. -/
def normExcess (x : SfSparseVector) (d : Nat) : ℚ :=
  x.squared_norm_ - ∑ i in Finset.range d, (x.coord (i : Int)) ^ 2


instance (x : SfSparseVector) : Decidable x.WellFormed := by
  unfold SfSparseVector.WellFormed; exact inferInstance
instance (x : SfSparseVector) (d : Nat) : Decidable (x.FeaturesBelow d) := by
  unfold SfSparseVector.FeaturesBelow; exact inferInstance
instance (cc : SfClusterCenters) : Decidable cc.Valid := by
  unfold SfClusterCenters.Valid; exact inferInstance
instance (cc : SfClusterCenters) (x : SfSparseVector) : Decidable (DistancesFinite cc x) := by
  unfold DistancesFinite; exact inferInstance

/-- The center set of sf-cluster-centers_test.cc: the points (1, 2) and (2, 5, -1) as
two centers of dimensionality 10. -/
def testCenters : SfClusterCenters :=
  (({ cluster_centers_ := [], dimensionality_ := 10 } : SfClusterCenters).AddClusterCenterAt
      (SfSparseVector.ofPairs [(1, 1), (2, 2)])).AddClusterCenterAt
    (SfSparseVector.ofPairs [(1, 2), (2, 5), (3, -1)])


/-- The sum of the examples of `xs`, added to `w` one after the other. -/
def addAll (w : SfWeightVector) (xs : List SfSparseVector) : SfWeightVector :=
  xs.foldl (fun acc x => acc.AddVector x 1) w

/-- The examples among `xs` that `SqDistanceToClosestCenter` assigns to center `i`. -/
def assignedOf (cc : SfClusterCenters) (xs : List SfSparseVector) (i : Nat) :
    List SfSparseVector :=
  xs.filter (fun x => decide (closestCenterId cc x = i))


/-- The examples of the dataset that `SqDistanceToClosestCenter` assigns to center `i`,
in dataset order. -/
def assignedTo (cc : SfClusterCenters) (data_set : SfDataSet) (i : Nat) :
    List SfSparseVector :=
  assignedOf cc data_set.vectors_ i

/-- The center that a batch step computes from the examples `xs` assigned to it, for
dimensionality bound `D`: their sum scaled by one over their number, the zero vector
when there is none. -/
def batchCenter (D : Int) (xs : List SfSparseVector) : SfWeightVector :=
  if 0 < (xs.length : Int) then
    (addAll (SfWeightVector.zero D) xs).ScaleBy (1 / ((xs.length : Int) : ℚ))
  else SfWeightVector.zero D

/-- The dataset of the witnesses: three examples over the features 1, 2 and 3. -/
def toyData : SfDataSet :=
  { vectors_ := [SfSparseVector.ofPairs [(1, 1)],
                 SfSparseVector.ofPairs [(1, 1), (3, 1)],
                 SfSparseVector.ofPairs [(2, 1)]] }

/-- The center set `SfClusterCenters(10, 1)`: one zero center of dimensionality 10. -/
def oneZeroCenter : SfClusterCenters :=
  { cluster_centers_ := [SfWeightVector.zero 10], dimensionality_ := 10 }


/-- An `L1Projection` whose two projections leave the vector as it is (for runs with L1
projection disabled, which never call them). -/
def idProjection : L1Projection :=
  { exact := fun w _ => w, approximate := fun w _ _ => w }

/-- The learning rate of the stochastic update, `eta = c / (visitCount + c)` with
`c = 1.0`, as a function of the visit count read after its increment. -/
def stepEta (visit_count : Int) : ℚ := 1 / ((visit_count : ℚ) + 1)

/-- The dataset of the stochastic counterexample: the points 1 and 3 on feature 1. -/
def lineData : SfDataSet :=
  { vectors_ := [SfSparseVector.ofPairs [(1, 1)], SfSparseVector.ofPairs [(1, 3)]] }

/-- One center of dimensionality 2 at the point 2 on feature 1: the mean of `lineData`,
which minimises the objective. -/
def lineCenter : SfClusterCenters :=
  { cluster_centers_ := [{ weights_ := [0, 2] }], dimensionality_ := 2 }

/-- The center of `lineCenter` after one stochastic update with the point 1: the
point 3/2. -/
def lineCenterStepped : SfClusterCenters :=
  { cluster_centers_ := [{ weights_ := [0, 3 / 2] }], dimensionality_ := 2 }

/-- The squared distance of example `j` to its closest center, as a round of
`ClassicKmeansPlusPlus` obtains it from `SqDistanceToClosestCenter`. -/
def roundDistance (cc : SfClusterCenters) (data_set : SfDataSet) (j : Nat) : ℚ :=
  closestDistance cc (data_set.VectorAt (j : Int))

/-- The cumulative key of example `j`: the partial sum of the distances up to and
including `j`. -/
def cumulativeKey (cc : SfClusterCenters) (data_set : SfDataSet) (j : Nat) : ℚ :=
  ((List.range (j + 1)).map (roundDistance cc data_set)).sum

/-- The total distance mass and the cumulative-distance map after the first `p` examples,
for distances `d`: an entry `(d 0 + ... + d j, j)` for every `j < p` with `d j > 0`. -/
def cumulativeTable (d : Nat → ℚ) : Nat → ℚ × FloatIntMap
  | 0 => (0, [])
  | p + 1 =>
    if d p > 0 then
      ((cumulativeTable d p).1 + d p,
       (cumulativeTable d p).2 ++ [(d p + (cumulativeTable d p).1, (p : Int))])
    else cumulativeTable d p

/-- The state after `toyData` example 0 has been added as the first center of an empty
set of dimensionality 5, with one `rand()` call made. -/
def toySeeded : KmState :=
  { cluster_centers :=
      ({ cluster_centers_ := [], dimensionality_ := 5 } : SfClusterCenters).AddClusterCenterAt
        (SfSparseVector.ofPairs [(1, 1)]),
    rand_calls := 1 }

/-- An empty center set of dimensionality 5 with no `rand()` call made yet. -/
def emptyState : KmState :=
  { cluster_centers := { cluster_centers_ := [], dimensionality_ := 5 }, rand_calls := 0 }

/-- A random sequence whose first value selects example 2 of a three-example dataset and
whose later values are about 0.8 of `RAND_MAX`. -/
def pickLastThenFourFifths : Nat → Nat :=
  fun n => if n = 0 then 2 else 1717986918

/-- The center at `x`, in a set of dimensionality 5. -/
def centerAt (x : SfSparseVector) : SfWeightVector :=
  (SfWeightVector.zero 5).AddVector x 1

/-- Three points on a line: 1, 2 and 5/2 on feature 1. -/
def threeOnLine : SfDataSet :=
  { vectors_ := [SfSparseVector.ofPairs [(1, 1)], SfSparseVector.ofPairs [(1, 2)],
                 SfSparseVector.ofPairs [(1, 5 / 2)]] }

/-- A random sequence whose first value selects example 0 of a three-example dataset and
whose later values are `RAND_MAX`. -/
def pickFirstThenMax : Nat → Nat :=
  fun n => if n = 0 then 0 else RAND_MAX

/-- The centers after `OptimizedKmeansPlusPlusTI` has added the points 1 and 5/2 of
`threeOnLine`. -/
def twoOnLineCenters : SfClusterCenters :=
  { cluster_centers_ := [centerAt (SfSparseVector.ofPairs [(1, 1)]),
                         centerAt (SfSparseVector.ofPairs [(1, 5 / 2)])],
    dimensionality_ := 5 }

/-! ## SfSparseVector: clearing and differencing (sf-sparse-vector.cc) -/

namespace SfSparseVector

def GetGroupId (x : SfSparseVector) : String := x.group_id_

/-- Modelled from the spec: `ClearFeatures()` (declared in sf-sparse-vector.h, which is
not among the sources), the one in-place mutation of a sparse vector: it clears all
features; the cached squared norm, the sum over the features, is cleared with them. -/
def ClearFeatures (x : SfSparseVector) : SfSparseVector :=
  { x with features_ := [], squared_norm_ := 0 }

/-- The iterations of the loop of the differencing constructor once `a` has no features
remaining: every remaining feature of `b` is pushed with the value `0.0 - b.ValueAt(b_i)`. -/
def diffOnlyB : List FeatureValuePair → SfSparseVector → Except Failure SfSparseVector
  | [], r => .ok r
  | b :: bs, r =>
    match r.PushPair b.id_ (0 - b.value_) with
    | .error e => .error e
    | .ok r1 => diffOnlyB bs r1

/-- The iterations of the loop of the differencing constructor while the current feature
of `a` is `a`: `bs` are the features of `b` from `b_i` on, and `k` is the rest of the loop
after `a_i` has been incremented. -/
def diffInner (a : FeatureValuePair)
    (k : List FeatureValuePair → SfSparseVector → Except Failure SfSparseVector) :
    List FeatureValuePair → SfSparseVector → Except Failure SfSparseVector
  | [], r =>
    match r.PushPair a.id_ a.value_ with
    | .error e => .error e
    | .ok r1 => k [] r1
  | b :: bs, r =>
    if b.id_ < a.id_ then
      match r.PushPair b.id_ (0 - b.value_) with
      | .error e => .error e
      | .ok r1 => diffInner a k bs r1
    else if a.id_ < b.id_ then
      match r.PushPair a.id_ a.value_ with
      | .error e => .error e
      | .ok r1 => k (b :: bs) r1
    else
      match r.PushPair a.id_ (a.value_ - b.value_) with
      | .error e => .error e
      | .ok r1 => k bs r1

/-- The loop of the differencing constructor: the first argument holds the features of
`a` from `a_i` on, the second the features of `b` from `b_i` on. -/
def diffLoop : List FeatureValuePair → List FeatureValuePair → SfSparseVector →
    Except Failure SfSparseVector
  | [], bs, r => diffOnlyB bs r
  | a :: as, bs, r => diffInner a (diffLoop as) bs r

/-- The differencing constructor `SfSparseVector(a, b, y)`. -/
def ofDifference (a b : SfSparseVector) (y : ℚ) : Except Failure SfSparseVector :=
  diffLoop a.features_ b.features_
    { features_ := [], y_ := [y], a_ := 0, squared_norm_ := 0,
      group_id_ := a.GetGroupId, comment_ := "" }

/-- The feature ids of a vector, in order. -/
def ids (x : SfSparseVector) : List Int := x.features_.map (fun p => p.id_)

end SfSparseVector

/-! ## SfClusterCenters: mapping, serialisation, loading (sf-cluster-centers.cc) -/

/-- The values of `enum ClusterCenterMappingType`; `unsupported` stands for any other
value of the underlying integer, which the `default:` branch handles. -/
inductive ClusterCenterMappingType where
  | SQUARED_DISTANCE
  | RBF_KERNEL
  | unsupported
deriving DecidableEq

/-- The loop of `MapVectorToCenters` over the values `is` of `i`; `expf` is the `exp` of
cmath. -/
def mapLoop (expf : ℚ → ℚ) (cc : SfClusterCenters) (x : SfSparseVector)
    (type : ClusterCenterMappingType) (p : ℚ) :
    List Nat → SfSparseVector → Except Failure SfSparseVector
  | [], mapped_x => .ok mapped_x
  | i :: is, mapped_x =>
    match cc.SqDistanceToCenterId ((i : Int) - 1) x with
    | .error e => .error e
    | .ok d =>
      match type with
      | .SQUARED_DISTANCE =>
        match mapped_x.PushPair (i : Int) d with
        | .error e => .error e
        | .ok m1 => mapLoop expf cc x type p is m1
      | .RBF_KERNEL =>
        match mapped_x.PushPair (i : Int) (expf (-1 * p * d)) with
        | .error e => .error e
        | .ok m1 => mapLoop expf cc x type p is m1
      | .unsupported => .error .exit1

/-- The method `MapVectorToCenters(x, type, p)`: the new vector it returns. -/
def SfClusterCenters.MapVectorToCenters (expf : ℚ → ℚ) (cc : SfClusterCenters)
    (x : SfSparseVector) (type : ClusterCenterMappingType) (p : ℚ) :
    Except Failure SfSparseVector :=
  mapLoop expf cc x type p (List.range' 1 cc.Size) x.ClearFeatures

/-- The `AsString()` method and the string constructor of `SfWeightVector`, whose code is
not among the sources: parameters of the development. -/
structure WeightVectorText where
  AsString : SfWeightVector → List Char
  ofString : List Char → SfWeightVector

/-- The newline character. -/
def newline : Char := Char.ofNat 10

/-- The method `SfClusterCenters::AsString()`, a string being the list of its
characters. -/
def SfClusterCenters.AsString (txt : WeightVectorText) (cc : SfClusterCenters) : List Char :=
  cc.cluster_centers_.foldl (fun output_string w => output_string ++ txt.AsString w ++ [newline]) []

/-- The lines that successive `getline` calls read from a stream holding the characters
of the first argument, the second being the characters of the line read so far: a line
ends at a newline, which is not part of it, or at the end of the stream, where an empty
line is not a line. -/
def getlines : List Char → List Char → List (List Char)
  | [], line => if line = [] then [] else [line]
  | c :: rest, line =>
    if c = newline then line :: getlines rest [] else getlines rest (line ++ [c])

/-- The constructor `SfClusterCenters(const string& file_name)`: `file` holds the
characters of the file, `none` when it cannot be read. The constructor does not
initialise `dimensionality_`; `uninitialised` is the value the member happens to hold. -/
def SfClusterCenters.ofFile (txt : WeightVectorText) (uninitialised : Int)
    (file : Option (List Char)) : Except Failure SfClusterCenters :=
  match file with
  | none => .error .exit1
  | some content =>
    .ok ((getlines content []).foldl
          (fun cc line_string => cc.AddClusterCenter (txt.ofString line_string))
          { cluster_centers_ := [], dimensionality_ := uninitialised })

/-! ## Sequences of operations on a center set -/

/-- The operations that change a center set. -/
inductive CenterOp where
  | addClusterCenter (new_center : SfWeightVector)
  | addClusterCenterAt (x : SfSparseVector)
  | clear
  | oneBatchKmeansOptimization (data_set : SfDataSet)

/-- One operation applied to a center set. -/
def applyOp : CenterOp → SfClusterCenters → Except Failure SfClusterCenters
  | .addClusterCenter w, cc => .ok (cc.AddClusterCenter w)
  | .addClusterCenterAt x, cc => .ok (cc.AddClusterCenterAt x)
  | .clear, cc => .ok cc.Clear
  | .oneBatchKmeansOptimization data_set, cc => OneBatchKmeansOptimization data_set cc

/-- A sequence of operations applied in order, stopping at the first failure. -/
def runOps : List CenterOp → SfClusterCenters → Except Failure SfClusterCenters
  | [], cc => .ok cc
  | op :: ops, cc =>
    match applyOp op cc with
    | .error e => .error e
    | .ok c1 => runOps ops c1

/-- The center that `AddClusterCenterAt(x)` creates in a set of dimensionality bound `D`. -/
def centerOf (D : Int) (x : SfSparseVector) : SfWeightVector :=
  (SfWeightVector.zero D).AddVector x 1

/-- The order `PushPair` enforces between a feature `p` and the feature `q` pushed right
after it: the id of `q` is not positive, or it is above the id of `p`. -/
def pushOrder (p q : FeatureValuePair) : Prop := q.id_ ≤ 0 ∨ p.id_ < q.id_

instance (p q : FeatureValuePair) : Decidable (pushOrder p q) :=
  inferInstanceAs (Decidable (q.id_ ≤ 0 ∨ p.id_ < q.id_))

/-- The feature entries `PushPair` makes of the pairs `ps`. -/
def entriesOf (ps : List (Int × ℚ)) : List FeatureValuePair :=
  ps.map (fun q => { id_ := q.1, value_ := q.2 })

/-- A sequence of changes to a center set: a center of 3 dimensions is added, a batch step
on `toyData` follows, then a center of 12 dimensions is added. -/
def boundOps : List CenterOp :=
  [.addClusterCenter { weights_ := [1, 2, 3] },
   .oneBatchKmeansOptimization toyData,
   .addClusterCenter { weights_ := [0, 0, 0, 0, 0, 0, 0, 0, 0, 0, 0, 1] }]

/-- The center set `boundOps` makes of `oneZeroCenter`. -/
def boundOpsResult : SfClusterCenters :=
  { cluster_centers_ :=
      [{ weights_ := [0, 2 / 3, 1 / 3, 1 / 3, 0, 0, 0, 0, 0, 0] },
       { weights_ := [0, 0, 0, 0, 0, 0, 0, 0, 0, 0] },
       { weights_ := [0, 0, 0, 0, 0, 0, 0, 0, 0, 0, 0, 1] }],
    dimensionality_ := 12 }

/-- A serialisation for the examples: a weight vector whose coordinates are digits is
written as the string of its digits, and a string is read as the vector of the values
of its characters, counted from the character 0. -/
def digitText : WeightVectorText :=
  { AsString := fun w => w.weights_.map (fun q => Char.ofNat (q.num.toNat + 48)),
    ofString := fun s => { weights_ := s.map (fun c => ((c.toNat - 48 : Nat) : ℚ)) } }

/-- Two centers with digits as coordinates: (0, 1, 2, 3) and (4, 0, 5). -/
def digitCenters : SfClusterCenters :=
  { cluster_centers_ := [{ weights_ := [0, 1, 2, 3] }, { weights_ := [4, 0, 5] }],
    dimensionality_ := 4 }

/-! ## Vocabulary for the difference of two sparse vectors -/

/-- The sum of the values of the entries of `fs` with feature id `i`. -/
def featSum (fs : List FeatureValuePair) (i : Int) : ℚ :=
  (fs.map (fun p => if p.id_ = i then p.value_ else 0)).sum

/-- The entries `new` are the difference of the entries `as` and `bs`: their ids are
strictly ascending and are the ids of `as` and of `bs`, and the value at every id is the
value of `as` minus the value of `bs` there. -/
def DiffOf (as bs new : List FeatureValuePair) : Prop :=
  new.Pairwise (fun p q => p.id_ < q.id_) ∧
  (∀ f : Int, f ∈ new.map (fun p => p.id_)
    ↔ f ∈ as.map (fun p => p.id_) ∨ f ∈ bs.map (fun p => p.id_)) ∧
  (∀ f : Int, featSum new f = featSum as f - featSum bs f)

/-- The vector `r1` is `r` with the difference of `as` and `bs` appended: the new entries
follow those of `r`, their squares are added to the cached norm, and the labels and the
group id are those of `r`. -/
def DiffResult (as bs : List FeatureValuePair) (r r1 : SfSparseVector) : Prop :=
  ∃ new, r1.features_ = r.features_ ++ new ∧
    r1.squared_norm_ = r.squared_norm_ + (new.map (fun p => p.value_ * p.value_)).sum ∧
    r1.y_ = r.y_ ∧ r1.group_id_ = r.group_id_ ∧ DiffOf as bs new

/-! ## SqDistanceToClosestCenter with its output location -/

/-- The method `SqDistanceToClosestCenter(x, closest_center_id)` with the output location
explicit: `closest_center_id` is `none` for a null pointer and `some v` for a location
that holds `v`. The result is what the call returns (or how it fails) together with the
content of the location after the call. -/
def SfClusterCenters.SqDistanceToClosestCenterInto (cc : SfClusterCenters) (x : SfSparseVector)
    (closest_center_id : Option Int) : Except Failure ℚ × Option Int :=
  if cc.cluster_centers_.isEmpty then (.error .assertion, closest_center_id)
  else
    match closest_center_id with
    | none => (.error .assertion, none)
    | some held =>
      match cc.closestLoop x (List.range cc.Size) (FLT_MAX, 0) with
      | .error e => (.error e, some held)
      | .ok r => (.ok r.1, some r.2)

/-! ## Examples for the batch step -/

/-- Two centers of dimensionality 2 on feature 1: the point 2, the mean of `lineData`, and
the point 10, which is closest to no example of `lineData`. -/
def lineTwoCenters : SfClusterCenters :=
  { cluster_centers_ := [{ weights_ := [0, 2] }, { weights_ := [0, 10] }],
    dimensionality_ := 2 }

/-! ## Vocabulary for the sampling loops -/

/-- The dataset index that `RandInt(data_set.NumExamples())` returns when it makes the call
number `t` of `rand()`: `rand() % NumExamples()`. -/
def drawIndex (rand_seq : Nat → Nat) (data_set : SfDataSet) (t : Nat) : Int :=
  (rand_seq t : Int) % data_set.NumExamples

/-- The fraction that `RandFloat()` returns when it makes the call number `t` of `rand()`:
`rand() / RAND_MAX`, both converted to `float`. -/
def drawFraction (rand_seq : Nat → Nat) (t : Nat) : ℚ :=
  floatOfInt ((rand_seq t : Nat) : Int) / floatOfInt (RAND_MAX : Int)

/-- One pass of the loop over `j` of `SamplingFarthestFirst` for the candidate `temp_id`,
on the running `(best_distance, best_center)`: the candidate replaces the running best
when its distance is greater than `best_distance`, which then becomes the distance
converted to `int`. -/
def farthestStep (cc : SfClusterCenters) (data_set : SfDataSet) (acc : Int × Int)
    (temp_id : Int) : Int × Int :=
  if closestDistance cc (data_set.VectorAt temp_id) > ((acc.1 : Int) : ℚ) then
    (truncToInt (closestDistance cc (data_set.VectorAt temp_id)), temp_id)
  else acc

/-- One pass of the loop over `j` of `SamplingKmeansPlusPlus` for the candidate
`proposed_cluster_center` and the random fraction `f`, on the running
`(selected_center, total_distance_mass)`. -/
def samplingStep (cc : SfClusterCenters) (data_set : SfDataSet) (acc : Int × ℚ)
    (proposed_cluster_center : Int) (f : ℚ) : Int × ℚ :=
  if f < closestDistance cc (data_set.VectorAt proposed_cluster_center)
        / (acc.2 + closestDistance cc (data_set.VectorAt proposed_cluster_center)) then
    (proposed_cluster_center,
     acc.2 + closestDistance cc (data_set.VectorAt proposed_cluster_center))
  else (acc.1, acc.2 + closestDistance cc (data_set.VectorAt proposed_cluster_center))

/-- The candidate number `t` of a round of `SamplingKmeansPlusPlus` that starts at the call
number `c0` of `rand()`: every candidate takes two calls, one for its index and one for
its random fraction. -/
def roundCandidate (rand_seq : Nat → Nat) (data_set : SfDataSet) (c0 t : Nat) : Int :=
  drawIndex rand_seq data_set (c0 + 2 * t)

/-- The random fraction drawn for candidate number `t` of the round. -/
def roundFraction (rand_seq : Nat → Nat) (c0 t : Nat) : ℚ :=
  drawFraction rand_seq (c0 + 2 * t + 1)

/-- The squared distance `d_t` of candidate number `t` to its closest center. -/
def candidateDistance (cc : SfClusterCenters) (rand_seq : Nat → Nat) (data_set : SfDataSet)
    (c0 t : Nat) : ℚ :=
  closestDistance cc (data_set.VectorAt (roundCandidate rand_seq data_set c0 t))

/-- The running total distance mass `M_t = d_0 + ... + d_t`. -/
def runningMass (cc : SfClusterCenters) (rand_seq : Nat → Nat) (data_set : SfDataSet)
    (c0 t : Nat) : ℚ :=
  ∑ u in Finset.range (t + 1), candidateDistance cc rand_seq data_set c0 u

/-- Candidate number `t` is accepted: its random fraction is less than `d_t / M_t`. -/
def candidateAccepted (cc : SfClusterCenters) (rand_seq : Nat → Nat) (data_set : SfDataSet)
    (c0 t : Nat) : Prop :=
  roundFraction rand_seq c0 t
    < candidateDistance cc rand_seq data_set c0 t / runningMass cc rand_seq data_set c0 t

/-- The loop variables `(selected_center, total_distance_mass)` of a round of
`SamplingKmeansPlusPlus` after its first `m` candidates. -/
def samplingAfter (cc : SfClusterCenters) (rand_seq : Nat → Nat) (data_set : SfDataSet)
    (c0 m : Nat) : Int × ℚ :=
  (List.range m).foldl
    (fun a t => samplingStep cc data_set a (roundCandidate rand_seq data_set c0 t)
      (roundFraction rand_seq c0 t))
    (0, 0)

/-! ## Examples for the sampling loops -/

/-- Three points on a line: 1, 3/2 and 5/4 on feature 1. -/
def closeByData : SfDataSet :=
  { vectors_ := [SfSparseVector.ofPairs [(1, 1)], SfSparseVector.ofPairs [(1, 3 / 2)],
                 SfSparseVector.ofPairs [(1, 5 / 4)]] }

/-- Three points on a line: 1, 3/2 and 1/2 on feature 1; the last two are at the same
distance from the first. -/
def tiedData : SfDataSet :=
  { vectors_ := [SfSparseVector.ofPairs [(1, 1)], SfSparseVector.ofPairs [(1, 3 / 2)],
                 SfSparseVector.ofPairs [(1, 1 / 2)]] }

/-- The random sequence 0, 1, 2, ... -/
def countUp : Nat → Nat := fun t => t

/-! ## Vocabulary for the mini-batch step -/

/-- The dataset indices a mini-batch of size `m` draws, in draw order, when it starts at
the call number `c0` of `rand()`. -/
def miniBatchDraws (rand_seq : Nat → Nat) (data_set : SfDataSet) (c0 m : Nat) : List Int :=
  (List.range m).map (fun (t : Nat) => drawIndex rand_seq data_set (c0 + t))

/-- The drawn examples grouped under center `i`: those for which
`SqDistanceToClosestCenter` on the centers `cc` writes `i`, in draw order. -/
def miniBatchGroup (cc : SfClusterCenters) (data_set : SfDataSet) (draws : List Int)
    (i : Nat) : List Int :=
  draws.filter (fun x_id => decide (closestCenterId cc (data_set.VectorAt x_id) = i))

/-- The stochastic update rule applied to center `i` with example `x`: the visit count of
`i` is incremented, and with `eta = 1 / (count + 1)` for the incremented count the center
becomes `(1 - eta) * center + eta * x`. -/
def stochasticUpdate (x : SfSparseVector) (i : Nat) (acc : SfClusterCenters × List Int) :
    SfClusterCenters × List Int :=
  ((acc.1.modifyCenter i (fun w => w.ScaleBy (1 - stepEta (acc.2.getD i 0 + 1)))).modifyCenter i
      (fun w => w.AddVector x (stepEta (acc.2.getD i 0 + 1))),
   acc.2.set i (acc.2.getD i 0 + 1))

/-- The updates of a mini-batch, as pairs of a center and an example: for each center in
increasing index order, the examples grouped under it in draw order. -/
def miniBatchUpdates (cc : SfClusterCenters) (data_set : SfDataSet) (draws : List Int) :
    List (Nat × Int) :=
  (List.range cc.Size).flatMap
    (fun i => (miniBatchGroup cc data_set draws i).map (fun x_id => (i, x_id)))

/-! ## Repeated batch steps -/

/-- The effect of `t` successive calls of `OneBatchKmeansOptimization`. -/
def oneBatchTimes (data_set : SfDataSet) : Nat → SfClusterCenters → Except Failure SfClusterCenters
  | 0, cc => .ok cc
  | t + 1, cc =>
    match OneBatchKmeansOptimization data_set cc with
    | .error e => .error e
    | .ok c1 => oneBatchTimes data_set t c1

/-! ## SfMultiLabelWeightVector (sf-multi-label-weight-vector.cc) -/

/-- The data members of `SfMultiLabelWeightVector` that its methods read and write
(`num_labels_` is never used). -/
structure SfMultiLabelWeightVector where
  selected_vector_ : Int
  vectors_ : List SfWeightVector
deriving DecidableEq

namespace SfMultiLabelWeightVector

/-- The constructor `SfMultiLabelWeightVector(dimensionality, num_labels)`. -/
def mk2 (dimensionality num_labels : Int) : SfMultiLabelWeightVector :=
  { selected_vector_ := 0,
    vectors_ := List.replicate num_labels.toNat (SfWeightVector.zero dimensionality) }

def SelectLabel (w : SfMultiLabelWeightVector) (label_id : Int) : SfMultiLabelWeightVector :=
  { w with selected_vector_ := label_id }

def NumLabels (w : SfMultiLabelWeightVector) : Nat := w.vectors_.length

/-- The read `vectors_[i]`; an index outside the vector is undefined behaviour. -/
def vectorAt (w : SfMultiLabelWeightVector) (i : Int) : Except Failure SfWeightVector :=
  if 0 ≤ i ∧ i.toNat < w.vectors_.length then
    .ok (w.vectors_.getD i.toNat { weights_ := [] })
  else .error .outOfBounds

/-- A call `vectors_[i].f(...)` of a method `f` that changes the vector. -/
def updateAt (w : SfMultiLabelWeightVector) (i : Int)
    (f : SfWeightVector → SfWeightVector) : Except Failure SfMultiLabelWeightVector :=
  if 0 ≤ i ∧ i.toNat < w.vectors_.length then
    .ok { w with vectors_ := w.vectors_.modify f i.toNat }
  else .error .outOfBounds

def InnerProduct (w : SfMultiLabelWeightVector) (x : SfSparseVector) (x_scale : ℚ) :
    Except Failure ℚ :=
  match w.vectorAt w.selected_vector_ with
  | .error e => .error e
  | .ok v => .ok (v.InnerProduct x x_scale)

def InnerProductLabel (w : SfMultiLabelWeightVector) (x : SfSparseVector) (label_id : Int)
    (x_scale : ℚ) : Except Failure ℚ :=
  match w.vectorAt label_id with
  | .error e => .error e
  | .ok v => .ok (v.InnerProduct x x_scale)

/-- The loop of `InnerProductAll` over the indices `is` of `out`. -/
def innerProductAllLoop (w : SfMultiLabelWeightVector) (x : SfSparseVector) (x_scale : ℚ) :
    List Nat → List ℚ → Except Failure (List ℚ)
  | [], out => .ok out
  | i :: is, out =>
    match w.vectorAt (i : Int) with
    | .error e => .error e
    | .ok v => innerProductAllLoop w x x_scale is (out.set i (v.InnerProduct x x_scale))

/-- The method `InnerProductAll(x, out, x_scale)`: the content of `out` after the call. -/
def InnerProductAll (w : SfMultiLabelWeightVector) (x : SfSparseVector) (out : List ℚ)
    (x_scale : ℚ) : Except Failure (List ℚ) :=
  innerProductAllLoop w x x_scale (List.range out.length) out

def AddVector (w : SfMultiLabelWeightVector) (x : SfSparseVector) (x_scale : ℚ) :
    Except Failure SfMultiLabelWeightVector :=
  w.updateAt w.selected_vector_ (fun v => v.AddVector x x_scale)

def ScaleBy (w : SfMultiLabelWeightVector) (scaling_factor : ℚ) :
    Except Failure SfMultiLabelWeightVector :=
  w.updateAt w.selected_vector_ (fun v => v.ScaleBy scaling_factor)

def ValueOf (w : SfMultiLabelWeightVector) (index : Int) : Except Failure ℚ :=
  match w.vectorAt w.selected_vector_ with
  | .error e => .error e
  | .ok v => .ok (v.ValueOf index)

/-- The overload `ProjectToL1Ball(lambda, epsilon)`. -/
def ProjectToL1BallApproximate (proj : L1Projection) (w : SfMultiLabelWeightVector)
    (lambda epsilon : ℚ) : Except Failure SfMultiLabelWeightVector :=
  w.updateAt w.selected_vector_ (fun v => proj.approximate v lambda epsilon)

/-- The overload `ProjectToL1Ball(lambda)`. -/
def ProjectToL1Ball (proj : L1Projection) (w : SfMultiLabelWeightVector) (lambda : ℚ) :
    Except Failure SfMultiLabelWeightVector :=
  w.updateAt w.selected_vector_ (fun v => proj.exact v lambda)

def GetDimensions (w : SfMultiLabelWeightVector) : Except Failure Int :=
  match w.vectorAt w.selected_vector_ with
  | .error e => .error e
  | .ok v => .ok v.GetDimensions

def GetSquaredNorm (w : SfMultiLabelWeightVector) : Except Failure ℚ :=
  match w.vectorAt w.selected_vector_ with
  | .error e => .error e
  | .ok v => .ok v.GetSquaredNorm

end SfMultiLabelWeightVector

/-- The multi-label vector of sf-multi-label-weight-vector_test.cc after its updates:
label 0 holds (1, 1, 2, 0, 3), label 1 holds (0, 0, 6, 0, 2); label 0 is selected. -/
def testMultiLabel : SfMultiLabelWeightVector :=
  { selected_vector_ := 0,
    vectors_ := [{ weights_ := [1, 1, 2, 0, 3] }, { weights_ := [0, 0, 6, 0, 2] }] }

/-! ## Examples for rounds that accept no candidate -/

/-- The state after `toyData` example 1 has been added as the first center of an empty
set of dimensionality 5, with one `rand()` call made. -/
def toySeededAtOne : KmState :=
  { cluster_centers :=
      ({ cluster_centers_ := [], dimensionality_ := 5 } : SfClusterCenters).AddClusterCenterAt
        (SfSparseVector.ofPairs [(1, 1), (3, 1)]),
    rand_calls := 1 }

/-! ## Parsing a line (the constructors and `Init` of sf-sparse-vector.cc) -/

/-- The outcome of `sscanf(position, "%f", &y)`: one conversion (the call returns 1 and
writes `y`), a matching failure (it returns 0), or the end of the input before a
conversion (it returns `EOF` and leaves `y` as it is). -/
inductive ScanResult where
  | converted (y : ℚ)
  | noMatch
  | endOfInput
deriving DecidableEq

/-- The functions of the C library that read numbers from the characters at a position:
parameters of the development. -/
structure NumberText where
  sscanf_f : List Char → ScanResult
  atoi : List Char → Int
  atof : List Char → ℚ

/-- A `const char*` held by the parser: a pointer to a character of `in_string` or to its
terminator, given by the characters from there to the end of the string, or the pointer
`NULL + 1`, which `strchr(...) + 1` yields when the character is not found. -/
inductive CharPtr where
  | inString (rest : List Char)
  | nullPlusOne
deriving DecidableEq

/-- The function `strchr(position, c)` for a character `c` other than the terminator: the
pointer to the first `c` from `position` on, `none` for `NULL`. -/
def strchr : List Char → Char → Option (List Char)
  | [], _ => none
  | a :: rest, c => if a = c then some (a :: rest) else strchr rest c

/-- The pointer `p + 1` for the result `p` of a `strchr` call. -/
def plusOne : Option (List Char) → CharPtr
  | none => .nullPlusOne
  | some rest => .inString rest.tail

/-- The character `position[0]`; at the end of the string it is the terminator. -/
def charAt (position : List Char) : Char := position.headD (Char.ofNat 0)

/-- The test `(c >= 'a' && c <= 'z') || (c >= 'A' && c <= 'Z')`. -/
def isLetter (c : Char) : Bool :=
  (('a').toNat ≤ c.toNat && c.toNat ≤ ('z').toNat)
    || (('A').toNat ≤ c.toNat && c.toNat ≤ ('Z').toNat)

/-- The test `c == ' ' || c == '\n' || c == '\v' || c == '\r'`. -/
def isBlank (c : Char) : Bool :=
  c = ' ' || c = Char.ofNat 10 || c = Char.ofNat 11 || c = Char.ofNat 13

/-- The value of `y` after `sscanf(position, "%f", &y)`. -/
def scannedValue (r : ScanResult) (y : ℚ) : ℚ :=
  match r with
  | .converted v => v
  | _ => y

/-- The test `position_comma > position_space` between a pointer into the string and the
result of `strchr(in_string, ' ')`: every pointer into the string is above `NULL`, and of
two pointers into the string the one with fewer characters left is the greater. -/
def pointerAbove (position_comma : List Char) (position_space : Option (List Char)) : Bool :=
  match position_space with
  | none => true
  | some sp => decide (position_comma.length < sp.length)

/-- The loop of `Init` that reads the class labels, from `position` with the current `y`
and `y_`; the first argument bounds the number of passes (`none`: the bound is used
up). -/
def labelLoop (lib : NumberText) (position_space : Option (List Char)) :
    Nat → List Char → ℚ → List ℚ → Option (Except Failure (List ℚ))
  | 0, _, _, _ => none
  | fuel + 1, position, y, y_ =>
    if lib.sscanf_f position = .noMatch then some (.error .exit1)
    else
      match strchr position ',' with
      | none => some (.ok (y_ ++ [scannedValue (lib.sscanf_f position) y]))
      | some position_comma =>
        if pointerAbove position_comma position_space then
          some (.ok (y_ ++ [scannedValue (lib.sscanf_f position) y]))
        else
          labelLoop lib position_space fuel position_comma.tail
            (scannedValue (lib.sscanf_f position) y)
            (y_ ++ [scannedValue (lib.sscanf_f position) y])

/-- The part of `Init` that parses the group id, if any: the new `group_id_` and the
position after it. Reading through the pointer `NULL + 1` is undefined behaviour. -/
def parseGroup (position : List Char) (group_id_ : String) : Except Failure (String × CharPtr) :=
  if isLetter (charAt position) then
    match plusOne (strchr position ':') with
    | .nullPlusOne => .error .outOfBounds
    | .inString p2 =>
      match strchr p2 ' ' with
      | none => .ok (String.mk p2, .nullPlusOne)
      | some e => .ok (String.mk (p2.take (p2.length - e.length)), plusOne (some e))
  else .ok (group_id_, .inString position)

/-- The loop of `Init` that reads the feature:value pairs, from `position`; the first
argument bounds the number of passes (`none`: the bound is used up). -/
def featureLoop (lib : NumberText) :
    Nat → CharPtr → SfSparseVector → Option (Except Failure SfSparseVector)
  | 0, _, _ => none
  | _ + 1, .nullPlusOne, x => some (.ok x)
  | _ + 1, .inString [], x => some (.ok x)
  | fuel + 1, .inString (c :: rest), x =>
    if c = '#' then some (.ok x)
    else if isBlank c then featureLoop lib fuel (plusOne (strchr (c :: rest) ' ')) x
    else
      match plusOne (strchr (c :: rest) ':') with
      | .nullPlusOne => some (.error .outOfBounds)
      | .inString p2 =>
        match x.PushPair (lib.atoi (c :: rest)) (lib.atof p2) with
        | .error e => some (.error e)
        | .ok x1 => featureLoop lib fuel (plusOne (strchr p2 ' ')) x1

/-- The part of `Init` that parses the comment, if any. -/
def parseComment (in_string : List Char) (comment_ : String) : String :=
  match strchr in_string '#' with
  | none => comment_
  | some position => String.mk position.tail

namespace SfSparseVector

/-- The method `SfSparseVector::Init(in_string)`, `in_string` being the characters before the
terminator; `none` when a loop uses up its bound of passes. -/
def Init (lib : NumberText) (in_string : List Char) (x : SfSparseVector) :
    Option (Except Failure SfSparseVector) :=
  if in_string.length = 0 then some (.error .exit1)
  else
    match labelLoop lib (strchr in_string ' ') (in_string.length + 1) in_string 0 x.y_ with
    | none => none
    | some (.error e) => some (.error e)
    | some (.ok y_) =>
      match plusOne (strchr in_string ' ') with
      | .nullPlusOne => some (.error .outOfBounds)
      | .inString position =>
        match parseGroup position x.group_id_ with
        | .error e => some (.error e)
        | .ok g =>
          match featureLoop lib (in_string.length + 1) g.2
              { x with y_ := y_, group_id_ := g.1 } with
          | none => none
          | some (.error e) => some (.error e)
          | some (.ok x1) =>
            some (.ok { x1 with comment_ := parseComment in_string x1.comment_ })

/-- Modelled from the spec: `SetBias()` (declared in sf-sparse-vector.h, which is not
among the sources) puts the bias term, value 1, into the reserved feature 0. -/
def SetBias (x : SfSparseVector) : Except Failure SfSparseVector := x.PushPair 0 1

/-- Modelled from the spec: `NoBias()` (declared in sf-sparse-vector.h, which is not
among the sources) fills the reserved feature 0 with the value 0: the bias term is
suppressed. -/
def NoBias (x : SfSparseVector) : Except Failure SfSparseVector := x.PushPair 0 0

/-- The constructor `SfSparseVector(const char* in_string, bool use_bias_term)`. -/
def ofStringBias (lib : NumberText) (in_string : List Char) (use_bias_term : Bool) :
    Option (Except Failure SfSparseVector) :=
  match (if use_bias_term then SetBias empty else NoBias empty) with
  | .error e => some (.error e)
  | .ok x => Init lib in_string x

/-- The constructor `SfSparseVector(const char* in_string)`. -/
def ofString (lib : NumberText) (in_string : List Char) :
    Option (Except Failure SfSparseVector) :=
  match NoBias empty with
  | .error e => some (.error e)
  | .ok x => Init lib in_string x

/-- The cached squared norm is in step with the pairs: it is the sum of `value * value`
over the feature/value pairs. -/
def NormInStep (x : SfSparseVector) : Prop :=
  x.squared_norm_ = (x.features_.map (fun p => p.value_ * p.value_)).sum

end SfSparseVector

instance (x : SfSparseVector) : Decidable x.NormInStep := by
  unfold SfSparseVector.NormInStep; exact inferInstance

/-! ## A reader of whole numbers for the examples -/

/-- The number that the decimal digits at the start of the text denote, after `acc`. -/
def readDigits : List Char → Nat → Nat
  | [], acc => acc
  | c :: rest, acc =>
    if c.isDigit then readDigits rest (acc * 10 + (c.toNat - ('0').toNat)) else acc

/-- The whole number at the start of the text, with an optional minus sign. -/
def readWhole (s : List Char) : Int :=
  if charAt s = '-' then -((readDigits s.tail 0 : Nat) : Int) else ((readDigits s 0 : Nat) : Int)

/-- A number reader for the examples: whole numbers with an optional minus sign. -/
def wholeNumberText : NumberText :=
  { sscanf_f := fun s =>
      if s = [] then .endOfInput
      else if (charAt s).isDigit || charAt s = '-' then .converted ((readWhole s : Int) : ℚ)
      else .noMatch,
    atoi := readWhole,
    atof := fun s => ((readWhole s : Int) : ℚ) }

/-! ## The line format of the dataset files -/

/-- The number of characters from a pointer to the end of the line; 0 for the pointer
`NULL + 1`, which no loop follows. -/
def ptrLength : CharPtr → Nat
  | .inString rest => rest.length
  | .nullPlusOne => 0

/-- The line of the examples: two labels, a group id, two features and a comment. -/
def exampleLine : List Char := "1,-2 qid:7 1:3 4:-5 #a note, 9:9".toList

/-- The vector the parsing constructor makes of `exampleLine`. -/
def exampleLineVector : SfSparseVector :=
  { features_ := [⟨0, 0⟩, ⟨1, 3⟩, ⟨4, -5⟩], y_ := [1, -2], a_ := 0, squared_norm_ := 34,
    group_id_ := "7", comment_ := "a note, 9:9" }

/-- The tokens `ts` written one after the other with the single character `sep` between
neighbours. -/
def joinWith (sep : Char) : List (List Char) → List Char
  | [] => []
  | [t] => t
  | t :: u :: rest => t ++ sep :: joinWith sep (u :: rest)

/-- The characters that separate the tokens of a line: comma, colon, the comment sign and
the blank characters of `isBlank`. -/
def isDelimiter (c : Char) : Bool := c = ',' || c = ':' || c = '#' || isBlank c

/-- A token holds no separating character. -/
def Word (tok : List Char) : Prop := ∀ c ∈ tok, isDelimiter c = false

instance (tok : List Char) : Decidable (Word tok) :=
  inferInstanceAs (Decidable (∀ c ∈ tok, isDelimiter c = false))

/-- The text `f:v` of a feature with id token `f` and value token `v`. -/
def featureItem (t : List Char × List Char) : List Char := t.1 ++ ':' :: t.2

/-- The optional token `group:ID` of a line. -/
def groupItems : Option (List Char × List Char) → List (List Char)
  | none => []
  | some g => [g.1 ++ ':' :: g.2]

/-- The optional trailing `#comment` of a line. -/
def commentItems : Option (List Char) → List (List Char)
  | none => []
  | some c => ['#' :: c]

/-- The line `l1[,l2,...] [group:ID] f1:v1 f2:v2 ... fn:vn [#comment]` with single-space
separators, given the tokens of its labels, of its group and of its features, and the
text of its comment. -/
def lineText (labels : List (List Char)) (group : Option (List Char × List Char))
    (features : List (List Char × List Char)) (comment : Option (List Char)) : List Char :=
  joinWith ',' labels ++
    ' ' :: joinWith ' ' (groupItems group ++ features.map featureItem ++ commentItems comment)

/-- The call `sscanf(position, "%f", &y)` reads the number `v` from the label token `tok`,
whether a comma or a space ends the token. -/
def ReadsLabel (lib : NumberText) (tok : List Char) (v : ℚ) : Prop :=
  ∀ rest, lib.sscanf_f (tok ++ ',' :: rest) = .converted v ∧
    lib.sscanf_f (tok ++ ' ' :: rest) = .converted v

/-- The call `atoi(position)` reads the feature id `id` from the token `tok`, which a colon
ends. -/
def ReadsId (lib : NumberText) (tok : List Char) (id : Int) : Prop :=
  ∀ rest, lib.atoi (tok ++ ':' :: rest) = id

/-- The call `atof(position)` reads the value `v` from the token `tok`, whether the token
ends the line or a space ends the token. -/
def ReadsValue (lib : NumberText) (tok : List Char) (v : ℚ) : Prop :=
  lib.atof tok = v ∧ ∀ rest, lib.atof (tok ++ ' ' :: rest) = v

/-- The text of a group id or of a comment as the vector stores it: empty when the line has
none. -/
def storedText : Option (List Char) → String
  | none => ""
  | some text => String.mk text

/-- The value of the reserved feature 0 that the constructor sets before parsing: 1 with a
bias term, 0 without. -/
def biasValue (use_bias_term : Bool) : ℚ := if use_bias_term then 1 else 0

/-- The label tokens of `exampleLine`. -/
def exampleLabels : List (List Char) := ["1".toList, "-2".toList]

/-- The group token of `exampleLine`: name and id. -/
def exampleGroup : Option (List Char × List Char) := some ("qid".toList, "7".toList)

/-- The feature tokens of `exampleLine`: id and value. -/
def exampleFeatures : List (List Char × List Char) :=
  [("1".toList, "3".toList), ("4".toList, "-5".toList)]

/-- The comment of `exampleLine`. -/
def exampleComment : Option (List Char) := some "a note, 9:9".toList

/-! ## Vocabulary for the runs of the k-means++ seeding functions -/

/-- The points of the dataset: the centers that `AddClusterCenterAt` makes of its examples
in a set of dimensionality bound `D`. Two examples are the same point when they agree in
every coordinate, whatever their labels, group ids and comments. -/
def dataPoints (D : Int) (data_set : SfDataSet) : List SfWeightVector :=
  data_set.vectors_.map (centerOf D)

/-- The number of distinct points of the dataset. -/
def distinctPoints (D : Int) (data_set : SfDataSet) : Nat :=
  (dataPoints D data_set).dedup.length

/-- The state in which the rounds of a seeding function start: example `id` has been added
as the first center, with one call of `rand()`. -/
def seededState (data_set : SfDataSet) (id : Int) (s : KmState) : KmState :=
  { cluster_centers := s.cluster_centers.AddClusterCenterAt (data_set.VectorAt id),
    rand_calls := s.rand_calls + 1 }

/-- What the rounds of a k-means++ seeding function keep true of the center set: it holds
`m` centers within the dimensionality bound `D`, every center is the point of an example,
and no two centers are the same. -/
def DistinctCenters (D : Int) (data_set : SfDataSet) (m : Nat) (cc : SfClusterCenters) :
    Prop :=
  cc.dimensionality_ = D ∧ cc.cluster_centers_.length = m ∧ cc.cluster_centers_.Nodup ∧
  ∀ w ∈ cc.cluster_centers_, w ∈ dataPoints D data_set

/-- The state after `ClassicKmeansPlusPlus` has added the three points of `threeOnLine`,
in the order 1, 5/2, 2, with three calls of `rand()`. -/
def threeOnLineSeeded : KmState :=
  { cluster_centers :=
      { cluster_centers_ := [centerAt (SfSparseVector.ofPairs [(1, 1)]),
                             centerAt (SfSparseVector.ofPairs [(1, 5 / 2)]),
                             centerAt (SfSparseVector.ofPairs [(1, 2)])],
        dimensionality_ := 5 },
    rand_calls := 3 }

/-- Three examples, two points: the examples 0 and 1 are both the point 1 on feature 1,
with different labels; example 2 is the point 2. -/
def twoPointData : SfDataSet :=
  { vectors_ := [SfSparseVector.ofPairs [(1, 1)],
                 { SfSparseVector.ofPairs [(1, 1)] with y_ := [1] },
                 SfSparseVector.ofPairs [(1, 2)]] }

/-! ## The rounds of the optimized k-means++ variants -/

/-- The body of the loop over `i` of `OptimizedKmeansPlusPlus`: the loop over `j`, the draw
and the new center; the caches go from round to round. -/
def optimizedRound (rand_seq : Nat → Nat) (data_set : SfDataSet) (i : Int)
    (cache : BestCache) : Km BestCache := do
  let t ← Km.ofExcept (fun cc =>
    optimizedTable cc data_set (i - 1) (intRange 0 data_set.NumExamples) (0, [], cache))
  let _ ← sampleAndAdd rand_seq data_set t.1 t.2.1
  pure t.2.2

/-- The code of `OptimizedKmeansPlusPlus` before the loop over `i`: the assertion, the first
center and the initial caches. -/
def optimizedSeed (rand_seq : Nat → Nat) (k : Int) (data_set : SfDataSet) : Km BestCache := do
  Km.assert (0 < k ∧ k ≤ data_set.NumExamples)
  let cluster_center ← RandInt rand_seq data_set.NumExamples
  Km.modifyCenters (fun cc => cc.AddClusterCenterAt (data_set.VectorAt cluster_center))
  let best_center_ids : List ℚ := List.replicate data_set.NumExamples.toNat 0
  let best_distances : List ℚ := List.replicate data_set.NumExamples.toNat FLT_MAX
  let best_distances ← Km.ofExcept (fun cc =>
    initBestDistances cc data_set (intRange 0 data_set.NumExamples) best_distances)
  pure { best_center_ids := best_center_ids, best_distances := best_distances }

/-- The run of `OptimizedKmeansPlusPlus` up to the start of round `i`: the code before the
loop and the rounds `1 .. i - 1`; the result is the caches that round `i` starts with. -/
def optimizedUpTo (rand_seq : Nat → Nat) (k : Int) (data_set : SfDataSet) (i : Int) :
    Km BestCache := do
  let cache ← optimizedSeed rand_seq k data_set
  Km.forFold (optimizedRound rand_seq data_set) (intRange 1 i) cache

/-- The body of the loop over `i` of `OptimizedKmeansPlusPlusTI`; the caches and
`inter_center_distances` go from round to round. -/
def optimizedTIRound (rand_seq : Nat → Nat) (data_set : SfDataSet) (i : Int)
    (st : BestCache × List ℚ) : Km (BestCache × List ℚ) := do
  let t ← Km.ofExcept (fun cc =>
    optimizedTITable cc data_set i st.2 (intRange 0 data_set.NumExamples)
      (0, [], st.1))
  let chosen ← sampleAndAdd rand_seq data_set t.1 t.2.1
  let inter_center_distances ← Km.ofExcept (fun cc =>
    interCenterDistances cc (data_set.VectorAt chosen)
      (intRange 0 ((cc.Size : Int) - 1)) [])
  pure (t.2.2, inter_center_distances)

/-- The code of `OptimizedKmeansPlusPlusTI` before the loop over `i`. -/
def optimizedTISeed (rand_seq : Nat → Nat) (k : Int) (data_set : SfDataSet) :
    Km (BestCache × List ℚ) := do
  Km.assert (0 < k ∧ k ≤ data_set.NumExamples)
  let cluster_center ← RandInt rand_seq data_set.NumExamples
  Km.modifyCenters (fun cc => cc.AddClusterCenterAt (data_set.VectorAt cluster_center))
  let best_center_ids : List ℚ := List.replicate data_set.NumExamples.toNat 0
  let best_distances : List ℚ := List.replicate data_set.NumExamples.toNat 0
  let best_distances ← Km.ofExcept (fun cc =>
    initBestDistances cc data_set (intRange 0 data_set.NumExamples) best_distances)
  pure ({ best_center_ids := best_center_ids, best_distances := best_distances }, [])

/-- The run of `OptimizedKmeansPlusPlusTI` up to the start of round `i`: the code before
the loop and the rounds `1 .. i - 1`; the result is the caches and the table
`inter_center_distances` that round `i` starts with. -/
def optimizedTIUpTo (rand_seq : Nat → Nat) (k : Int) (data_set : SfDataSet) (i : Int) :
    Km (BestCache × List ℚ) := do
  let st ← optimizedTISeed rand_seq k data_set
  Km.forFold (optimizedTIRound rand_seq data_set) (intRange 1 i) st

/-- What the rounds of `OptimizedKmeansPlusPlus` keep true at the start of the round that
follows `m` rounds: the set holds `m + 1` centers, there is one cached distance per example,
and the smaller of the cached distance of an example and its distance to the newest center
is its distance to the closest center. -/
def CacheExact (data_set : SfDataSet) (m : Nat) (cache : BestCache) (s : KmState) : Prop :=
  s.cluster_centers.Size = m + 1 ∧
  cache.best_distances.length = data_set.vectors_.length ∧
  ∀ j : Nat, j < data_set.vectors_.length →
    min (cache.best_distances.getD j 0)
        (sqDist (s.cluster_centers.ClusterCenter m) (data_set.VectorAt (j : Int)))
      = closestDistance s.cluster_centers (data_set.VectorAt (j : Int))

/-- The caches with which round 2 of `OptimizedKmeansPlusPlus` starts on `threeOnLine`,
the first center being the point 1. -/
def threeOnLineCache : BestCache :=
  { best_center_ids := [0, 0, 0], best_distances := [0, 1, 9 / 4] }

/-- The state in which round 2 of the optimized variants starts on `threeOnLine`: the
centers are the points 1 and 5/2, and `rand()` has been called twice. -/
def twoOnLineState : KmState :=
  { cluster_centers := twoOnLineCenters, rand_calls := 2 }

/-- What the rounds of `OptimizedKmeansPlusPlusTI` keep true at the start of the round that
follows `m` rounds, in a run that started on a set of `m0` centers: the set holds
`m0 + m + 1` centers; there is one cached distance and one cached center id per example;
every cached center id is a whole number below `m` (it is 0 before the first round); and
after the first round `inter_center_distances` holds `m0 + m` entries, entry `c` being the
distance from center `c` to the example `e` that was added last as a center. -/
def TableInBounds (data_set : SfDataSet) (m0 m : Nat) (st : BestCache × List ℚ)
    (s : KmState) : Prop :=
  s.cluster_centers.Size = m0 + m + 1 ∧
  st.1.best_distances.length = data_set.vectors_.length ∧
  st.1.best_center_ids.length = data_set.vectors_.length ∧
  (∀ j : Nat, j < data_set.vectors_.length →
    ∃ c : Nat, st.1.best_center_ids.getD j 0 = (((c : Nat) : Int) : ℚ) ∧
      (c < m ∨ (m = 0 ∧ c = 0))) ∧
  (0 < m → st.2.length = m0 + m ∧
    ∃ (prev : SfClusterCenters) (e : Int),
      s.cluster_centers = prev.AddClusterCenterAt (data_set.VectorAt e) ∧
      ∀ c : Nat, c < m0 + m →
        st.2.getD c 0 = sqDist (s.cluster_centers.ClusterCenter c) (data_set.VectorAt e))

/-! ## Vocabulary for the draws of the seeding routines -/

/-- The dataset indices that the `k` passes of the loop of `InitializeWithKRandomCenters`
use when `calls` calls of `rand()` have been made before: `RandomExample` of pass `i`
returns the example with index `rand() % NumExamples()`. -/
def randomCenterDraws (rand_seq : Nat → Nat) (data_set : SfDataSet) (calls : Nat) (k : Int) :
    List Int :=
  (List.range k.toNat).map (fun (i : Nat) => drawIndex rand_seq data_set (calls + i))

/-- A random sequence whose first value selects example 2 of a three-example dataset and
whose later values are `RAND_MAX`. -/
def pickLastThenMax : Nat → Nat :=
  fun n => if n = 0 then 2 else RAND_MAX

/-! ## The rounds of the sampling variants -/

/-- The body of the loop over `i` of `SamplingFarthestFirst`: the loop over the candidates
and the new center. -/
def farthestFirstRound (rand_seq : Nat → Nat) (data_set : SfDataSet) (sample_size : Int)
    (_i : Int) : Km Unit := do
  let best ← farthestFirstSample rand_seq data_set sample_size
  Km.modifyCenters (fun cc => cc.AddClusterCenterAt (data_set.VectorAt best.2))

/-- The run of `SamplingFarthestFirst` up to the start of round `i`: the code before the
loop over `i` and the rounds `1 .. i - 1`. -/
def farthestFirstUpTo (rand_seq : Nat → Nat) (k sample_size : Int) (data_set : SfDataSet)
    (i : Int) : Km Unit := do
  Km.assert (0 < k ∧ k ≤ data_set.NumExamples)
  let id ← RandInt rand_seq data_set.NumExamples
  Km.modifyCenters (fun cc => cc.AddClusterCenterAt (data_set.VectorAt id))
  Km.forEach (farthestFirstRound rand_seq data_set sample_size) (intRange 1 i)

/-- The body of the loop over `i` of `SamplingKmeansPlusPlus`: the loop over the candidates
and the new center. -/
def samplingPlusPlusRound (rand_seq : Nat → Nat) (data_set : SfDataSet) (sample_size : Int)
    (_i : Int) : Km Unit := do
  let sel ← samplingPlusPlusSample rand_seq data_set sample_size
  Km.modifyCenters (fun cc => cc.AddClusterCenterAt (data_set.VectorAt sel.1))

/-- The run of `SamplingKmeansPlusPlus` up to the start of round `i`: the code before the
loop over `i` and the rounds `1 .. i - 1`. -/
def samplingPlusPlusUpTo (rand_seq : Nat → Nat) (k sample_size : Int) (data_set : SfDataSet)
    (i : Int) : Km Unit := do
  Km.assert (0 < k ∧ k ≤ data_set.NumExamples)
  Km.assert (0 < sample_size)
  let cluster_center ← RandInt rand_seq data_set.NumExamples
  Km.modifyCenters (fun cc => cc.AddClusterCenterAt (data_set.VectorAt cluster_center))
  Km.forEach (samplingPlusPlusRound rand_seq data_set sample_size) (intRange 1 i)

/-! ## A dataset on which `OptimizedKmeansPlusPlusTI` reads past the end of its table -/

/-- The point 1 on feature 1. -/
def pointOne : SfSparseVector := SfSparseVector.ofPairs [(1, 1)]

/-- The point 2 on feature 1. -/
def pointTwo : SfSparseVector := SfSparseVector.ofPairs [(1, 2)]

/-- A dataset of `n + 1` examples: `n` copies of the point 1, then the point 2. -/
def lateOutlier (n : Nat) : SfDataSet :=
  { vectors_ := List.replicate n pointOne ++ [pointTwo] }

/-- A random sequence whose value is `RAND_MAX` at call number `c` and 0 at every other
call. -/
def maxAtCall (c : Nat) : Nat → Nat :=
  fun t => if t = c then RAND_MAX else 0

/-- The center set of dimensionality 5 that holds `m` centers at the point 1, followed by
the centers `rest`. -/
def onesThen (m : Nat) (rest : List SfWeightVector) : SfClusterCenters :=
  { cluster_centers_ := List.replicate m (centerAt pointOne) ++ rest, dimensionality_ := 5 }

/-! # Theorems -/

/-! ## The conversion of `int` to `float` -/

theorem floatShift_small : ∀ (fuel a : Nat), a < 16777216 → floatShift fuel a = 0
  | 0, _, _ => rfl
  | fuel + 1, a, h => by simp [floatShift, h]

theorem floatShift_bound : ∀ (fuel a t : Nat), a < 16777216 * 2 ^ t → t ≤ fuel →
    floatShift fuel a ≤ t ∧ a / 2 ^ floatShift fuel a < 16777216
  | 0, a, t, h, ht => by
    have : t = 0 := by omega
    subst this
    simp only [floatShift, pow_zero, Nat.div_one]
    omega
  | fuel + 1, a, t, h, ht => by
    simp only [floatShift]
    by_cases ha : a < 16777216
    · rw [if_pos ha]
      simp only [pow_zero, Nat.div_one]
      exact ⟨Nat.zero_le _, ha⟩
    · rw [if_neg ha]
      cases t with
      | zero => simp at h; omega
      | succ t =>
        have h2 : a / 2 < 16777216 * 2 ^ t := by
          rw [pow_succ] at h
          omega
        obtain ⟨h3, h4⟩ := floatShift_bound fuel (a / 2) t h2 (by omega)
        refine ⟨by omega, ?_⟩
        rw [pow_succ, mul_comm, ← Nat.div_div_eq_div_mul]
        exact h4

/-- An integer of magnitude below `2^24` is converted to `float` without rounding. -/
theorem floatOfInt_small (n : Int) (h : n.natAbs < 16777216) : floatOfInt n = (n : ℚ) := by
  unfold floatOfInt
  simp only [floatShift_small _ _ h, pow_zero, Nat.div_one, Nat.mod_one, mul_zero, mul_one]
  have h1 : ¬ ((1 : Nat) < 0 ∨ (0 = 1 ∧ n.natAbs % 2 = 1)) := by omega
  rw [if_neg h1]
  obtain ⟨a, ha | ha⟩ := Int.eq_nat_or_neg n
  · subst ha
    rw [if_neg (by omega), Int.natAbs_ofNat, Int.cast_natCast]
  · subst ha
    by_cases h0 : a = 0
    · subst h0
      simp
    · rw [if_pos (by omega), Int.natAbs_neg, Int.natAbs_ofNat, Int.cast_neg, Int.cast_natCast]

theorem floatOfInt_nonneg (n : Int) (h : 0 ≤ n) : 0 ≤ floatOfInt n := by
  unfold floatOfInt
  simp only
  rw [if_neg (by omega)]
  exact Nat.cast_nonneg _

/-- The conversion to `float` of a value that `rand()` returns is at most `2^31`. -/
theorem floatOfInt_le (r : Nat) (h : r ≤ 2147483647) :
    floatOfInt (r : Int) ≤ 2147483648 := by
  by_cases hs : r < 16777216
  · rw [floatOfInt_small _ (by simpa using hs)]
    have : (r : ℚ) ≤ 2147483647 := by exact_mod_cast h
    simp only [Int.cast_natCast]
    linarith
  · obtain ⟨h1, h2⟩ := floatShift_bound r r 7 (by norm_num; omega) (by omega)
    unfold floatOfInt
    simp only [Int.natAbs_ofNat]
    rw [if_neg (by omega)]
    have hpow : 2 ^ floatShift r r ≤ 2 ^ 7 := Nat.pow_le_pow_right (by norm_num) h1
    have hm : ∀ m : Nat, m ≤ 16777216 → m * 2 ^ floatShift r r ≤ 2147483648 := by
      intro m hm
      calc m * 2 ^ floatShift r r ≤ 16777216 * 2 ^ 7 := Nat.mul_le_mul hm hpow
        _ = 2147483648 := by norm_num
    split
    · exact_mod_cast hm _ (by omega)
    · exact_mod_cast hm _ (by omega)

/-- The divisor of `RandFloat`: `RAND_MAX` converted to `float` is `2^31`. -/
theorem floatOfInt_rand_max : floatOfInt (RAND_MAX : Int) = 2147483648 := by decide!

theorem drawFraction_nonneg (rand_seq : Nat → Nat) (t : Nat) :
    0 ≤ drawFraction rand_seq t := by
  unfold drawFraction
  rw [floatOfInt_rand_max]
  exact div_nonneg (floatOfInt_nonneg _ (Int.natCast_nonneg _)) (by norm_num)

/-- The fraction that `RandFloat()` returns is at most 1 when `rand()` is within its
range. -/
theorem drawFraction_le_one (rand_seq : Nat → Nat) (t : Nat) (h : rand_seq t ≤ RAND_MAX) :
    drawFraction rand_seq t ≤ 1 := by
  unfold drawFraction
  rw [floatOfInt_rand_max, div_le_one (by norm_num)]
  exact floatOfInt_le _ h

/-- The fraction is 1 when `rand()` returns `RAND_MAX`. -/
theorem drawFraction_max (rand_seq : Nat → Nat) (t : Nat) (h : rand_seq t = RAND_MAX) :
    drawFraction rand_seq t = 1 := by
  unfold drawFraction
  rw [h, floatOfInt_rand_max]
  norm_num

/-- Up to `16777218` the conversion of a center id to `float` gives a whole number that is
not above the id; `16777219` is the first id that the conversion rounds up. -/
theorem floatOfInt_le_self (m : Nat) (h : m ≤ 16777218) :
    ∃ c : Nat, floatOfInt (m : Int) = (((c : Nat) : Int) : ℚ) ∧ c ≤ m := by
  by_cases hs : m < 16777216
  · exact ⟨m, floatOfInt_small _ (by simpa using hs), le_refl m⟩
  · have h3 : m = 16777216 ∨ m = 16777217 ∨ m = 16777218 := by omega
    rcases h3 with h3 | h3 | h3
    · subst h3
      exact ⟨16777216, by decide!, by omega⟩
    · subst h3
      exact ⟨16777216, by decide!, by omega⟩
    · subst h3
      exact ⟨16777218, by decide!, by omega⟩

theorem floatOfInt_round_up : floatOfInt 16777219 = 16777220 := by decide!

/-! ## Distances and the closest center -/

theorem sqDistanceToCenterId_ok (cc : SfClusterCenters) (x : SfSparseVector) (i : Nat)
    (h : i < cc.Size) :
    cc.SqDistanceToCenterId (i : Int) x = .ok (sqDist (cc.ClusterCenter i) x) := by
  have h1 : (0 : Int) ≤ (i : Int) ∧ (i : Int).toNat < cc.cluster_centers_.length := by
    constructor
    · exact Int.natCast_nonneg i
    · simpa [SfClusterCenters.Size] using h
  unfold SfClusterCenters.SqDistanceToCenterId
  rw [if_pos h1]
  simp [sqDist]

theorem closestLoop_eq (cc : SfClusterCenters) (x : SfSparseVector) :
    ∀ (n s : Nat) (acc : ℚ × Int), s + n ≤ cc.Size →
      cc.closestLoop x (List.range' s n) acc
        = .ok (scanMin ((List.range' s n).map (fun i => sqDist (cc.ClusterCenter i) x)) s acc) := by
  intro n
  induction n with
  | zero => intro s acc _; simp [SfClusterCenters.closestLoop, scanMin]
  | succ n ih =>
    intro s acc h
    have hs : s < cc.Size := by omega
    simp only [List.range'_succ, SfClusterCenters.closestLoop, List.map_cons, scanMin,
      sqDistanceToCenterId_ok cc x s hs]
    split
    · exact ih (s + 1) _ (by omega)
    · exact ih (s + 1) _ (by omega)

theorem scanMin_le_acc : ∀ (ds : List ℚ) (s : Nat) (acc : ℚ × Int),
    (scanMin ds s acc).1 ≤ acc.1 := by
  intro ds
  induction ds with
  | nil => intro s acc; simp [scanMin]
  | cons d ds ih =>
    intro s acc
    simp only [scanMin]
    split
    · rename_i h
      exact le_trans (ih (s + 1) (d, (s : Int))) (le_of_lt h)
    · exact ih (s + 1) acc

theorem scanMin_le_mem : ∀ (ds : List ℚ) (s : Nat) (acc : ℚ × Int),
    ∀ d ∈ ds, (scanMin ds s acc).1 ≤ d := by
  intro ds
  induction ds with
  | nil => intro s acc d hd; simp at hd
  | cons e ds ih =>
    intro s acc d hd
    simp only [scanMin]
    rcases List.mem_cons.mp hd with h | h
    · subst h
      split
      · exact scanMin_le_acc ds (s + 1) (d, (s : Int))
      · rename_i hlt
        exact le_trans (scanMin_le_acc ds (s + 1) acc) (not_lt.mp hlt)
    · split
      · exact ih (s + 1) _ d h
      · exact ih (s + 1) _ d h

/-- Either no distance is below the initial minimum and the scan returns its initial
pair, or it returns the first position of the least distance. -/
theorem scanMin_cases : ∀ (ds : List ℚ) (s : Nat) (acc : ℚ × Int),
    (scanMin ds s acc = acc ∧ ∀ d ∈ ds, acc.1 ≤ d) ∨
    (∃ t, t < ds.length ∧ scanMin ds s acc = (ds.getD t 0, ((s + t : Nat) : Int)) ∧
      ds.getD t 0 < acc.1 ∧ ∀ u, u < t → ds.getD t 0 < ds.getD u 0) := by
  intro ds
  induction ds with
  | nil => intro s acc; left; simp [scanMin]
  | cons e ds ih =>
    intro s acc
    simp only [scanMin]
    by_cases hlt : e < acc.1
    · rw [if_pos hlt]
      rcases ih (s + 1) (e, (s : Int)) with ⟨h1, h2⟩ | ⟨t, ht, h1, h2, h3⟩
      · right
        refine ⟨0, by simp, ?_, ?_, ?_⟩
        · simpa using h1
        · simpa using hlt
        · intro u hu; omega
      · right
        refine ⟨t + 1, by simpa using ht, ?_, ?_, ?_⟩
        · rw [h1]; simp [Nat.add_assoc, Nat.add_comm 1 t]
        · simp only [List.getD_cons_succ]; exact lt_trans h2 hlt
        · intro u hu
          cases u with
          | zero => simpa using h2
          | succ u =>
            simp only [List.getD_cons_succ]
            exact h3 u (by omega)
    · rw [if_neg hlt]
      rcases ih (s + 1) acc with ⟨h1, h2⟩ | ⟨t, ht, h1, h2, h3⟩
      · left
        refine ⟨h1, ?_⟩
        intro d hd
        rcases List.mem_cons.mp hd with h | h
        · subst h; exact not_lt.mp hlt
        · exact h2 d h
      · right
        refine ⟨t + 1, by simpa using ht, ?_, ?_, ?_⟩
        · rw [h1]; simp [Nat.add_assoc, Nat.add_comm 1 t]
        · simpa using h2
        · intro u hu
          cases u with
          | zero =>
            simp only [List.getD_cons_succ, List.getD_cons_zero]
            exact lt_of_lt_of_le h2 (not_lt.mp hlt)
          | succ u =>
            simp only [List.getD_cons_succ]
            exact h3 u (by omega)

/-- The distances from `x` to the centers, in center order. -/
theorem range_map_sqDist (cc : SfClusterCenters) (x : SfSparseVector) :
    (List.range' 0 cc.Size).map (fun i => sqDist (cc.ClusterCenter i) x)
      = cc.cluster_centers_.map (fun w => sqDist w x) := by
  apply List.ext_getElem
  · simp [SfClusterCenters.Size]
  · intro n h1 h2
    simp only [List.length_map] at h2
    simp [SfClusterCenters.ClusterCenter, List.getD_eq_getElem, h2]

theorem sqDistanceToClosestCenter_eq (cc : SfClusterCenters) (x : SfSparseVector)
    (h : 0 < cc.Size) :
    cc.SqDistanceToClosestCenter x
      = .ok (scanMin (cc.cluster_centers_.map (fun w => sqDist w x)) 0 (FLT_MAX, 0)) := by
  have hne : cc.cluster_centers_.isEmpty = false := by
    cases hc : cc.cluster_centers_ with
    | nil => simp [SfClusterCenters.Size, hc] at h
    | cons a l => rfl
  unfold SfClusterCenters.SqDistanceToClosestCenter
  rw [hne]
  simp only [Bool.false_eq_true, if_false]
  rw [List.range_eq_range', closestLoop_eq cc x cc.Size 0 _ (by omega), range_map_sqDist]

theorem sqDistanceToClosestCenter_empty (cc : SfClusterCenters) (x : SfSparseVector)
    (h : cc.Size = 0) :
    cc.SqDistanceToClosestCenter x = .error .assertion := by
  have hne : cc.cluster_centers_ = [] := by
    simpa [SfClusterCenters.Size] using h
  simp [SfClusterCenters.SqDistanceToClosestCenter, hne]

theorem getD_map_sqDist (cc : SfClusterCenters) (x : SfSparseVector) (t : Nat)
    (h : t < cc.Size) :
    (cc.cluster_centers_.map (fun w => sqDist w x)).getD t 0 = sqDist (cc.ClusterCenter t) x := by
  have h2 : t < cc.cluster_centers_.length := h
  simp [SfClusterCenters.ClusterCenter, List.getD_eq_getElem, h2]

theorem clusterCenter_mem (cc : SfClusterCenters) (t : Nat) (h : t < cc.Size) :
    cc.ClusterCenter t ∈ cc.cluster_centers_ := by
  have h2 : t < cc.cluster_centers_.length := h
  simp [SfClusterCenters.ClusterCenter, List.getD_eq_getElem, h2]

/-- What `SqDistanceToClosestCenter` returns on a non-empty set: the capped minimum, and
either the sentinel pair `(FLT_MAX, 0)` when no distance is below `FLT_MAX`, or the least
distance with the lowest index that attains it. -/
theorem closest_spec (cc : SfClusterCenters) (x : SfSparseVector) (h : 0 < cc.Size) :
    ∃ (d : ℚ) (j : Nat), cc.SqDistanceToClosestCenter x = .ok (d, (j : Int)) ∧ j < cc.Size ∧
      d ≤ FLT_MAX ∧ (∀ i, i < cc.Size → d ≤ sqDist (cc.ClusterCenter i) x) ∧
      ((d = FLT_MAX ∧ j = 0) ∨
       (d < FLT_MAX ∧ d = sqDist (cc.ClusterCenter j) x ∧
        ∀ i, i < j → d < sqDist (cc.ClusterCenter i) x)) := by
  have hmin : ∀ i, i < cc.Size →
      (scanMin (cc.cluster_centers_.map (fun w => sqDist w x)) 0 (FLT_MAX, 0)).1
        ≤ sqDist (cc.ClusterCenter i) x := by
    intro i hi
    apply scanMin_le_mem
    exact List.mem_map.mpr ⟨cc.ClusterCenter i, clusterCenter_mem cc i hi, rfl⟩
  rcases scanMin_cases (cc.cluster_centers_.map (fun w => sqDist w x)) 0 (FLT_MAX, 0) with
    ⟨h1, _⟩ | ⟨t, ht, h1, h2, h3⟩
  · refine ⟨FLT_MAX, 0, ?_, h, le_refl _, ?_, Or.inl ⟨rfl, rfl⟩⟩
    · rw [sqDistanceToClosestCenter_eq cc x h, h1]; simp
    · intro i hi
      have := hmin i hi
      rw [h1] at this
      exact this
  · have ht2 : t < cc.Size := by simpa [SfClusterCenters.Size] using ht
    refine ⟨sqDist (cc.ClusterCenter t) x, t, ?_, ht2, ?_, ?_, Or.inr ⟨?_, rfl, ?_⟩⟩
    · rw [sqDistanceToClosestCenter_eq cc x h, h1, getD_map_sqDist cc x t ht2]; simp
    · rw [← getD_map_sqDist cc x t ht2]; exact le_of_lt h2
    · intro i hi
      have := hmin i hi
      rw [h1, getD_map_sqDist cc x t ht2] at this
      exact this
    · rw [← getD_map_sqDist cc x t ht2]; exact h2
    · intro i hi
      have := h3 i hi
      rw [getD_map_sqDist cc x t ht2, getD_map_sqDist cc x i (by omega)] at this
      exact this

/-- With finite distances the center `SqDistanceToClosestCenter` writes is the closest
center, lowest index on ties, and the value returned is its distance. -/
theorem closest_of_finite (cc : SfClusterCenters) (x : SfSparseVector) (h : 0 < cc.Size)
    (hfin : DistancesFinite cc x) :
    IsClosestCenter cc x (closestCenterId cc x) ∧
    cc.SqDistanceToClosestCenter x
      = .ok (sqDist (cc.ClusterCenter (closestCenterId cc x)) x, ((closestCenterId cc x : Nat) : Int)) := by
  rcases closest_spec cc x h with ⟨d, j, h1, h2, h3, h4, h5⟩
  have hid : closestCenterId cc x = j := by simp [closestCenterId, h1]
  rw [hid]
  rcases h5 with ⟨h5, h6⟩ | ⟨h5, h6, h7⟩
  · subst h6
    have h0 : sqDist (cc.ClusterCenter 0) x = d := by
      apply le_antisymm
      · rw [h5]; exact hfin _ (clusterCenter_mem cc 0 h)
      · exact h4 0 h
    refine ⟨⟨h, ?_, ?_⟩, ?_⟩
    · intro i hi; rw [h0]; exact h4 i hi
    · intro i hi; omega
    · rw [h1, h0]
  · refine ⟨⟨h2, ?_, ?_⟩, ?_⟩
    · intro i hi; rw [← h6]; exact h4 i hi
    · intro i hi; rw [← h6]; exact h7 i hi
    · rw [h1, h6]

/-! ## Coordinates of weight vectors and sparse vectors -/

theorem getD_modify_rat (f : ℚ → ℚ) (l : List ℚ) (n m : Nat) :
    (l.modify f n).getD m 0 = if n = m ∧ m < l.length then f (l.getD m 0) else l.getD m 0 := by
  simp only [List.getD_eq_getElem?_getD, List.getElem?_modify]
  by_cases hm : m < l.length
  · by_cases hn : n = m
    · simp [hn, hm, List.getElem?_eq_getElem]
    · simp [hn, hm, List.getElem?_eq_getElem]
  · have : l[m]? = none := List.getElem?_eq_none (by omega)
    simp [hm, this]

theorem valueOf_of_nat (w : SfWeightVector) (i : Nat) :
    w.ValueOf (i : Int) = w.weights_.getD i 0 := by
  simp [SfWeightVector.ValueOf]

theorem valueOf_of_ge (w : SfWeightVector) (i : Int) (h : (w.weights_.length : Int) ≤ i) :
    w.ValueOf i = 0 := by
  unfold SfWeightVector.ValueOf
  split
  · rename_i h0
    have : w.weights_.length ≤ i.toNat := by omega
    simp [List.getD_eq_getElem?_getD, List.getElem?_eq_none this]
  · rfl

theorem valueOf_of_neg (w : SfWeightVector) (i : Int) (h : i < 0) : w.ValueOf i = 0 := by
  simp [SfWeightVector.ValueOf, not_le.mpr h]

theorem length_addAt (w : SfWeightVector) (f : Int) (a : ℚ) :
    (w.addAt f a).weights_.length = w.weights_.length := by
  unfold SfWeightVector.addAt
  split <;> simp

theorem valueOf_addAt (w : SfWeightVector) (f : Int) (a : ℚ) (i : Nat) :
    (w.addAt f a).ValueOf (i : Int)
      = w.ValueOf (i : Int) + (if f = (i : Int) ∧ i < w.weights_.length then a else 0) := by
  unfold SfWeightVector.addAt
  by_cases hf : 0 ≤ f
  · rw [if_pos hf, valueOf_of_nat, valueOf_of_nat, getD_modify_rat]
    by_cases h1 : f.toNat = i ∧ i < w.weights_.length
    · have h2 : f = (i : Int) ∧ i < w.weights_.length := ⟨by omega, h1.2⟩
      rw [if_pos h1, if_pos h2]
    · have h2 : ¬ (f = (i : Int) ∧ i < w.weights_.length) := by
        intro h; apply h1; exact ⟨by omega, h.2⟩
      rw [if_neg h1, if_neg h2, add_zero]
  · rw [if_neg hf]
    have h2 : ¬ (f = (i : Int) ∧ i < w.weights_.length) := by
      intro h; apply hf; omega
    rw [if_neg h2, add_zero]

theorem addVector_fold_length (fs : List FeatureValuePair) (s : ℚ) :
    ∀ w : SfWeightVector,
      (fs.foldl (fun acc p => acc.addAt p.id_ (s * p.value_)) w).weights_.length
        = w.weights_.length := by
  induction fs with
  | nil => intro w; rfl
  | cons p ps ih => intro w; simp only [List.foldl_cons]; rw [ih, length_addAt]

theorem length_addVector (w : SfWeightVector) (x : SfSparseVector) (s : ℚ) :
    (w.AddVector x s).weights_.length = w.weights_.length :=
  addVector_fold_length x.features_ s w

theorem length_scaleBy (w : SfWeightVector) (f : ℚ) :
    (w.ScaleBy f).weights_.length = w.weights_.length := by
  simp [SfWeightVector.ScaleBy]

theorem addVector_fold_valueOf (fs : List FeatureValuePair) (s : ℚ) (i : Nat) :
    ∀ w : SfWeightVector, i < w.weights_.length →
      (fs.foldl (fun acc p => acc.addAt p.id_ (s * p.value_)) w).ValueOf (i : Int)
        = w.ValueOf (i : Int)
          + s * (fs.map (fun p => if p.id_ = (i : Int) then p.value_ else 0)).sum := by
  induction fs with
  | nil => intro w _; simp
  | cons p ps ih =>
    intro w hi
    simp only [List.foldl_cons, List.map_cons, List.sum_cons]
    rw [ih (w.addAt p.id_ (s * p.value_)) (by rw [length_addAt]; exact hi), valueOf_addAt]
    by_cases hp : p.id_ = (i : Int)
    · simp [hp, hi]; ring
    · simp [hp]

/-- The call `AddVector(x, s)` adds `s` times the coordinate of `x` to each coordinate of `w`. -/
theorem valueOf_addVector (w : SfWeightVector) (x : SfSparseVector) (s : ℚ) (i : Nat)
    (hi : i < w.weights_.length) :
    (w.AddVector x s).ValueOf (i : Int) = w.ValueOf (i : Int) + s * x.coord (i : Int) :=
  addVector_fold_valueOf x.features_ s i w hi

theorem valueOf_scaleBy (w : SfWeightVector) (f : ℚ) (i : Int) :
    (w.ScaleBy f).ValueOf i = w.ValueOf i * f := by
  unfold SfWeightVector.ValueOf SfWeightVector.ScaleBy
  split
  · simp only [List.getD_eq_getElem?_getD, List.getElem?_map]
    cases w.weights_[i.toNat]? <;> simp
  · simp

theorem valueOf_zero (d : Int) (i : Int) : (SfWeightVector.zero d).ValueOf i = 0 := by
  unfold SfWeightVector.ValueOf SfWeightVector.zero
  split
  · simp only [List.getD_eq_getElem?_getD, List.getElem?_replicate]
    split <;> rfl
  · rfl

theorem length_zero (d : Int) : (SfWeightVector.zero d).weights_.length = d.toNat := by
  simp [SfWeightVector.zero]

theorem sum_map_getD_range (l : List ℚ) (g : ℚ → ℚ) :
    (l.map g).sum = ∑ i in Finset.range l.length, g (l.getD i 0) := by
  induction l with
  | nil => simp
  | cons a l ih =>
    rw [List.map_cons, List.sum_cons, List.length_cons, Finset.sum_range_succ', ih]
    simp [add_comm]

/-- The squared norm is the sum of the squared coordinates. -/
theorem getSquaredNorm_eq (w : SfWeightVector) :
    w.GetSquaredNorm = ∑ i in Finset.range w.weights_.length, (w.ValueOf (i : Int)) ^ 2 := by
  unfold SfWeightVector.GetSquaredNorm
  rw [sum_map_getD_range]
  apply Finset.sum_congr rfl
  intro i _
  rw [valueOf_of_nat]; ring

theorem valueOf_mul_eq_sum (w : SfWeightVector) (f : Int) (v : ℚ) :
    w.ValueOf f * v
      = ∑ i in Finset.range w.weights_.length,
          w.ValueOf (i : Int) * (if f = (i : Int) then v else 0) := by
  by_cases h0 : 0 ≤ f
  · by_cases h1 : f.toNat < w.weights_.length
    · rw [Finset.sum_eq_single f.toNat]
      · have : f = ((f.toNat : Nat) : Int) := by omega
        rw [if_pos this, ← this]
      · intro b _ hb
        have : ¬ f = (b : Int) := by omega
        rw [if_neg this, mul_zero]
      · intro h; exact absurd (Finset.mem_range.mpr h1) h
    · rw [valueOf_of_ge w f (by omega), zero_mul]
      symm
      apply Finset.sum_eq_zero
      intro b hb
      have hb2 := Finset.mem_range.mp hb
      have : ¬ f = (b : Int) := by omega
      rw [if_neg this, mul_zero]
  · rw [valueOf_of_neg w f (by omega), zero_mul]
    symm
    apply Finset.sum_eq_zero
    intro b _
    have : ¬ f = (b : Int) := by omega
    rw [if_neg this, mul_zero]

theorem innerProduct_fold (w : SfWeightVector) (fs : List FeatureValuePair) :
    (fs.map (fun p => w.ValueOf p.id_ * p.value_)).sum
      = ∑ i in Finset.range w.weights_.length,
          w.ValueOf (i : Int)
            * (fs.map (fun p => if p.id_ = (i : Int) then p.value_ else 0)).sum := by
  induction fs with
  | nil => simp
  | cons p ps ih =>
    simp only [List.map_cons, List.sum_cons]
    rw [ih, valueOf_mul_eq_sum, ← Finset.sum_add_distrib]
    apply Finset.sum_congr rfl
    intro i _
    ring

/-- The inner product is the sum of the products of the coordinates. -/
theorem innerProduct_eq (w : SfWeightVector) (x : SfSparseVector) (s : ℚ) :
    w.InnerProduct x s
      = s * ∑ i in Finset.range w.weights_.length, w.ValueOf (i : Int) * x.coord (i : Int) := by
  unfold SfWeightVector.InnerProduct
  rw [innerProduct_fold]
  rfl

theorem sum_range_valueOf_extend (w : SfWeightVector) (d : Nat) (h : w.weights_.length ≤ d)
    (g : Nat → ℚ → ℚ) (hg : ∀ i, g i 0 = 0) :
    ∑ i in Finset.range w.weights_.length, g i (w.ValueOf (i : Int))
      = ∑ i in Finset.range d, g i (w.ValueOf (i : Int)) := by
  apply Finset.sum_subset
  · intro i hi
    exact Finset.mem_range.mpr (lt_of_lt_of_le (Finset.mem_range.mp hi) h)
  · intro i _ hi
    have : w.weights_.length ≤ i := by
      by_contra hc
      exact hi (Finset.mem_range.mpr (by omega))
    rw [valueOf_of_ge w (i : Int) (by exact_mod_cast this), hg]

/-- The value `SqDistanceToCenterId` computes, for any bound `d` on the dimensions of the
center: the squared Euclidean distance over the coordinates below `d` plus the excess of
the cached norm. -/
theorem sqDist_eq (w : SfWeightVector) (x : SfSparseVector) (d : Nat)
    (h : w.weights_.length ≤ d) :
    sqDist w x = euclidSq w x d + normExcess x d := by
  unfold sqDist euclidSq normExcess SfSparseVector.GetSquaredNorm
  rw [innerProduct_eq, getSquaredNorm_eq,
    sum_range_valueOf_extend w d h (fun i v => v * x.coord (i : Int)) (by intro i; ring),
    sum_range_valueOf_extend w d h (fun _ v => v ^ 2) (by intro i; ring)]
  have : ∑ i in Finset.range d, (x.coord (i : Int) - w.ValueOf (i : Int)) ^ 2
      = ∑ i in Finset.range d, (x.coord (i : Int)) ^ 2
        - 2 * ∑ i in Finset.range d, w.ValueOf (i : Int) * x.coord (i : Int)
        + ∑ i in Finset.range d, (w.ValueOf (i : Int)) ^ 2 := by
    rw [Finset.mul_sum, ← Finset.sum_sub_distrib, ← Finset.sum_add_distrib]
    apply Finset.sum_congr rfl
    intro i _
    ring
  rw [this]
  ring

theorem featSum_eq_zero_of_not_mem (fs : List FeatureValuePair) (i : Int)
    (h : ∀ q ∈ fs, q.id_ ≠ i) :
    (fs.map (fun p => if p.id_ = i then p.value_ else 0)).sum = 0 := by
  induction fs with
  | nil => simp
  | cons p ps ih =>
    simp only [List.map_cons, List.sum_cons]
    rw [if_neg (h p (List.mem_cons_self p ps)), ih (fun q hq => h q (List.mem_cons_of_mem p hq)),
      add_zero]

theorem sum_range_ite_eq (d : Nat) (f : Int) (v : ℚ) :
    ∑ i in Finset.range d, (if f = (i : Int) then v else 0)
      = if 0 ≤ f ∧ f < (d : Int) then v else 0 := by
  by_cases h : 0 ≤ f ∧ f < (d : Int)
  · rw [if_pos h, Finset.sum_eq_single f.toNat]
    · rw [if_pos (by omega)]
    · intro b _ hb
      rw [if_neg (by omega)]
    · intro hn
      exact absurd (Finset.mem_range.mpr (by omega)) hn
  · rw [if_neg h]
    apply Finset.sum_eq_zero
    intro b hb
    have := Finset.mem_range.mp hb
    rw [if_neg (by omega)]

/-- With pairwise distinct feature ids, the squared coordinates below `d` add up to the
squared values of the entries whose id lies in `[0, d)`. -/
theorem sum_sq_coord (fs : List FeatureValuePair) (d : Nat)
    (h : fs.Pairwise (fun p q => p.id_ < q.id_)) :
    ∑ i in Finset.range d, ((fs.map (fun p => if p.id_ = (i : Int) then p.value_ else 0)).sum) ^ 2
      = (fs.map (fun p => if 0 ≤ p.id_ ∧ p.id_ < (d : Int) then p.value_ * p.value_ else 0)).sum := by
  induction fs with
  | nil => simp
  | cons p ps ih =>
    have hp := List.pairwise_cons.mp h
    simp only [List.map_cons, List.sum_cons]
    rw [← ih hp.2, ← sum_range_ite_eq d p.id_ (p.value_ * p.value_), ← Finset.sum_add_distrib]
    apply Finset.sum_congr rfl
    intro i _
    by_cases hi : p.id_ = (i : Int)
    · rw [if_pos hi, if_pos hi, featSum_eq_zero_of_not_mem ps (i : Int)]
      · ring
      · intro q hq
        have := hp.1 q hq
        omega
    · rw [if_neg hi, if_neg hi]; ring

theorem normExcess_nonneg (x : SfSparseVector) (d : Nat) (h : x.WellFormed) :
    0 ≤ normExcess x d := by
  unfold normExcess SfSparseVector.coord
  rw [sum_sq_coord x.features_ d h.1, h.2, sub_nonneg]
  apply List.sum_le_sum
  intro p _
  split
  · exact le_refl _
  · exact mul_self_nonneg _

theorem normExcess_eq_zero (x : SfSparseVector) (d : Nat) (h : x.WellFormed)
    (hd : x.FeaturesBelow d) : normExcess x d = 0 := by
  unfold normExcess SfSparseVector.coord
  rw [sum_sq_coord x.features_ d h.1, h.2, sub_eq_zero]
  apply congrArg
  apply List.map_congr_left
  intro p hp
  rw [if_pos (hd p hp)]

theorem euclidSq_nonneg (w : SfWeightVector) (x : SfSparseVector) (d : Nat) :
    0 ≤ euclidSq w x d := by
  unfold euclidSq
  apply Finset.sum_nonneg
  intro i _
  exact sq_nonneg _

theorem sqDist_nonneg (w : SfWeightVector) (x : SfSparseVector) (h : x.WellFormed) :
    0 ≤ sqDist w x := by
  rw [sqDist_eq w x w.weights_.length (le_refl _)]
  exact add_nonneg (euclidSq_nonneg _ _ _) (normExcess_nonneg _ _ h)

/-! ## One batch step (`OneBatchKmeansOptimization`) -/

theorem getD_modify_gen {α : Type} (f : α → α) (l : List α) (n m : Nat) (d : α) :
    (l.modify f n).getD m d = if n = m ∧ m < l.length then f (l.getD m d) else l.getD m d := by
  simp only [List.getD_eq_getElem?_getD, List.getElem?_modify]
  by_cases hm : m < l.length
  · by_cases hn : n = m
    · simp [hn, hm, List.getElem?_eq_getElem]
    · simp [hn, hm, List.getElem?_eq_getElem]
  · have : l[m]? = none := List.getElem?_eq_none (by omega)
    simp [hm, this]

theorem clusterCenter_modifyCenter (cc : SfClusterCenters) (j i : Nat)
    (f : SfWeightVector → SfWeightVector) :
    (cc.modifyCenter j f).ClusterCenter i
      = if j = i ∧ i < cc.Size then f (cc.ClusterCenter i) else cc.ClusterCenter i := by
  simp only [SfClusterCenters.modifyCenter, SfClusterCenters.ClusterCenter,
    SfClusterCenters.Size]
  exact getD_modify_gen f cc.cluster_centers_ j i _

theorem size_modifyCenter (cc : SfClusterCenters) (j : Nat)
    (f : SfWeightVector → SfWeightVector) : (cc.modifyCenter j f).Size = cc.Size := by
  simp [SfClusterCenters.modifyCenter, SfClusterCenters.Size]

theorem dimensionality_modifyCenter (cc : SfClusterCenters) (j : Nat)
    (f : SfWeightVector → SfWeightVector) :
    (cc.modifyCenter j f).dimensionality_ = cc.dimensionality_ := rfl

theorem closest_ok (cc : SfClusterCenters) (x : SfSparseVector) (h : 0 < cc.Size) :
    cc.SqDistanceToClosestCenter x
      = .ok (closestDistance cc x, ((closestCenterId cc x : Nat) : Int)) ∧
    closestCenterId cc x < cc.Size := by
  rcases closest_spec cc x h with ⟨d, j, h1, h2, _⟩
  simp [closestDistance, closestCenterId, h1, h2]

theorem batchAccumulate_spec (cc : SfClusterCenters) (data_set : SfDataSet)
    (hne : 0 < cc.Size) :
    ∀ (js : List Int) (acc : SfClusterCenters × List Int),
      ∃ acc1, batchAccumulate cc data_set js acc = .ok acc1 ∧
        acc1.1.Size = acc.1.Size ∧ acc1.1.dimensionality_ = acc.1.dimensionality_ ∧
        acc1.2.length = acc.2.length ∧
        (∀ i, i < acc.1.Size →
          acc1.1.ClusterCenter i
            = addAll (acc.1.ClusterCenter i) (assignedOf cc (js.map data_set.VectorAt) i)) ∧
        (∀ i, i < acc.2.length →
          acc1.2.getD i 0
            = acc.2.getD i 0 + ((assignedOf cc (js.map data_set.VectorAt) i).length : Int)) := by
  intro js
  induction js with
  | nil =>
    intro acc
    exact ⟨acc, rfl, rfl, rfl, rfl, by intro i _; rfl, by intro i _; simp [assignedOf]⟩
  | cons j js ih =>
    intro acc
    obtain ⟨hok, _⟩ := closest_ok cc (data_set.VectorAt j) hne
    simp only [batchAccumulate, hok]
    obtain ⟨acc1, h1, h2, h3, h4, h5, h6⟩ := ih
      (acc.1.modifyCenter (closestCenterId cc (data_set.VectorAt j))
          (fun w => w.AddVector (data_set.VectorAt j) 1),
       acc.2.modify (fun c => c + 1) (closestCenterId cc (data_set.VectorAt j)))
    simp only [Int.toNat_ofNat]
    refine ⟨acc1, h1, ?_, ?_, ?_, ?_, ?_⟩
    · rw [h2, size_modifyCenter]
    · rw [h3, dimensionality_modifyCenter]
    · rw [h4, List.length_modify]
    · intro i hi
      rw [h5 i (by rw [size_modifyCenter]; exact hi), clusterCenter_modifyCenter]
      simp only [List.map_cons, assignedOf, List.filter_cons]
      by_cases hc : closestCenterId cc (data_set.VectorAt j) = i
      · simp [hc, hi, addAll]
      · simp [hc, addAll]
    · intro i hi
      rw [h6 i (by rw [List.length_modify]; exact hi), getD_modify_gen]
      simp only [List.map_cons, assignedOf, List.filter_cons]
      by_cases hc : closestCenterId cc (data_set.VectorAt j) = i
      · simp [hc, hi]; ring
      · simp [hc]

theorem batchScale_size (counts : List Int) :
    ∀ (is : List Nat) (nc : SfClusterCenters),
      (batchScale counts nc is).Size = nc.Size ∧
      (batchScale counts nc is).dimensionality_ = nc.dimensionality_ := by
  intro is
  induction is with
  | nil => intro nc; exact ⟨rfl, rfl⟩
  | cons i is ih =>
    intro nc
    simp only [batchScale]
    split
    · rw [(ih _).1, (ih _).2, size_modifyCenter, dimensionality_modifyCenter]
      exact ⟨rfl, rfl⟩
    · exact ih nc

theorem batchScale_spec (counts : List Int) :
    ∀ (is : List Nat) (nc : SfClusterCenters), is.Nodup → ∀ i, i < nc.Size →
      (batchScale counts nc is).ClusterCenter i
        = if i ∈ is ∧ counts.getD i 0 > 0 then
            (nc.ClusterCenter i).ScaleBy (1 / ((counts.getD i 0 : Int) : ℚ))
          else nc.ClusterCenter i := by
  intro is
  induction is with
  | nil => intro nc _ i _; simp [batchScale]
  | cons a is ih =>
    intro nc hnd i hi
    have hnd2 := List.nodup_cons.mp hnd
    simp only [batchScale]
    by_cases hpos : counts.getD a 0 > 0
    · rw [if_pos hpos, ih _ hnd2.2 i (by rw [size_modifyCenter]; exact hi),
        clusterCenter_modifyCenter]
      by_cases hai : a = i
      · subst hai
        have : ¬ (a ∈ is ∧ counts.getD a 0 > 0) := fun h => hnd2.1 h.1
        rw [if_neg this, if_pos ⟨rfl, hi⟩, if_pos ⟨List.mem_cons_self _ _, hpos⟩]
      · have hne : ¬ (a = i ∧ i < nc.Size) := fun h => hai h.1
        rw [if_neg hne]
        have : (i ∈ a :: is ∧ counts.getD i 0 > 0) ↔ (i ∈ is ∧ counts.getD i 0 > 0) := by
          simp [List.mem_cons, Ne.symm hai]
        simp only [this]
    · rw [if_neg hpos, ih _ hnd2.2 i hi]
      by_cases hai : a = i
      · subst hai
        have h1 : ¬ (a ∈ is ∧ counts.getD a 0 > 0) := fun h => hpos h.2
        have h2 : ¬ (a ∈ a :: is ∧ counts.getD a 0 > 0) := fun h => hpos h.2
        rw [if_neg h1, if_neg h2]
      · have : (i ∈ a :: is ∧ counts.getD i 0 > 0) ↔ (i ∈ is ∧ counts.getD i 0 > 0) := by
          simp [List.mem_cons, Ne.symm hai]
        simp only [this]

theorem foldl_addClusterCenter_centers (g : Nat → SfWeightVector) :
    ∀ (is : List Nat) (c0 : SfClusterCenters),
      (is.foldl (fun c i => c.AddClusterCenter (g i)) c0).cluster_centers_
        = c0.cluster_centers_ ++ is.map g := by
  intro is
  induction is with
  | nil => intro c0; simp
  | cons i is ih =>
    intro c0
    simp only [List.foldl_cons, List.map_cons]
    rw [ih]
    simp [SfClusterCenters.AddClusterCenter]

theorem foldl_addClusterCenter_dim (g : Nat → SfWeightVector) (D : Int)
    (hg : ∀ i, (g i).GetDimensions ≤ D) :
    ∀ (is : List Nat) (c0 : SfClusterCenters), c0.dimensionality_ = D →
      (is.foldl (fun c i => c.AddClusterCenter (g i)) c0).dimensionality_ = D := by
  intro is
  induction is with
  | nil => intro c0 h; simpa using h
  | cons i is ih =>
    intro c0 h
    simp only [List.foldl_cons]
    apply ih
    simp only [SfClusterCenters.AddClusterCenter]
    rw [h, if_neg (not_lt.mpr (hg i))]

theorem range_map_clusterCenter (cc : SfClusterCenters) :
    (List.range cc.Size).map cc.ClusterCenter = cc.cluster_centers_ := by
  apply List.ext_getElem
  · simp [SfClusterCenters.Size]
  · intro n h1 h2
    simp [SfClusterCenters.ClusterCenter, List.getD_eq_getElem, h2]

theorem intRange_map_vectorAt (data_set : SfDataSet) :
    (intRange 0 data_set.NumExamples).map data_set.VectorAt = data_set.vectors_ := by
  unfold intRange
  rw [List.map_map]
  apply List.ext_getElem
  · simp [SfDataSet.NumExamples]
  · intro n h1 h2
    simp only [List.getElem_map, List.getElem_range, Function.comp]
    simp [SfDataSet.VectorAt, List.getD_eq_getElem, h2]

theorem length_addAll (xs : List SfSparseVector) :
    ∀ w : SfWeightVector, (addAll w xs).weights_.length = w.weights_.length := by
  induction xs with
  | nil => intro w; rfl
  | cons x xs ih =>
    intro w
    simp only [addAll, List.foldl_cons]
    have := ih (w.AddVector x 1)
    simp only [addAll] at this
    rw [this, length_addVector]

theorem length_batchCenter (D : Int) (xs : List SfSparseVector) :
    (batchCenter D xs).weights_.length = D.toNat := by
  unfold batchCenter
  split
  · rw [length_scaleBy, length_addAll, length_zero]
  · rw [length_zero]

theorem clusterCenter_ge (cc : SfClusterCenters) (i : Nat) (h : cc.Size ≤ i) :
    cc.ClusterCenter i = { weights_ := [] } := by
  have h2 : cc.cluster_centers_.length ≤ i := h
  simp [SfClusterCenters.ClusterCenter, List.getD_eq_getElem?_getD, List.getElem?_eq_none h2]

theorem clusterCenter_congr (c1 c2 : SfClusterCenters) (i : Nat)
    (h : c1.cluster_centers_ = c2.cluster_centers_) : c1.ClusterCenter i = c2.ClusterCenter i := by
  simp only [SfClusterCenters.ClusterCenter, h]

/-- The result of a batch step: the same number of centers, the same dimensionality
bound, and every center recomputed from the examples assigned to it. -/
theorem oneBatch_spec (data_set : SfDataSet) (cc : SfClusterCenters) (hne : 0 < cc.Size)
    (hdim : 0 ≤ cc.dimensionality_) :
    ∃ cc1, OneBatchKmeansOptimization data_set cc = .ok cc1 ∧ cc1.Size = cc.Size ∧
      cc1.dimensionality_ = cc.dimensionality_ ∧
      ∀ i, i < cc.Size →
        cc1.ClusterCenter i = batchCenter cc.dimensionality_ (assignedTo cc data_set i) := by
  unfold OneBatchKmeansOptimization
  rw [if_pos hne]
  have hmk : SfClusterCenters.mk2 cc.GetDimensionality (cc.Size : Int)
      = .ok { cluster_centers_ :=
                List.replicate cc.Size (SfWeightVector.zero cc.dimensionality_),
              dimensionality_ := cc.dimensionality_ } := by
    simp [SfClusterCenters.mk2, SfClusterCenters.GetDimensionality, hdim]
  rw [hmk]
  obtain ⟨acc1, h1, h2, h3, h4, h5, h6⟩ := batchAccumulate_spec cc data_set hne
    (intRange 0 data_set.NumExamples)
    ({ cluster_centers_ := List.replicate cc.Size (SfWeightVector.zero cc.dimensionality_),
       dimensionality_ := cc.dimensionality_ }, List.replicate cc.Size 0)
  simp only [h1]
  rw [intRange_map_vectorAt] at h5 h6
  have hs0 : ({ cluster_centers_ :=
                  List.replicate cc.Size (SfWeightVector.zero cc.dimensionality_),
                dimensionality_ := cc.dimensionality_ } : SfClusterCenters).Size = cc.Size := by
    simp [SfClusterCenters.Size]
  rw [hs0] at h2
  simp only [hs0] at h5
  simp only [List.length_replicate] at h4 h6
  have hc0 : ∀ i, i < cc.Size →
      ({ cluster_centers_ := List.replicate cc.Size (SfWeightVector.zero cc.dimensionality_),
         dimensionality_ := cc.dimensionality_ } : SfClusterCenters).ClusterCenter i
        = SfWeightVector.zero cc.dimensionality_ := by
    intro i hi
    simp [SfClusterCenters.ClusterCenter, List.getD_eq_getElem?_getD, List.getElem?_replicate, hi]
  have hn0 : ∀ i, i < cc.Size → (List.replicate cc.Size (0 : Int)).getD i 0 = 0 := by
    intro i hi
    simp [List.getD_eq_getElem?_getD, List.getElem?_replicate, hi]
  have hsz := (batchScale_size acc1.2 (List.range cc.Size) acc1.1)
  have hcenter : ∀ i, i < cc.Size →
      (batchScale acc1.2 acc1.1 (List.range cc.Size)).ClusterCenter i
        = batchCenter cc.dimensionality_ (assignedTo cc data_set i) := by
    intro i hi
    rw [batchScale_spec acc1.2 (List.range cc.Size) acc1.1 (List.nodup_range _) i
      (by rw [h2]; exact hi), h5 i hi, h6 i hi, hc0 i hi, hn0 i hi, zero_add]
    unfold batchCenter assignedTo
    by_cases hpos : 0 < ((assignedOf cc data_set.vectors_ i).length : Int)
    · rw [if_pos ⟨List.mem_range.mpr hi, hpos⟩, if_pos hpos]
    · rw [if_neg (fun h => hpos h.2), if_neg hpos]
      have : assignedOf cc data_set.vectors_ i = [] := by
        apply List.eq_nil_of_length_eq_zero
        omega
      rw [this]; rfl
  have hsize : (batchScale acc1.2 acc1.1 (List.range cc.Size)).Size = cc.Size := by
    rw [hsz.1, h2]
  refine ⟨_, rfl, ?_, ?_, ?_⟩
  · simp only [SfClusterCenters.Size, foldl_addClusterCenter_centers, List.length_append,
      List.length_map, List.length_range, SfClusterCenters.Clear, List.length_nil, zero_add]
    exact hsize
  · apply foldl_addClusterCenter_dim
    · intro i
      by_cases hi : i < cc.Size
      · rw [hcenter i hi]
        simp only [SfWeightVector.GetDimensions, length_batchCenter]
        omega
      · rw [clusterCenter_ge _ i (by rw [hsize]; omega)]
        simpa [SfWeightVector.GetDimensions] using hdim
    · rfl
  · intro i hi
    rw [← hcenter i hi]
    have hcs := foldl_addClusterCenter_centers
      (batchScale acc1.2 acc1.1 (List.range cc.Size)).ClusterCenter
      (List.range (batchScale acc1.2 acc1.1 (List.range cc.Size)).Size) cc.Clear
    rw [range_map_clusterCenter] at hcs
    simp only [SfClusterCenters.Clear, List.nil_append] at hcs
    exact clusterCenter_congr _ _ i hcs

theorem valueOf_addAll (xs : List SfSparseVector) (c : Nat) :
    ∀ w : SfWeightVector, c < w.weights_.length →
      (addAll w xs).ValueOf (c : Int)
        = w.ValueOf (c : Int) + (xs.map (fun x => x.coord (c : Int))).sum := by
  induction xs with
  | nil => intro w _; simp [addAll]
  | cons x xs ih =>
    intro w hc
    have h1 := ih (w.AddVector x 1) (by rw [length_addVector]; exact hc)
    simp only [addAll, List.foldl_cons, List.map_cons, List.sum_cons] at h1 ⊢
    rw [h1, valueOf_addVector w x 1 c hc]
    ring

/-- The coordinates of a recomputed center below the dimensionality bound: the mean of
the coordinates of the examples assigned to it. -/
theorem valueOf_batchCenter (D : Int) (xs : List SfSparseVector) (c : Nat)
    (hc : c < D.toNat) (hne : xs ≠ []) :
    (batchCenter D xs).ValueOf (c : Int)
      = (xs.map (fun x => x.coord (c : Int))).sum / (xs.length : ℚ) := by
  have hpos : 0 < (xs.length : Int) := by
    have := List.length_pos.mpr hne
    omega
  unfold batchCenter
  rw [if_pos hpos, valueOf_scaleBy, valueOf_addAll xs c _ (by rw [length_zero]; exact hc),
    valueOf_zero, zero_add]
  simp [div_eq_mul_inv]

theorem coord_eq_zero_of_featuresBelow (x : SfSparseVector) (d : Nat) (c : Int)
    (h : x.FeaturesBelow d) (hc : c < 0 ∨ (d : Int) ≤ c) : x.coord c = 0 := by
  unfold SfSparseVector.coord
  apply featSum_eq_zero_of_not_mem
  intro q hq
  have := h q hq
  omega

theorem valueOf_batchCenter_int (D : Int) (xs : List SfSparseVector) (c : Int)
    (hD : 0 ≤ D) (hfeat : ∀ x ∈ xs, x.FeaturesBelow D.toNat) (hne : xs ≠ []) :
    (batchCenter D xs).ValueOf c
      = (xs.map (fun x => x.coord c)).sum / (xs.length : ℚ) := by
  by_cases hc : 0 ≤ c ∧ c < D
  · have h1 : c = ((c.toNat : Nat) : Int) := by omega
    rw [h1]
    exact valueOf_batchCenter D xs c.toNat (by omega) hne
  · have hout : c < 0 ∨ ((D.toNat : Nat) : Int) ≤ c := by omega
    have hz : (xs.map (fun x => x.coord c)).sum = 0 := by
      apply List.sum_eq_zero
      intro a ha
      obtain ⟨x, hx, rfl⟩ := List.mem_map.mp ha
      exact coord_eq_zero_of_featuresBelow x D.toNat c (hfeat x hx) hout
    rw [hz, zero_div]
    rcases hout with h | h
    · exact valueOf_of_neg _ c h
    · apply valueOf_of_ge
      rw [length_batchCenter]
      exact h

/-! ## Monotonicity of the batch step -/

theorem list_sum_sq_sub (l : List ℚ) (w : ℚ) :
    (l.map (fun a => (a - w) ^ 2)).sum
      = (l.map (fun a => a ^ 2)).sum - 2 * w * l.sum + (l.length : ℚ) * w ^ 2 := by
  induction l with
  | nil => simp
  | cons a l ih =>
    simp only [List.map_cons, List.sum_cons, List.length_cons, Nat.cast_succ]
    rw [ih]
    ring

/-- The mean minimises the sum of the squared deviations. -/
theorem mean_minimises (l : List ℚ) (w : ℚ) (hne : l ≠ []) :
    (l.map (fun a => (a - l.sum / (l.length : ℚ)) ^ 2)).sum
      ≤ (l.map (fun a => (a - w) ^ 2)).sum := by
  have hn : (0 : ℚ) < (l.length : ℚ) := by
    have := List.length_pos.mpr hne
    exact_mod_cast this
  rw [list_sum_sq_sub, list_sum_sq_sub]
  have key : (l.length : ℚ) * w ^ 2 - 2 * w * l.sum
      - ((l.length : ℚ) * (l.sum / (l.length : ℚ)) ^ 2 - 2 * (l.sum / (l.length : ℚ)) * l.sum)
      = (l.length : ℚ) * (w - l.sum / (l.length : ℚ)) ^ 2 := by
    field_simp
    ring
  have hnn : 0 ≤ (l.length : ℚ) * (w - l.sum / (l.length : ℚ)) ^ 2 :=
    mul_nonneg (le_of_lt hn) (sq_nonneg _)
  linarith

theorem list_sum_finset_sum_comm {α : Type} (xs : List α) (d : Nat) (f : α → Nat → ℚ) :
    (xs.map (fun x => ∑ c in Finset.range d, f x c)).sum
      = ∑ c in Finset.range d, (xs.map (fun x => f x c)).sum := by
  induction xs with
  | nil => simp
  | cons x xs ih =>
    simp only [List.map_cons, List.sum_cons]
    rw [ih, Finset.sum_add_distrib]

theorem list_sum_regroup {α : Type} (l : List α) (a : α → Nat) (k : Nat) (g : Nat → α → ℚ)
    (h : ∀ x ∈ l, a x < k) :
    (l.map (fun x => g (a x) x)).sum
      = ∑ i in Finset.range k, ((l.filter (fun x => decide (a x = i))).map (g i)).sum := by
  induction l with
  | nil => simp
  | cons x l ih =>
    simp only [List.map_cons, List.sum_cons]
    rw [ih (fun y hy => h y (List.mem_cons_of_mem x hy))]
    have hx : (g (a x) x) = ∑ i in Finset.range k, (if a x = i then g i x else 0) := by
      rw [Finset.sum_ite_eq]
      rw [if_pos (Finset.mem_range.mpr (h x (List.mem_cons_self x l)))]
    rw [hx, ← Finset.sum_add_distrib]
    apply Finset.sum_congr rfl
    intro i _
    simp only [List.filter_cons]
    by_cases hi : a x = i
    · simp [hi]
    · simp [hi]

/-- Within one cluster, the recomputed center is at least as good as any center of at
most `D` dimensions. -/
theorem batchCenter_le (D : Int) (xs : List SfSparseVector) (w : SfWeightVector)
    (hw : w.weights_.length ≤ D.toNat) :
    (xs.map (fun x => sqDist (batchCenter D xs) x)).sum ≤ (xs.map (fun x => sqDist w x)).sum := by
  by_cases hne : xs = []
  · rw [hne]; simp
  have e1 : ∀ v : SfWeightVector, v.weights_.length ≤ D.toNat →
      (xs.map (fun x => sqDist v x)).sum
        = (∑ c in Finset.range D.toNat,
            (xs.map (fun x => (x.coord (c : Int) - v.ValueOf (c : Int)) ^ 2)).sum)
          + (xs.map (fun x => normExcess x D.toNat)).sum := by
    intro v hv
    rw [← list_sum_finset_sum_comm, ← List.sum_map_add]
    apply congrArg
    apply List.map_congr_left
    intro x _
    rw [sqDist_eq v x D.toNat hv]
    rfl
  rw [e1 w hw, e1 (batchCenter D xs) (le_of_eq (length_batchCenter D xs))]
  apply add_le_add_right
  apply Finset.sum_le_sum
  intro c hc
  have hc2 := Finset.mem_range.mp hc
  rw [valueOf_batchCenter D xs c hc2 hne]
  have hmap : ∀ t : ℚ, (xs.map (fun x => (x.coord (c : Int) - t) ^ 2)).sum
      = ((xs.map (fun x => x.coord (c : Int))).map (fun a => (a - t) ^ 2)).sum := by
    intro t
    rw [List.map_map]
    rfl
  rw [hmap, hmap]
  have hlen : ((xs.map (fun x => x.coord (c : Int))).length : ℚ) = (xs.length : ℚ) := by
    simp
  rw [← hlen]
  apply mean_minimises
  simpa using hne

theorem closestDistance_eq_of_lt (cc : SfClusterCenters) (x : SfSparseVector)
    (hne : 0 < cc.Size) (hlt : closestDistance cc x < FLT_MAX) :
    closestDistance cc x = sqDist (cc.ClusterCenter (closestCenterId cc x)) x := by
  rcases closest_spec cc x hne with ⟨d, j, h1, _, _, _, h5⟩
  have hd : closestDistance cc x = d := by simp [closestDistance, h1]
  have hj : closestCenterId cc x = j := by simp [closestCenterId, h1]
  rw [hd] at hlt ⊢
  rw [hj]
  rcases h5 with ⟨h5, _⟩ | ⟨_, h6, _⟩
  · exact absurd h5 (ne_of_lt hlt)
  · exact h6

theorem closestDistance_le (cc : SfClusterCenters) (x : SfSparseVector)
    (hne : 0 < cc.Size) (i : Nat) (hi : i < cc.Size) :
    closestDistance cc x ≤ sqDist (cc.ClusterCenter i) x := by
  rcases closest_spec cc x hne with ⟨d, j, h1, _, _, h4, _⟩
  have hd : closestDistance cc x = d := by simp [closestDistance, h1]
  rw [hd]
  exact h4 i hi

theorem closestDistance_le_max (cc : SfClusterCenters) (x : SfSparseVector)
    (hne : 0 < cc.Size) : closestDistance cc x ≤ FLT_MAX := by
  rcases closest_spec cc x hne with ⟨d, j, h1, _, h3, _, _⟩
  have hd : closestDistance cc x = d := by simp [closestDistance, h1]
  rw [hd]
  exact h3

theorem flt_max_pos : (0 : ℚ) < FLT_MAX := by
  unfold FLT_MAX
  norm_num

theorem closestDistance_nonneg (cc : SfClusterCenters) (x : SfSparseVector)
    (hne : 0 < cc.Size) (hwf : x.WellFormed) : 0 ≤ closestDistance cc x := by
  rcases closest_spec cc x hne with ⟨d, j, h1, _, _, _, h5⟩
  have hd : closestDistance cc x = d := by simp [closestDistance, h1]
  rw [hd]
  rcases h5 with ⟨h5, _⟩ | ⟨_, h6, _⟩
  · rw [h5]; exact le_of_lt flt_max_pos
  · rw [h6]; exact sqDist_nonneg _ _ hwf

theorem objectiveLoop_eq (cc : SfClusterCenters) (data_set : SfDataSet) (hne : 0 < cc.Size) :
    ∀ (js : List Int) (t : ℚ),
      objectiveLoop cc data_set js t
        = .ok (t + ((js.map data_set.VectorAt).map (closestDistance cc)).sum) := by
  intro js
  induction js with
  | nil => intro t; simp [objectiveLoop]
  | cons j js ih =>
    intro t
    simp only [objectiveLoop, (closest_ok cc (data_set.VectorAt j) hne).1, ih, List.map_cons,
      List.sum_cons]
    rw [add_assoc]

/-- On a non-empty center set the objective is the sum of the distances that
`SqDistanceToClosestCenter` returns for the examples. -/
theorem kmeansObjective_eq (data_set : SfDataSet) (cc : SfClusterCenters) (hne : 0 < cc.Size) :
    KmeansObjective data_set cc = .ok ((data_set.vectors_.map (closestDistance cc)).sum) := by
  unfold KmeansObjective
  rw [if_neg (by omega), objectiveLoop_eq cc data_set hne, intRange_map_vectorAt, zero_add]

theorem mem_centers_iff (cc : SfClusterCenters) (w : SfWeightVector) :
    w ∈ cc.cluster_centers_ ↔ ∃ i, i < cc.Size ∧ cc.ClusterCenter i = w := by
  constructor
  · intro h
    obtain ⟨i, hi, he⟩ := List.mem_iff_getElem.mp h
    refine ⟨i, hi, ?_⟩
    simp [SfClusterCenters.ClusterCenter, List.getD_eq_getElem, hi, he]
  · rintro ⟨i, hi, rfl⟩
    exact clusterCenter_mem cc i hi

/-- One batch step does not increase the sum of the closest distances, provided every
example has a center below the sentinel `FLT_MAX` before the step. -/
theorem oneBatch_objective_le (data_set : SfDataSet) (cc : SfClusterCenters)
    (hv : cc.Valid) (hne : 0 < cc.Size)
    (hlt : ∀ x ∈ data_set.vectors_, closestDistance cc x < FLT_MAX) :
    ∃ cc1, OneBatchKmeansOptimization data_set cc = .ok cc1 ∧ cc1.Valid ∧ 0 < cc1.Size ∧
      (data_set.vectors_.map (closestDistance cc1)).sum
        ≤ (data_set.vectors_.map (closestDistance cc)).sum := by
  obtain ⟨cc1, h1, h2, h3, h4⟩ := oneBatch_spec data_set cc hne hv.1
  have hne1 : 0 < cc1.Size := by rw [h2]; exact hne
  refine ⟨cc1, h1, ?_, hne1, ?_⟩
  · refine ⟨by rw [h3]; exact hv.1, ?_⟩
    intro w hw
    obtain ⟨i, hi, rfl⟩ := (mem_centers_iff cc1 w).mp hw
    rw [h4 i (by rw [← h2]; exact hi), h3]
    simp only [SfWeightVector.GetDimensions, length_batchCenter]
    have := hv.1
    omega
  · have hlt2 : ∀ x ∈ data_set.vectors_, closestCenterId cc x < cc.Size :=
      fun x _ => (closest_ok cc x hne).2
    calc (data_set.vectors_.map (closestDistance cc1)).sum
        ≤ (data_set.vectors_.map (fun x =>
            sqDist (batchCenter cc.dimensionality_
              (assignedTo cc data_set (closestCenterId cc x))) x)).sum := by
          apply List.sum_le_sum
          intro x hx
          have hi := hlt2 x hx
          rw [← h4 _ hi]
          exact closestDistance_le cc1 x hne1 _ (by rw [h2]; exact hi)
      _ = ∑ i in Finset.range cc.Size,
            ((assignedTo cc data_set i).map (fun x =>
              sqDist (batchCenter cc.dimensionality_ (assignedTo cc data_set i)) x)).sum :=
          list_sum_regroup data_set.vectors_ (closestCenterId cc) cc.Size
            (fun i x => sqDist (batchCenter cc.dimensionality_ (assignedTo cc data_set i)) x)
            hlt2
      _ ≤ ∑ i in Finset.range cc.Size,
            ((assignedTo cc data_set i).map (fun x => sqDist (cc.ClusterCenter i) x)).sum := by
          apply Finset.sum_le_sum
          intro i hi
          apply batchCenter_le
          have := hv.2 _ (clusterCenter_mem cc i (Finset.mem_range.mp hi))
          simp only [SfWeightVector.GetDimensions] at this
          omega
      _ = (data_set.vectors_.map (fun x =>
            sqDist (cc.ClusterCenter (closestCenterId cc x)) x)).sum :=
          (list_sum_regroup data_set.vectors_ (closestCenterId cc) cc.Size
            (fun i x => sqDist (cc.ClusterCenter i) x) hlt2).symm
      _ = (data_set.vectors_.map (closestDistance cc)).sum := by
          apply congrArg
          apply List.map_congr_left
          intro x hx
          exact (closestDistance_eq_of_lt cc x hne (hlt x hx)).symm

theorem projectToL1Ball_disabled (proj : L1Projection) (L1_lambda L1_epsilon : ℚ)
    (cc : SfClusterCenters) (h : L1_lambda ≤ 0) :
    ProjectToL1Ball proj L1_lambda L1_epsilon cc = cc := by
  unfold ProjectToL1Ball
  rw [if_neg (not_lt.mpr h)]

theorem each_lt_of_sum_lt (data_set : SfDataSet) (cc : SfClusterCenters) (hne : 0 < cc.Size)
    (hwf : ∀ x ∈ data_set.vectors_, x.WellFormed)
    (hsum : (data_set.vectors_.map (closestDistance cc)).sum < FLT_MAX) :
    ∀ x ∈ data_set.vectors_, closestDistance cc x < FLT_MAX := by
  intro x hx
  apply lt_of_le_of_lt _ hsum
  apply List.single_le_sum
  · intro a ha
    obtain ⟨y, hy, rfl⟩ := List.mem_map.mp ha
    exact closestDistance_nonneg cc y hne (hwf y hy)
  · exact List.mem_map.mpr ⟨x, hx, rfl⟩

theorem batchKmeansLoop_objective_le (proj : L1Projection) (data_set : SfDataSet)
    (L1_lambda L1_epsilon : ℚ) (hl1 : L1_lambda ≤ 0)
    (hwf : ∀ x ∈ data_set.vectors_, x.WellFormed) :
    ∀ (is : List Int) (cc : SfClusterCenters), cc.Valid → 0 < cc.Size →
      (data_set.vectors_.map (closestDistance cc)).sum < FLT_MAX →
      ∃ cc1, batchKmeansLoop proj data_set L1_lambda L1_epsilon is cc = .ok cc1 ∧
        0 < cc1.Size ∧
        (data_set.vectors_.map (closestDistance cc1)).sum
          ≤ (data_set.vectors_.map (closestDistance cc)).sum := by
  intro is
  induction is with
  | nil => intro cc _ hne _; exact ⟨cc, rfl, hne, le_refl _⟩
  | cons i is ih =>
    intro cc hv hne hsum
    obtain ⟨c1, h1, h2, h3, h4⟩ := oneBatch_objective_le data_set cc hv hne
      (each_lt_of_sum_lt data_set cc hne hwf hsum)
    obtain ⟨c2, k1, k2, k3⟩ := ih c1 h2 h3 (lt_of_le_of_lt h4 hsum)
    refine ⟨c2, ?_, k2, le_trans k3 h4⟩
    simp only [batchKmeansLoop, h1, projectToL1Ball_disabled proj _ _ _ hl1]
    exact k1

/-! ## The stochastic update -/

theorem euclidSq_step (w : SfWeightVector) (x : SfSparseVector) (eta : ℚ) :
    euclidSq ((w.ScaleBy (1 - eta)).AddVector x eta) x w.weights_.length
      = (1 - eta) ^ 2 * euclidSq w x w.weights_.length := by
  unfold euclidSq
  rw [Finset.mul_sum]
  apply Finset.sum_congr rfl
  intro c hc
  rw [valueOf_addVector _ x eta c (by rw [length_scaleBy]; exact Finset.mem_range.mp hc),
    valueOf_scaleBy]
  ring

theorem length_step (w : SfWeightVector) (x : SfSparseVector) (eta : ℚ) :
    ((w.ScaleBy (1 - eta)).AddVector x eta).weights_.length = w.weights_.length := by
  rw [length_addVector, length_scaleBy]

/-- The update `w <- (1 - eta) * w + eta * x` with `0 <= eta <= 2` does not increase the
distance between `w` and `x`. -/
theorem sqDist_step_le (w : SfWeightVector) (x : SfSparseVector) (eta : ℚ)
    (h0 : 0 ≤ eta) (h2 : eta ≤ 2) :
    sqDist ((w.ScaleBy (1 - eta)).AddVector x eta) x ≤ sqDist w x := by
  rw [sqDist_eq _ x w.weights_.length (le_of_eq (length_step w x eta)),
    sqDist_eq w x w.weights_.length (le_refl _), euclidSq_step]
  have hE := euclidSq_nonneg w x w.weights_.length
  have : (1 - eta) ^ 2 * euclidSq w x w.weights_.length ≤ euclidSq w x w.weights_.length := by
    have h3 : (1 - eta) ^ 2 ≤ 1 := by nlinarith
    calc (1 - eta) ^ 2 * euclidSq w x w.weights_.length
        ≤ 1 * euclidSq w x w.weights_.length := mul_le_mul_of_nonneg_right h3 hE
      _ = euclidSq w x w.weights_.length := one_mul _
  linarith

theorem stepEta_bounds (v : Int) (hv : 0 ≤ v) : 0 ≤ stepEta v ∧ stepEta v ≤ 2 := by
  unfold stepEta
  have h1 : (0 : ℚ) ≤ (v : ℚ) := by exact_mod_cast hv
  have h2 : (0 : ℚ) < (v : ℚ) + 1 := by linarith
  constructor
  · exact div_nonneg (by norm_num) (le_of_lt h2)
  · rw [div_le_iff₀ h2]
    linarith

theorem getD_set_int (l : List Int) (n m : Nat) (a : Int) :
    (l.set n a).getD m 0 = if n = m ∧ m < l.length then a else l.getD m 0 := by
  simp only [List.getD_eq_getElem?_getD, List.getElem?_set]
  by_cases hn : n = m
  · subst hn
    by_cases hl : n < l.length
    · simp [hl]
    · simp [hl, List.getElem?_eq_none (Nat.le_of_not_lt hl)]
  · simp [hn]

/-- The result of `OneStochasticKmeansStep` on a non-empty set with one step count per
center. -/
theorem oneStochastic_eq (x : SfSparseVector) (cc : SfClusterCenters) (counts : List Int)
    (hne : 0 < cc.Size) (hlen : counts.length = cc.Size) :
    OneStochasticKmeansStep x cc counts
      = .ok ((cc.modifyCenter (closestCenterId cc x)
                (fun w => w.ScaleBy (1 - stepEta (counts.getD (closestCenterId cc x) 0 + 1)))).modifyCenter
              (closestCenterId cc x)
              (fun w => w.AddVector x (stepEta (counts.getD (closestCenterId cc x) 0 + 1))),
             counts.set (closestCenterId cc x) (counts.getD (closestCenterId cc x) 0 + 1)) := by
  obtain ⟨hok, hj⟩ := closest_ok cc x hne
  have hj2 : closestCenterId cc x < counts.length := by rw [hlen]; exact hj
  unfold OneStochasticKmeansStep
  simp only [hok, Int.toNat_ofNat, List.get?_eq_getElem?, List.getElem?_eq_getElem hj2,
    List.getD_eq_getElem counts 0 hj2, stepEta]

theorem clusterCenter_step (cc : SfClusterCenters) (j i : Nat)
    (f g : SfWeightVector → SfWeightVector) :
    ((cc.modifyCenter j f).modifyCenter j g).ClusterCenter i
      = if j = i ∧ i < cc.Size then g (f (cc.ClusterCenter i)) else cc.ClusterCenter i := by
  rw [clusterCenter_modifyCenter, clusterCenter_modifyCenter, size_modifyCenter]
  by_cases h : j = i ∧ i < cc.Size
  · rw [if_pos h, if_pos h, if_pos h]
  · rw [if_neg h, if_neg h, if_neg h]

/-- A stochastic step with a non-negative visit count does not increase the distance that
`SqDistanceToClosestCenter` returns for the example of the step. -/
theorem oneStochastic_closest_le (x : SfSparseVector) (cc : SfClusterCenters)
    (counts : List Int) (hne : 0 < cc.Size) (hlen : counts.length = cc.Size)
    (hpos : ∀ c ∈ counts, 0 ≤ c) :
    ∃ cc1 counts1, OneStochasticKmeansStep x cc counts = .ok (cc1, counts1) ∧
      cc1.Size = cc.Size ∧ closestDistance cc1 x ≤ closestDistance cc x := by
  obtain ⟨_, hj⟩ := closest_ok cc x hne
  refine ⟨_, _, oneStochastic_eq x cc counts hne hlen, ?_, ?_⟩
  · rw [size_modifyCenter, size_modifyCenter]
  · have hsz : ((cc.modifyCenter (closestCenterId cc x)
          (fun w => w.ScaleBy (1 - stepEta (counts.getD (closestCenterId cc x) 0 + 1)))).modifyCenter
        (closestCenterId cc x)
        (fun w => w.AddVector x (stepEta (counts.getD (closestCenterId cc x) 0 + 1)))).Size
          = cc.Size := by
      rw [size_modifyCenter, size_modifyCenter]
    by_cases hlt : closestDistance cc x < FLT_MAX
    · rw [closestDistance_eq_of_lt cc x hne hlt]
      refine le_trans (closestDistance_le _ x (by rw [hsz]; exact hne) (closestCenterId cc x)
        (by rw [hsz]; exact hj)) ?_
      rw [clusterCenter_step, if_pos ⟨rfl, hj⟩]
      have hc : 0 ≤ counts.getD (closestCenterId cc x) 0 + 1 := by
        have hj2 : closestCenterId cc x < counts.length := by rw [hlen]; exact hj
        have := hpos _ (List.getElem_mem hj2)
        rw [List.getD_eq_getElem counts 0 hj2]
        omega
      obtain ⟨b1, b2⟩ := stepEta_bounds _ hc
      exact sqDist_step_le _ x _ b1 b2
    · have h1 := closestDistance_le_max cc x hne
      have h2 : closestDistance cc x = FLT_MAX := le_antisymm h1 (not_lt.mp hlt)
      rw [h2]
      exact closestDistance_le_max _ x (by rw [hsz]; exact hne)

/-! ## Running routines on a state -/

theorem km_bind_apply {α β : Type} (m : Km α) (f : α → Km β) (s : KmState) :
    (m >>= f) s = match m s with
      | .ok a s1 => f a s1
      | .die e s1 => .die e s1 := rfl

theorem km_pure_apply {α : Type} (a : α) (s : KmState) : (pure a : Km α) s = .ok a s := rfl

theorem intRange_nonpos (lo hi : Int) (h : hi ≤ lo) : intRange lo hi = [] := by
  unfold intRange
  have : (hi - lo).toNat = 0 := by omega
  rw [this]
  rfl

theorem sgdKmeans_zero (proj : L1Projection) (rand_seq : Nat → Nat) (num_iterations : Int)
    (data_set : SfDataSet) (L1_lambda L1_epsilon : ℚ) (s : KmState)
    (hn : num_iterations ≤ 0) (hl1 : L1_lambda ≤ 0) :
    SGDKmeans proj rand_seq num_iterations data_set L1_lambda L1_epsilon s = .ok () s := by
  unfold SGDKmeans
  simp only [km_bind_apply, Km.ofExcept, intRange_nonpos 0 num_iterations hn, Km.forFold,
    Km.ret, Km.modifyCenters, projectToL1Ball_disabled proj _ _ _ hl1]

theorem miniBatchKmeans_zero (proj : L1Projection) (rand_seq : Nat → Nat)
    (num_iterations mini_batch_size : Int)
    (data_set : SfDataSet) (L1_lambda L1_epsilon : ℚ) (s : KmState)
    (hn : num_iterations ≤ 0) (hl1 : L1_lambda ≤ 0) :
    MiniBatchKmeans proj rand_seq num_iterations mini_batch_size data_set L1_lambda L1_epsilon s
      = .ok () s := by
  unfold MiniBatchKmeans
  simp only [km_bind_apply, Km.ofExcept, intRange_nonpos 0 num_iterations hn, Km.forFold,
    Km.ret, Km.modifyCenters, projectToL1Ball_disabled proj _ _ _ hl1]

theorem miniBatchApplyOne_le (data_set : SfDataSet) (i : Nat) (x_id : Int)
    (cc : SfClusterCenters) (counts : List Int) (hi : i < cc.Size)
    (hlen : counts.length = cc.Size) (hpos : ∀ c ∈ counts, 0 ≤ c) :
    ∃ cc1 counts1, miniBatchApplyOne data_set i x_id (cc, counts) = .ok (cc1, counts1) ∧
      sqDist (cc1.ClusterCenter i) (data_set.VectorAt x_id)
        ≤ sqDist (cc.ClusterCenter i) (data_set.VectorAt x_id) := by
  have hi2 : i < counts.length := by rw [hlen]; exact hi
  unfold miniBatchApplyOne
  simp only [List.get?_eq_getElem?, List.getElem?_eq_getElem hi2]
  refine ⟨_, _, rfl, ?_⟩
  rw [clusterCenter_step, if_pos ⟨rfl, hi⟩]
  have hc : 0 ≤ counts[i] + 1 := by
    have := hpos _ (List.getElem_mem hi2)
    omega
  obtain ⟨b1, b2⟩ := stepEta_bounds _ hc
  unfold stepEta at b1 b2
  exact sqDist_step_le _ _ _ b1 b2

/-! ## The cumulative-distance map of k-means++ -/

theorem map_set_append (m : FloatIntMap) (key : ℚ) (value : Int)
    (h : ∀ e ∈ m, e.1 < key) : FloatIntMap.set m key value = m ++ [(key, value)] := by
  induction m with
  | nil => rfl
  | cons e rest ih =>
    have he := h e (List.mem_cons_self e rest)
    simp only [FloatIntMap.set]
    rw [if_neg (not_lt.mpr (le_of_lt he)), if_neg (ne_of_gt he),
      ih (fun e1 h1 => h e1 (List.mem_cons_of_mem e h1))]
    rfl

theorem lower_bound_append (m : FloatIntMap) (e : ℚ × Int) (t : ℚ) :
    FloatIntMap.lower_bound (m ++ [e]) t
      = match FloatIntMap.lower_bound m t with
        | some r => some r
        | none => if t ≤ e.1 then some e else none := by
  induction m with
  | nil => simp [FloatIntMap.lower_bound]
  | cons a rest ih =>
    simp only [List.cons_append, FloatIntMap.lower_bound]
    split
    · rfl
    · exact ih

theorem lower_bound_none (m : FloatIntMap) (t : ℚ) (h : ∀ e ∈ m, e.1 < t) :
    FloatIntMap.lower_bound m t = none := by
  induction m with
  | nil => rfl
  | cons a rest ih =>
    simp only [FloatIntMap.lower_bound]
    rw [if_neg (not_le.mpr (h a (List.mem_cons_self a rest)))]
    exact ih (fun e he => h e (List.mem_cons_of_mem a he))

/-- In a map with ascending keys, `lower_bound` finds an entry with the smallest key that
is not less than the key looked up. -/
theorem lower_bound_some (m : FloatIntMap) (t : ℚ) (e : ℚ × Int)
    (hs : m.Pairwise (fun a b => a.1 < b.1)) (h : FloatIntMap.lower_bound m t = some e) :
    e ∈ m ∧ t ≤ e.1 ∧ ∀ e1 ∈ m, t ≤ e1.1 → e.1 ≤ e1.1 := by
  induction m with
  | nil => simp [FloatIntMap.lower_bound] at h
  | cons a rest ih =>
    have hp := List.pairwise_cons.mp hs
    simp only [FloatIntMap.lower_bound] at h
    by_cases hta : t ≤ a.1
    · rw [if_pos hta] at h
      have hae : a = e := Option.some.inj h
      subst hae
      refine ⟨List.mem_cons_self _ _, hta, ?_⟩
      intro e1 he1 _
      rcases List.mem_cons.mp he1 with h1 | h1
      · rw [h1]
      · exact le_of_lt (hp.1 e1 h1)
    · rw [if_neg hta] at h
      obtain ⟨h1, h2, h3⟩ := ih hp.2 h
      refine ⟨List.mem_cons_of_mem _ h1, h2, ?_⟩
      intro e1 he1 ht1
      rcases List.mem_cons.mp he1 with h4 | h4
      · rw [h4] at ht1; exact absurd ht1 hta
      · exact h3 e1 h4 ht1

theorem lower_bound_eq_none (m : FloatIntMap) (t : ℚ)
    (h : FloatIntMap.lower_bound m t = none) : ∀ e ∈ m, e.1 < t := by
  induction m with
  | nil => intro e he; simp at he
  | cons a rest ih =>
    simp only [FloatIntMap.lower_bound] at h
    by_cases hta : t ≤ a.1
    · rw [if_pos hta] at h; simp at h
    · rw [if_neg hta] at h
      intro e he
      rcases List.mem_cons.mp he with h1 | h1
      · rw [h1]; exact not_le.mp hta
      · exact ih h e h1

theorem cumulativeTable_total (d : Nat → ℚ) :
    ∀ p, (∀ i, i < p → 0 ≤ d i) →
      (cumulativeTable d p).1 = ((List.range p).map d).sum := by
  intro p
  induction p with
  | zero => intro _; rfl
  | succ p ih =>
    intro h
    have h1 := ih (fun i hi => h i (Nat.lt_succ_of_lt hi))
    simp only [cumulativeTable, List.range_succ, List.map_append, List.sum_append,
      List.map_cons, List.map_nil, List.sum_cons, List.sum_nil, add_zero]
    by_cases hp : d p > 0
    · rw [if_pos hp]; simp only; rw [h1]
    · rw [if_neg hp, h1]
      have : d p = 0 := le_antisymm (not_lt.mp hp) (h p (Nat.lt_succ_self p))
      rw [this, add_zero]

theorem range_sum_nonneg (d : Nat → ℚ) (p : Nat) (h : ∀ i, i < p → 0 ≤ d i) :
    0 ≤ ((List.range p).map d).sum := by
  apply List.sum_nonneg
  intro a ha
  obtain ⟨i, hi, rfl⟩ := List.mem_map.mp ha
  exact h i (List.mem_range.mp hi)

/-- Every entry of the cumulative-distance map belongs to an example `j` with positive
distance; its key is the partial sum of the distances up to and including `j`, which is
positive and at most the total. -/
theorem cumulativeTable_entries (d : Nat → ℚ) :
    ∀ p, (∀ i, i < p → 0 ≤ d i) → ∀ e ∈ (cumulativeTable d p).2,
      ∃ j, j < p ∧ e = (((List.range (j + 1)).map d).sum, (j : Int)) ∧ 0 < d j ∧
        0 < e.1 ∧ e.1 ≤ (cumulativeTable d p).1 := by
  intro p
  induction p with
  | zero => intro _ e he; simp [cumulativeTable] at he
  | succ p ih =>
    intro h e he
    have h0 : ∀ i, i < p → 0 ≤ d i := fun i hi => h i (Nat.lt_succ_of_lt hi)
    have hT := cumulativeTable_total d p h0
    have hTnn : 0 ≤ (cumulativeTable d p).1 := by rw [hT]; exact range_sum_nonneg d p h0
    simp only [cumulativeTable] at he ⊢
    by_cases hp : d p > 0
    · rw [if_pos hp] at he ⊢
      rcases List.mem_append.mp he with h1 | h1
      · obtain ⟨j, hj, e1, e2, e3, e4⟩ := ih h0 e h1
        exact ⟨j, Nat.lt_succ_of_lt hj, e1, e2, e3, by simp only; linarith⟩
      · have he2 : e = (d p + (cumulativeTable d p).1, (p : Int)) := by simpa using h1
        refine ⟨p, Nat.lt_succ_self p, ?_, hp, ?_, ?_⟩
        · rw [he2, hT, List.range_succ, List.map_append, List.sum_append]
          simp [add_comm]
        · rw [he2]; simp only; linarith
        · rw [he2]; simp only; linarith
    · rw [if_neg hp] at he ⊢
      obtain ⟨j, hj, e1, e2, e3, e4⟩ := ih h0 e he
      exact ⟨j, Nat.lt_succ_of_lt hj, e1, e2, e3, e4⟩

theorem cumulativeTable_sorted (d : Nat → ℚ) :
    ∀ p, (∀ i, i < p → 0 ≤ d i) →
      (cumulativeTable d p).2.Pairwise (fun a b => a.1 < b.1) := by
  intro p
  induction p with
  | zero => intro _; simp [cumulativeTable]
  | succ p ih =>
    intro h
    have h0 : ∀ i, i < p → 0 ≤ d i := fun i hi => h i (Nat.lt_succ_of_lt hi)
    simp only [cumulativeTable]
    by_cases hp : d p > 0
    · rw [if_pos hp]
      simp only
      rw [List.pairwise_append]
      refine ⟨ih h0, List.pairwise_singleton _ _, ?_⟩
      intro a ha b hb
      have hb2 : b = (d p + (cumulativeTable d p).1, (p : Int)) := by simpa using hb
      obtain ⟨j, _, _, _, _, e4⟩ := cumulativeTable_entries d p h0 a ha
      rw [hb2]; simp only; linarith
    · rw [if_neg hp]; exact ih h0

/-- Every draw in the interval `(key_j - d_j, key_j]` of an example `j` with positive
distance selects that example. -/
theorem cumulativeTable_interval (d : Nat → ℚ) :
    ∀ p, (∀ i, i < p → 0 ≤ d i) → ∀ j, j < p → 0 < d j → ∀ t : ℚ,
      ((List.range (j + 1)).map d).sum - d j < t → t ≤ ((List.range (j + 1)).map d).sum →
      FloatIntMap.lower_bound (cumulativeTable d p).2 t
        = some (((List.range (j + 1)).map d).sum, (j : Int)) := by
  intro p
  induction p with
  | zero => intro _ j hj; omega
  | succ p ih =>
    intro h j hj hdj t ht1 ht2
    have h0 : ∀ i, i < p → 0 ≤ d i := fun i hi => h i (Nat.lt_succ_of_lt hi)
    have hT := cumulativeTable_total d p h0
    simp only [cumulativeTable]
    by_cases hjp : j < p
    · have := ih h0 j hjp hdj t ht1 ht2
      by_cases hp : d p > 0
      · rw [if_pos hp]; simp only
        rw [lower_bound_append, this]
      · rw [if_neg hp]; exact this
    · have hjeq : j = p := by omega
      subst hjeq
      rw [if_pos hdj]; simp only
      have hsum : ((List.range (j + 1)).map d).sum = d j + (cumulativeTable d j).1 := by
        rw [hT, List.range_succ, List.map_append, List.sum_append]
        simp [add_comm]
      rw [lower_bound_append, lower_bound_none]
      · simp only
        rw [← hsum, if_pos ht2]
      · intro e he
        obtain ⟨_, _, _, _, _, e4⟩ := cumulativeTable_entries d j h0 e he
        rw [hsum] at ht1
        linarith

theorem classicTable_append (cc : SfClusterCenters) (data_set : SfDataSet) (j : Int) :
    ∀ (js : List Int) (acc : ℚ × FloatIntMap),
      classicTable cc data_set (js ++ [j]) acc
        = match classicTable cc data_set js acc with
          | .error e => .error e
          | .ok a => classicTable cc data_set [j] a := by
  intro js
  induction js with
  | nil => intro acc; rfl
  | cons i is ih =>
    intro acc
    simp only [List.cons_append, classicTable]
    split
    · rfl
    · split
      · exact ih _
      · exact ih _

theorem intRange_zero_succ (p : Nat) :
    intRange 0 ((p + 1 : Nat) : Int) = intRange 0 (p : Int) ++ [(p : Int)] := by
  unfold intRange
  have h1 : (((p + 1 : Nat) : Int) - 0).toNat = p + 1 := by omega
  have h2 : ((p : Int) - 0).toNat = p := by omega
  rw [h1, h2, List.range_succ, List.map_append]
  simp

/-- The loop over `j` of a round of `ClassicKmeansPlusPlus` builds the cumulative table
of the distances to the closest center. -/
theorem classicTable_eq (cc : SfClusterCenters) (data_set : SfDataSet) (hne : 0 < cc.Size) :
    ∀ p : Nat, (∀ i, i < p → 0 ≤ roundDistance cc data_set i) →
      classicTable cc data_set (intRange 0 (p : Int)) (0, [])
        = .ok (cumulativeTable (roundDistance cc data_set) p) := by
  intro p
  induction p with
  | zero => intro _; rfl
  | succ p ih =>
    intro h
    have h0 : ∀ i, i < p → 0 ≤ roundDistance cc data_set i :=
      fun i hi => h i (Nat.lt_succ_of_lt hi)
    rw [intRange_zero_succ, classicTable_append, ih h0]
    simp only [classicTable, (closest_ok cc (data_set.VectorAt (p : Int)) hne).1,
      cumulativeTable]
    have hd : closestDistance cc (data_set.VectorAt (p : Int)) = roundDistance cc data_set p := rfl
    rw [hd]
    by_cases hp : roundDistance cc data_set p > 0
    · rw [if_pos hp, if_pos hp, map_set_append]
      intro e he
      obtain ⟨_, _, _, _, _, e4⟩ := cumulativeTable_entries _ p h0 e he
      linarith
    · rw [if_neg hp, if_neg hp]

theorem cumulativeTable_last (d : Nat → ℚ) :
    ∀ p, 0 < (cumulativeTable d p).1 →
      ∃ e ∈ (cumulativeTable d p).2, e.1 = (cumulativeTable d p).1 := by
  intro p
  induction p with
  | zero => intro h; simp [cumulativeTable] at h
  | succ p ih =>
    intro h
    simp only [cumulativeTable] at h ⊢
    by_cases hp : d p > 0
    · rw [if_pos hp] at h ⊢
      exact ⟨(d p + (cumulativeTable d p).1, (p : Int)), by simp, by simp [add_comm]⟩
    · rw [if_neg hp] at h ⊢
      exact ih h

theorem roundDistance_nonneg (cc : SfClusterCenters) (data_set : SfDataSet)
    (hne : 0 < cc.Size) (hwf : ∀ x ∈ data_set.vectors_, x.WellFormed) (i : Nat)
    (hi : i < data_set.vectors_.length) : 0 ≤ roundDistance cc data_set i := by
  unfold roundDistance
  apply closestDistance_nonneg cc _ hne
  apply hwf
  simp [SfDataSet.VectorAt, List.getD_eq_getElem, hi]

theorem sampleDistance_eq (rand_seq : Nat → Nat) (T : ℚ) (s : KmState) :
    sampleDistance rand_seq T s
      = .ok (drawFraction rand_seq s.rand_calls * T)
          { s with rand_calls := s.rand_calls + 1 } := by
  simp [sampleDistance, RandFloat, rand, km_bind_apply, km_pure_apply, drawFraction]

theorem classicRound_eq (rand_seq : Nat → Nat) (data_set : SfDataSet) (s : KmState)
    (T : ℚ) (m : FloatIntMap)
    (ht : classicTable s.cluster_centers data_set (intRange 0 data_set.NumExamples) (0, [])
      = .ok (T, m)) :
    classicRound rand_seq data_set s
      = match FloatIntMap.lower_bound m (drawFraction rand_seq s.rand_calls * T) with
        | none => .die .exit1 { s with rand_calls := s.rand_calls + 1 }
        | some e =>
          .ok e.2 { cluster_centers :=
                      s.cluster_centers.AddClusterCenterAt (data_set.VectorAt e.2),
                    rand_calls := s.rand_calls + 1 } := by
  simp only [classicRound, km_bind_apply, Km.ofExcept, ht, sampleAndAdd, sampleDistance_eq,
    lookupAndAdd]
  split
  · rename_i h
    rw [h]
    rfl
  · rename_i h
    rw [h]
    rfl

/-! ## Adding centers -/

theorem size_addClusterCenter (cc : SfClusterCenters) (w : SfWeightVector) :
    (cc.AddClusterCenter w).Size = cc.Size + 1 := by
  simp [SfClusterCenters.AddClusterCenter, SfClusterCenters.Size]

theorem clusterCenter_addClusterCenter_last (cc : SfClusterCenters) (w : SfWeightVector) :
    (cc.AddClusterCenter w).ClusterCenter cc.Size = w := by
  simp [SfClusterCenters.AddClusterCenter, SfClusterCenters.ClusterCenter,
    SfClusterCenters.Size, List.getD_eq_getElem?_getD]

theorem clusterCenter_addClusterCenter_lt (cc : SfClusterCenters) (w : SfWeightVector)
    (i : Nat) (hi : i < cc.Size) :
    (cc.AddClusterCenter w).ClusterCenter i = cc.ClusterCenter i := by
  have h2 : i < cc.cluster_centers_.length := hi
  simp [SfClusterCenters.AddClusterCenter, SfClusterCenters.ClusterCenter,
    List.getD_eq_getElem?_getD, List.getElem?_append_left h2]

theorem dimensionality_addClusterCenter (cc : SfClusterCenters) (w : SfWeightVector) :
    (cc.AddClusterCenter w).GetDimensionality = max cc.GetDimensionality w.GetDimensions := by
  simp only [SfClusterCenters.AddClusterCenter, SfClusterCenters.GetDimensionality]
  by_cases h : w.GetDimensions > cc.dimensionality_
  · rw [if_pos h, max_eq_right (le_of_lt h)]
  · rw [if_neg h, max_eq_left (not_lt.mp h)]

theorem length_centerOf (D : Int) (x : SfSparseVector) :
    (centerOf D x).weights_.length = D.toNat := by
  unfold centerOf
  rw [length_addVector, length_zero]

/-- The center created at `x` holds the coordinates of `x`. -/
theorem valueOf_centerOf (D : Int) (x : SfSparseVector) (hfeat : x.FeaturesBelow D.toNat)
    (i : Int) : (centerOf D x).ValueOf i = x.coord i := by
  by_cases hc : 0 ≤ i ∧ i < (D.toNat : Int)
  · have h1 : i = ((i.toNat : Nat) : Int) := by omega
    rw [h1]
    unfold centerOf
    rw [valueOf_addVector _ x 1 i.toNat (by rw [length_zero]; omega), valueOf_zero]
    ring
  · have hout : i < 0 ∨ ((D.toNat : Nat) : Int) ≤ i := by omega
    rw [coord_eq_zero_of_featuresBelow x D.toNat i hfeat hout]
    rcases hout with h | h
    · exact valueOf_of_neg _ i h
    · apply valueOf_of_ge
      rw [length_centerOf]
      exact h

theorem addClusterCenterAt_eq (cc : SfClusterCenters) (x : SfSparseVector)
    (hd : 0 ≤ cc.dimensionality_) :
    cc.AddClusterCenterAt x
      = { cluster_centers_ := cc.cluster_centers_ ++ [centerOf cc.dimensionality_ x],
          dimensionality_ := cc.dimensionality_ } := by
  unfold SfClusterCenters.AddClusterCenterAt SfClusterCenters.AddClusterCenter
  have hle : ¬ ((SfWeightVector.zero cc.dimensionality_).AddVector x 1).GetDimensions
      > cc.dimensionality_ := by
    simp only [SfWeightVector.GetDimensions, length_addVector, length_zero]
    omega
  rw [if_neg hle]
  rfl

/-- With strictly ascending ids, the coordinate of `x` at the id of one of its entries is
the value of that entry. -/
theorem coord_of_mem (fs : List FeatureValuePair)
    (h : fs.Pairwise (fun p q => p.id_ < q.id_)) :
    ∀ p ∈ fs, (fs.map (fun q => if q.id_ = p.id_ then q.value_ else 0)).sum = p.value_ := by
  induction fs with
  | nil => intro p hp; simp at hp
  | cons a rest ih =>
    intro p hp
    have hpw := List.pairwise_cons.mp h
    simp only [List.map_cons, List.sum_cons]
    rcases List.mem_cons.mp hp with h1 | h1
    · subst h1
      rw [if_pos rfl, featSum_eq_zero_of_not_mem rest p.id_, add_zero]
      intro q hq
      have := hpw.1 q hq
      omega
    · have hne : ¬ a.id_ = p.id_ := by
        have := hpw.1 p h1
        omega
      rw [if_neg hne, zero_add]
      exact ih hpw.2 p h1

/-! ## Uniform random seeding -/

theorem randomExample_eq (rand_seq : Nat → Nat) (data_set : SfDataSet) (s : KmState)
    (hn : 0 < data_set.NumExamples) :
    RandomExample rand_seq data_set s
      = .ok (data_set.VectorAt ((rand_seq s.rand_calls : Int) % data_set.NumExamples))
          { s with rand_calls := s.rand_calls + 1 } := by
  have hne : ¬ data_set.NumExamples = 0 := by omega
  have hmod : Int.tmod (rand_seq s.rand_calls : Int) data_set.NumExamples
      = (rand_seq s.rand_calls : Int) % data_set.NumExamples :=
    Int.tmod_eq_emod (Int.natCast_nonneg _) (le_of_lt hn)
  have hnn : ¬ (rand_seq s.rand_calls : Int) % data_set.NumExamples < 0 :=
    not_lt.mpr (Int.emod_nonneg _ (by omega))
  unfold RandomExample
  simp only [km_bind_apply, rand, if_neg hne, hmod, if_neg hnn, km_pure_apply]

/-- The loop of `InitializeWithKRandomCenters`: every pass draws one random number and
appends the center at the example it selects. -/
theorem randomCenters_loop (rand_seq : Nat → Nat) (data_set : SfDataSet)
    (hn : 0 < data_set.NumExamples) :
    ∀ (l : List Int) (s : KmState), 0 ≤ s.cluster_centers.dimensionality_ →
      Km.forEach (fun _ => do
          let x ← RandomExample rand_seq data_set
          Km.modifyCenters (fun cc => cc.AddClusterCenterAt x)) l s
        = .ok ()
            { cluster_centers :=
                { cluster_centers_ := s.cluster_centers.cluster_centers_ ++
                    (List.range l.length).map (fun (i : Nat) =>
                      centerOf s.cluster_centers.dimensionality_
                        (data_set.VectorAt
                          ((rand_seq (s.rand_calls + i) : Int) % data_set.NumExamples))),
                  dimensionality_ := s.cluster_centers.dimensionality_ },
              rand_calls := s.rand_calls + l.length } := by
  intro l
  induction l with
  | nil =>
    intro s _
    simp [Km.forEach, Km.forFold, Km.ret]
  | cons j js ih =>
    intro s hd
    have hstep := ih
      { cluster_centers := s.cluster_centers.AddClusterCenterAt
          (data_set.VectorAt ((rand_seq s.rand_calls : Int) % data_set.NumExamples)),
        rand_calls := s.rand_calls + 1 }
      (by rw [addClusterCenterAt_eq _ _ hd]; exact hd)
    unfold Km.forEach at hstep ⊢
    simp only [Km.forFold, Km.andThen, km_bind_apply, randomExample_eq rand_seq data_set s hn,
      Km.modifyCenters]
    rw [hstep, addClusterCenterAt_eq _ _ hd]
    simp only [List.length_cons, List.range_succ_eq_map, List.map_cons, List.map_map,
      List.append_assoc, List.singleton_append, Nat.add_zero]
    congr 2
    · congr 1
      rw [List.append_cancel_left_eq, List.cons.injEq]
      refine ⟨rfl, ?_⟩
      apply List.map_congr_left
      intro i _
      simp only [Function.comp, Nat.succ_eq_add_one]
      rw [show s.rand_calls + 1 + i = s.rand_calls + (i + 1) by omega]
    · omega

theorem vectorAt_mem (data_set : SfDataSet) (i : Int) (h0 : 0 ≤ i)
    (h1 : i < data_set.NumExamples) : data_set.VectorAt i ∈ data_set.vectors_ := by
  have h2 : i.toNat < data_set.vectors_.length := by
    unfold SfDataSet.NumExamples at h1
    omega
  unfold SfDataSet.VectorAt
  rw [if_pos h0, List.getD_eq_getElem _ _ h2]
  exact List.getElem_mem h2

theorem length_intRange (lo hi : Int) : (intRange lo hi).length = (hi - lo).toNat := by
  simp [intRange]

theorem getD_append_map_range {α : Type} (l : List α) (f : Nat → α) (m i : Nat) (d : α)
    (hi : i < m) : (l ++ (List.range m).map f).getD (l.length + i) d = f i := by
  rw [List.getD_eq_getElem?_getD, List.getElem?_append_right (by omega)]
  simp [List.getElem?_range hi]

/-! ## PushPair -/

theorem featureAt_last (x : SfSparseVector) (p : FeatureValuePair)
    (h : x.features_.getLast? = some p) : x.FeatureAt (x.NumFeatures - 1) = p.id_ := by
  unfold SfSparseVector.FeatureAt SfSparseVector.NumFeatures
  rw [List.get?_eq_getElem?, ← List.getLast?_eq_getElem?, h]

theorem numFeatures_pos_of_last (x : SfSparseVector) (p : FeatureValuePair)
    (h : x.features_.getLast? = some p) : 0 < x.NumFeatures := by
  unfold SfSparseVector.NumFeatures
  cases hf : x.features_ with
  | nil => rw [hf] at h; simp at h
  | cons a l => simp

/-- The call `PushPair(id, value)` is refused exactly when `id` is positive and not above the
id of the last feature. -/
theorem pushPair_error (x : SfSparseVector) (id : Int) (value : ℚ) (p : FeatureValuePair)
    (hlast : x.features_.getLast? = some p) (hpos : 0 < id) (hle : id ≤ p.id_) :
    x.PushPair id value = .error .exit1 := by
  unfold SfSparseVector.PushPair
  rw [if_pos ⟨hpos, numFeatures_pos_of_last x p hlast, by rw [featureAt_last x p hlast]; exact hle⟩]

theorem pushPair_ok (x : SfSparseVector) (id : Int) (value : ℚ)
    (h : ∀ p, x.features_.getLast? = some p → id ≤ 0 ∨ p.id_ < id) :
    x.PushPair id value
      = .ok { x with features_ := x.features_ ++ [{ id_ := id, value_ := value }],
                     squared_norm_ := x.squared_norm_ + value * value } := by
  unfold SfSparseVector.PushPair
  rw [if_neg]
  rintro ⟨h1, h2, h3⟩
  cases hl : x.features_.getLast? with
  | none =>
    rw [List.getLast?_eq_none_iff] at hl
    simp [SfSparseVector.NumFeatures, hl] at h2
  | some p =>
    rw [featureAt_last x p hl] at h3
    rcases h p hl with h4 | h4 <;> omega

theorem pushPair_ok_inv (x r : SfSparseVector) (id : Int) (value : ℚ)
    (h : x.PushPair id value = .ok r) :
    r = { x with features_ := x.features_ ++ [{ id_ := id, value_ := value }],
                 squared_norm_ := x.squared_norm_ + value * value } ∧
    ∀ p, x.features_.getLast? = some p → pushOrder p { id_ := id, value_ := value } := by
  have hall : ∀ p, x.features_.getLast? = some p →
      pushOrder p { id_ := id, value_ := value } := by
    intro p hp
    by_contra hc
    unfold pushOrder at hc
    have hc2 : 0 < id ∧ id ≤ p.id_ := by
      constructor <;> simp only [not_or, not_le, not_lt] at hc <;> omega
    rw [pushPair_error x id value p hp hc2.1 hc2.2] at h
    exact Except.noConfusion h
  refine ⟨?_, hall⟩
  rw [pushPair_ok x id value (fun p hp => hall p hp)] at h
  exact (Except.ok.inj h).symm

/-- A run of `PushPair` calls that succeeds has appended the pairs in order, added their
squares to the cached norm, and kept the order `pushOrder` between neighbours. -/
theorem pushAll_sound : ∀ (ps : List (Int × ℚ)) (x r : SfSparseVector),
    SfSparseVector.pushAll x ps = .ok r →
    r.features_ = x.features_ ++ entriesOf ps ∧
    r.squared_norm_ = x.squared_norm_ + (ps.map (fun q => q.2 * q.2)).sum ∧
    (x.features_.Chain' pushOrder → r.features_.Chain' pushOrder) := by
  intro ps
  induction ps with
  | nil =>
    intro x r h
    simp only [SfSparseVector.pushAll] at h
    have hr := Except.ok.inj h
    subst hr
    simp [entriesOf]
  | cons q qs ih =>
    intro x r h
    simp only [SfSparseVector.pushAll] at h
    cases hp : x.PushPair q.1 q.2 with
    | error e => rw [hp] at h; exact Except.noConfusion h
    | ok x1 =>
      rw [hp] at h
      obtain ⟨hx1, hord⟩ := pushPair_ok_inv x x1 q.1 q.2 hp
      obtain ⟨h1, h2, h3⟩ := ih x1 r h
      have hf : x1.features_ = x.features_ ++ [{ id_ := q.1, value_ := q.2 }] := by
        rw [hx1]
      have hn : x1.squared_norm_ = x.squared_norm_ + q.2 * q.2 := by
        rw [hx1]
      refine ⟨?_, ?_, ?_⟩
      · rw [h1, hf]
        simp [entriesOf]
      · rw [h2, hn]
        simp only [List.map_cons, List.sum_cons]
        ring
      · intro hc
        apply h3
        rw [hf, List.chain'_append]
        refine ⟨hc, List.chain'_singleton _, ?_⟩
        intro a ha b hb
        simp only [List.head?_cons, Option.mem_def, Option.some.injEq] at hb
        subst hb
        exact hord a ha

/-- A run of `PushPair` calls succeeds when every pair may be pushed after the one
before it. -/
theorem pushAll_complete : ∀ (ps : List (Int × ℚ)) (x : SfSparseVector),
    (x.features_ ++ entriesOf ps).Chain' pushOrder →
    ∃ r, SfSparseVector.pushAll x ps = .ok r := by
  intro ps
  induction ps with
  | nil =>
    intro x _
    exact ⟨x, rfl⟩
  | cons q qs ih =>
    intro x hc
    have hc2 := hc
    simp only [entriesOf, List.map_cons] at hc2
    rw [List.chain'_append] at hc2
    have hpush := pushPair_ok x q.1 q.2 (fun p hp => hc2.2.2 p hp _ rfl)
    simp only [SfSparseVector.pushAll, hpush]
    apply ih
    simp only [entriesOf, List.map_cons, List.append_assoc, List.singleton_append] at hc ⊢
    exact hc

theorem chain_lt_of_pushOrder : ∀ (l : List FeatureValuePair) (a : FeatureValuePair),
    List.Chain pushOrder a l → (∀ q ∈ l, 0 < q.id_) →
    List.Chain (fun (p q : FeatureValuePair) => p.id_ < q.id_) a l := by
  intro l
  induction l with
  | nil => intro a _ _; exact List.Chain.nil
  | cons b l ih =>
    intro a hc hpos
    rw [List.chain_cons] at hc ⊢
    refine ⟨?_, ih b hc.2 (fun q hq => hpos q (List.mem_cons_of_mem _ hq))⟩
    have hb := hpos b (List.mem_cons_self _ _)
    rcases hc.1 with h | h
    · omega
    · exact h

theorem pairwise_lt_of_pushOrder (l : List FeatureValuePair) (hc : l.Chain' pushOrder)
    (hpos : ∀ q ∈ l.tail, 0 < q.id_) :
    l.Pairwise (fun (p q : FeatureValuePair) => p.id_ < q.id_) := by
  cases l with
  | nil => exact List.Pairwise.nil
  | cons a l =>
    haveI : IsTrans FeatureValuePair (fun p q => p.id_ < q.id_) :=
      ⟨fun _ _ _ h1 h2 => lt_trans h1 h2⟩
    exact List.chain_iff_pairwise.mp (chain_lt_of_pushOrder l a hc hpos)

/-! ## Mapping a vector to the centers -/

/-- The loop of `MapVectorToCenters` for a supported mapping type, `val` being the
function the type applies to a distance: no `PushPair` is refused, and the loop appends
one feature per center. -/
theorem mapLoop_eq (expf : ℚ → ℚ) (cc : SfClusterCenters) (x : SfSparseVector)
    (type : ClusterCenterMappingType) (p : ℚ) (val : ℚ → ℚ)
    (htype : (type = .SQUARED_DISTANCE ∧ val = fun d => d) ∨
      (type = .RBF_KERNEL ∧ val = fun d => expf (-1 * p * d))) :
    ∀ (n s : Nat) (m : SfSparseVector), 1 ≤ s → s + n ≤ cc.Size + 1 →
      (∀ q ∈ m.features_, q.id_ < (s : Int)) →
      ∃ r, mapLoop expf cc x type p (List.range' s n) m = .ok r ∧
        r.features_ = m.features_ ++ (List.range' s n).map (fun (i : Nat) =>
          ({ id_ := (i : Int), value_ := val (sqDist (cc.ClusterCenter (i - 1)) x) } :
            FeatureValuePair)) ∧
        r.y_ = m.y_ ∧ r.group_id_ = m.group_id_ ∧ r.a_ = m.a_ ∧ r.comment_ = m.comment_ ∧
        r.squared_norm_ = m.squared_norm_ + ((List.range' s n).map (fun (i : Nat) =>
          val (sqDist (cc.ClusterCenter (i - 1)) x)
            * val (sqDist (cc.ClusterCenter (i - 1)) x))).sum := by
  intro n
  induction n with
  | zero =>
    intro s m _ _ _
    exact ⟨m, rfl, by simp, rfl, rfl, rfl, rfl, by simp⟩
  | succ n ih =>
    intro s m hs hle hbelow
    have hd : cc.SqDistanceToCenterId ((s : Int) - 1) x
        = .ok (sqDist (cc.ClusterCenter (s - 1)) x) := by
      have h := sqDistanceToCenterId_ok cc x (s - 1) (by omega)
      rw [show (((s - 1 : Nat)) : Int) = (s : Int) - 1 by omega] at h
      exact h
    have hpush : ∀ v : ℚ, m.PushPair (s : Int) v
        = .ok { m with features_ := m.features_ ++ [{ id_ := (s : Int), value_ := v }],
                       squared_norm_ := m.squared_norm_ + v * v } := by
      intro v
      apply pushPair_ok
      intro q hq
      exact Or.inr (hbelow q (List.mem_of_mem_getLast? hq))
    have hnext : ∀ v : ℚ, ∀ q ∈ ({ m with
        features_ := m.features_ ++ [{ id_ := (s : Int), value_ := v }],
        squared_norm_ := m.squared_norm_ + v * v } : SfSparseVector).features_,
        q.id_ < ((s + 1 : Nat) : Int) := by
      intro v q hq
      rcases List.mem_append.mp hq with h | h
      · have := hbelow q h
        omega
      · simp only [List.mem_singleton] at h
        subst h
        show (s : Int) < ((s + 1 : Nat) : Int)
        omega
    obtain ⟨r, h1, h2, h3, h4, h5, h6, h7⟩ := ih (s + 1)
      { m with features_ := m.features_ ++
                 [{ id_ := (s : Int), value_ := val (sqDist (cc.ClusterCenter (s - 1)) x) }],
               squared_norm_ := m.squared_norm_
                 + val (sqDist (cc.ClusterCenter (s - 1)) x)
                   * val (sqDist (cc.ClusterCenter (s - 1)) x) }
      (by omega) (by omega) (hnext _)
    refine ⟨r, ?_, ?_, h3, h4, h5, h6, ?_⟩
    · rw [List.range'_succ]
      rcases htype with ⟨ht, hv⟩ | ⟨ht, hv⟩
      · subst ht
        subst hv
        simp only [mapLoop, hd, hpush]
        exact h1
      · subst ht
        subst hv
        simp only [mapLoop, hd, hpush]
        exact h1
    · rw [h2, List.range'_succ]
      simp
    · rw [h7, List.range'_succ]
      simp only [List.map_cons, List.sum_cons]
      ring

/-- The result of `MapVectorToCenters` for a supported mapping type, `val` being the
function the type applies to a distance. -/
theorem mapVectorToCenters_eq (expf : ℚ → ℚ) (cc : SfClusterCenters) (x : SfSparseVector)
    (type : ClusterCenterMappingType) (p : ℚ) (val : ℚ → ℚ)
    (htype : (type = .SQUARED_DISTANCE ∧ val = fun d => d) ∨
      (type = .RBF_KERNEL ∧ val = fun d => expf (-1 * p * d))) :
    ∃ r, cc.MapVectorToCenters expf x type p = .ok r ∧
      r.NumFeatures = cc.Size ∧ r.y_ = x.y_ ∧ r.group_id_ = x.group_id_ ∧
      ∀ j, j < cc.Size →
        r.FeatureAt j = (j : Int) + 1 ∧
        r.ValueAt j = val (sqDist (cc.ClusterCenter j) x) := by
  obtain ⟨r, h1, h2, h3, h4, _, _, _⟩ := mapLoop_eq expf cc x type p val htype cc.Size 1
    x.ClearFeatures (le_refl 1) (by omega)
    (by intro q hq; simp [SfSparseVector.ClearFeatures] at hq)
  have hf : r.features_ = (List.range' 1 cc.Size).map (fun (i : Nat) =>
      ({ id_ := (i : Int), value_ := val (sqDist (cc.ClusterCenter (i - 1)) x) } :
        FeatureValuePair)) := by
    rw [h2]
    simp [SfSparseVector.ClearFeatures]
  refine ⟨r, h1, ?_, h3, h4, ?_⟩
  · unfold SfSparseVector.NumFeatures
    rw [hf]
    simp
  · intro j hj
    have hget : r.features_.get? j
        = some { id_ := ((1 + j : Nat) : Int),
                 value_ := val (sqDist (cc.ClusterCenter j) x) } := by
      rw [hf, List.get?_eq_getElem?, List.getElem?_map, List.getElem?_range' _ _ hj]
      simp
    unfold SfSparseVector.FeatureAt SfSparseVector.ValueAt
    rw [hget]
    refine ⟨?_, rfl⟩
    show ((1 + j : Nat) : Int) = (j : Int) + 1
    omega

/-! ## The dimensionality bound -/

theorem valid_addClusterCenter (cc : SfClusterCenters) (w : SfWeightVector) (h : cc.Valid) :
    (cc.AddClusterCenter w).Valid := by
  have hdim := dimensionality_addClusterCenter cc w
  unfold SfClusterCenters.GetDimensionality at hdim
  constructor
  · rw [hdim]
    exact le_trans h.1 (le_max_left _ _)
  · intro v hv
    rw [hdim]
    have hv2 : v ∈ cc.cluster_centers_ ++ [w] := hv
    rcases List.mem_append.mp hv2 with h1 | h1
    · exact le_trans (h.2 v h1) (le_max_left _ _)
    · rw [List.mem_singleton] at h1
      rw [h1]
      exact le_max_right _ _

theorem valid_addClusterCenterAt (cc : SfClusterCenters) (x : SfSparseVector) (h : cc.Valid) :
    (cc.AddClusterCenterAt x).Valid :=
  valid_addClusterCenter cc _ h

theorem valid_clear (cc : SfClusterCenters) (h : cc.Valid) : cc.Clear.Valid := by
  constructor
  · exact h.1
  · intro v hv
    simp [SfClusterCenters.Clear] at hv

theorem valid_oneBatch (data_set : SfDataSet) (cc c1 : SfClusterCenters) (h : cc.Valid)
    (hrun : OneBatchKmeansOptimization data_set cc = .ok c1) : c1.Valid := by
  by_cases hne : 0 < cc.Size
  · obtain ⟨c2, h1, h2, h3, h4⟩ := oneBatch_spec data_set cc hne h.1
    rw [h1] at hrun
    have he : c2 = c1 := Except.ok.inj hrun
    subst he
    constructor
    · rw [h3]
      exact h.1
    · intro v hv
      obtain ⟨i, hi, hc⟩ := (mem_centers_iff c2 v).mp hv
      rw [h2] at hi
      rw [← hc, h4 i hi, h3]
      simp only [SfWeightVector.GetDimensions, length_batchCenter]
      have := h.1
      omega
  · unfold OneBatchKmeansOptimization at hrun
    rw [if_neg hne] at hrun
    exact Except.noConfusion hrun

theorem valid_applyOp (op : CenterOp) (cc c1 : SfClusterCenters) (h : cc.Valid)
    (hrun : applyOp op cc = .ok c1) : c1.Valid := by
  cases op with
  | addClusterCenter w =>
    have he : cc.AddClusterCenter w = c1 := Except.ok.inj hrun
    rw [← he]
    exact valid_addClusterCenter cc w h
  | addClusterCenterAt x =>
    have he : cc.AddClusterCenterAt x = c1 := Except.ok.inj hrun
    rw [← he]
    exact valid_addClusterCenterAt cc x h
  | clear =>
    have he : cc.Clear = c1 := Except.ok.inj hrun
    rw [← he]
    exact valid_clear cc h
  | oneBatchKmeansOptimization data_set => exact valid_oneBatch data_set cc c1 h hrun

theorem valid_runOps : ∀ (ops : List CenterOp) (cc c1 : SfClusterCenters), cc.Valid →
    runOps ops cc = .ok c1 → c1.Valid := by
  intro ops
  induction ops with
  | nil =>
    intro cc c1 h hrun
    have he : cc = c1 := Except.ok.inj hrun
    rw [← he]
    exact h
  | cons op ops ih =>
    intro cc c1 h hrun
    simp only [runOps] at hrun
    cases hop : applyOp op cc with
    | error e => rw [hop] at hrun; exact Except.noConfusion hrun
    | ok c2 =>
      rw [hop] at hrun
      exact ih c2 c1 (valid_applyOp op cc c2 h hop) hrun

theorem valid_mk1 (dimensionality : Int) (c0 : SfClusterCenters)
    (h : SfClusterCenters.mk1 dimensionality = .ok c0) : c0.Valid := by
  unfold SfClusterCenters.mk1 at h
  split at h
  · rename_i hd
    have he := Except.ok.inj h
    rw [← he]
    exact ⟨hd, by intro v hv; simp at hv⟩
  · exact Except.noConfusion h

theorem valid_mk2 (dimensionality num_clusters : Int) (c0 : SfClusterCenters)
    (h : SfClusterCenters.mk2 dimensionality num_clusters = .ok c0) : c0.Valid := by
  unfold SfClusterCenters.mk2 at h
  split at h
  · rename_i hd
    split at h
    · have he := Except.ok.inj h
      rw [← he]
      refine ⟨hd, ?_⟩
      intro v hv
      have hv2 := List.eq_of_mem_replicate hv
      rw [hv2]
      simp only [SfWeightVector.GetDimensions, length_zero]
      omega
    · exact Except.noConfusion h
  · exact Except.noConfusion h

/-- A sequence of the member functions `AddClusterCenter`, `AddClusterCenterAt` and `Clear`
never fails; `OneBatchKmeansOptimization` fails only on an empty center set. -/
theorem runOps_ok : ∀ (ops : List CenterOp) (cc : SfClusterCenters), cc.Valid →
    (∀ op ∈ ops, ∀ d, op ≠ .oneBatchKmeansOptimization d) →
    ∃ c1, runOps ops cc = .ok c1 := by
  intro ops
  induction ops with
  | nil => intro cc _ _; exact ⟨cc, rfl⟩
  | cons op ops ih =>
    intro cc h hops
    have hrest : ∀ o ∈ ops, ∀ d, o ≠ .oneBatchKmeansOptimization d :=
      fun o ho => hops o (List.mem_cons_of_mem _ ho)
    cases op with
    | addClusterCenter w =>
      simp only [runOps, applyOp]
      exact ih _ (valid_addClusterCenter cc w h) hrest
    | addClusterCenterAt x =>
      simp only [runOps, applyOp]
      exact ih _ (valid_addClusterCenterAt cc x h) hrest
    | clear =>
      simp only [runOps, applyOp]
      exact ih _ (valid_clear cc h) hrest
    | oneBatchKmeansOptimization d =>
      exact absurd rfl (hops _ (List.mem_cons_self _ _) d)

/-! ## Serialisation of a center set -/

theorem asString_foldl (txt : WeightVectorText) :
    ∀ (ws : List SfWeightVector) (acc : List Char),
      ws.foldl (fun output_string w => output_string ++ txt.AsString w ++ [newline]) acc
        = acc ++ (ws.map (fun w => txt.AsString w ++ [newline])).flatten := by
  intro ws
  induction ws with
  | nil => intro acc; simp
  | cons w ws ih =>
    intro acc
    simp only [List.foldl_cons, List.map_cons, List.flatten_cons]
    rw [ih]
    simp only [List.append_assoc]

theorem asString_eq (txt : WeightVectorText) (cc : SfClusterCenters) :
    cc.AsString txt
      = (cc.cluster_centers_.map (fun w => txt.AsString w ++ [newline])).flatten := by
  unfold SfClusterCenters.AsString
  rw [asString_foldl]
  rfl

/-- Reading a line: the characters up to the first newline are appended to the line read
so far. -/
theorem getlines_line : ∀ (l rest line : List Char), newline ∉ l →
    getlines (l ++ newline :: rest) line = (line ++ l) :: getlines rest [] := by
  intro l
  induction l with
  | nil =>
    intro rest line _
    simp [getlines]
  | cons c l ih =>
    intro rest line hnl
    have hc : ¬ c = newline := by
      intro h
      exact hnl (by rw [h]; exact List.mem_cons_self _ _)
    have hl : newline ∉ l := fun h => hnl (List.mem_cons_of_mem _ h)
    have h := ih rest (line ++ [c]) hl
    rw [List.cons_append]
    simp only [getlines, if_neg hc]
    rw [List.append_assoc, List.singleton_append] at h
    exact h

theorem getlines_flatten : ∀ (ls : List (List Char)), (∀ l ∈ ls, newline ∉ l) →
    getlines ((ls.map (fun l => l ++ [newline])).flatten) [] = ls := by
  intro ls
  induction ls with
  | nil => intro _; simp [getlines]
  | cons l ls ih =>
    intro h
    simp only [List.map_cons, List.flatten_cons, List.append_assoc, List.singleton_append]
    rw [getlines_line l _ [] (h l (List.mem_cons_self _ _)),
      ih (fun m hm => h m (List.mem_cons_of_mem _ hm))]
    simp

theorem foldl_addClusterCenter_lines {β : Type} (g : β → SfWeightVector) :
    ∀ (ls : List β) (c0 : SfClusterCenters),
      ls.foldl (fun cc line_string => cc.AddClusterCenter (g line_string)) c0
        = { cluster_centers_ := c0.cluster_centers_ ++ ls.map g,
            dimensionality_ :=
              (ls.map (fun l => (g l).GetDimensions)).foldl max c0.dimensionality_ } := by
  intro ls
  induction ls with
  | nil => intro c0; simp
  | cons l ls ih =>
    intro c0
    simp only [List.foldl_cons, List.map_cons]
    rw [ih]
    have hd := dimensionality_addClusterCenter c0 (g l)
    unfold SfClusterCenters.GetDimensionality at hd
    rw [hd]
    simp [SfClusterCenters.AddClusterCenter]

theorem ofFile_eq (txt : WeightVectorText) (uninitialised : Int) (content : List Char) :
    SfClusterCenters.ofFile txt uninitialised (some content)
      = .ok { cluster_centers_ := (getlines content []).map txt.ofString,
              dimensionality_ :=
                ((getlines content []).map (fun l => (txt.ofString l).GetDimensions)).foldl
                  max uninitialised } := by
  unfold SfClusterCenters.ofFile
  simp only [foldl_addClusterCenter_lines, List.nil_append]

theorem le_foldl_max : ∀ (ds : List Int) (u : Int), u ≤ ds.foldl max u := by
  intro ds
  induction ds with
  | nil => intro u; exact le_refl u
  | cons d ds ih =>
    intro u
    exact le_trans (le_max_left u d) (ih (max u d))

theorem foldl_max_eq_of_le : ∀ (ds : List Int) (u : Int), (∀ d ∈ ds, d ≤ u) →
    ds.foldl max u = u := by
  intro ds
  induction ds with
  | nil => intro u _; rfl
  | cons d ds ih =>
    intro u h
    simp only [List.foldl_cons]
    rw [max_eq_left (h d (List.mem_cons_self _ _))]
    exact ih u (fun e he => h e (List.mem_cons_of_mem _ he))

/-! ## The differencing constructor -/

theorem pushPair_ok_of_lt (r : SfSparseVector) (id : Int) (value : ℚ)
    (h : ∀ q ∈ r.features_, q.id_ < id) :
    r.PushPair id value
      = .ok { r with features_ := r.features_ ++ [{ id_ := id, value_ := value }],
                     squared_norm_ := r.squared_norm_ + value * value } :=
  pushPair_ok r id value (fun q hq => Or.inr (h q (List.mem_of_mem_getLast? hq)))

theorem diffOf_nil : DiffOf [] [] [] := by
  refine ⟨List.Pairwise.nil, ?_, ?_⟩
  · intro f
    simp
  · intro f
    simp [featSum]

/-- The new entries extended at the front by an entry `c` whose id is below all ids of
`as` and `bs`. -/
theorem pairwise_cons_of_diffOf (as bs new : List FeatureValuePair) (c : FeatureValuePair)
    (h : DiffOf as bs new) (ha : ∀ p ∈ as, c.id_ < p.id_) (hb : ∀ p ∈ bs, c.id_ < p.id_) :
    (c :: new).Pairwise (fun p q => p.id_ < q.id_) := by
  rw [List.pairwise_cons]
  refine ⟨?_, h.1⟩
  intro q hq
  have hmem : q.id_ ∈ new.map (fun p => p.id_) := List.mem_map.mpr ⟨q, hq, rfl⟩
  rcases (h.2.1 q.id_).mp hmem with h1 | h1
  · obtain ⟨p, hp, he⟩ := List.mem_map.mp h1
    have := ha p hp
    omega
  · obtain ⟨p, hp, he⟩ := List.mem_map.mp h1
    have := hb p hp
    omega

theorem diffOf_take_a (as bs new : List FeatureValuePair) (a : FeatureValuePair)
    (h : DiffOf as bs new) (ha : ∀ p ∈ as, a.id_ < p.id_) (hb : ∀ p ∈ bs, a.id_ < p.id_) :
    DiffOf (a :: as) bs ({ id_ := a.id_, value_ := a.value_ } :: new) := by
  refine ⟨pairwise_cons_of_diffOf as bs new _ h ha hb, ?_, ?_⟩
  · intro f
    simp only [List.map_cons, List.mem_cons]
    rw [h.2.1 f]
    tauto
  · intro f
    have h3 := h.2.2 f
    simp only [featSum, List.map_cons, List.sum_cons] at h3 ⊢
    rw [h3]
    ring

theorem diffOf_take_b (as bs new : List FeatureValuePair) (b : FeatureValuePair)
    (h : DiffOf as bs new) (ha : ∀ p ∈ as, b.id_ < p.id_) (hb : ∀ p ∈ bs, b.id_ < p.id_) :
    DiffOf as (b :: bs) ({ id_ := b.id_, value_ := 0 - b.value_ } :: new) := by
  refine ⟨pairwise_cons_of_diffOf as bs new _ h ha hb, ?_, ?_⟩
  · intro f
    simp only [List.map_cons, List.mem_cons]
    rw [h.2.1 f]
    tauto
  · intro f
    have h3 := h.2.2 f
    simp only [featSum, List.map_cons, List.sum_cons] at h3 ⊢
    rw [h3]
    split <;> ring

theorem diffOf_take_both (as bs new : List FeatureValuePair) (a b : FeatureValuePair)
    (h : DiffOf as bs new) (hab : a.id_ = b.id_)
    (ha : ∀ p ∈ as, a.id_ < p.id_) (hb : ∀ p ∈ bs, a.id_ < p.id_) :
    DiffOf (a :: as) (b :: bs) ({ id_ := a.id_, value_ := a.value_ - b.value_ } :: new) := by
  refine ⟨pairwise_cons_of_diffOf as bs new _ h ha hb, ?_, ?_⟩
  · intro f
    simp only [List.map_cons, List.mem_cons]
    rw [h.2.1 f, ← hab]
    tauto
  · intro f
    have h3 := h.2.2 f
    simp only [featSum, List.map_cons, List.sum_cons] at h3 ⊢
    rw [h3, ← hab]
    split <;> ring

/-- One entry `c` pushed first and the difference `new` appended after it make the
difference `c :: new` appended. -/
theorem diffResult_push (as bs as1 bs1 : List FeatureValuePair) (r r1 : SfSparseVector)
    (c : FeatureValuePair)
    (h : DiffResult as1 bs1
      { r with features_ := r.features_ ++ [c],
               squared_norm_ := r.squared_norm_ + c.value_ * c.value_ } r1)
    (hd : ∀ new, DiffOf as1 bs1 new → DiffOf as bs (c :: new)) :
    DiffResult as bs r r1 := by
  obtain ⟨new, h1, h2, h3, h4, h5⟩ := h
  refine ⟨c :: new, ?_, ?_, h3, h4, hd new h5⟩
  · rw [h1]
    simp
  · rw [h2]
    simp only [List.map_cons, List.sum_cons]
    ring

theorem below_push (r : SfSparseVector) (c : FeatureValuePair) (n : ℚ)
    (l : List FeatureValuePair)
    (h1 : ∀ q ∈ r.features_, ∀ p ∈ l, q.id_ < p.id_) (h2 : ∀ p ∈ l, c.id_ < p.id_) :
    ∀ q ∈ ({ r with features_ := r.features_ ++ [c], squared_norm_ := n } :
      SfSparseVector).features_, ∀ p ∈ l, q.id_ < p.id_ := by
  intro q hq p hp
  rcases List.mem_append.mp hq with h | h
  · exact h1 q h p hp
  · rw [List.mem_singleton] at h
    rw [h]
    exact h2 p hp

/-- The part of the differencing constructor that runs when `a` has no features
remaining: the remaining features of `b` are appended with the sign flipped. -/
theorem diffOnlyB_spec : ∀ (bs : List FeatureValuePair) (r : SfSparseVector),
    bs.Pairwise (fun p q => p.id_ < q.id_) →
    (∀ q ∈ r.features_, ∀ p ∈ bs, q.id_ < p.id_) →
    ∃ r1, SfSparseVector.diffOnlyB bs r = .ok r1 ∧ DiffResult [] bs r r1 := by
  intro bs
  induction bs with
  | nil =>
    intro r _ _
    exact ⟨r, rfl, [], by simp, by simp, rfl, rfl, diffOf_nil⟩
  | cons b bs ih =>
    intro r hs hbelow
    have hpw := List.pairwise_cons.mp hs
    have hpush := pushPair_ok_of_lt r b.id_ (0 - b.value_)
      (fun q hq => hbelow q hq b (List.mem_cons_self _ _))
    obtain ⟨r1, h1, h2⟩ := ih _ hpw.2
      (below_push r { id_ := b.id_, value_ := 0 - b.value_ } _ bs
        (fun q hq p hp => hbelow q hq p (List.mem_cons_of_mem _ hp)) hpw.1)
    refine ⟨r1, ?_, ?_⟩
    · simp only [SfSparseVector.diffOnlyB, hpush]
      exact h1
    · exact diffResult_push [] (b :: bs) [] bs r r1 _ h2
        (fun new hn => diffOf_take_b [] bs new b hn (by intro p hp; simp at hp) hpw.1)

/-- The part of the differencing constructor that runs while the feature `a` of the first
vector is the current one, `as` being the features after it. -/
theorem diffInner_spec (a : FeatureValuePair) (as : List FeatureValuePair)
    (haas : ∀ p ∈ as, a.id_ < p.id_)
    (hk : ∀ (bs : List FeatureValuePair) (r : SfSparseVector),
      bs.Pairwise (fun p q => p.id_ < q.id_) →
      (∀ q ∈ r.features_, ∀ p ∈ as, q.id_ < p.id_) →
      (∀ q ∈ r.features_, ∀ p ∈ bs, q.id_ < p.id_) →
      ∃ r1, SfSparseVector.diffLoop as bs r = .ok r1 ∧ DiffResult as bs r r1) :
    ∀ (bs : List FeatureValuePair) (r : SfSparseVector),
      bs.Pairwise (fun p q => p.id_ < q.id_) →
      (∀ q ∈ r.features_, q.id_ < a.id_) →
      (∀ q ∈ r.features_, ∀ p ∈ bs, q.id_ < p.id_) →
      ∃ r1, SfSparseVector.diffInner a (SfSparseVector.diffLoop as) bs r = .ok r1 ∧
        DiffResult (a :: as) bs r r1 := by
  intro bs
  induction bs with
  | nil =>
    intro r _ hra _
    have hpush := pushPair_ok_of_lt r a.id_ a.value_ hra
    obtain ⟨r1, h1, h2⟩ := hk [] _ List.Pairwise.nil
      (below_push r { id_ := a.id_, value_ := a.value_ } _ as
        (fun q hq p hp => lt_trans (hra q hq) (haas p hp)) haas)
      (by intro q _ p hp; simp at hp)
    refine ⟨r1, ?_, ?_⟩
    · simp only [SfSparseVector.diffInner, hpush]
      exact h1
    · exact diffResult_push (a :: as) [] as [] r r1 _ h2
        (fun new hn => diffOf_take_a as [] new a hn haas (by intro p hp; simp at hp))
  | cons b bs ih =>
    intro r hs hra hrb
    have hpw := List.pairwise_cons.mp hs
    by_cases hba : b.id_ < a.id_
    · have hpush := pushPair_ok_of_lt r b.id_ (0 - b.value_)
        (fun q hq => hrb q hq b (List.mem_cons_self _ _))
      obtain ⟨r1, h1, h2⟩ := ih _ hpw.2
        (by
          intro q hq
          rcases List.mem_append.mp hq with h | h
          · exact hra q h
          · rw [List.mem_singleton] at h
            rw [h]
            exact hba)
        (below_push r { id_ := b.id_, value_ := 0 - b.value_ } _ bs
          (fun q hq p hp => hrb q hq p (List.mem_cons_of_mem _ hp)) hpw.1)
      refine ⟨r1, ?_, ?_⟩
      · simp only [SfSparseVector.diffInner, if_pos hba, hpush]
        exact h1
      · refine diffResult_push (a :: as) (b :: bs) (a :: as) bs r r1 _ h2
          (fun new hn => diffOf_take_b (a :: as) bs new b hn ?_ hpw.1)
        intro p hp
        rcases List.mem_cons.mp hp with h | h
        · rw [h]
          exact hba
        · exact lt_trans hba (haas p h)
    · by_cases hab : a.id_ < b.id_
      · have hpush := pushPair_ok_of_lt r a.id_ a.value_ hra
        obtain ⟨r1, h1, h2⟩ := hk (b :: bs) _ hs
          (below_push r { id_ := a.id_, value_ := a.value_ } _ as
            (fun q hq p hp => lt_trans (hra q hq) (haas p hp)) haas)
          (below_push r { id_ := a.id_, value_ := a.value_ } _ (b :: bs) hrb
            (by
              intro p hp
              rcases List.mem_cons.mp hp with h | h
              · rw [h]
                exact hab
              · exact lt_trans hab (hpw.1 p h)))
        refine ⟨r1, ?_, ?_⟩
        · simp only [SfSparseVector.diffInner, if_neg hba, if_pos hab, hpush]
          exact h1
        · refine diffResult_push (a :: as) (b :: bs) as (b :: bs) r r1 _ h2
            (fun new hn => diffOf_take_a as (b :: bs) new a hn haas ?_)
          intro p hp
          rcases List.mem_cons.mp hp with h | h
          · rw [h]
            exact hab
          · exact lt_trans hab (hpw.1 p h)
      · have heq : a.id_ = b.id_ := by omega
        have hpush := pushPair_ok_of_lt r a.id_ (a.value_ - b.value_) hra
        have hbs : ∀ p ∈ bs, a.id_ < p.id_ := by
          intro p hp
          rw [heq]
          exact hpw.1 p hp
        obtain ⟨r1, h1, h2⟩ := hk bs _ hpw.2
          (below_push r { id_ := a.id_, value_ := a.value_ - b.value_ } _ as
            (fun q hq p hp => lt_trans (hra q hq) (haas p hp)) haas)
          (below_push r { id_ := a.id_, value_ := a.value_ - b.value_ } _ bs
            (fun q hq p hp => hrb q hq p (List.mem_cons_of_mem _ hp)) hbs)
        refine ⟨r1, ?_, ?_⟩
        · simp only [SfSparseVector.diffInner, if_neg hba, if_neg hab, hpush]
          exact h1
        · exact diffResult_push (a :: as) (b :: bs) as bs r r1 _ h2
            (fun new hn => diffOf_take_both as bs new a b hn heq haas hbs)

/-- The loop of the differencing constructor on two feature lists with strictly ascending
ids: no `PushPair` is refused, and the difference of the lists is appended. -/
theorem diffLoop_spec : ∀ (as : List FeatureValuePair),
    as.Pairwise (fun p q => p.id_ < q.id_) →
    ∀ (bs : List FeatureValuePair) (r : SfSparseVector),
      bs.Pairwise (fun p q => p.id_ < q.id_) →
      (∀ q ∈ r.features_, ∀ p ∈ as, q.id_ < p.id_) →
      (∀ q ∈ r.features_, ∀ p ∈ bs, q.id_ < p.id_) →
      ∃ r1, SfSparseVector.diffLoop as bs r = .ok r1 ∧ DiffResult as bs r r1 := by
  intro as
  induction as with
  | nil =>
    intro _ bs r hs _ hrb
    obtain ⟨r1, h1, h2⟩ := diffOnlyB_spec bs r hs hrb
    exact ⟨r1, by simp only [SfSparseVector.diffLoop]; exact h1, h2⟩
  | cons a as ih =>
    intro has bs r hs hra hrb
    have hpw := List.pairwise_cons.mp has
    obtain ⟨r1, h1, h2⟩ := diffInner_spec a as hpw.1 (ih hpw.2) bs r hs
      (fun q hq => hra q hq a (List.mem_cons_self _ _)) hrb
    exact ⟨r1, by simp only [SfSparseVector.diffLoop]; exact h1, h2⟩

/-! ## Distances to centers created at a point -/

theorem sqDist_centerOf (D : Int) (x y : SfSparseVector) (hwf : x.WellFormed)
    (hx : x.FeaturesBelow D.toNat) (hy : y.FeaturesBelow D.toNat) :
    sqDist (centerOf D y) x
      = ∑ i in Finset.range D.toNat, (x.coord (i : Int) - y.coord (i : Int)) ^ 2 := by
  rw [sqDist_eq (centerOf D y) x D.toNat (by rw [length_centerOf]),
    normExcess_eq_zero x _ hwf hx, add_zero]
  unfold euclidSq
  apply Finset.sum_congr rfl
  intro i _
  rw [valueOf_centerOf D y hy]

theorem sqDist_centerOf_self (D : Int) (x : SfSparseVector) (hwf : x.WellFormed)
    (hx : x.FeaturesBelow D.toNat) : sqDist (centerOf D x) x = 0 := by
  rw [sqDist_centerOf D x x hwf hx hx]
  apply Finset.sum_eq_zero
  intro i _
  rw [sub_self]
  norm_num

theorem sqDist_centerOf_symm (D : Int) (x y : SfSparseVector) (hwfx : x.WellFormed)
    (hwfy : y.WellFormed) (hx : x.FeaturesBelow D.toNat) (hy : y.FeaturesBelow D.toNat) :
    sqDist (centerOf D y) x = sqDist (centerOf D x) y := by
  rw [sqDist_centerOf D x y hwfx hx hy, sqDist_centerOf D y x hwfy hy hx]
  apply Finset.sum_congr rfl
  intro i _
  ring

/-- Centers added later leave the centers that are there at their index. -/
theorem foldl_addClusterCenterAt_frame : ∀ (ys : List SfSparseVector) (c : SfClusterCenters),
    c.Size ≤ (ys.foldl (fun c y => c.AddClusterCenterAt y) c).Size ∧
    ∀ i, i < c.Size →
      (ys.foldl (fun c y => c.AddClusterCenterAt y) c).ClusterCenter i = c.ClusterCenter i := by
  intro ys
  induction ys with
  | nil => intro c; exact ⟨le_refl _, fun _ _ => rfl⟩
  | cons y ys ih =>
    intro c
    have hs : (c.AddClusterCenterAt y).Size = c.Size + 1 := size_addClusterCenter c _
    obtain ⟨h1, h2⟩ := ih (c.AddClusterCenterAt y)
    simp only [List.foldl_cons]
    constructor
    · omega
    · intro i hi
      rw [h2 i (by omega)]
      exact clusterCenter_addClusterCenter_lt c _ i hi

theorem clusterCenter_addClusterCenterAt_last (cc : SfClusterCenters) (x : SfSparseVector) :
    (cc.AddClusterCenterAt x).ClusterCenter cc.Size = centerOf cc.dimensionality_ x := by
  unfold SfClusterCenters.AddClusterCenterAt
  rw [clusterCenter_addClusterCenter_last]
  rfl

/-! ## Failure of the distance functions -/

theorem sqDistanceToCenterId_error (cc : SfClusterCenters) (x : SfSparseVector)
    (center_id : Int) (h : center_id < 0 ∨ (cc.Size : Int) ≤ center_id) :
    cc.SqDistanceToCenterId center_id x = .error .assertion := by
  unfold SfClusterCenters.SqDistanceToCenterId
  rw [if_neg]
  rintro ⟨h1, h2⟩
  unfold SfClusterCenters.Size at h
  omega

theorem sqDistanceToCenterId_ok_int (cc : SfClusterCenters) (x : SfSparseVector)
    (center_id : Int) (h0 : 0 ≤ center_id) (h1 : center_id < (cc.Size : Int)) :
    cc.SqDistanceToCenterId center_id x
      = .ok (sqDist (cc.ClusterCenter center_id.toNat) x) := by
  have h := sqDistanceToCenterId_ok cc x center_id.toNat (by omega)
  rw [show ((center_id.toNat : Nat) : Int) = center_id by omega] at h
  exact h

theorem isEmpty_iff_size (cc : SfClusterCenters) :
    cc.cluster_centers_.isEmpty = true ↔ cc.Size = 0 := by
  unfold SfClusterCenters.Size
  cases cc.cluster_centers_ with
  | nil => simp
  | cons a l => simp

/-- The method `SqDistanceToClosestCenter` with its output location, on a location that
is not null: the value and the id of `SqDistanceToClosestCenter`, or its failure with the
location as it was. -/
theorem sqDistanceToClosestCenterInto_eq (cc : SfClusterCenters) (x : SfSparseVector)
    (held : Int) :
    cc.SqDistanceToClosestCenterInto x (some held)
      = match cc.SqDistanceToClosestCenter x with
        | .ok r => (.ok r.1, some r.2)
        | .error e => (.error e, some held) := by
  unfold SfClusterCenters.SqDistanceToClosestCenterInto SfClusterCenters.SqDistanceToClosestCenter
  by_cases h : cc.cluster_centers_.isEmpty = true
  · simp only [h, if_true]
  · simp only [h, Bool.false_eq_true, if_false]
    cases cc.closestLoop x (List.range cc.Size) (FLT_MAX, 0) with
    | error e => rfl
    | ok r => rfl

/-! ## Loops that draw random numbers and read the centers -/

theorem range_succ_foldl {σ : Type} (f : σ → Nat → σ) (n : Nat) (acc : σ) :
    (List.range (n + 1)).foldl f acc
      = (List.range n).foldl (fun a t => f a (t + 1)) (f acc 0) := by
  rw [List.range_succ_eq_map, List.foldl_cons, List.foldl_map]

/-- A loop whose body, at the call number `calls` of `rand()`, makes `w` calls, leaves the
centers as they are and turns the loop variables `acc` into `step calls acc`, is the fold
of `step` over the passes. -/
theorem forFold_pure {β σ : Type} (body : β → σ → Km σ) (step : Nat → σ → σ) (w : Nat)
    (cc : SfClusterCenters)
    (hbody : ∀ (b : β) (acc : σ) (calls : Nat),
      body b acc { cluster_centers := cc, rand_calls := calls }
        = .ok (step calls acc) { cluster_centers := cc, rand_calls := calls + w }) :
    ∀ (l : List β) (acc : σ) (calls : Nat),
      Km.forFold body l acc { cluster_centers := cc, rand_calls := calls }
        = .ok ((List.range l.length).foldl (fun a t => step (calls + w * t) a) acc)
            { cluster_centers := cc, rand_calls := calls + w * l.length } := by
  intro l
  induction l with
  | nil =>
    intro acc calls
    simp [Km.forFold, Km.ret]
  | cons b bs ih =>
    intro acc calls
    simp only [Km.forFold, Km.andThen, hbody, ih, List.length_cons]
    rw [range_succ_foldl]
    simp only [Nat.mul_zero, Nat.add_zero]
    congr 2
    · funext a t
      rw [show calls + w + w * t = calls + w * (t + 1) by ring]
    · ring

theorem foldl_range_succ {σ : Type} (f : σ → Nat → σ) (n : Nat) (acc : σ) :
    (List.range (n + 1)).foldl f acc = f ((List.range n).foldl f acc) n := by
  rw [List.range_succ, List.foldl_append]
  rfl

theorem randInt_eq (rand_seq : Nat → Nat) (data_set : SfDataSet) (s : KmState)
    (hn : 0 < data_set.NumExamples) :
    RandInt rand_seq data_set.NumExamples s
      = .ok (drawIndex rand_seq data_set s.rand_calls)
          { s with rand_calls := s.rand_calls + 1 } := by
  have hne : ¬ data_set.NumExamples = 0 := by omega
  have hmod : Int.tmod (rand_seq s.rand_calls : Int) data_set.NumExamples
      = (rand_seq s.rand_calls : Int) % data_set.NumExamples :=
    Int.tmod_eq_emod (Int.natCast_nonneg _) (le_of_lt hn)
  unfold RandInt drawIndex
  simp only [km_bind_apply, rand, if_neg hne, hmod, km_pure_apply]

theorem randFloat_eq (rand_seq : Nat → Nat) (s : KmState) :
    RandFloat rand_seq s
      = .ok (drawFraction rand_seq s.rand_calls)
          { s with rand_calls := s.rand_calls + 1 } := by
  unfold RandFloat drawFraction
  simp only [km_bind_apply, rand, km_pure_apply]

theorem drawIndex_range (rand_seq : Nat → Nat) (data_set : SfDataSet) (t : Nat)
    (hn : 0 < data_set.NumExamples) :
    0 ≤ drawIndex rand_seq data_set t ∧ drawIndex rand_seq data_set t < data_set.NumExamples :=
  ⟨Int.emod_nonneg _ (by omega), Int.emod_lt_of_pos _ hn⟩

theorem ofExcept_closest (cc : SfClusterCenters) (x : SfSparseVector) (calls : Nat)
    (hne : 0 < cc.Size) :
    Km.ofExcept (fun c => c.SqDistanceToClosestCenter x)
        { cluster_centers := cc, rand_calls := calls }
      = .ok (closestDistance cc x, ((closestCenterId cc x : Nat) : Int))
          { cluster_centers := cc, rand_calls := calls } := by
  unfold Km.ofExcept
  simp only [(closest_ok cc x hne).1]

/-- The loop over `j` of `SamplingFarthestFirst`: the fold of `farthestStep` over the
candidates, one call of `rand()` for each. -/
theorem farthestFirstSample_eq (rand_seq : Nat → Nat) (data_set : SfDataSet)
    (sample_size : Int) (cc : SfClusterCenters) (calls : Nat)
    (hne : 0 < cc.Size) (hn : 0 < data_set.NumExamples) :
    farthestFirstSample rand_seq data_set sample_size
        { cluster_centers := cc, rand_calls := calls }
      = .ok ((List.range sample_size.toNat).foldl
              (fun a t => farthestStep cc data_set a (drawIndex rand_seq data_set (calls + t)))
              (0, 0))
          { cluster_centers := cc, rand_calls := calls + sample_size.toNat } := by
  unfold farthestFirstSample
  have h := forFold_pure
    (fun (_ : Int) (acc : Int × Int) => do
      let temp_id ← RandInt rand_seq data_set.NumExamples
      let r ← Km.ofExcept (fun cc =>
        cc.SqDistanceToClosestCenter (data_set.VectorAt temp_id))
      let temp_distance := r.1
      if temp_distance > ((acc.1 : Int) : ℚ) then pure (truncToInt temp_distance, temp_id)
      else pure acc)
    (fun c a => farthestStep cc data_set a (drawIndex rand_seq data_set c)) 1 cc
    (by
      intro b acc c
      simp only [km_bind_apply, randInt_eq rand_seq data_set _ hn, ofExcept_closest _ _ _ hne]
      unfold farthestStep
      split <;> rfl)
    (intRange 0 sample_size) (0, 0) calls
  rw [h, length_intRange]
  simp only [Int.sub_zero, Nat.one_mul]

/-- The loop over `j` of `SamplingKmeansPlusPlus`: the fold of `samplingStep` over the
candidates, two calls of `rand()` for each. -/
theorem samplingPlusPlusSample_eq (rand_seq : Nat → Nat) (data_set : SfDataSet)
    (sample_size : Int) (cc : SfClusterCenters) (calls : Nat)
    (hne : 0 < cc.Size) (hn : 0 < data_set.NumExamples) :
    samplingPlusPlusSample rand_seq data_set sample_size
        { cluster_centers := cc, rand_calls := calls }
      = .ok ((List.range sample_size.toNat).foldl
              (fun a t => samplingStep cc data_set a
                (roundCandidate rand_seq data_set calls t) (roundFraction rand_seq calls t))
              (0, 0))
          { cluster_centers := cc, rand_calls := calls + 2 * sample_size.toNat } := by
  unfold samplingPlusPlusSample
  have h := forFold_pure
    (fun (_ : Int) (acc : Int × ℚ) => do
      let proposed_cluster_center ← RandInt rand_seq data_set.NumExamples
      let r ← Km.ofExcept (fun cc =>
        cc.SqDistanceToClosestCenter (data_set.VectorAt proposed_cluster_center))
      let distance := r.1
      let total_distance_mass := acc.2 + distance
      let f ← RandFloat rand_seq
      if f < distance / total_distance_mass then
        pure (proposed_cluster_center, total_distance_mass)
      else pure (acc.1, total_distance_mass))
    (fun c a => samplingStep cc data_set a (drawIndex rand_seq data_set c)
      (drawFraction rand_seq (c + 1))) 2 cc
    (by
      intro b acc c
      simp only [km_bind_apply, randInt_eq rand_seq data_set _ hn, ofExcept_closest _ _ _ hne,
        randFloat_eq]
      unfold samplingStep
      split <;> rfl)
    (intRange 0 sample_size) (0, 0) calls
  rw [h, length_intRange]
  simp only [Int.sub_zero]
  rfl

/-! ## A round of SamplingKmeansPlusPlus -/

theorem samplingAfter_mass (cc : SfClusterCenters) (rand_seq : Nat → Nat)
    (data_set : SfDataSet) (c0 : Nat) :
    ∀ m, (samplingAfter cc rand_seq data_set c0 m).2
      = ∑ u in Finset.range m, candidateDistance cc rand_seq data_set c0 u := by
  intro m
  induction m with
  | zero => simp [samplingAfter]
  | succ m ih =>
    unfold samplingAfter at ih ⊢
    rw [foldl_range_succ, Finset.sum_range_succ, ← ih]
    unfold samplingStep candidateDistance
    split <;> rfl

theorem samplingAfter_succ (cc : SfClusterCenters) (rand_seq : Nat → Nat)
    (data_set : SfDataSet) (c0 m : Nat) :
    (samplingAfter cc rand_seq data_set c0 (m + 1)).2
      = runningMass cc rand_seq data_set c0 m ∧
    (candidateAccepted cc rand_seq data_set c0 m →
      (samplingAfter cc rand_seq data_set c0 (m + 1)).1
        = roundCandidate rand_seq data_set c0 m) ∧
    (¬ candidateAccepted cc rand_seq data_set c0 m →
      (samplingAfter cc rand_seq data_set c0 (m + 1)).1
        = (samplingAfter cc rand_seq data_set c0 m).1) := by
  have hmass : (samplingAfter cc rand_seq data_set c0 m).2
      + closestDistance cc (data_set.VectorAt (roundCandidate rand_seq data_set c0 m))
      = runningMass cc rand_seq data_set c0 m := by
    rw [samplingAfter_mass]
    unfold runningMass
    rw [Finset.sum_range_succ]
    rfl
  have hstep : samplingAfter cc rand_seq data_set c0 (m + 1)
      = samplingStep cc data_set (samplingAfter cc rand_seq data_set c0 m)
          (roundCandidate rand_seq data_set c0 m) (roundFraction rand_seq c0 m) := by
    unfold samplingAfter
    rw [foldl_range_succ]
  refine ⟨?_, ?_, ?_⟩
  · rw [samplingAfter_mass]
    rfl
  · intro hacc
    unfold candidateAccepted candidateDistance at hacc
    rw [← hmass] at hacc
    rw [hstep]
    unfold samplingStep
    rw [if_pos hacc]
  · intro hacc
    unfold candidateAccepted candidateDistance at hacc
    rw [← hmass] at hacc
    rw [hstep]
    unfold samplingStep
    rw [if_neg hacc]

/-- After `m` candidates the tentative center is the last accepted candidate, and
example 0 when none was accepted. -/
theorem samplingAfter_last (cc : SfClusterCenters) (rand_seq : Nat → Nat)
    (data_set : SfDataSet) (c0 : Nat) :
    ∀ m, (∀ t, t < m → candidateAccepted cc rand_seq data_set c0 t →
        (∀ u, t < u → u < m → ¬ candidateAccepted cc rand_seq data_set c0 u) →
        (samplingAfter cc rand_seq data_set c0 m).1 = roundCandidate rand_seq data_set c0 t) ∧
      ((∀ t, t < m → ¬ candidateAccepted cc rand_seq data_set c0 t) →
        (samplingAfter cc rand_seq data_set c0 m).1 = 0) := by
  intro m
  induction m with
  | zero =>
    constructor
    · intro t ht
      omega
    · intro _
      rfl
  | succ m ih =>
    obtain ⟨_, hyes, hno⟩ := samplingAfter_succ cc rand_seq data_set c0 m
    constructor
    · intro t ht hacc hlast
      by_cases hm : candidateAccepted cc rand_seq data_set c0 m
      · have htm : t = m := by
          by_contra hne
          exact hlast m (by omega) (by omega) hm
        rw [hyes hm, htm]
      · have htm : t < m := by
          have : t ≠ m := fun h => hm (h ▸ hacc)
          omega
        rw [hno hm]
        exact ih.1 t htm hacc (fun u h1 h2 => hlast u h1 (by omega))
    · intro hnone
      rw [hno (hnone m (by omega))]
      exact ih.2 (fun t ht => hnone t (by omega))

/-! ## Ties -/

theorem truncToInt_le (d : ℚ) (h : 0 ≤ d) : ((truncToInt d : Int) : ℚ) ≤ d := by
  unfold truncToInt
  rw [if_pos h]
  exact Int.floor_le d

/-- Two candidates with the same distance `d`, drawn one after the other, the first of
which replaces the running best: the second replaces the first exactly when `d` converted
to `int` is below `d`. -/
theorem farthestStep_tie (cc : SfClusterCenters) (data_set : SfDataSet) (acc : Int × Int)
    (c1 c2 : Int)
    (heq : closestDistance cc (data_set.VectorAt c1) = closestDistance cc (data_set.VectorAt c2))
    (hfirst : ((acc.1 : Int) : ℚ) < closestDistance cc (data_set.VectorAt c1)) :
    (farthestStep cc data_set (farthestStep cc data_set acc c1) c2).2
      = if ((truncToInt (closestDistance cc (data_set.VectorAt c1)) : Int) : ℚ)
            < closestDistance cc (data_set.VectorAt c1) then c2
        else c1 := by
  have h1 : farthestStep cc data_set acc c1
      = (truncToInt (closestDistance cc (data_set.VectorAt c1)), c1) := by
    unfold farthestStep
    rw [if_pos hfirst]
  rw [h1]
  unfold farthestStep
  simp only [← heq]
  by_cases h : ((truncToInt (closestDistance cc (data_set.VectorAt c1)) : Int) : ℚ)
      < closestDistance cc (data_set.VectorAt c1)
  · rw [if_pos h, if_pos h]
  · rw [if_neg h, if_neg h]

/-- The assignment `m[key] = value` leaves `value` at `key`: a lookup at `key` finds it. -/
theorem lower_bound_set (m : FloatIntMap) (key : ℚ) (value : Int) :
    FloatIntMap.lower_bound (FloatIntMap.set m key value) key = some (key, value) := by
  induction m with
  | nil => simp [FloatIntMap.set, FloatIntMap.lower_bound]
  | cons e rest ih =>
    simp only [FloatIntMap.set]
    by_cases h1 : key < e.1
    · rw [if_pos h1]
      simp [FloatIntMap.lower_bound]
    · rw [if_neg h1]
      by_cases h2 : key = e.1
      · rw [if_pos h2]
        simp [FloatIntMap.lower_bound]
      · rw [if_neg h2]
        simp only [FloatIntMap.lower_bound]
        have h3 : ¬ key ≤ e.1 := by
          intro hle
          rcases lt_or_eq_of_le hle with h | h
          · exact h1 h
          · exact h2 h
        rw [if_neg h3]
        exact ih

/-- The step of the optimized variants for example `j` leaves `j` at the key it writes,
the new total distance mass, whichever example held that key before. -/
theorem cacheStep_lower_bound (j : Int) (distance : ℚ) (recently_added_center : Int)
    (acc : ℚ × FloatIntMap × BestCache) :
    FloatIntMap.lower_bound (cacheStep j distance recently_added_center acc).2.1
        (cacheStep j distance recently_added_center acc).1
      = some ((cacheStep j distance recently_added_center acc).1, j) := by
  unfold cacheStep
  simp only
  split
  · simp only
    rw [add_comm acc.1 distance]
    exact lower_bound_set _ _ _
  · simp only
    rw [add_comm acc.1 _]
    exact lower_bound_set _ _ _

/-- The keys of the map of a round of `ClassicKmeansPlusPlus` are strictly increasing. -/
theorem classicTable_sorted (cc : SfClusterCenters) (data_set : SfDataSet)
    (hne : 0 < cc.Size) (hwf : ∀ x ∈ data_set.vectors_, x.WellFormed) :
    ∃ (T : ℚ) (tbl : FloatIntMap),
      classicTable cc data_set (intRange 0 data_set.NumExamples) (0, []) = .ok (T, tbl) ∧
      tbl.Pairwise (fun a b => a.1 < b.1) := by
  have hnn : ∀ i, i < data_set.vectors_.length → 0 ≤ roundDistance cc data_set i :=
    fun i hi => roundDistance_nonneg cc data_set hne hwf i hi
  refine ⟨_, _, classicTable_eq cc data_set hne data_set.vectors_.length hnn, ?_⟩
  exact cumulativeTable_sorted _ _ hnn

/-! ## The mini-batch step -/

/-- The first loop of `OneMiniBatchKmeansOptimization`: every pass appends the drawn
example to the list of the center `SqDistanceToClosestCenter` writes for it. -/
theorem miniBatchAssign_eq (rand_seq : Nat → Nat) (data_set : SfDataSet)
    (mini_batch_size : Int) (mbc : List (List Int)) (cc : SfClusterCenters) (calls : Nat)
    (hne : 0 < cc.Size) (hn : 0 < data_set.NumExamples) :
    miniBatchAssign rand_seq data_set mini_batch_size mbc
        { cluster_centers := cc, rand_calls := calls }
      = .ok ((List.range mini_batch_size.toNat).foldl
              (fun a t => a.modify (fun l => l ++ [drawIndex rand_seq data_set (calls + t)])
                (closestCenterId cc (data_set.VectorAt (drawIndex rand_seq data_set (calls + t)))))
              mbc)
          { cluster_centers := cc, rand_calls := calls + mini_batch_size.toNat } := by
  unfold miniBatchAssign
  have h := forFold_pure
    (fun (_ : Int) (mbc : List (List Int)) => do
      let x_id ← RandInt rand_seq data_set.NumExamples
      let r ← Km.ofExcept (fun cc => cc.SqDistanceToClosestCenter (data_set.VectorAt x_id))
      pure (mbc.modify (fun l => l ++ [x_id]) r.2.toNat))
    (fun c a => a.modify (fun l => l ++ [drawIndex rand_seq data_set c])
      (closestCenterId cc (data_set.VectorAt (drawIndex rand_seq data_set c)))) 1 cc
    (by
      intro b acc c
      simp only [km_bind_apply, randInt_eq rand_seq data_set _ hn, ofExcept_closest _ _ _ hne,
        Int.toNat_ofNat]
      rfl)
    (intRange 0 mini_batch_size) mbc calls
  rw [h, length_intRange]
  simp only [Int.sub_zero, Nat.one_mul]

theorem modify_map_range {α : Type} (g : Nat → List α) (k j : Nat) (x : α) :
    ((List.range k).map g).modify (fun l => l ++ [x]) j
      = (List.range k).map (fun i => g i ++ if j = i then [x] else []) := by
  apply List.ext_getElem?
  intro n
  rw [List.getElem?_modify]
  simp only [List.getElem?_map]
  by_cases hn : n < k
  · rw [List.getElem?_range hn]
    by_cases hj : j = n
    · simp [hj]
    · simp [hj]
  · rw [List.getElem?_eq_none (by simpa using hn)]
    simp

theorem miniBatchDraws_succ (rand_seq : Nat → Nat) (data_set : SfDataSet) (c0 m : Nat) :
    miniBatchDraws rand_seq data_set c0 (m + 1)
      = miniBatchDraws rand_seq data_set c0 m ++ [drawIndex rand_seq data_set (c0 + m)] := by
  unfold miniBatchDraws
  rw [List.range_succ, List.map_append]
  rfl

/-- After `m` passes of the first loop, the list of center `i` holds the drawn examples
grouped under `i`. -/
theorem miniBatchGroups_eq (rand_seq : Nat → Nat) (data_set : SfDataSet)
    (cc : SfClusterCenters) (c0 : Nat) :
    ∀ m, (List.range m).foldl
        (fun a t => a.modify (fun l => l ++ [drawIndex rand_seq data_set (c0 + t)])
          (closestCenterId cc (data_set.VectorAt (drawIndex rand_seq data_set (c0 + t)))))
        (List.replicate cc.Size [])
      = (List.range cc.Size).map
          (fun i => miniBatchGroup cc data_set (miniBatchDraws rand_seq data_set c0 m) i) := by
  intro m
  induction m with
  | zero =>
    simp only [List.range_zero, List.foldl_nil, miniBatchDraws, List.map_nil, miniBatchGroup,
      List.filter_nil]
    apply List.ext_getElem?
    intro n
    by_cases hn : n < cc.Size
    · simp [List.getElem?_replicate, hn, List.getElem?_range hn]
    · simp [List.getElem?_replicate, hn, List.getElem?_eq_none (by simpa using hn)]
  | succ m ih =>
    rw [foldl_range_succ, ih, modify_map_range, miniBatchDraws_succ]
    apply List.map_congr_left
    intro i _
    unfold miniBatchGroup
    rw [List.filter_append]
    congr 1
    simp only [List.filter_cons, List.filter_nil, decide_eq_true_eq]

theorem zip_range_map {α : Type} (g : Nat → α) :
    ∀ (n s : Nat), (List.range' s n).zip ((List.range' s n).map g)
      = (List.range' s n).map (fun i => (i, g i)) := by
  intro n
  induction n with
  | zero => intro s; rfl
  | succ n ih =>
    intro s
    simp only [List.range'_succ, List.map_cons, List.zip_cons_cons, ih]

/-- The pairs that the nested loops of the second part visit are the updates of the
mini-batch. -/
theorem miniBatchPairs_eq (cc : SfClusterCenters) (data_set : SfDataSet) (draws : List Int) :
    miniBatchPairs ((List.range cc.Size).map (fun i => miniBatchGroup cc data_set draws i))
      = miniBatchUpdates cc data_set draws := by
  unfold miniBatchPairs miniBatchUpdates
  simp only [List.length_map, List.length_range]
  rw [List.range_eq_range', zip_range_map, List.flatMap_map]

theorem miniBatchApplyOne_eq (data_set : SfDataSet) (i : Nat) (x_id : Int)
    (acc : SfClusterCenters × List Int) (hi : i < acc.2.length) :
    miniBatchApplyOne data_set i x_id acc
      = .ok (stochasticUpdate (data_set.VectorAt x_id) i acc) := by
  unfold miniBatchApplyOne stochasticUpdate
  simp only [List.get?_eq_getElem?, List.getElem?_eq_getElem hi,
    List.getD_eq_getElem acc.2 0 hi, stepEta]

theorem length_stochasticUpdate (x : SfSparseVector) (i : Nat)
    (acc : SfClusterCenters × List Int) :
    (stochasticUpdate x i acc).2.length = acc.2.length ∧
    (stochasticUpdate x i acc).1.Size = acc.1.Size := by
  unfold stochasticUpdate
  constructor
  · simp
  · rw [size_modifyCenter, size_modifyCenter]

/-- The second part of `OneMiniBatchKmeansOptimization` applies the stochastic update rule
once for every pair, in order. -/
theorem miniBatchApply_eq (data_set : SfDataSet) :
    ∀ (ps : List (Nat × Int)) (acc : SfClusterCenters × List Int),
      (∀ p ∈ ps, p.1 < acc.2.length) →
      miniBatchApply data_set ps acc
        = .ok (ps.foldl (fun a p => stochasticUpdate (data_set.VectorAt p.2) p.1 a) acc) := by
  intro ps
  induction ps with
  | nil => intro acc _; rfl
  | cons p ps ih =>
    intro acc h
    simp only [miniBatchApply, List.foldl_cons,
      miniBatchApplyOne_eq data_set p.1 p.2 acc (h p (List.mem_cons_self _ _))]
    apply ih
    intro q hq
    rw [(length_stochasticUpdate _ _ _).1]
    exact h q (List.mem_cons_of_mem _ hq)

/-- The visit counts after a sequence of updates: the count of center `i` has grown by the
number of updates of `i`; the numbers of counts and of centers are as before. -/
theorem foldl_stochasticUpdate_counts (data_set : SfDataSet) :
    ∀ (ps : List (Nat × Int)) (acc : SfClusterCenters × List Int),
      (∀ p ∈ ps, p.1 < acc.2.length) →
      (ps.foldl (fun a p => stochasticUpdate (data_set.VectorAt p.2) p.1 a) acc).2.length
        = acc.2.length ∧
      (ps.foldl (fun a p => stochasticUpdate (data_set.VectorAt p.2) p.1 a) acc).1.Size
        = acc.1.Size ∧
      ∀ i, (ps.foldl (fun a p => stochasticUpdate (data_set.VectorAt p.2) p.1 a) acc).2.getD i 0
        = acc.2.getD i 0 + ((ps.filter (fun p => decide (p.1 = i))).length : Int) := by
  intro ps
  induction ps with
  | nil =>
    intro acc _
    simp
  | cons p ps ih =>
    intro acc h
    have hp := h p (List.mem_cons_self _ _)
    obtain ⟨hl, hs⟩ := length_stochasticUpdate (data_set.VectorAt p.2) p.1 acc
    obtain ⟨h1, h2, h3⟩ := ih (stochasticUpdate (data_set.VectorAt p.2) p.1 acc) (by
      intro q hq
      rw [hl]
      exact h q (List.mem_cons_of_mem _ hq))
    simp only [List.foldl_cons]
    refine ⟨by rw [h1, hl], by rw [h2, hs], ?_⟩
    intro i
    rw [h3 i]
    have hc : (stochasticUpdate (data_set.VectorAt p.2) p.1 acc).2.getD i 0
        = acc.2.getD i 0 + if p.1 = i then 1 else 0 := by
      unfold stochasticUpdate
      simp only
      rw [getD_set_int]
      by_cases hpi : p.1 = i
      · rw [if_pos ⟨hpi, by rw [← hpi]; exact hp⟩, if_pos hpi, hpi]
      · rw [if_neg (fun hh => hpi hh.1), if_neg hpi, add_zero]
    rw [hc, List.filter_cons]
    by_cases hpi : p.1 = i
    · simp only [hpi, decide_True, if_true, List.length_cons]
      push_cast
      ring
    · simp only [hpi, decide_False, if_false]
      simp

theorem sum_map_range_ite (k j v : Nat) (hj : j < k) :
    ((List.range k).map (fun i => if j = i then v else 0)).sum = v := by
  induction k with
  | zero => omega
  | succ k ih =>
    rw [List.range_succ, List.map_append, List.sum_append]
    simp only [List.map_cons, List.map_nil, List.sum_cons, List.sum_nil, Nat.add_zero]
    by_cases hjk : j = k
    · rw [if_pos hjk]
      have hz : ((List.range k).map (fun i => if j = i then v else 0)).sum = 0 := by
        apply List.sum_eq_zero
        intro a ha
        obtain ⟨i, hi, rfl⟩ := List.mem_map.mp ha
        have := List.mem_range.mp hi
        rw [if_neg (by omega)]
      rw [hz, Nat.zero_add]
    · rw [if_neg hjk, ih (by omega), Nat.add_zero]

/-- The number of updates of center `i` in a mini-batch is the number of examples grouped
under `i`. -/
theorem miniBatchUpdates_count (cc : SfClusterCenters) (data_set : SfDataSet)
    (draws : List Int) (i : Nat) (hi : i < cc.Size) :
    ((miniBatchUpdates cc data_set draws).filter (fun p => decide (p.1 = i))).length
      = (miniBatchGroup cc data_set draws i).length := by
  have hgen : ∀ (l : List Nat),
      ((l.flatMap (fun i1 => (miniBatchGroup cc data_set draws i1).map
          (fun x_id => (i1, x_id)))).filter (fun p => decide (p.1 = i))).length
        = (l.map (fun i1 => if i = i1 then (miniBatchGroup cc data_set draws i).length
            else 0)).sum := by
    intro l
    induction l with
    | nil => rfl
    | cons a l ih =>
      simp only [List.flatMap_cons, List.filter_append, List.length_append, List.map_cons,
        List.sum_cons, ih]
      congr 1
      by_cases hai : i = a
      · rw [if_pos hai, ← hai, List.filter_eq_self.mpr, List.length_map]
        intro p hp
        obtain ⟨x, _, rfl⟩ := List.mem_map.mp hp
        simp
      · rw [if_neg hai, List.filter_eq_nil_iff.mpr]
        · rfl
        · intro p hp
          obtain ⟨x, _, rfl⟩ := List.mem_map.mp hp
          simp only [decide_eq_true_eq]
          exact fun h => hai h.symm
  unfold miniBatchUpdates
  rw [hgen, sum_map_range_ite _ _ _ hi]

/-- Every drawn example is grouped under exactly one center: the sizes of the groups add
up to the number of draws. -/
theorem miniBatchGroup_total (cc : SfClusterCenters) (data_set : SfDataSet)
    (hne : 0 < cc.Size) :
    ∀ (draws : List Int),
      ((List.range cc.Size).map (fun i => (miniBatchGroup cc data_set draws i).length)).sum
        = draws.length := by
  intro draws
  induction draws with
  | nil => simp [miniBatchGroup]
  | cons x l ih =>
    have hx := (closest_ok cc (data_set.VectorAt x) hne).2
    have hsplit : ∀ i, (miniBatchGroup cc data_set (x :: l) i).length
        = (if closestCenterId cc (data_set.VectorAt x) = i then 1 else 0)
          + (miniBatchGroup cc data_set l i).length := by
      intro i
      unfold miniBatchGroup
      rw [List.filter_cons]
      by_cases h : closestCenterId cc (data_set.VectorAt x) = i
      · simp [h, Nat.add_comm]
      · simp [h]
    simp only [hsplit]
    rw [List.sum_map_add, ih, sum_map_range_ite _ _ _ hx, List.length_cons]
    omega

/-- One application of the stochastic update rule to center `i`: its visit count grows by
one, the center becomes `(1 - eta) * center + eta * x` coordinate by coordinate, with `eta`
taken at the incremented count, and the other centers and counts stay as they are. -/
theorem stochasticUpdate_spec (x : SfSparseVector) (i : Nat)
    (acc : SfClusterCenters × List Int) (hi : i < acc.1.Size) (hlen : i < acc.2.length) :
    (stochasticUpdate x i acc).2.getD i 0 = acc.2.getD i 0 + 1 ∧
    (∀ j, j ≠ i → (stochasticUpdate x i acc).2.getD j 0 = acc.2.getD j 0 ∧
      (stochasticUpdate x i acc).1.ClusterCenter j = acc.1.ClusterCenter j) ∧
    (∀ c : Nat, (c : Int) < (acc.1.ClusterCenter i).GetDimensions →
      ((stochasticUpdate x i acc).1.ClusterCenter i).ValueOf (c : Int)
        = (1 - stepEta (acc.2.getD i 0 + 1)) * (acc.1.ClusterCenter i).ValueOf (c : Int)
          + stepEta (acc.2.getD i 0 + 1) * x.coord (c : Int)) := by
  unfold stochasticUpdate
  refine ⟨?_, ?_, ?_⟩
  · simp only
    rw [getD_set_int, if_pos ⟨rfl, hlen⟩]
  · intro j hj
    simp only
    constructor
    · rw [getD_set_int, if_neg (fun h => hj h.1.symm)]
    · rw [clusterCenter_step, if_neg (fun h => hj h.1.symm)]
  · intro c hc
    simp only [SfWeightVector.GetDimensions] at hc
    have hc2 : c < (acc.1.ClusterCenter i).weights_.length := by exact_mod_cast hc
    simp only
    rw [clusterCenter_step, if_pos ⟨rfl, hi⟩,
      valueOf_addVector _ x _ c (by rw [length_scaleBy]; exact hc2), valueOf_scaleBy]
    ring

/-- The function `OneMiniBatchKmeansOptimization` on a non-empty center set and a dataset
with examples: the updates of the mini-batch applied in order. -/
theorem oneMiniBatch_eq (rand_seq : Nat → Nat) (data_set : SfDataSet)
    (mini_batch_size : Int) (counts : List Int) (cc : SfClusterCenters) (calls : Nat)
    (hne : 0 < cc.Size) (hn : 0 < data_set.NumExamples) (hlen : counts.length = cc.Size) :
    OneMiniBatchKmeansOptimization rand_seq data_set mini_batch_size counts
        { cluster_centers := cc, rand_calls := calls }
      = .ok ((miniBatchUpdates cc data_set
                (miniBatchDraws rand_seq data_set calls mini_batch_size.toNat)).foldl
              (fun a p => stochasticUpdate (data_set.VectorAt p.2) p.1 a) (cc, counts)).2
          { cluster_centers := ((miniBatchUpdates cc data_set
                (miniBatchDraws rand_seq data_set calls mini_batch_size.toNat)).foldl
              (fun a p => stochasticUpdate (data_set.VectorAt p.2) p.1 a) (cc, counts)).1,
            rand_calls := calls + mini_batch_size.toNat } := by
  have hpairs : ∀ p ∈ miniBatchUpdates cc data_set
      (miniBatchDraws rand_seq data_set calls mini_batch_size.toNat),
      p.1 < (cc, counts).2.length := by
    intro p hp
    unfold miniBatchUpdates at hp
    obtain ⟨i, hi, hp2⟩ := List.mem_flatMap.mp hp
    obtain ⟨x, _, rfl⟩ := List.mem_map.mp hp2
    simp only
    rw [hlen]
    exact List.mem_range.mp hi
  unfold OneMiniBatchKmeansOptimization
  simp only [km_bind_apply, Km.ofExcept, miniBatchAssign_eq rand_seq data_set mini_batch_size
    _ cc calls hne hn, miniBatchGroups_eq, miniBatchPairs_eq, Km.stepCenters,
    miniBatchApply_eq data_set _ _ hpairs]

/-! ## The cluster-level projection and repeated batch steps -/

theorem projectFold_spec (f : SfWeightVector → SfWeightVector) (cc : SfClusterCenters) :
    ∀ n, n ≤ cc.Size →
      ((List.range n).foldl (fun acc i => acc.modifyCenter i f) cc).Size = cc.Size ∧
      ((List.range n).foldl (fun acc i => acc.modifyCenter i f) cc).dimensionality_
        = cc.dimensionality_ ∧
      ∀ i, ((List.range n).foldl (fun acc i => acc.modifyCenter i f) cc).ClusterCenter i
        = if i < n then f (cc.ClusterCenter i) else cc.ClusterCenter i := by
  intro n
  induction n with
  | zero =>
    intro _
    simp
  | succ n ih =>
    intro hn
    obtain ⟨h1, h2, h3⟩ := ih (by omega)
    rw [foldl_range_succ]
    refine ⟨by rw [size_modifyCenter, h1], by rw [dimensionality_modifyCenter, h2], ?_⟩
    intro i
    rw [clusterCenter_modifyCenter, h1, h3 i]
    by_cases hin : n = i
    · subst hin
      rw [if_pos ⟨rfl, by omega⟩, if_neg (by omega), if_pos (by omega)]
    · rw [if_neg (fun h => hin h.1)]
      by_cases hlt : i < n
      · rw [if_pos hlt, if_pos (by omega)]
      · rw [if_neg hlt, if_neg (by omega)]

theorem projectToL1Ball_enabled (proj : L1Projection) (L1_lambda L1_epsilon : ℚ)
    (cc : SfClusterCenters) (h : 0 < L1_lambda) :
    (ProjectToL1Ball proj L1_lambda L1_epsilon cc).Size = cc.Size ∧
    (ProjectToL1Ball proj L1_lambda L1_epsilon cc).dimensionality_ = cc.dimensionality_ ∧
    ∀ i, i < cc.Size →
      (ProjectToL1Ball proj L1_lambda L1_epsilon cc).ClusterCenter i
        = if L1_epsilon = 0 then proj.exact (cc.ClusterCenter i) L1_lambda
          else proj.approximate (cc.ClusterCenter i) L1_lambda L1_epsilon := by
  unfold ProjectToL1Ball
  rw [if_pos h]
  by_cases he : L1_epsilon = 0
  · simp only [he, if_true]
    obtain ⟨h1, h2, h3⟩ := projectFold_spec (fun w => proj.exact w L1_lambda) cc cc.Size
      (le_refl _)
    refine ⟨h1, h2, ?_⟩
    intro i hi
    rw [h3 i, if_pos hi]
  · simp only [he, if_false]
    obtain ⟨h1, h2, h3⟩ := projectFold_spec
      (fun w => proj.approximate w L1_lambda L1_epsilon) cc cc.Size (le_refl _)
    refine ⟨h1, h2, ?_⟩
    intro i hi
    rw [h3 i, if_pos hi]

theorem batchKmeansLoop_disabled (proj : L1Projection) (data_set : SfDataSet)
    (L1_lambda L1_epsilon : ℚ) (hl1 : L1_lambda ≤ 0) :
    ∀ (is : List Int) (cc : SfClusterCenters),
      batchKmeansLoop proj data_set L1_lambda L1_epsilon is cc
        = oneBatchTimes data_set is.length cc := by
  intro is
  induction is with
  | nil => intro cc; rfl
  | cons i is ih =>
    intro cc
    simp only [batchKmeansLoop, List.length_cons, oneBatchTimes]
    cases OneBatchKmeansOptimization data_set cc with
    | error e => rfl
    | ok c1 =>
      simp only
      rw [projectToL1Ball_disabled proj _ _ c1 hl1, ih]

/-! ## The multi-label weight vector -/

theorem multiLabel_vectorAt (w : SfMultiLabelWeightVector) (s : Nat) (hs : s < w.NumLabels) :
    w.vectorAt (s : Int) = .ok (w.vectors_.getD s { weights_ := [] }) := by
  unfold SfMultiLabelWeightVector.vectorAt
  rw [if_pos ⟨Int.natCast_nonneg s, by simpa using hs⟩]
  simp

theorem multiLabel_updateAt (w : SfMultiLabelWeightVector) (s : Nat) (hs : s < w.NumLabels)
    (f : SfWeightVector → SfWeightVector) :
    ∃ w1, w.updateAt (s : Int) f = .ok w1 ∧
      w1.selected_vector_ = w.selected_vector_ ∧ w1.NumLabels = w.NumLabels ∧
      w1.vectors_.getD s { weights_ := [] } = f (w.vectors_.getD s { weights_ := [] }) ∧
      ∀ i, i ≠ s →
        w1.vectors_.getD i { weights_ := [] } = w.vectors_.getD i { weights_ := [] } := by
  unfold SfMultiLabelWeightVector.updateAt
  rw [if_pos ⟨Int.natCast_nonneg s, by simpa using hs⟩]
  have hs2 : s < w.vectors_.length := hs
  refine ⟨_, rfl, rfl, ?_, ?_, ?_⟩
  · simp [SfMultiLabelWeightVector.NumLabels]
  · show (w.vectors_.modify f ((s : Int).toNat)).getD s { weights_ := [] } = _
    rw [Int.toNat_ofNat, getD_modify_gen f w.vectors_ s s, if_pos (And.intro rfl hs2)]
  · intro i hi
    show (w.vectors_.modify f ((s : Int).toNat)).getD i { weights_ := [] } = _
    rw [Int.toNat_ofNat, getD_modify_gen f w.vectors_ s i, if_neg (fun h => hi h.1.symm)]

theorem getD_set_gen {α : Type} (l : List α) (n m : Nat) (a d : α) :
    (l.set n a).getD m d = if n = m ∧ m < l.length then a else l.getD m d := by
  simp only [List.getD_eq_getElem?_getD, List.getElem?_set]
  by_cases hn : n = m
  · subst hn
    by_cases hl : n < l.length
    · simp [hl]
    · simp [hl, List.getElem?_eq_none (Nat.le_of_not_lt hl)]
  · simp [hn]

theorem innerProductAllLoop_spec (w : SfMultiLabelWeightVector) (x : SfSparseVector)
    (x_scale : ℚ) :
    ∀ (n s : Nat) (out : List ℚ), s + n ≤ w.NumLabels →
      ∃ out1, w.innerProductAllLoop x x_scale (List.range' s n) out = .ok out1 ∧
        out1.length = out.length ∧
        ∀ i, out1.getD i 0
          = if s ≤ i ∧ i < s + n ∧ i < out.length then
              (w.vectors_.getD i { weights_ := [] }).InnerProduct x x_scale
            else out.getD i 0 := by
  intro n
  induction n with
  | zero =>
    intro s out _
    refine ⟨out, rfl, rfl, ?_⟩
    intro i
    rw [if_neg (by omega)]
  | succ n ih =>
    intro s out h
    obtain ⟨out1, h1, h2, h3⟩ := ih (s + 1)
      (out.set s ((w.vectors_.getD s { weights_ := [] }).InnerProduct x x_scale)) (by omega)
    refine ⟨out1, ?_, ?_, ?_⟩
    · simp only [List.range'_succ, SfMultiLabelWeightVector.innerProductAllLoop,
        multiLabel_vectorAt w s (by omega)]
      exact h1
    · rw [h2]
      simp
    · intro i
      rw [h3 i]
      simp only [List.length_set]
      by_cases hc : s + 1 ≤ i ∧ i < s + 1 + n ∧ i < out.length
      · rw [if_pos hc, if_pos ⟨by omega, by omega, hc.2.2⟩]
      · rw [if_neg hc, getD_set_gen]
        by_cases hsi : s = i ∧ i < out.length
        · rw [if_pos hsi, if_pos ⟨by omega, by omega, hsi.2⟩, hsi.1]
        · rw [if_neg hsi, if_neg]
          intro h
          by_cases hsi2 : s = i
          · exact hsi ⟨hsi2, h.2.2⟩
          · exact hc ⟨by omega, by omega, h.2.2⟩

/-! ## Rounds that accept no candidate -/

theorem farthestFold_none (cc : SfClusterCenters) (data_set : SfDataSet) (d : Nat → Int) :
    ∀ m, (∀ t, t < m → closestDistance cc (data_set.VectorAt (d t)) ≤ 0) →
      (List.range m).foldl (fun a t => farthestStep cc data_set a (d t)) (0, 0) = (0, 0) := by
  intro m
  induction m with
  | zero => intro _; rfl
  | succ m ih =>
    intro h
    rw [foldl_range_succ, ih (fun t ht => h t (by omega))]
    unfold farthestStep
    rw [if_neg]
    have := h m (by omega)
    simp only [Int.cast_zero, gt_iff_lt, not_lt]
    exact this

theorem candidateAccepted_zero (cc : SfClusterCenters) (rand_seq : Nat → Nat)
    (data_set : SfDataSet) (c0 t : Nat)
    (h : candidateDistance cc rand_seq data_set c0 t = 0) :
    ¬ candidateAccepted cc rand_seq data_set c0 t := by
  unfold candidateAccepted
  rw [h, zero_div, not_lt]
  unfold roundFraction
  exact drawFraction_nonneg _ _

/-! ## The running average of the stochastic rule -/

theorem stochasticUpdate_other (x : SfSparseVector) (i j : Nat)
    (acc : SfClusterCenters × List Int) (hj : j ≠ i) :
    (stochasticUpdate x i acc).2.getD j 0 = acc.2.getD j 0 ∧
    (stochasticUpdate x i acc).1.ClusterCenter j = acc.1.ClusterCenter j := by
  unfold stochasticUpdate
  constructor
  · simp only
    rw [getD_set_int, if_neg (fun h => hj h.1.symm)]
  · simp only
    rw [clusterCenter_step, if_neg (fun h => hj h.1.symm)]

theorem stochasticUpdate_dims (x : SfSparseVector) (i j : Nat)
    (acc : SfClusterCenters × List Int) :
    ((stochasticUpdate x i acc).1.ClusterCenter j).GetDimensions
      = (acc.1.ClusterCenter j).GetDimensions := by
  unfold stochasticUpdate
  simp only
  rw [clusterCenter_step]
  split
  · simp only [SfWeightVector.GetDimensions, length_step]
  · rfl

theorem step_average (v x n : ℚ) (hn : 0 ≤ n) :
    ((1 - 1 / (n + 1 + 1)) * v + 1 / (n + 1 + 1) * x) * (n + 1 + 1) = v * (n + 1) + x := by
  have hne : n + 1 + 1 ≠ 0 := by linarith
  field_simp
  ring

/-- After a sequence of updates, the value of center `i` at a coordinate, times the visit
count of `i` plus one, is the value before times the count before plus one, plus the sum
of the examples that updated `i`. -/
theorem foldl_stochasticUpdate_average (i : Nat) (c : Nat) :
    ∀ (ps : List (Nat × SfSparseVector)) (acc : SfClusterCenters × List Int),
      i < acc.1.Size → i < acc.2.length → 0 ≤ acc.2.getD i 0 →
      (c : Int) < (acc.1.ClusterCenter i).GetDimensions →
      ((ps.foldl (fun a p => stochasticUpdate p.2 p.1 a) acc).1.ClusterCenter i).ValueOf (c : Int)
          * (((acc.2.getD i 0 : Int) : ℚ)
              + ((ps.filter (fun p => decide (p.1 = i))).length : ℚ) + 1)
        = (acc.1.ClusterCenter i).ValueOf (c : Int) * (((acc.2.getD i 0 : Int) : ℚ) + 1)
          + ((ps.filter (fun p => decide (p.1 = i))).map
              (fun p => p.2.coord (c : Int))).sum := by
  intro ps
  induction ps with
  | nil =>
    intro acc _ _ _ _
    simp
  | cons p ps ih =>
    intro acc hi hlen hnn hc
    obtain ⟨hl, hs⟩ := length_stochasticUpdate p.2 p.1 acc
    have hdim := stochasticUpdate_dims p.2 p.1 i acc
    simp only [List.foldl_cons]
    by_cases hpi : p.1 = i
    · obtain ⟨h1, _, h3⟩ := stochasticUpdate_spec p.2 i acc hi hlen
      rw [hpi] at hl hs hdim ⊢
      have hih := ih (stochasticUpdate p.2 i acc) (by rw [hs]; exact hi)
        (by rw [hl]; exact hlen) (by rw [h1]; omega) (by rw [hdim]; exact hc)
      rw [h1, h3 c hc] at hih
      have hn0 : (0 : ℚ) ≤ ((acc.2.getD i 0 : Int) : ℚ) := by exact_mod_cast hnn
      rw [List.filter_cons, hpi]
      simp only [decide_True, if_true, List.length_cons, List.map_cons, List.sum_cons]
      unfold stepEta at hih
      rw [Int.cast_add, Int.cast_one,
        step_average _ _ _ hn0] at hih
      rw [Nat.cast_add, Nat.cast_one]
      linarith
    · obtain ⟨h1, h2⟩ := stochasticUpdate_other p.2 p.1 i acc (fun h => hpi h.symm)
      have hih := ih (stochasticUpdate p.2 p.1 acc) (by rw [hs]; exact hi)
        (by rw [hl]; exact hlen) (by rw [h1]; exact hnn) (by rw [hdim]; exact hc)
      rw [h1, h2] at hih
      rw [List.filter_cons]
      simp only [hpi, decide_False, if_false]
      exact hih

/-! ## The cached norm is in step with the pairs -/

theorem normInStep_empty : SfSparseVector.empty.NormInStep := by
  simp [SfSparseVector.NormInStep, SfSparseVector.empty]

/-- A successful `PushPair` keeps the cached norm in step. -/
theorem pushPair_normInStep (x r : SfSparseVector) (id : Int) (value : ℚ)
    (hx : x.NormInStep) (h : x.PushPair id value = .ok r) : r.NormInStep := by
  rw [(pushPair_ok_inv x r id value h).1]
  unfold SfSparseVector.NormInStep at hx ⊢
  simp only [List.map_append, List.sum_append, List.map_cons, List.map_nil, List.sum_cons,
    List.sum_nil, add_zero]
  rw [hx]

theorem pushAll_normInStep : ∀ (ps : List (Int × ℚ)) (x r : SfSparseVector),
    x.NormInStep → SfSparseVector.pushAll x ps = .ok r → r.NormInStep
  | [], x, r, hx, h => by
    simp only [SfSparseVector.pushAll] at h
    rw [← Except.ok.inj h]; exact hx
  | p :: ps, x, r, hx, h => by
    simp only [SfSparseVector.pushAll] at h
    cases hp : x.PushPair p.1 p.2 with
    | error e => rw [hp] at h; exact Except.noConfusion h
    | ok x1 =>
      rw [hp] at h
      exact pushAll_normInStep ps x1 r (pushPair_normInStep x x1 p.1 p.2 hx hp) h

theorem diffOnlyB_normInStep : ∀ (bs : List FeatureValuePair) (x r : SfSparseVector),
    x.NormInStep → SfSparseVector.diffOnlyB bs x = .ok r → r.NormInStep
  | [], x, r, hx, h => by
    simp only [SfSparseVector.diffOnlyB] at h
    rw [← Except.ok.inj h]; exact hx
  | b :: bs, x, r, hx, h => by
    simp only [SfSparseVector.diffOnlyB] at h
    cases hp : x.PushPair b.id_ (0 - b.value_) with
    | error e => rw [hp] at h; exact Except.noConfusion h
    | ok x1 =>
      rw [hp] at h
      exact diffOnlyB_normInStep bs x1 r (pushPair_normInStep x x1 _ _ hx hp) h

theorem diffInner_normInStep (a : FeatureValuePair)
    (k : List FeatureValuePair → SfSparseVector → Except Failure SfSparseVector)
    (hk : ∀ bs x r, x.NormInStep → k bs x = .ok r → r.NormInStep) :
    ∀ (bs : List FeatureValuePair) (x r : SfSparseVector),
      x.NormInStep → SfSparseVector.diffInner a k bs x = .ok r → r.NormInStep
  | [], x, r, hx, h => by
    simp only [SfSparseVector.diffInner] at h
    cases hp : x.PushPair a.id_ a.value_ with
    | error e => rw [hp] at h; exact Except.noConfusion h
    | ok x1 =>
      rw [hp] at h
      exact hk [] x1 r (pushPair_normInStep x x1 _ _ hx hp) h
  | b :: bs, x, r, hx, h => by
    simp only [SfSparseVector.diffInner] at h
    by_cases h1 : b.id_ < a.id_
    · rw [if_pos h1] at h
      cases hp : x.PushPair b.id_ (0 - b.value_) with
      | error e => rw [hp] at h; exact Except.noConfusion h
      | ok x1 =>
        rw [hp] at h
        exact diffInner_normInStep a k hk bs x1 r (pushPair_normInStep x x1 _ _ hx hp) h
    · rw [if_neg h1] at h
      by_cases h2 : a.id_ < b.id_
      · rw [if_pos h2] at h
        cases hp : x.PushPair a.id_ a.value_ with
        | error e => rw [hp] at h; exact Except.noConfusion h
        | ok x1 =>
          rw [hp] at h
          exact hk (b :: bs) x1 r (pushPair_normInStep x x1 _ _ hx hp) h
      · rw [if_neg h2] at h
        cases hp : x.PushPair a.id_ (a.value_ - b.value_) with
        | error e => rw [hp] at h; exact Except.noConfusion h
        | ok x1 =>
          rw [hp] at h
          exact hk bs x1 r (pushPair_normInStep x x1 _ _ hx hp) h

theorem diffLoop_normInStep : ∀ (as bs : List FeatureValuePair) (x r : SfSparseVector),
    x.NormInStep → SfSparseVector.diffLoop as bs x = .ok r → r.NormInStep
  | [], bs, x, r, hx, h => by
    simp only [SfSparseVector.diffLoop] at h
    exact diffOnlyB_normInStep bs x r hx h
  | a :: as, bs, x, r, hx, h => by
    simp only [SfSparseVector.diffLoop] at h
    exact diffInner_normInStep a (SfSparseVector.diffLoop as)
      (fun bs x r hx h => diffLoop_normInStep as bs x r hx h) bs x r hx h

/-- The loop over the feature/value pairs of a line keeps the cached norm in step. -/
theorem featureLoop_normInStep (lib : NumberText) : ∀ (fuel : Nat) (p : CharPtr)
    (x r : SfSparseVector), x.NormInStep → featureLoop lib fuel p x = some (.ok r) →
    r.NormInStep
  | 0, p, x, r, hx, h => by simp [featureLoop] at h
  | fuel + 1, .nullPlusOne, x, r, hx, h => by
    simp only [featureLoop, Option.some.injEq, Except.ok.injEq] at h
    rw [← h]; exact hx
  | fuel + 1, .inString [], x, r, hx, h => by
    simp only [featureLoop, Option.some.injEq, Except.ok.injEq] at h
    rw [← h]; exact hx
  | fuel + 1, .inString (c :: rest), x, r, hx, h => by
    simp only [featureLoop] at h
    by_cases h1 : c = '#'
    · rw [if_pos h1] at h
      simp only [Option.some.injEq, Except.ok.injEq] at h
      rw [← h]; exact hx
    · rw [if_neg h1] at h
      by_cases h2 : isBlank c = true
      · rw [if_pos h2] at h
        exact featureLoop_normInStep lib fuel _ x r hx h
      · rw [if_neg h2] at h
        cases hq : plusOne (strchr (c :: rest) ':') with
        | nullPlusOne => rw [hq] at h; simp at h
        | inString p2 =>
          rw [hq] at h
          simp only at h
          cases hp : x.PushPair (lib.atoi (c :: rest)) (lib.atof p2) with
          | error e => rw [hp] at h; simp at h
          | ok x1 =>
            rw [hp] at h
            exact featureLoop_normInStep lib fuel _ x1 r (pushPair_normInStep x x1 _ _ hx hp) h

/-- A vector that `Init` has filled from a line has its cached norm in step when it had
before. -/
theorem init_normInStep (lib : NumberText) (in_string : List Char) (x r : SfSparseVector)
    (hx : x.NormInStep) (h : SfSparseVector.Init lib in_string x = some (.ok r)) :
    r.NormInStep := by
  unfold SfSparseVector.Init at h
  by_cases h0 : in_string.length = 0
  · rw [if_pos h0] at h; simp at h
  · rw [if_neg h0] at h
    cases hl : labelLoop lib (strchr in_string ' ') (in_string.length + 1) in_string 0 x.y_ with
    | none => rw [hl] at h; simp at h
    | some res =>
      rw [hl] at h
      cases res with
      | error e => simp at h
      | ok y_ =>
        simp only at h
        cases hq : plusOne (strchr in_string ' ') with
        | nullPlusOne => rw [hq] at h; simp at h
        | inString position =>
          rw [hq] at h
          simp only at h
          cases hg : parseGroup position x.group_id_ with
          | error e => rw [hg] at h; simp at h
          | ok g =>
            rw [hg] at h
            simp only at h
            cases hf : featureLoop lib (in_string.length + 1) g.2
                { x with y_ := y_, group_id_ := g.1 } with
            | none => rw [hf] at h; simp at h
            | some res2 =>
              rw [hf] at h
              cases res2 with
              | error e => simp at h
              | ok x1 =>
                simp only [Option.some.injEq, Except.ok.injEq] at h
                have hn : x1.NormInStep := by
                  refine featureLoop_normInStep lib _ _ _ x1 ?_ hf
                  exact hx
                rw [← h]
                exact hn

/-! ## The loops of `Init` end within their bound of passes -/

theorem strchr_length : ∀ (s : List Char) (c : Char) (r : List Char),
    strchr s c = some r → r.length ≤ s.length ∧ 0 < r.length
  | [], c, r, h => by simp [strchr] at h
  | a :: rest, c, r, h => by
    simp only [strchr] at h
    by_cases hc : a = c
    · rw [if_pos hc] at h
      simp only [Option.some.injEq] at h
      rw [← h]; simp
    · rw [if_neg hc] at h
      have := strchr_length rest c r h
      simp only [List.length_cons]
      omega

theorem ptrLength_plusOne (s : List Char) (c : Char) :
    ptrLength (plusOne (strchr s c)) ≤ s.length - 1 := by
  cases h : strchr s c with
  | none => simp [plusOne, ptrLength]
  | some r =>
    have := strchr_length s c r h
    simp only [plusOne, ptrLength, List.length_tail]
    omega

theorem labelLoop_some (lib : NumberText) (position_space : Option (List Char)) :
    ∀ (fuel : Nat) (position : List Char) (y : ℚ) (y_ : List ℚ), position.length < fuel →
      ∃ r, labelLoop lib position_space fuel position y y_ = some r
  | 0, position, y, y_, h => by omega
  | fuel + 1, position, y, y_, h => by
    simp only [labelLoop]
    by_cases h1 : lib.sscanf_f position = .noMatch
    · rw [if_pos h1]; exact ⟨_, rfl⟩
    · rw [if_neg h1]
      cases hc : strchr position ',' with
      | none => exact ⟨_, rfl⟩
      | some position_comma =>
        simp only
        by_cases h2 : pointerAbove position_comma position_space = true
        · rw [if_pos h2]; exact ⟨_, rfl⟩
        · rw [if_neg h2]
          apply labelLoop_some lib position_space fuel
          have := strchr_length position ',' position_comma hc
          rw [List.length_tail]
          omega

theorem featureLoop_some (lib : NumberText) : ∀ (fuel : Nat) (p : CharPtr)
    (x : SfSparseVector), ptrLength p < fuel → ∃ r, featureLoop lib fuel p x = some r
  | 0, p, x, h => by omega
  | fuel + 1, .nullPlusOne, x, h => ⟨_, rfl⟩
  | fuel + 1, .inString [], x, h => ⟨_, rfl⟩
  | fuel + 1, .inString (c :: rest), x, h => by
    simp only [featureLoop]
    simp only [ptrLength, List.length_cons] at h
    by_cases h1 : c = '#'
    · rw [if_pos h1]; exact ⟨_, rfl⟩
    · rw [if_neg h1]
      by_cases h2 : isBlank c = true
      · rw [if_pos h2]
        apply featureLoop_some lib fuel
        have := ptrLength_plusOne (c :: rest) ' '
        simp only [List.length_cons] at this
        omega
      · rw [if_neg h2]
        have hlen := ptrLength_plusOne (c :: rest) ':'
        cases hq : plusOne (strchr (c :: rest) ':') with
        | nullPlusOne => exact ⟨_, rfl⟩
        | inString p2 =>
          simp only
          rw [hq] at hlen
          simp only [ptrLength, List.length_cons] at hlen
          cases hp : x.PushPair (lib.atoi (c :: rest)) (lib.atof p2) with
          | error e => exact ⟨_, rfl⟩
          | ok x1 =>
            simp only
            apply featureLoop_some lib fuel
            have := ptrLength_plusOne p2 ' '
            omega

theorem ptrLength_parseGroup (position : List Char) (group_id_ : String)
    (g : String × CharPtr) (h : parseGroup position group_id_ = .ok g) :
    ptrLength g.2 ≤ position.length := by
  unfold parseGroup at h
  by_cases hl : isLetter (charAt position) = true
  · rw [if_pos hl] at h
    have hlen := ptrLength_plusOne position ':'
    cases hq : plusOne (strchr position ':') with
    | nullPlusOne => rw [hq] at h; simp at h
    | inString p2 =>
      rw [hq] at h hlen
      simp only [ptrLength] at hlen
      simp only at h
      cases he : strchr p2 ' ' with
      | none =>
        rw [he] at h
        simp only [Except.ok.injEq] at h
        rw [← h]; simp [ptrLength]
      | some e =>
        rw [he] at h
        simp only [Except.ok.injEq] at h
        have := ptrLength_plusOne p2 ' '
        rw [he] at this
        rw [← h]
        simp only
        omega
  · rw [if_neg hl] at h
    simp only [Except.ok.injEq] at h
    rw [← h]; simp [ptrLength]

/-- The method `Init` comes to an end on every line: neither loop uses up its bound of
passes. -/
theorem init_some (lib : NumberText) (in_string : List Char) (x : SfSparseVector) :
    ∃ r, SfSparseVector.Init lib in_string x = some r := by
  unfold SfSparseVector.Init
  by_cases h0 : in_string.length = 0
  · rw [if_pos h0]; exact ⟨_, rfl⟩
  · rw [if_neg h0]
    obtain ⟨res, hl⟩ := labelLoop_some lib (strchr in_string ' ') (in_string.length + 1)
      in_string 0 x.y_ (Nat.lt_succ_self _)
    rw [hl]
    cases res with
    | error e => exact ⟨_, rfl⟩
    | ok y_ =>
      simp only
      have hlen := ptrLength_plusOne in_string ' '
      cases hq : plusOne (strchr in_string ' ') with
      | nullPlusOne => exact ⟨_, rfl⟩
      | inString position =>
        rw [hq] at hlen
        simp only [ptrLength] at hlen
        simp only
        cases hg : parseGroup position x.group_id_ with
        | error e => exact ⟨_, rfl⟩
        | ok g =>
          simp only
          have hg2 := ptrLength_parseGroup position x.group_id_ g hg
          obtain ⟨res2, hf⟩ := featureLoop_some lib (in_string.length + 1) g.2
            { x with y_ := y_, group_id_ := g.1 } (by omega)
          rw [hf]
          cases res2 with
          | error e => exact ⟨_, rfl⟩
          | ok x1 => exact ⟨_, rfl⟩

/-! ## Parsing a line of the dataset format -/

theorem strchr_append : ∀ (tok rest : List Char) (c : Char), c ∉ tok →
    strchr (tok ++ rest) c = strchr rest c
  | [], rest, c, _ => rfl
  | a :: tok, rest, c, h => by
    simp only [List.mem_cons, not_or] at h
    simp only [List.cons_append, strchr]
    rw [if_neg (fun hc => h.1 hc.symm)]
    exact strchr_append tok rest c h.2

theorem strchr_cons_self (c : Char) (rest : List Char) :
    strchr (c :: rest) c = some (c :: rest) := by
  simp [strchr]

theorem strchr_none : ∀ (s : List Char) (c : Char), c ∉ s → strchr s c = none
  | [], c, _ => rfl
  | a :: s, c, h => by
    simp only [List.mem_cons, not_or] at h
    simp only [strchr]
    rw [if_neg (fun hc => h.1 hc.symm)]
    exact strchr_none s c h.2

theorem word_not_mem (tok : List Char) (h : Word tok) (c : Char)
    (hc : isDelimiter c = true) : c ∉ tok := by
  intro hmem
  have := h c hmem
  rw [hc] at this
  exact Bool.noConfusion this

theorem joinWith_cons (sep : Char) (t : List Char) (ts : List (List Char)) (h : ts ≠ []) :
    joinWith sep (t :: ts) = t ++ sep :: joinWith sep ts := by
  cases ts with
  | nil => exact absurd rfl h
  | cons u rest => rfl

theorem not_mem_joinWith (sep c : Char) (hc : c ≠ sep) :
    ∀ ts : List (List Char), (∀ t ∈ ts, c ∉ t) → c ∉ joinWith sep ts
  | [], _ => by simp [joinWith]
  | [t], h => by simpa [joinWith] using h
  | t :: u :: rest, h => by
    have ih := not_mem_joinWith sep c hc (u :: rest)
      (fun t ht => h t (List.mem_cons_of_mem _ ht))
    have ht := h t (List.mem_cons_self _ _)
    simp only [joinWith, List.mem_append, List.mem_cons, not_or]
    exact ⟨ht, hc, ih⟩

theorem joinWith_append_singleton (sep : Char) (t : List Char) :
    ∀ ts : List (List Char), ts ≠ [] →
      joinWith sep (ts ++ [t]) = joinWith sep ts ++ sep :: t
  | [], h => absurd rfl h
  | [u], _ => rfl
  | u :: v :: rest, _ => by
    have ih := joinWith_append_singleton sep t (v :: rest) (by simp)
    show u ++ sep :: joinWith sep ((v :: rest) ++ [t]) = _
    rw [ih]
    simp [joinWith]

theorem charAt_append (a b : List Char) (h : a ≠ []) : charAt (a ++ b) = charAt a := by
  cases a with
  | nil => exact absurd rfl h
  | cons c rest => rfl

/-- The label loop of `Init` on the labels `l1,l2,...` that a space ends: it appends the
numbers read from the tokens, in order. -/
theorem labelLoop_labels (lib : NumberText) (rest : List Char) :
    ∀ (labels : List (List Char)) (lvals : List ℚ) (fuel : Nat) (y : ℚ) (acc : List ℚ),
      labels ≠ [] →
      List.Forall₂ (fun tok v => Word tok ∧ ReadsLabel lib tok v) labels lvals →
      (joinWith ',' labels ++ ' ' :: rest).length < fuel →
      labelLoop lib (some (' ' :: rest)) fuel (joinWith ',' labels ++ ' ' :: rest) y acc
        = some (.ok (acc ++ lvals))
  | [], _, _, _, _, h, _, _ => absurd rfl h
  | _, _, 0, _, _, _, _, hf => by omega
  | [t], lvals, fuel + 1, y, acc, _, h2, _ => by
    cases h2 with
    | cons hv htl =>
      cases htl
      have hread := (hv.2 rest).2
      have hcomma : strchr (t ++ ' ' :: rest) ',' = strchr rest ',' := by
        rw [strchr_append t _ ',' (word_not_mem t hv.1 ',' (by decide))]
        simp [strchr]
      simp only [joinWith, labelLoop]
      rw [hread, if_neg (by simp), hcomma]
      cases hc : strchr rest ',' with
      | none => rfl
      | some pc =>
        have hlen := (strchr_length rest ',' pc hc).1
        simp only
        rw [if_pos]
        · rfl
        · simp only [pointerAbove, List.length_cons, decide_eq_true_eq]
          omega
  | t :: u :: more, lvals, fuel + 1, y, acc, _, h2, hf => by
    cases h2 with
    | cons hv htl =>
      rename_i v vs
      have hread := (hv.2 (joinWith ',' (u :: more) ++ ' ' :: rest)).1
      have htext : joinWith ',' (t :: u :: more) ++ ' ' :: rest
          = t ++ ',' :: (joinWith ',' (u :: more) ++ ' ' :: rest) := by
        simp [joinWith]
      rw [htext] at hf ⊢
      have hcomma : strchr (t ++ ',' :: (joinWith ',' (u :: more) ++ ' ' :: rest)) ','
          = some (',' :: (joinWith ',' (u :: more) ++ ' ' :: rest)) := by
        rw [strchr_append t _ ',' (word_not_mem t hv.1 ',' (by decide))]
        exact strchr_cons_self _ _
      simp only [labelLoop]
      rw [hread, if_neg (by simp), hcomma]
      simp only
      rw [if_neg]
      · simp only [scannedValue, List.tail_cons]
        rw [labelLoop_labels lib rest (u :: more) vs fuel v (acc ++ [v]) (by simp) htl]
        · simp
        · simp only [List.length_append, List.length_cons] at hf ⊢
          omega
      · simp only [pointerAbove, List.length_cons, List.length_append, decide_eq_true_eq]
        omega

theorem featureLoop_step (lib : NumberText) (fuel : Nat) (s : List Char) (x : SfSparseVector)
    (hne : s ≠ []) (h1 : charAt s ≠ '#') (h2 : isBlank (charAt s) = false) :
    featureLoop lib (fuel + 1) (.inString s) x
      = match plusOne (strchr s ':') with
        | .nullPlusOne => some (.error .outOfBounds)
        | .inString p2 =>
          match x.PushPair (lib.atoi s) (lib.atof p2) with
          | .error e => some (.error e)
          | .ok x1 => featureLoop lib fuel (plusOne (strchr p2 ' ')) x1 := by
  cases s with
  | nil => exact absurd rfl hne
  | cons c rest =>
    have h1c : c ≠ '#' := h1
    have h2c : isBlank c = false := h2
    simp only [featureLoop]
    rw [if_neg h1c, if_neg (by rw [h2c]; simp)]

theorem charAt_word (tok rest : List Char) (h : Word tok) :
    charAt (tok ++ ':' :: rest) ≠ '#' ∧ isBlank (charAt (tok ++ ':' :: rest)) = false ∧
    (isLetter (charAt tok) = false → isLetter (charAt (tok ++ ':' :: rest)) = false) := by
  cases tok with
  | nil =>
    have h1 : (':' : Char) ≠ '#' := by decide
    have h2 : isBlank ':' = false := by decide
    have h3 : isLetter ':' = false := by decide
    exact ⟨h1, h2, fun _ => h3⟩
  | cons c r =>
    have hc := h c (List.mem_cons_self _ _)
    simp only [isDelimiter, Bool.or_eq_false_iff, decide_eq_false_iff_not] at hc
    exact ⟨hc.1.2, hc.2, fun hl => hl⟩

/-- One pass of the feature loop of `Init` over the text `f:v` of a feature, which ends the
line or which a space ends. -/
theorem featureLoop_pair (lib : NumberText) (fuel : Nat) (f : List Char × List Char)
    (p : FeatureValuePair) (R : List Char) (x : SfSparseVector)
    (hf1 : Word f.1) (hf2 : Word f.2) (hid : ReadsId lib f.1 p.id_)
    (hval : ReadsValue lib f.2 p.value_) (hR : R = [] ∨ ∃ J, R = ' ' :: J) :
    featureLoop lib (fuel + 1) (.inString (f.1 ++ ':' :: (f.2 ++ R))) x
      = match x.PushPair p.id_ p.value_ with
        | .error e => some (.error e)
        | .ok x1 => featureLoop lib fuel
            (match R with
             | [] => .nullPlusOne
             | _ :: J => .inString J) x1 := by
  obtain ⟨h1, h2, _⟩ := charAt_word f.1 (f.2 ++ R) hf1
  rw [featureLoop_step lib fuel _ x (by simp) h1 h2]
  rw [strchr_append f.1 _ ':' (word_not_mem f.1 hf1 ':' (by decide)), strchr_cons_self]
  simp only [plusOne, List.tail_cons]
  rw [hid (f.2 ++ R)]
  have hspace : ' ' ∉ f.2 := word_not_mem f.2 hf2 ' ' (by decide)
  rcases hR with hR | ⟨J, hR⟩
  · subst hR
    rw [List.append_nil, hval.1, strchr_none f.2 ' ' hspace]
  · subst hR
    rw [hval.2 J, strchr_append f.2 _ ' ' hspace, strchr_cons_self]
    rfl

/-- The feature loop of `Init` on the features `f1:v1 ... fn:vn` with single spaces between
them, which end the line or which a comment follows: it pushes the pairs read from the
tokens, in order. -/
theorem featureLoop_items (lib : NumberText) (ts : List (List Char))
    (hts : ts = [] ∨ ∃ c, ts = ['#' :: c]) :
    ∀ (features : List (List Char × List Char)) (pairs : List FeatureValuePair) (fuel : Nat)
      (x : SfSparseVector),
      List.Forall₂ (fun t p => Word t.1 ∧ isLetter (charAt t.1) = false ∧ Word t.2 ∧
        ReadsId lib t.1 p.id_ ∧ ReadsValue lib t.2 p.value_) features pairs →
      (joinWith ' ' (features.map featureItem ++ ts)).length < fuel →
      featureLoop lib fuel (.inString (joinWith ' ' (features.map featureItem ++ ts))) x
        = some (SfSparseVector.pushAll x (pairs.map (fun p => (p.id_, p.value_))))
  | _, _, 0, _, _, hf => by omega
  | [], pairs, fuel + 1, x, h, _ => by
    cases h
    rcases hts with hts | ⟨c, hts⟩
    · subst hts; rfl
    · subst hts; rfl
  | f :: fs, pairs, fuel + 1, x, h, hf => by
    cases h with
    | cons hv htl =>
      rename_i p ps
      obtain ⟨hf1, _, hf2, hid, hval⟩ := hv
      simp only [List.map_cons, List.cons_append, SfSparseVector.pushAll] at hf ⊢
      by_cases hnil : fs.map featureItem ++ ts = []
      · have hfs : fs = [] := by
          cases fs with
          | nil => rfl
          | cons a b => simp at hnil
        subst hfs
        cases htl
        rw [hnil] at hf ⊢
        have htext : joinWith ' ' [featureItem f] = f.1 ++ ':' :: (f.2 ++ []) := by
          simp [joinWith, featureItem]
        rw [htext] at hf ⊢
        rw [featureLoop_pair lib fuel f p [] x hf1 hf2 hid hval (Or.inl rfl)]
        cases hp : x.PushPair p.id_ p.value_ with
        | error e => rfl
        | ok x1 =>
          simp only [List.map_nil, SfSparseVector.pushAll]
          cases fuel with
          | zero => simp at hf
          | succ k => rfl
      · have htext : joinWith ' ' (featureItem f :: (fs.map featureItem ++ ts))
            = f.1 ++ ':' :: (f.2 ++ ' ' :: joinWith ' ' (fs.map featureItem ++ ts)) := by
          rw [joinWith_cons _ _ _ hnil]
          simp [featureItem]
        rw [htext] at hf ⊢
        rw [featureLoop_pair lib fuel f p _ x hf1 hf2 hid hval (Or.inr ⟨_, rfl⟩)]
        cases hp : x.PushPair p.id_ p.value_ with
        | error e => rfl
        | ok x1 =>
          simp only
          apply featureLoop_items lib ts hts fs ps fuel x1 htl
          simp only [List.length_append, List.length_cons] at hf ⊢
          omega

theorem parseGroup_absent (body : List Char) (group_id_ : String)
    (h : isLetter (charAt body) = false) :
    parseGroup body group_id_ = .ok (group_id_, .inString body) := by
  unfold parseGroup
  rw [if_neg (by rw [h]; simp)]

/-- The group part of `Init` on the token `group:ID`, which ends the line or which a space
ends: the group id is `ID`, and parsing goes on after the space. -/
theorem parseGroup_present (g : List Char × List Char) (R : List Char) (group_id_ : String)
    (hg1 : Word g.1) (hletter : isLetter (charAt g.1) = true) (hg2 : Word g.2)
    (hR : R = [] ∨ ∃ J, R = ' ' :: J) :
    parseGroup (g.1 ++ ':' :: (g.2 ++ R)) group_id_
      = .ok (String.mk g.2,
          match R with
          | [] => .nullPlusOne
          | _ :: J => .inString J) := by
  have hne : g.1 ≠ [] := by
    intro h0
    rw [h0] at hletter
    exact absurd hletter (by decide)
  unfold parseGroup
  rw [charAt_append _ _ hne, if_pos hletter,
    strchr_append g.1 _ ':' (word_not_mem g.1 hg1 ':' (by decide)), strchr_cons_self]
  simp only [plusOne, List.tail_cons]
  have hspace : ' ' ∉ g.2 := word_not_mem g.2 hg2 ' ' (by decide)
  rcases hR with hR | ⟨J, hR⟩
  · subst hR
    rw [List.append_nil, strchr_none g.2 ' ' hspace]
  · subst hR
    rw [strchr_append g.2 _ ' ' hspace, strchr_cons_self]
    simp [plusOne]

/-- Pairs with strictly ascending ids, all above the last id of the vector, are pushed
without a format error. -/
theorem pushAll_ascending : ∀ (pairs : List FeatureValuePair) (x : SfSparseVector),
    pairs.Pairwise (fun p q => p.id_ < q.id_) →
    (∀ q, x.features_.getLast? = some q → ∀ p ∈ pairs, q.id_ < p.id_) →
    SfSparseVector.pushAll x (pairs.map (fun p => (p.id_, p.value_)))
      = .ok { x with features_ := x.features_ ++ pairs,
                     squared_norm_ := x.squared_norm_
                       + (pairs.map (fun p => p.value_ * p.value_)).sum }
  | [], x, _, _ => by
    simp [SfSparseVector.pushAll]
  | p :: ps, x, hasc, hlast => by
    rw [List.pairwise_cons] at hasc
    simp only [List.map_cons, SfSparseVector.pushAll]
    rw [pushPair_ok x p.id_ p.value_
      (fun q hq => Or.inr (hlast q hq p (List.mem_cons_self _ _)))]
    simp only
    rw [pushAll_ascending ps _ hasc.2]
    · simp only [List.append_assoc, List.singleton_append, List.sum_cons, add_assoc]
    · intro q hq r hr
      simp only [List.getLast?_append, List.getLast?_singleton, Option.or_some,
        Option.some.injEq] at hq
      rw [← hq]
      exact hasc.1 r hr

theorem hash_not_mem_join (labels : List (List Char))
    (group : Option (List Char × List Char)) (features : List (List Char × List Char))
    (hlabels : ∀ t ∈ labels, Word t)
    (hgroup : ∀ g, group = some g → Word g.1 ∧ Word g.2)
    (hfeatures : ∀ t ∈ features, Word t.1 ∧ Word t.2) :
    '#' ∉ joinWith ',' labels ∧
    '#' ∉ joinWith ' ' (groupItems group ++ features.map featureItem) := by
  have hh : ∀ t, Word t → '#' ∉ t := fun t ht => word_not_mem t ht '#' (by decide)
  have hitem : ∀ a b : List Char, Word a → Word b → '#' ∉ a ++ ':' :: b := by
    intro a b ha hb
    simp only [List.mem_append, List.mem_cons, not_or]
    exact ⟨hh a ha, by decide, hh b hb⟩
  refine ⟨not_mem_joinWith ',' '#' (by decide) labels (fun t ht => hh t (hlabels t ht)),
    not_mem_joinWith ' ' '#' (by decide) _ ?_⟩
  intro t ht
  rw [List.mem_append] at ht
  rcases ht with ht | ht
  · cases group with
    | none => simp [groupItems] at ht
    | some g =>
      simp only [groupItems, List.mem_singleton] at ht
      rw [ht]
      exact hitem _ _ (hgroup g rfl).1 (hgroup g rfl).2
  · rw [List.mem_map] at ht
    obtain ⟨f, hf, hft⟩ := ht
    rw [← hft]
    exact hitem _ _ (hfeatures f hf).1 (hfeatures f hf).2

/-- The comment part of `Init` on a line of the format: the comment is the text after the
comment sign, or stays as it was when the line has no comment. -/
theorem parseComment_lineText (labels : List (List Char))
    (group : Option (List Char × List Char)) (features : List (List Char × List Char))
    (comment : Option (List Char))
    (hlabels : ∀ t ∈ labels, Word t)
    (hgroup : ∀ g, group = some g → Word g.1 ∧ Word g.2)
    (hfeatures : ∀ t ∈ features, Word t.1 ∧ Word t.2) :
    parseComment (lineText labels group features comment) "" = storedText comment := by
  obtain ⟨h1, h2⟩ := hash_not_mem_join labels group features hlabels hgroup hfeatures
  unfold parseComment lineText
  cases comment with
  | none =>
    rw [strchr_none]
    · rfl
    · simp only [commentItems, List.append_nil, List.mem_append, List.mem_cons, not_or]
      exact ⟨h1, by decide, h2⟩
  | some c =>
    by_cases hA : groupItems group ++ features.map featureItem = []
    · rw [hA]
      simp only [commentItems, List.nil_append, joinWith]
      rw [strchr_append _ _ '#' h1]
      simp [strchr, storedText]
    · simp only [commentItems]
      rw [joinWith_append_singleton ' ' _ _ hA, strchr_append _ _ '#' h1]
      have : strchr (' ' :: (joinWith ' ' (groupItems group ++ features.map featureItem)
          ++ ' ' :: '#' :: c)) '#' = some ('#' :: c) := by
        have h3 : '#' ∉ ' ' :: (joinWith ' ' (groupItems group ++ features.map featureItem)
            ++ [' ']) := by
          simp only [List.mem_cons, List.mem_append, List.mem_singleton, not_or]
          exact ⟨by decide, h2, by decide, by simp⟩
        have h4 := strchr_append _ ('#' :: c) '#' h3
        rw [strchr_cons_self] at h4
        rw [← h4]
        simp
      rw [this]
      rfl

theorem forall₂_of_mem {α β : Type} (R : α → β → Prop) :
    ∀ (l1 : List α) (l2 : List β), List.Forall₂ R l1 l2 → ∀ a ∈ l1, ∃ b, R a b
  | _, _, .nil, a, ha => by simp at ha
  | _, _, .cons h htl, a, ha => by
    rw [List.mem_cons] at ha
    rcases ha with ha | ha
    · rw [ha]; exact ⟨_, h⟩
    · exact forall₂_of_mem R _ _ htl a ha

theorem bias_vector (use_bias_term : Bool) :
    (if use_bias_term = true then SfSparseVector.SetBias SfSparseVector.empty
      else SfSparseVector.NoBias SfSparseVector.empty)
      = .ok { SfSparseVector.empty with
          features_ := [{ id_ := 0, value_ := biasValue use_bias_term }],
          squared_norm_ := biasValue use_bias_term * biasValue use_bias_term } := by
  cases use_bias_term <;>
    simp [SfSparseVector.SetBias, SfSparseVector.NoBias, SfSparseVector.PushPair,
      SfSparseVector.empty, biasValue]

/-- The text after the labels of a line does not start with a letter when the line has no
group token. -/
theorem body_no_letter (lib : NumberText) (features : List (List Char × List Char))
    (pairs : List FeatureValuePair) (comment : Option (List Char))
    (hfeatures : List.Forall₂ (fun t p => Word t.1 ∧ isLetter (charAt t.1) = false ∧
      Word t.2 ∧ ReadsId lib t.1 p.id_ ∧ ReadsValue lib t.2 p.value_) features pairs) :
    isLetter (charAt (joinWith ' ' (features.map featureItem ++ commentItems comment)))
      = false := by
  cases hfeatures with
  | nil =>
    cases comment with
    | none => decide
    | some c =>
      show isLetter '#' = false
      decide
  | cons hv htl =>
    rename_i f p fs ps
    have h3 := (charAt_word f.1 f.2 hv.1).2.2 hv.2.1
    by_cases hnil : fs.map featureItem ++ commentItems comment = []
    · simp only [List.map_cons, List.cons_append]
      rw [hnil]
      exact h3
    · simp only [List.map_cons, List.cons_append]
      rw [joinWith_cons _ _ _ hnil]
      have : featureItem f ++ ' ' :: joinWith ' ' (fs.map featureItem ++ commentItems comment)
          = (f.1 ++ ':' :: f.2) ++ ' ' :: joinWith ' ' (fs.map featureItem
              ++ commentItems comment) := rfl
      rw [this, charAt_append _ _ (by simp)]
      exact h3

/-! ## Loops over the rounds of a seeding function -/

theorem intRange_eq_range' (lo hi : Int) :
    intRange lo hi = (List.range' 0 (hi - lo).toNat).map (fun (n : Nat) => lo + (n : Int)) := by
  unfold intRange
  rw [List.range_eq_range']

/-- A loop whose passes keep an invariant, indexed by the number of passes made, or die
with a failure in `Bad`: the loop ends with the invariant, or dies with a failure in
`Bad`. -/
theorem forFold_range_inv {β σ : Type} (body : β → σ → Km σ) (f : Nat → β)
    (Inv : Nat → σ → KmState → Prop) (Bad : Failure → Prop) (N : Nat)
    (hstep : ∀ m acc s, m < N → Inv m acc s →
      (∃ acc1 s1, body (f m) acc s = .ok acc1 s1 ∧ Inv (m + 1) acc1 s1) ∨
      (∃ e s1, body (f m) acc s = .die e s1 ∧ Bad e)) :
    ∀ (n a : Nat) (acc : σ) (s : KmState), a + n ≤ N → Inv a acc s →
      (∃ acc1 s1, Km.forFold body ((List.range' a n).map f) acc s = .ok acc1 s1 ∧
        Inv (a + n) acc1 s1) ∨
      (∃ e s1, Km.forFold body ((List.range' a n).map f) acc s = .die e s1 ∧ Bad e) := by
  intro n
  induction n with
  | zero =>
    intro a acc s _ hinv
    exact Or.inl ⟨acc, s, rfl, hinv⟩
  | succ n ih =>
    intro a acc s ha hinv
    simp only [List.range', List.map_cons, Km.forFold, Km.andThen]
    rcases hstep a acc s (by omega) hinv with ⟨acc1, s1, h1, hinv1⟩ | ⟨e, s1, h1, hbad⟩
    · rw [h1]
      simp only
      have := ih (a + 1) acc1 s1 (by omega) hinv1
      rw [show a + 1 + n = a + (n + 1) by omega] at this
      exact this
    · rw [h1]
      exact Or.inr ⟨e, s1, rfl, hbad⟩

theorem forFold_append {β σ : Type} (body : β → σ → Km σ) :
    ∀ (l1 l2 : List β) (acc : σ) (s : KmState),
      Km.forFold body (l1 ++ l2) acc s
        = match Km.forFold body l1 acc s with
          | .ok a s1 => Km.forFold body l2 a s1
          | .die e s1 => .die e s1
  | [], l2, acc, s => rfl
  | b :: l1, l2, acc, s => by
    simp only [List.cons_append, Km.forFold, Km.andThen]
    cases h : body b acc s with
    | ok a s1 => simp only; exact forFold_append body l1 l2 a s1
    | die e s1 => rfl

theorem exists_mem_not_mem {α : Type} (l1 l2 : List α) (hnd : l1.Nodup)
    (hlen : l2.length < l1.length) : ∃ a ∈ l1, a ∉ l2 := by
  by_contra hc
  push_neg at hc
  have hsub : l1 ⊆ l2 := fun a ha => hc a ha
  have := (List.subperm_of_subset hnd hsub).length_le
  omega

theorem length_le_of_nodup_subset {α : Type} (l1 l2 : List α) (hnd : l1.Nodup)
    (hsub : ∀ a ∈ l1, a ∈ l2) : l1.length ≤ l2.length :=
  (List.subperm_of_subset hnd hsub).length_le

theorem assert_fails_bind {β : Type} (p : Prop) [Decidable p] (hp : ¬ p) (f : Unit → Km β)
    (s : KmState) : (Km.assert p >>= f) s = .die .assertion s := by
  show Km.andThen (Km.assert p) f s = _
  simp [Km.andThen, Km.assert, hp]

/-! ## Points of the dataset and their distances -/

theorem weights_ext (v w : SfWeightVector) (hlen : v.weights_.length = w.weights_.length)
    (h : ∀ i : Nat, i < v.weights_.length → v.ValueOf (i : Int) = w.ValueOf (i : Int)) :
    v = w := by
  cases v with
  | mk a =>
    cases w with
    | mk b =>
      simp only [SfWeightVector.mk.injEq]
      apply List.ext_getElem hlen
      intro i h1 h2
      have := h i h1
      simp only [SfWeightVector.ValueOf, Int.natCast_nonneg, if_true, Int.toNat_ofNat,
        List.getD_eq_getElem _ _ h1, List.getD_eq_getElem _ _ h2] at this
      exact this

/-- An example at squared distance zero from the center made of another example is the
same point. -/
theorem centerOf_eq_of_sqDist_zero (D : Int) (x y : SfSparseVector) (hwf : x.WellFormed)
    (hx : x.FeaturesBelow D.toNat) (hy : y.FeaturesBelow D.toNat)
    (h : sqDist (centerOf D y) x = 0) : centerOf D x = centerOf D y := by
  rw [sqDist_centerOf D x y hwf hx hy] at h
  have hall := (Finset.sum_eq_zero_iff_of_nonneg (fun i _ => sq_nonneg _)).mp h
  apply weights_ext
  · rw [length_centerOf, length_centerOf]
  · intro i hi
    rw [length_centerOf] at hi
    rw [valueOf_centerOf D x hx, valueOf_centerOf D y hy]
    have := hall i (Finset.mem_range.mpr hi)
    have h2 := pow_eq_zero_iff (two_ne_zero) |>.mp this
    linarith

/-- An example whose point is not among the centers, all of them points of examples, has a
positive distance to its closest center. -/
theorem closestDistance_pos_of_not_mem (cc : SfClusterCenters) (data_set : SfDataSet)
    (x : SfSparseVector) (hne : 0 < cc.Size) (hwf : x.WellFormed)
    (hx : x.FeaturesBelow cc.dimensionality_.toNat)
    (hfb : ∀ y ∈ data_set.vectors_, y.FeaturesBelow cc.dimensionality_.toNat)
    (hmem : ∀ w ∈ cc.cluster_centers_, w ∈ dataPoints cc.dimensionality_ data_set)
    (hx2 : centerOf cc.dimensionality_ x ∉ cc.cluster_centers_) :
    0 < closestDistance cc x := by
  rcases closest_spec cc x hne with ⟨d, j, h1, h2, _, _, h5⟩
  have hd : closestDistance cc x = d := by simp [closestDistance, h1]
  rw [hd]
  rcases h5 with ⟨h5, _⟩ | ⟨_, h6, _⟩
  · rw [h5]; exact flt_max_pos
  · have hcj := clusterCenter_mem cc j h2
    have hp := hmem _ hcj
    unfold dataPoints at hp
    obtain ⟨y, hy, hyc⟩ := List.mem_map.mp hp
    have hnn : 0 ≤ sqDist (cc.ClusterCenter j) x := sqDist_nonneg _ _ hwf
    rw [h6]
    apply lt_of_le_of_ne hnn
    intro h0
    rw [← hyc] at h0
    have := centerOf_eq_of_sqDist_zero cc.dimensionality_ x y hwf hx (hfb y hy) h0.symm
    apply hx2
    rw [this, hyc]
    exact hcj

/-! ## The rounds of `ClassicKmeansPlusPlus` -/

theorem vectorAt_nat_mem (data_set : SfDataSet) (j : Nat) (hj : j < data_set.vectors_.length) :
    data_set.VectorAt (j : Int) ∈ data_set.vectors_ :=
  vectorAt_mem data_set (j : Int) (Int.natCast_nonneg j)
    (by unfold SfDataSet.NumExamples; omega)

theorem cumulativeTable_nil (d : Nat → ℚ) :
    ∀ p, (∀ i, i < p → d i = 0) → cumulativeTable d p = (0, [])
  | 0, _ => rfl
  | p + 1, h => by
    simp only [cumulativeTable]
    rw [if_neg (by rw [h p (Nat.lt_succ_self p)]; exact lt_irrefl 0)]
    exact cumulativeTable_nil d p (fun i hi => h i (Nat.lt_succ_of_lt hi))

/-- A round of `ClassicKmeansPlusPlus` on a set with a center: it adds an example at
positive distance from its closest center, or it dies with `exit(1)`, and then, `rand()`
having returned at most `RAND_MAX`, every example is at distance zero from its closest
center. -/
theorem classicRound_cases (rand_seq : Nat → Nat) (data_set : SfDataSet) (s : KmState)
    (hne : 0 < s.cluster_centers.Size) (hwf : ∀ x ∈ data_set.vectors_, x.WellFormed) :
    (∃ j : Nat, j < data_set.vectors_.length ∧ 0 < roundDistance s.cluster_centers data_set j ∧
      classicRound rand_seq data_set s
        = .ok (j : Int) { cluster_centers :=
                            s.cluster_centers.AddClusterCenterAt (data_set.VectorAt (j : Int)),
                          rand_calls := s.rand_calls + 1 }) ∨
    (classicRound rand_seq data_set s
        = .die .exit1 { s with rand_calls := s.rand_calls + 1 } ∧
      (rand_seq s.rand_calls ≤ RAND_MAX →
        ∀ j, j < data_set.vectors_.length → roundDistance s.cluster_centers data_set j = 0)) := by
  have hd : ∀ i, i < data_set.vectors_.length →
      0 ≤ roundDistance s.cluster_centers data_set i :=
    fun i hi => roundDistance_nonneg s.cluster_centers data_set hne hwf i hi
  have htab := classicTable_eq s.cluster_centers data_set hne data_set.vectors_.length hd
  have htab2 : classicTable s.cluster_centers data_set (intRange 0 data_set.NumExamples) (0, [])
      = .ok ((cumulativeTable (roundDistance s.cluster_centers data_set)
                data_set.vectors_.length).1,
             (cumulativeTable (roundDistance s.cluster_centers data_set)
                data_set.vectors_.length).2) := htab
  have hT := cumulativeTable_total (roundDistance s.cluster_centers data_set)
    data_set.vectors_.length hd
  have hTnn : 0 ≤ (cumulativeTable (roundDistance s.cluster_centers data_set)
      data_set.vectors_.length).1 := by
    rw [hT]; exact range_sum_nonneg _ _ hd
  have hround := classicRound_eq rand_seq data_set s _ _ htab2
  cases hl : FloatIntMap.lower_bound (cumulativeTable (roundDistance s.cluster_centers data_set)
      data_set.vectors_.length).2 (drawFraction rand_seq s.rand_calls
        * (cumulativeTable (roundDistance s.cluster_centers data_set)
            data_set.vectors_.length).1) with
  | some e =>
    rw [hl] at hround
    left
    have hmem := (lower_bound_some _ _ e (cumulativeTable_sorted _ _ hd) hl).1
    obtain ⟨j, hj, e1, e2, _, _⟩ := cumulativeTable_entries _ _ hd e hmem
    refine ⟨j, hj, e2, ?_⟩
    rw [hround, e1]
  | none =>
    rw [hl] at hround
    right
    refine ⟨hround, ?_⟩
    intro hr
    have hf1 : drawFraction rand_seq s.rand_calls ≤ 1 :=
      drawFraction_le_one rand_seq s.rand_calls hr
    have hT0 : (cumulativeTable (roundDistance s.cluster_centers data_set)
        data_set.vectors_.length).1 = 0 := by
      by_contra hT0
      have hpos : 0 < (cumulativeTable (roundDistance s.cluster_centers data_set)
          data_set.vectors_.length).1 := lt_of_le_of_ne hTnn (Ne.symm hT0)
      obtain ⟨e, he, hek⟩ := cumulativeTable_last _ _ hpos
      have := lower_bound_eq_none _ _ hl e he
      rw [hek] at this
      have h2 : drawFraction rand_seq s.rand_calls
            * (cumulativeTable (roundDistance s.cluster_centers data_set)
                data_set.vectors_.length).1
          ≤ 1 * (cumulativeTable (roundDistance s.cluster_centers data_set)
                data_set.vectors_.length).1 := mul_le_mul_of_nonneg_right hf1 hTnn
      linarith
    intro j hj
    rw [hT] at hT0
    have hle : roundDistance s.cluster_centers data_set j
        ≤ ((List.range data_set.vectors_.length).map
            (roundDistance s.cluster_centers data_set)).sum := by
      apply List.single_le_sum
      · intro a ha
        obtain ⟨i, hi, rfl⟩ := List.mem_map.mp ha
        exact hd i (List.mem_range.mp hi)
      · exact List.mem_map.mpr ⟨j, List.mem_range.mpr hj, rfl⟩
    have := hd j hj
    linarith

/-- A round of `ClassicKmeansPlusPlus` in which every example is at distance zero from its
closest center dies with `exit(1)`. -/
theorem classicRound_exit (rand_seq : Nat → Nat) (data_set : SfDataSet) (s : KmState)
    (hne : 0 < s.cluster_centers.Size)
    (hzero : ∀ j, j < data_set.vectors_.length →
      roundDistance s.cluster_centers data_set j = 0) :
    classicRound rand_seq data_set s
      = .die .exit1 { s with rand_calls := s.rand_calls + 1 } := by
  have hd : ∀ i, i < data_set.vectors_.length →
      0 ≤ roundDistance s.cluster_centers data_set i :=
    fun i hi => le_of_eq (hzero i hi).symm
  have htab := classicTable_eq s.cluster_centers data_set hne data_set.vectors_.length hd
  rw [cumulativeTable_nil _ _ hzero] at htab
  have htab2 : classicTable s.cluster_centers data_set (intRange 0 data_set.NumExamples) (0, [])
      = .ok (0, []) := htab
  rw [classicRound_eq rand_seq data_set s _ _ htab2]
  rfl

/-- The first center, added to an empty set, is the point of an example. -/
theorem distinctCenters_seed (D : Int) (data_set : SfDataSet) (cc : SfClusterCenters)
    (hD : 0 ≤ D) (hdim : cc.dimensionality_ = D) (hempty : cc.Size = 0)
    (x : SfSparseVector) (hx : x ∈ data_set.vectors_) :
    DistinctCenters D data_set 1 (cc.AddClusterCenterAt x) := by
  have hnil : cc.cluster_centers_ = [] := List.length_eq_zero.mp hempty
  rw [addClusterCenterAt_eq cc x (by rw [hdim]; exact hD), hnil, hdim]
  refine ⟨rfl, rfl, by simp, ?_⟩
  intro w hw
  simp only [List.nil_append, List.mem_singleton] at hw
  rw [hw]
  exact List.mem_map.mpr ⟨x, hx, rfl⟩

/-- An example at positive distance from its closest center is a new point: adding it
keeps the centers distinct. -/
theorem distinctCenters_add (D : Int) (data_set : SfDataSet) (m : Nat)
    (cc : SfClusterCenters) (hD : 0 ≤ D) (hinv : DistinctCenters D data_set m cc)
    (hm : 0 < m) (x : SfSparseVector) (hx : x ∈ data_set.vectors_) (hwf : x.WellFormed)
    (hfb : x.FeaturesBelow D.toNat) (hpos : 0 < closestDistance cc x) :
    DistinctCenters D data_set (m + 1) (cc.AddClusterCenterAt x) := by
  obtain ⟨hdim, hlen, hnd, hmem⟩ := hinv
  have hsize : cc.Size = m := hlen
  rw [addClusterCenterAt_eq cc x (by rw [hdim]; exact hD), hdim]
  refine ⟨rfl, by simp [hlen], ?_, ?_⟩
  · show (cc.cluster_centers_ ++ [centerOf D x]).Nodup
    rw [List.nodup_append]
    refine ⟨hnd, by simp, ?_⟩
    intro a ha hb
    simp only [List.mem_singleton] at hb
    rw [hb] at ha
    obtain ⟨i, hi, hget⟩ := List.getElem_of_mem ha
    have hci : cc.ClusterCenter i = centerOf D x := by
      unfold SfClusterCenters.ClusterCenter
      rw [List.getD_eq_getElem _ _ hi, hget]
    have hle := closestDistance_le cc x (by omega) i hi
    rw [hci, sqDist_centerOf_self D x hwf hfb] at hle
    linarith
  · intro w hw
    rw [List.mem_append, List.mem_singleton] at hw
    rcases hw with hw | hw
    · exact hmem w hw
    · rw [hw]
      exact List.mem_map.mpr ⟨x, hx, rfl⟩

/-- The start of `ClassicKmeansPlusPlus` with a valid `k`: the rounds start in the state
in which the example drawn has been added as the first center. -/
theorem classic_unfold (rand_seq : Nat → Nat) (k : Int) (data_set : SfDataSet) (s : KmState)
    (hk : 0 < k ∧ k ≤ data_set.NumExamples) :
    ClassicKmeansPlusPlus rand_seq k data_set s
      = Km.forFold (fun (_ : Int) (_ : Unit) => do
            let _ ← classicRound rand_seq data_set
            pure ())
          (intRange 1 k) ()
          (seededState data_set (drawIndex rand_seq data_set s.rand_calls) s) := by
  unfold ClassicKmeansPlusPlus
  rw [km_bind_apply]
  simp only [Km.assert, if_pos hk]
  rw [km_bind_apply, randInt_eq rand_seq data_set s (by omega)]
  rfl

/-- One round of `ClassicKmeansPlusPlus` keeps the centers distinct, or dies with
`exit(1)`. -/
theorem classic_step (rand_seq : Nat → Nat) (data_set : SfDataSet) (D : Int) (hD : 0 ≤ D)
    (hwf : ∀ x ∈ data_set.vectors_, x.WellFormed)
    (hfb : ∀ x ∈ data_set.vectors_, x.FeaturesBelow D.toNat)
    (m : Nat) (s : KmState) (hinv : DistinctCenters D data_set (m + 1) s.cluster_centers) :
    (∃ s1, (do let _ ← classicRound rand_seq data_set; pure () : Km Unit) s = .ok () s1 ∧
      DistinctCenters D data_set (m + 2) s1.cluster_centers) ∨
    (∃ s1, (do let _ ← classicRound rand_seq data_set; pure () : Km Unit) s
      = .die .exit1 s1) := by
  have hne : 0 < s.cluster_centers.Size := by
    have := hinv.2.1
    unfold SfClusterCenters.Size
    omega
  rcases classicRound_cases rand_seq data_set s hne hwf with ⟨j, hj, hpos, hrun⟩ | ⟨hrun, _⟩
  · left
    refine ⟨_, by rw [km_bind_apply, hrun]; rfl, ?_⟩
    have hx := vectorAt_nat_mem data_set j hj
    exact distinctCenters_add D data_set (m + 1) _ hD hinv (by omega) _ hx (hwf _ hx)
      (hfb _ hx) hpos
  · right
    exact ⟨_, by rw [km_bind_apply, hrun]⟩

/-- A run of `ClassicKmeansPlusPlus` from an empty center set, with a valid `k`: it ends
with `k` distinct centers, all points of examples, or it dies with `exit(1)`. -/
theorem classicRun_cases (rand_seq : Nat → Nat) (k : Int) (data_set : SfDataSet)
    (s : KmState) (hk : 0 < k ∧ k ≤ data_set.NumExamples)
    (hD : 0 ≤ s.cluster_centers.dimensionality_) (hempty : s.cluster_centers.Size = 0)
    (hwf : ∀ x ∈ data_set.vectors_, x.WellFormed)
    (hfb : ∀ x ∈ data_set.vectors_,
      x.FeaturesBelow s.cluster_centers.dimensionality_.toNat) :
    (∃ s1, ClassicKmeansPlusPlus rand_seq k data_set s = .ok () s1 ∧
      DistinctCenters s.cluster_centers.dimensionality_ data_set k.toNat
        s1.cluster_centers) ∨
    (∃ s1, ClassicKmeansPlusPlus rand_seq k data_set s = .die .exit1 s1) := by
  rw [classic_unfold rand_seq k data_set s hk, intRange_eq_range']
  have hdraw := drawIndex_range rand_seq data_set s.rand_calls (by omega)
  have hseed : DistinctCenters s.cluster_centers.dimensionality_ data_set (0 + 1)
      (seededState data_set (drawIndex rand_seq data_set s.rand_calls) s).cluster_centers :=
    distinctCenters_seed _ data_set s.cluster_centers hD rfl hempty _
      (vectorAt_mem data_set _ hdraw.1 hdraw.2)
  have h := forFold_range_inv
    (fun (_ : Int) (_ : Unit) => (do let _ ← classicRound rand_seq data_set; pure () : Km Unit))
    (fun (n : Nat) => (1 : Int) + (n : Int))
    (fun m _ s1 => DistinctCenters s.cluster_centers.dimensionality_ data_set (m + 1)
      s1.cluster_centers)
    (fun e => e = .exit1) (k - 1).toNat
    (fun m acc s1 _ hinv => by
      rcases classic_step rand_seq data_set _ hD hwf hfb m s1 hinv with ⟨s2, h1, h2⟩ | ⟨s2, h1⟩
      · exact Or.inl ⟨(), s2, h1, h2⟩
      · exact Or.inr ⟨.exit1, s2, h1, rfl⟩)
    (k - 1).toNat 0 () _ (by omega) hseed
  rcases h with ⟨_, s1, h1, h2⟩ | ⟨e, s1, h1, h2⟩
  · left
    refine ⟨s1, h1, ?_⟩
    rw [show 0 + (k - 1).toNat + 1 = k.toNat by omega] at h2
    exact h2
  · right
    rw [h2] at h1
    exact ⟨s1, h1⟩

/-- With more distinct points in the dataset than centers in the set, and `rand()` within
its range, a round of `ClassicKmeansPlusPlus` does not die. -/
theorem classic_step_ok (rand_seq : Nat → Nat) (data_set : SfDataSet) (D : Int) (hD : 0 ≤ D)
    (hwf : ∀ x ∈ data_set.vectors_, x.WellFormed)
    (hfb : ∀ x ∈ data_set.vectors_, x.FeaturesBelow D.toNat)
    (hr : ∀ t, rand_seq t ≤ RAND_MAX)
    (m : Nat) (s : KmState) (hinv : DistinctCenters D data_set (m + 1) s.cluster_centers)
    (hm : m + 1 < distinctPoints D data_set) :
    ∃ s1, (do let _ ← classicRound rand_seq data_set; pure () : Km Unit) s = .ok () s1 ∧
      DistinctCenters D data_set (m + 2) s1.cluster_centers := by
  rcases classic_step rand_seq data_set D hD hwf hfb m s hinv with h | ⟨s1, h1⟩
  · exact h
  · exfalso
    have hne : 0 < s.cluster_centers.Size := by
      have := hinv.2.1
      unfold SfClusterCenters.Size
      omega
    obtain ⟨p, hp, hpc⟩ := exists_mem_not_mem (dataPoints D data_set).dedup
      s.cluster_centers.cluster_centers_ (List.nodup_dedup _)
      (by rw [hinv.2.1]; exact hm)
    rw [List.mem_dedup] at hp
    obtain ⟨x, hx, hxp⟩ := List.mem_map.mp hp
    obtain ⟨j, hj, hget⟩ := List.getElem_of_mem hx
    have hvec : data_set.VectorAt (j : Int) = x := by
      unfold SfDataSet.VectorAt
      rw [if_pos (Int.natCast_nonneg j), Int.toNat_ofNat, List.getD_eq_getElem _ _ hj, hget]
    have hdim := hinv.1
    have hpos : 0 < roundDistance s.cluster_centers data_set j := by
      unfold roundDistance
      rw [hvec]
      apply closestDistance_pos_of_not_mem s.cluster_centers data_set x hne (hwf x hx)
      · rw [hdim]; exact hfb x hx
      · rw [hdim]; exact hfb
      · rw [hdim]; exact hinv.2.2.2
      · rw [hdim, hxp]; exact hpc
    rcases classicRound_cases rand_seq data_set s hne hwf with ⟨i, _, _, hrun⟩ | ⟨_, hzero⟩
    · rw [km_bind_apply, hrun] at h1
      exact Outcome.noConfusion h1
    · have := hzero (hr _) j hj
      linarith

/-- A run of `ClassicKmeansPlusPlus` from an empty center set on a dataset with at least
`k` distinct points, with `rand()` within its range, does not die. -/
theorem classicRun_ok (rand_seq : Nat → Nat) (k : Int) (data_set : SfDataSet)
    (s : KmState) (hk : 0 < k ∧ k ≤ data_set.NumExamples)
    (hD : 0 ≤ s.cluster_centers.dimensionality_) (hempty : s.cluster_centers.Size = 0)
    (hwf : ∀ x ∈ data_set.vectors_, x.WellFormed)
    (hfb : ∀ x ∈ data_set.vectors_,
      x.FeaturesBelow s.cluster_centers.dimensionality_.toNat)
    (hr : ∀ t, rand_seq t ≤ RAND_MAX)
    (hdist : k.toNat ≤ distinctPoints s.cluster_centers.dimensionality_ data_set) :
    ∃ s1, ClassicKmeansPlusPlus rand_seq k data_set s = .ok () s1 := by
  rw [classic_unfold rand_seq k data_set s hk, intRange_eq_range']
  have hdraw := drawIndex_range rand_seq data_set s.rand_calls (by omega)
  have hseed : DistinctCenters s.cluster_centers.dimensionality_ data_set (0 + 1)
      (seededState data_set (drawIndex rand_seq data_set s.rand_calls) s).cluster_centers :=
    distinctCenters_seed _ data_set s.cluster_centers hD rfl hempty _
      (vectorAt_mem data_set _ hdraw.1 hdraw.2)
  have h := forFold_range_inv
    (fun (_ : Int) (_ : Unit) => (do let _ ← classicRound rand_seq data_set; pure () : Km Unit))
    (fun (n : Nat) => (1 : Int) + (n : Int))
    (fun m _ s1 => DistinctCenters s.cluster_centers.dimensionality_ data_set (m + 1)
      s1.cluster_centers)
    (fun _ => False) (k - 1).toNat
    (fun m acc s1 hm hinv => by
      obtain ⟨s2, h1, h2⟩ := classic_step_ok rand_seq data_set _ hD hwf hfb hr m s1 hinv
        (by omega)
      exact Or.inl ⟨(), s2, h1, h2⟩)
    (k - 1).toNat 0 () _ (by omega) hseed
  rcases h with ⟨_, s1, h1, _⟩ | ⟨_, _, _, h2⟩
  · exact ⟨s1, h1⟩
  · exact absurd h2 id

/-! ## The optimized k-means++ variants as seed and rounds -/

theorem optimizedRound_eq (rand_seq : Nat → Nat) (data_set : SfDataSet) :
    optimizedRound rand_seq data_set = (fun i (cache : BestCache) => do
      let t ← Km.ofExcept (fun cc =>
        optimizedTable cc data_set (i - 1) (intRange 0 data_set.NumExamples) (0, [], cache))
      let _ ← sampleAndAdd rand_seq data_set t.1 t.2.1
      pure t.2.2) := by
  funext i cache
  rfl

theorem optimizedTIRound_eq (rand_seq : Nat → Nat) (data_set : SfDataSet) :
    optimizedTIRound rand_seq data_set = (fun i (st : BestCache × List ℚ) => do
      let t ← Km.ofExcept (fun cc =>
        optimizedTITable cc data_set i st.2 (intRange 0 data_set.NumExamples)
          (0, [], st.1))
      let chosen ← sampleAndAdd rand_seq data_set t.1 t.2.1
      let inter_center_distances ← Km.ofExcept (fun cc =>
        interCenterDistances cc (data_set.VectorAt chosen)
          (intRange 0 ((cc.Size : Int) - 1)) [])
      pure (t.2.2, inter_center_distances)) := by
  funext i st
  rfl

/-- The routine `OptimizedKmeansPlusPlus` is its seed followed by the rounds `1 .. k - 1`. -/
theorem optimized_eq_upTo (rand_seq : Nat → Nat) (k : Int) (data_set : SfDataSet)
    (s : KmState) :
    OptimizedKmeansPlusPlus rand_seq k data_set s
      = match optimizedUpTo rand_seq k data_set k s with
        | .ok _ s1 => .ok () s1
        | .die e s1 => .die e s1 := by
  unfold OptimizedKmeansPlusPlus optimizedUpTo optimizedSeed
  simp only [km_bind_apply]
  cases h1 : Km.assert (0 < k ∧ k ≤ data_set.NumExamples) s with
  | die e s1 => rfl
  | ok u s1 =>
    simp only
    cases h2 : RandInt rand_seq data_set.NumExamples s1 with
    | die e s2 => rfl
    | ok id s2 =>
      simp only
      cases h3 : Km.modifyCenters
          (fun cc => cc.AddClusterCenterAt (data_set.VectorAt id)) s2 with
      | die e s3 => rfl
      | ok u3 s3 =>
        simp only
        cases h4 : Km.ofExcept (fun cc => initBestDistances cc data_set
            (intRange 0 data_set.NumExamples)
            (List.replicate data_set.NumExamples.toNat FLT_MAX)) s3 with
        | die e s4 => rfl
        | ok bd s4 =>
          simp only [km_pure_apply]
          rw [optimizedRound_eq]
          try dsimp only
          generalize Km.forFold _ (intRange 1 k) _ s4 = r
          cases r <;> rfl

/-- The routine `OptimizedKmeansPlusPlusTI` is its seed followed by the rounds
`1 .. k - 1`. -/
theorem optimizedTI_eq_upTo (rand_seq : Nat → Nat) (k : Int) (data_set : SfDataSet)
    (s : KmState) :
    OptimizedKmeansPlusPlusTI rand_seq k data_set s
      = match optimizedTIUpTo rand_seq k data_set k s with
        | .ok _ s1 => .ok () s1
        | .die e s1 => .die e s1 := by
  unfold OptimizedKmeansPlusPlusTI optimizedTIUpTo optimizedTISeed
  simp only [km_bind_apply]
  cases h1 : Km.assert (0 < k ∧ k ≤ data_set.NumExamples) s with
  | die e s1 => rfl
  | ok u s1 =>
    simp only
    cases h2 : RandInt rand_seq data_set.NumExamples s1 with
    | die e s2 => rfl
    | ok id s2 =>
      simp only
      cases h3 : Km.modifyCenters
          (fun cc => cc.AddClusterCenterAt (data_set.VectorAt id)) s2 with
      | die e s3 => rfl
      | ok u3 s3 =>
        simp only
        cases h4 : Km.ofExcept (fun cc => initBestDistances cc data_set
            (intRange 0 data_set.NumExamples)
            (List.replicate data_set.NumExamples.toNat 0)) s3 with
        | die e s4 => rfl
        | ok bd s4 =>
          simp only [km_pure_apply]
          rw [optimizedTIRound_eq]
          try dsimp only
          generalize Km.forFold _ (intRange 1 k) _ s4 = r
          cases r <;> rfl

/-! ## The caches of `OptimizedKmeansPlusPlus` -/

/-- The distance to the closest center after a center has been added: the smaller of the
distance to the closest center before and the distance to the new center. -/
theorem closestDistance_add (cc : SfClusterCenters) (w : SfWeightVector) (x : SfSparseVector)
    (hne : 0 < cc.Size) :
    closestDistance (cc.AddClusterCenter w) x = min (closestDistance cc x) (sqDist w x) := by
  have hsize := size_addClusterCenter cc w
  have hne2 : 0 < (cc.AddClusterCenter w).Size := by omega
  rcases closest_spec cc x hne with ⟨d, j, h1, h2, h3, h4, h5⟩
  rcases closest_spec (cc.AddClusterCenter w) x hne2 with ⟨d2, j2, g1, g2, g3, g4, g5⟩
  have hd : closestDistance cc x = d := by simp [closestDistance, h1]
  have hd2 : closestDistance (cc.AddClusterCenter w) x = d2 := by simp [closestDistance, g1]
  rw [hd, hd2]
  have hw : d2 ≤ sqDist w x := by
    have := g4 cc.Size (by omega)
    rw [clusterCenter_addClusterCenter_last] at this
    exact this
  have hold : ∀ i, i < cc.Size → d2 ≤ sqDist (cc.ClusterCenter i) x := by
    intro i hi
    have := g4 i (by omega)
    rw [clusterCenter_addClusterCenter_lt cc w i hi] at this
    exact this
  apply le_antisymm
  · apply le_min _ hw
    rcases h5 with ⟨h5, _⟩ | ⟨_, h6, _⟩
    · rw [h5]; exact g3
    · rw [h6]; exact hold j h2
  · rcases g5 with ⟨g5, _⟩ | ⟨_, g6, _⟩
    · rw [g5]; exact le_trans (min_le_left _ _) h3
    · by_cases hj : j2 < cc.Size
      · rw [clusterCenter_addClusterCenter_lt cc w j2 hj] at g6
        rw [g6]
        exact le_trans (min_le_left _ _) (h4 j2 hj)
      · have hj2 : j2 = cc.Size := by omega
        rw [hj2, clusterCenter_addClusterCenter_last] at g6
        rw [g6]
        exact min_le_right _ _

/-- With one center at a distance within the range of `float`, the distance to the closest
center is the distance to that center. -/
theorem closestDistance_single (cc : SfClusterCenters) (x : SfSparseVector)
    (hsize : cc.Size = 1) (hfin : sqDist (cc.ClusterCenter 0) x ≤ FLT_MAX) :
    closestDistance cc x = sqDist (cc.ClusterCenter 0) x := by
  rcases closest_spec cc x (by omega) with ⟨d, j, h1, h2, _, h4, h5⟩
  have hd : closestDistance cc x = d := by simp [closestDistance, h1]
  rw [hd]
  rcases h5 with ⟨h5, _⟩ | ⟨_, h6, _⟩
  · apply le_antisymm (h4 0 (by omega))
    rw [h5]; exact hfin
  · have hj : j = 0 := by omega
    rw [h6, hj]

theorem initBestDistances_append (cc : SfClusterCenters) (data_set : SfDataSet) (j : Int) :
    ∀ (js : List Int) (best_distances : List ℚ),
      initBestDistances cc data_set (js ++ [j]) best_distances
        = match initBestDistances cc data_set js best_distances with
          | .error e => .error e
          | .ok b => initBestDistances cc data_set [j] b
  | [], _ => rfl
  | i :: is, best_distances => by
    simp only [List.cons_append, initBestDistances]
    cases h : cc.SqDistanceToCenterId 0 (data_set.VectorAt i) with
    | error e => rfl
    | ok d => exact initBestDistances_append cc data_set j is _

/-- The loop that fills `best_distances`: entry `j` becomes the distance of example `j` to
center 0. -/
theorem initBestDistances_eq (cc : SfClusterCenters) (data_set : SfDataSet)
    (hne : 0 < cc.Size) (best_distances : List ℚ) :
    ∀ p : Nat, p ≤ best_distances.length →
      ∃ b, initBestDistances cc data_set (intRange 0 (p : Int)) best_distances = .ok b ∧
        b.length = best_distances.length ∧
        ∀ j, b.getD j 0
          = if j < p then sqDist (cc.ClusterCenter 0) (data_set.VectorAt (j : Int))
            else best_distances.getD j 0 := by
  intro p
  induction p with
  | zero =>
    intro _
    exact ⟨best_distances, rfl, rfl, fun j => by simp⟩
  | succ p ih =>
    intro hp
    obtain ⟨b, hb, hlen, hget⟩ := ih (by omega)
    have hd := sqDistanceToCenterId_ok cc (data_set.VectorAt (p : Int)) 0 hne
    rw [intRange_zero_succ, initBestDistances_append, hb]
    simp only [initBestDistances]
    rw [show ((0 : Nat) : Int) = 0 from rfl] at hd
    rw [hd]
    refine ⟨_, rfl, by rw [List.length_set, hlen], ?_⟩
    intro j
    rw [Int.toNat_ofNat, getD_set_gen, hget j]
    by_cases hj : p = j
    · subst hj
      rw [if_pos ⟨rfl, by omega⟩, if_pos (Nat.lt_succ_self _)]
    · rw [if_neg (fun h => hj h.1)]
      by_cases hj2 : j < p
      · rw [if_pos hj2, if_pos (by omega)]
      · rw [if_neg hj2, if_neg (by omega)]

theorem optimizedTable_append (cc : SfClusterCenters) (data_set : SfDataSet) (r j : Int) :
    ∀ (js : List Int) (acc : ℚ × FloatIntMap × BestCache),
      optimizedTable cc data_set r (js ++ [j]) acc
        = match optimizedTable cc data_set r js acc with
          | .error e => .error e
          | .ok a => optimizedTable cc data_set r [j] a
  | [], _ => rfl
  | i :: is, acc => by
    simp only [List.cons_append, optimizedTable]
    cases h : cc.SqDistanceToCenterId r (data_set.VectorAt i) with
    | error e => rfl
    | ok d => exact optimizedTable_append cc data_set r j is _

/-- The loop over `j` of a round of `OptimizedKmeansPlusPlus` with `r` the center added
last: the cached distance of every example becomes the smaller of the cached distance and
the distance to center `r`, and the total distance mass is the sum of the new cached
distances. -/
theorem optimizedTable_eq (cc : SfClusterCenters) (data_set : SfDataSet) (r : Nat)
    (hr : r < cc.Size) (cache : BestCache) :
    ∀ p : Nat, p ≤ cache.best_distances.length →
      ∃ T m c1, optimizedTable cc data_set (r : Int) (intRange 0 (p : Int)) (0, [], cache)
          = .ok (T, m, c1) ∧
        c1.best_distances.length = cache.best_distances.length ∧
        (∀ j, c1.best_distances.getD j 0
          = if j < p then min (cache.best_distances.getD j 0)
              (sqDist (cc.ClusterCenter r) (data_set.VectorAt (j : Int)))
            else cache.best_distances.getD j 0) ∧
        T = ((List.range p).map (fun j => min (cache.best_distances.getD j 0)
              (sqDist (cc.ClusterCenter r) (data_set.VectorAt (j : Int))))).sum := by
  intro p
  induction p with
  | zero =>
    intro _
    exact ⟨0, [], cache, rfl, rfl, fun j => by simp, by simp⟩
  | succ p ih =>
    intro hp
    obtain ⟨T, m, c1, htab, hlen, hget, hT⟩ := ih (by omega)
    have hd := sqDistanceToCenterId_ok cc (data_set.VectorAt (p : Int)) r hr
    rw [intRange_zero_succ, optimizedTable_append, htab]
    simp only [optimizedTable]
    rw [hd]
    simp only [cacheStep, Int.toNat_ofNat]
    have hbp : c1.best_distances.getD p 0 = cache.best_distances.getD p 0 := by
      rw [hget p, if_neg (lt_irrefl p)]
    rw [hbp]
    by_cases hlt : sqDist (cc.ClusterCenter r) (data_set.VectorAt (p : Int))
        < cache.best_distances.getD p 0
    · rw [if_pos hlt]
      refine ⟨_, _, _, rfl, by simp only [List.length_set]; exact hlen, ?_, ?_⟩
      · intro j
        rw [getD_set_gen, hget j]
        by_cases hj : p = j
        · subst hj
          rw [if_pos ⟨rfl, by omega⟩, if_pos (Nat.lt_succ_self _), min_eq_right (le_of_lt hlt)]
        · rw [if_neg (fun h => hj h.1)]
          by_cases hj2 : j < p
          · rw [if_pos hj2, if_pos (by omega)]
          · rw [if_neg hj2, if_neg (by omega)]
      · rw [List.range_succ, List.map_append, List.sum_append, ← hT]
        simp only [List.map_cons, List.map_nil, List.sum_cons, List.sum_nil, add_zero]
        rw [min_eq_right (le_of_lt hlt)]
    · rw [if_neg hlt]
      refine ⟨_, _, _, rfl, hlen, ?_, ?_⟩
      · intro j
        rw [hget j]
        by_cases hj : j = p
        · subst hj
          rw [if_neg (lt_irrefl j), if_pos (Nat.lt_succ_self _),
            min_eq_left (not_lt.mp hlt)]
        · by_cases hj2 : j < p
          · rw [if_pos hj2, if_pos (by omega)]
          · rw [if_neg hj2, if_neg (by omega)]
      · rw [List.range_succ, List.map_append, List.sum_append, ← hT]
        simp only [List.map_cons, List.map_nil, List.sum_cons, List.sum_nil, add_zero]
        rw [min_eq_left (not_lt.mp hlt)]

theorem lower_bound_mem : ∀ (m : FloatIntMap) (t : ℚ) (e : ℚ × Int),
    FloatIntMap.lower_bound m t = some e → e ∈ m
  | [], t, e, h => by simp [FloatIntMap.lower_bound] at h
  | a :: rest, t, e, h => by
    simp only [FloatIntMap.lower_bound] at h
    split at h
    · rw [← Option.some.inj h]; exact List.mem_cons_self _ _
    · exact List.mem_cons_of_mem _ (lower_bound_mem rest t e h)

/-- The draw and the lookup of a k-means++ round: the example found is added as a center,
or the round dies with `exit(1)`. -/
theorem sampleAndAdd_cases (rand_seq : Nat → Nat) (data_set : SfDataSet) (T : ℚ)
    (m : FloatIntMap) (s : KmState) :
    (∃ e : ℚ × Int, e ∈ m ∧ sampleAndAdd rand_seq data_set T m s
      = .ok e.2 { cluster_centers :=
                    s.cluster_centers.AddClusterCenterAt (data_set.VectorAt e.2),
                  rand_calls := s.rand_calls + 1 }) ∨
    sampleAndAdd rand_seq data_set T m s
      = .die .exit1 { s with rand_calls := s.rand_calls + 1 } := by
  simp only [sampleAndAdd, km_bind_apply, sampleDistance_eq, lookupAndAdd]
  cases hl : FloatIntMap.lower_bound m (drawFraction rand_seq s.rand_calls * T) with
  | none => right; rfl
  | some e =>
    left
    exact ⟨e, lower_bound_mem m _ e hl, rfl⟩

theorem size_addClusterCenterAt (cc : SfClusterCenters) (x : SfSparseVector) :
    (cc.AddClusterCenterAt x).Size = cc.Size + 1 := by
  unfold SfClusterCenters.AddClusterCenterAt
  exact size_addClusterCenter _ _

theorem numExamples_eq (data_set : SfDataSet) :
    data_set.NumExamples = ((data_set.vectors_.length : Nat) : Int) := rfl

/-- The loop over `j` of a round of `OptimizedKmeansPlusPlus` that starts with exact
caches: the cached distances become the distances to the closest center, and the total
distance mass is their sum. -/
theorem optimizedTable_exact (data_set : SfDataSet) (m : Nat) (cache : BestCache)
    (s : KmState) (hinv : CacheExact data_set m cache s) :
    ∃ T mp c1, optimizedTable s.cluster_centers data_set ((1 : Int) + (m : Int) - 1)
        (intRange 0 data_set.NumExamples) (0, [], cache) = .ok (T, mp, c1) ∧
      c1.best_distances.length = data_set.vectors_.length ∧
      (∀ j : Nat, j < data_set.vectors_.length →
        c1.best_distances.getD j 0
          = closestDistance s.cluster_centers (data_set.VectorAt (j : Int))) ∧
      T = ((List.range data_set.vectors_.length).map
            (fun (j : Nat) => closestDistance s.cluster_centers (data_set.VectorAt (j : Int)))).sum := by
  obtain ⟨hsize, hlen, hmin⟩ := hinv
  obtain ⟨T, mp, c1, htab, hlen1, hget, hT⟩ :=
    optimizedTable_eq s.cluster_centers data_set m (by omega) cache
      data_set.vectors_.length (by omega)
  rw [show (1 : Int) + (m : Int) - 1 = (m : Int) by omega, numExamples_eq]
  refine ⟨T, mp, c1, htab, by rw [hlen1, hlen], ?_, ?_⟩
  · intro j hj
    rw [hget j, if_pos hj, hmin j hj]
  · rw [hT]
    apply congrArg
    apply List.map_congr_left
    intro j hj
    exact hmin j (List.mem_range.mp hj)

/-- One round of `OptimizedKmeansPlusPlus` keeps the caches exact, or dies with
`exit(1)`. -/
theorem optimizedRound_step (rand_seq : Nat → Nat) (data_set : SfDataSet) (m : Nat)
    (cache : BestCache) (s : KmState) (hinv : CacheExact data_set m cache s) :
    (∃ c1 s1, optimizedRound rand_seq data_set ((1 : Int) + (m : Int)) cache s = .ok c1 s1 ∧
      CacheExact data_set (m + 1) c1 s1) ∨
    (∃ s1, optimizedRound rand_seq data_set ((1 : Int) + (m : Int)) cache s
      = .die .exit1 s1) := by
  obtain ⟨T, mp, c1, htab, hlen1, hget, _⟩ := optimizedTable_exact data_set m cache s hinv
  have hsize := hinv.1
  unfold optimizedRound
  simp only [km_bind_apply, Km.ofExcept, htab]
  rcases sampleAndAdd_cases rand_seq data_set T mp s with ⟨e, _, h1⟩ | h1
  · left
    rw [h1]
    refine ⟨c1, _, rfl, ?_, hlen1, ?_⟩
    · show (s.cluster_centers.AddClusterCenterAt _).Size = m + 1 + 1
      rw [size_addClusterCenterAt, hsize]
    · intro j hj
      show min _ (sqDist ((s.cluster_centers.AddClusterCenterAt _).ClusterCenter (m + 1)) _)
        = closestDistance (s.cluster_centers.AddClusterCenterAt _) _
      unfold SfClusterCenters.AddClusterCenterAt
      rw [closestDistance_add _ _ _ (by omega), ← hsize,
        clusterCenter_addClusterCenter_last, hget j hj]
  · right
    rw [h1]
    exact ⟨_, rfl⟩

/-- The code of `OptimizedKmeansPlusPlus` before the rounds, from an empty center set with
a valid `k`: the caches it builds are exact. -/
theorem optimizedSeed_exact (rand_seq : Nat → Nat) (k : Int) (data_set : SfDataSet)
    (s : KmState) (hk : 0 < k ∧ k ≤ data_set.NumExamples)
    (hempty : s.cluster_centers.Size = 0)
    (hfin : ∀ y ∈ data_set.vectors_, ∀ x ∈ data_set.vectors_,
      sqDist (centerOf s.cluster_centers.dimensionality_ y) x ≤ FLT_MAX) :
    ∃ c0, optimizedSeed rand_seq k data_set s
        = .ok c0 (seededState data_set (drawIndex rand_seq data_set s.rand_calls) s) ∧
      CacheExact data_set 0 c0
        (seededState data_set (drawIndex rand_seq data_set s.rand_calls) s) := by
  have hdraw := drawIndex_range rand_seq data_set s.rand_calls (by omega)
  have hsize : (seededState data_set (drawIndex rand_seq data_set s.rand_calls)
      s).cluster_centers.Size = 1 := by
    show (s.cluster_centers.AddClusterCenterAt _).Size = 1
    rw [size_addClusterCenterAt, hempty]
  have hc0 : (seededState data_set (drawIndex rand_seq data_set s.rand_calls)
      s).cluster_centers.ClusterCenter 0
        = centerOf s.cluster_centers.dimensionality_
            (data_set.VectorAt (drawIndex rand_seq data_set s.rand_calls)) := by
    show (s.cluster_centers.AddClusterCenterAt _).ClusterCenter 0 = _
    rw [← hempty, clusterCenter_addClusterCenterAt_last]
  obtain ⟨b, hb, hlen, hget⟩ := initBestDistances_eq
    (seededState data_set (drawIndex rand_seq data_set s.rand_calls) s).cluster_centers
    data_set (by omega) (List.replicate data_set.NumExamples.toNat FLT_MAX)
    data_set.vectors_.length (by simp [SfDataSet.NumExamples])
  refine ⟨{ best_center_ids := List.replicate data_set.NumExamples.toNat 0,
            best_distances := b }, ?_, hsize, ?_, ?_⟩
  · unfold optimizedSeed
    rw [km_bind_apply]
    simp only [Km.assert, if_pos hk]
    rw [km_bind_apply, randInt_eq rand_seq data_set s (by omega)]
    simp only [km_bind_apply, Km.modifyCenters, Km.ofExcept]
    rw [← numExamples_eq] at hb
    have hb2 : initBestDistances
        (s.cluster_centers.AddClusterCenterAt
          (data_set.VectorAt (drawIndex rand_seq data_set s.rand_calls)))
        data_set (intRange 0 data_set.NumExamples)
        (List.replicate data_set.NumExamples.toNat FLT_MAX) = .ok b := hb
    rw [hb2]
    rfl
  · show b.length = _
    rw [hlen]
    simp [SfDataSet.NumExamples]
  · intro j hj
    show min (b.getD j 0) _ = _
    have hx := vectorAt_nat_mem data_set j hj
    rw [hget j, if_pos hj, min_self, closestDistance_single _ _ hsize]
    rw [hc0]
    exact hfin _ (vectorAt_mem data_set _ hdraw.1 hdraw.2) _ hx

/-- The caches with which a round of `OptimizedKmeansPlusPlus` starts are exact when the
run started on an empty center set. -/
theorem optimizedUpTo_exact (rand_seq : Nat → Nat) (k : Int) (data_set : SfDataSet)
    (s0 : KmState) (i : Int) (cache : BestCache) (s : KmState)
    (hempty : s0.cluster_centers.Size = 0)
    (hfin : ∀ y ∈ data_set.vectors_, ∀ x ∈ data_set.vectors_,
      sqDist (centerOf s0.cluster_centers.dimensionality_ y) x ≤ FLT_MAX)
    (hrun : optimizedUpTo rand_seq k data_set i s0 = .ok cache s) :
    CacheExact data_set (i - 1).toNat cache s := by
  unfold optimizedUpTo at hrun
  rw [km_bind_apply] at hrun
  by_cases hk : 0 < k ∧ k ≤ data_set.NumExamples
  · obtain ⟨c0, hseed, hinv0⟩ := optimizedSeed_exact rand_seq k data_set s0 hk hempty hfin
    rw [hseed] at hrun
    simp only at hrun
    rw [intRange_eq_range'] at hrun
    have h := forFold_range_inv (optimizedRound rand_seq data_set)
      (fun (n : Nat) => (1 : Int) + (n : Int))
      (fun m c s1 => CacheExact data_set m c s1) (fun _ => True) (i - 1).toNat
      (fun m c s1 _ hinv => by
        rcases optimizedRound_step rand_seq data_set m c s1 hinv with
          ⟨c1, s2, h1, h2⟩ | ⟨s2, h1⟩
        · exact Or.inl ⟨c1, s2, h1, h2⟩
        · exact Or.inr ⟨_, s2, h1, trivial⟩)
      (i - 1).toNat 0 c0 _ (by omega) hinv0
    rcases h with ⟨c1, s1, h1, h2⟩ | ⟨e, s1, h1, _⟩
    · rw [h1] at hrun
      injection hrun with hc hs
      rw [← hc, ← hs]
      rw [Nat.zero_add] at h2
      exact h2
    · rw [h1] at hrun
      exact Outcome.noConfusion hrun
  · have hdie : optimizedSeed rand_seq k data_set s0 = .die .assertion s0 :=
      assert_fails_bind _ hk _ s0
    rw [hdie] at hrun
    exact Outcome.noConfusion hrun

theorem intRange_split (lo mid hi : Int) (h1 : lo ≤ mid) (h2 : mid ≤ hi) :
    intRange lo hi = intRange lo mid ++ intRange mid hi := by
  unfold intRange
  have h : (hi - lo).toNat = (mid - lo).toNat + (hi - mid).toNat := by omega
  rw [h, List.range_add, List.map_append, List.map_map]
  congr 1
  apply List.map_congr_left
  intro a _
  simp only [Function.comp]
  push_cast
  omega

/-! ## The table of inter-center distances of `OptimizedKmeansPlusPlusTI` -/

theorem truncToInt_intCast (c : Int) : truncToInt ((c : Int) : ℚ) = c := by
  unfold truncToInt
  split
  · exact Int.floor_intCast c
  · exact Int.ceil_intCast c

theorem interCenterDistances_append (cc : SfClusterCenters) (x : SfSparseVector) (j : Int) :
    ∀ (js : List Int) (acc : List ℚ),
      interCenterDistances cc x (js ++ [j]) acc
        = match interCenterDistances cc x js acc with
          | .error e => .error e
          | .ok a => interCenterDistances cc x [j] a
  | [], _ => rfl
  | i :: is, acc => by
    simp only [List.cons_append, interCenterDistances]
    cases h : cc.SqDistanceToCenterId i x with
    | error e => rfl
    | ok d => exact interCenterDistances_append cc x j is _

/-- The loop that refills `inter_center_distances`: entry `c` is the distance from center
`c` to `x`. -/
theorem interCenterDistances_eq (cc : SfClusterCenters) (x : SfSparseVector) :
    ∀ p : Nat, p ≤ cc.Size →
      interCenterDistances cc x (intRange 0 (p : Int)) []
        = .ok ((List.range p).map (fun (c : Nat) => sqDist (cc.ClusterCenter c) x)) := by
  intro p
  induction p with
  | zero => intro _; rfl
  | succ p ih =>
    intro hp
    rw [intRange_zero_succ, interCenterDistances_append, ih (by omega)]
    simp only [interCenterDistances]
    rw [sqDistanceToCenterId_ok cc x p (by omega), List.range_succ, List.map_append]
    rfl

theorem optimizedTITable_append (cc : SfClusterCenters) (data_set : SfDataSet) (i : Int)
    (icd : List ℚ) (j : Int) :
    ∀ (js : List Int) (acc : ℚ × FloatIntMap × BestCache),
      optimizedTITable cc data_set i icd (js ++ [j]) acc
        = match optimizedTITable cc data_set i icd js acc with
          | .error e => .error e
          | .ok a => optimizedTITable cc data_set i icd [j] a
  | [], _ => rfl
  | a :: is, acc => by
    simp only [List.cons_append, optimizedTITable]
    split
    · rfl
    · exact optimizedTITable_append cc data_set i icd j is _

/-- One pass of the loop over `j` of `OptimizedKmeansPlusPlusTI` when the read of
`inter_center_distances` is in bounds and the distance call is: the pass works with some
distance and updates the caches with it. -/
theorem optimizedTITable_single (cc : SfClusterCenters) (data_set : SfDataSet) (i : Int)
    (icd : List ℚ) (j : Int) (acc : ℚ × FloatIntMap × BestCache) (dist : ℚ)
    (hread : 2 ≤ i → ∃ d,
      icd.get? (truncToInt (acc.2.2.best_center_ids.getD j.toNat 0)).toNat = some d)
    (hcall : cc.SqDistanceToCenterId (i - 1) (data_set.VectorAt j) = .ok dist) :
    ∃ distance,
      optimizedTITable cc data_set i icd [j] acc = .ok (cacheStep j distance (i - 1) acc) := by
  simp only [optimizedTITable]
  by_cases h2 : 2 ≤ i
  · obtain ⟨d, hd⟩ := hread h2
    rw [if_pos h2, hd]
    simp only
    by_cases hp : d > 2 * acc.2.2.best_distances.getD j.toNat 0
    · rw [if_pos hp]
      exact ⟨_, rfl⟩
    · rw [if_neg hp, hcall]
      exact ⟨_, rfl⟩
  · rw [if_neg h2, hcall]
    exact ⟨_, rfl⟩

/-- The loop over `j` of a round of `OptimizedKmeansPlusPlusTI` that starts with cached
center ids below `m` and a table of `m0 + m` entries: no read of the table is out of
bounds, and a cached center id is left as it was or becomes `m` converted to `float`. -/
theorem optimizedTITable_ok (cc : SfClusterCenters) (data_set : SfDataSet) (m0 m : Nat)
    (icd : List ℚ) (cache : BestCache)
    (hsize : cc.Size = m0 + m + 1) (hicd : 0 < m → icd.length = m0 + m)
    (hlen1 : cache.best_distances.length = data_set.vectors_.length)
    (hlen2 : cache.best_center_ids.length = data_set.vectors_.length)
    (hids : ∀ j : Nat, j < data_set.vectors_.length →
      ∃ c : Nat, cache.best_center_ids.getD j 0 = (((c : Nat) : Int) : ℚ) ∧
        (c < m ∨ (m = 0 ∧ c = 0))) :
    ∀ p : Nat, p ≤ data_set.vectors_.length →
      ∃ T mp c1, optimizedTITable cc data_set ((1 : Int) + (m : Int)) icd
          (intRange 0 (p : Int)) (0, [], cache) = .ok (T, mp, c1) ∧
        c1.best_distances.length = data_set.vectors_.length ∧
        c1.best_center_ids.length = data_set.vectors_.length ∧
        (∀ j : Nat, j < p →
          c1.best_center_ids.getD j 0 = cache.best_center_ids.getD j 0 ∨
          c1.best_center_ids.getD j 0 = floatOfInt (m : Int)) ∧
        (∀ j : Nat, p ≤ j → c1.best_center_ids.getD j 0 = cache.best_center_ids.getD j 0) := by
  intro p
  induction p with
  | zero =>
    intro _
    exact ⟨0, [], cache, rfl, hlen1, hlen2, fun j hj => by omega, fun j _ => rfl⟩
  | succ p ih =>
    intro hp
    obtain ⟨T, mp, c1, htab, h1, h2, h3, h4⟩ := ih (by omega)
    obtain ⟨c, hc, hcm⟩ := hids p (by omega)
    have hidp : c1.best_center_ids.getD p 0 = (((c : Nat) : Int) : ℚ) := by
      rw [h4 p (le_refl p), hc]
    have hcall : cc.SqDistanceToCenterId ((1 : Int) + (m : Int) - 1)
        (data_set.VectorAt (p : Int))
          = .ok (sqDist (cc.ClusterCenter m) (data_set.VectorAt (p : Int))) := by
      rw [show (1 : Int) + (m : Int) - 1 = (m : Int) by omega]
      exact sqDistanceToCenterId_ok cc _ m (by omega)
    have hread : 2 ≤ (1 : Int) + (m : Int) → ∃ d,
        icd.get? (truncToInt ((T, mp, c1).2.2.best_center_ids.getD ((p : Int)).toNat 0)).toNat
          = some d := by
      intro h2m
      have hm : 0 < m := by omega
      have hcm2 : c < m := by
        rcases hcm with hcm | hcm
        · exact hcm
        · omega
      show ∃ d, icd.get? (truncToInt (c1.best_center_ids.getD ((p : Int)).toNat 0)).toNat
        = some d
      rw [Int.toNat_ofNat, hidp, truncToInt_intCast, Int.toNat_ofNat, List.get?_eq_getElem?,
        List.getElem?_eq_getElem (by rw [hicd hm]; omega)]
      exact ⟨_, rfl⟩
    obtain ⟨distance, hstep⟩ := optimizedTITable_single cc data_set ((1 : Int) + (m : Int))
      icd (p : Int) (T, mp, c1) _ hread hcall
    rw [show (1 : Int) + (m : Int) - 1 = (m : Int) by omega] at hstep
    rw [intRange_zero_succ, optimizedTITable_append, htab]
    simp only
    rw [hstep]
    simp only [cacheStep, Int.toNat_ofNat]
    by_cases hlt : distance < c1.best_distances.getD p 0
    · rw [if_pos hlt]
      refine ⟨_, _, _, rfl, by simp only [List.length_set]; exact h1,
        by simp only [List.length_set]; exact h2, ?_, ?_⟩
      · intro j hj
        show (c1.best_center_ids.set p _).getD j 0 = _ ∨ (c1.best_center_ids.set p _).getD j 0 = _
        rw [getD_set_gen]
        by_cases hjp : p = j
        · subst hjp
          rw [if_pos ⟨rfl, by omega⟩]
          exact Or.inr rfl
        · rw [if_neg (fun h => hjp h.1)]
          exact h3 j (by omega)
      · intro j hj
        show (c1.best_center_ids.set p _).getD j 0 = _
        rw [getD_set_gen, if_neg (fun h => by omega)]
        exact h4 j (by omega)
    · rw [if_neg hlt]
      refine ⟨_, _, _, rfl, h1, h2, ?_, ?_⟩
      · intro j hj
        by_cases hjp : j = p
        · subst hjp
          exact Or.inl (h4 j (le_refl j))
        · exact h3 j (by omega)
      · intro j hj
        exact h4 j (by omega)
/-- One round of `OptimizedKmeansPlusPlusTI` that starts with the table of inter-center
distances and the cached center ids in step ends without a failure or dies with `exit(1)`:
no read of the table is out of bounds. A cached center id is left as it was or becomes `m`
converted to `float`; the table and the cached center ids are in step again when these ids
are whole numbers of at most `m`. -/
theorem optimizedTIRound_cases (rand_seq : Nat → Nat) (data_set : SfDataSet) (m0 m : Nat)
    (st : BestCache × List ℚ) (s : KmState) (hinv : TableInBounds data_set m0 m st s) :
    (∃ st1 s1, optimizedTIRound rand_seq data_set ((1 : Int) + (m : Int)) st s = .ok st1 s1 ∧
      (∀ j : Nat, j < data_set.vectors_.length →
        st1.1.best_center_ids.getD j 0 = st.1.best_center_ids.getD j 0 ∨
        st1.1.best_center_ids.getD j 0 = floatOfInt (m : Int)) ∧
      ((∀ j : Nat, j < data_set.vectors_.length →
        ∃ c : Nat, st1.1.best_center_ids.getD j 0 = (((c : Nat) : Int) : ℚ) ∧ c < m + 1) →
        TableInBounds data_set m0 (m + 1) st1 s1)) ∨
    (∃ s1, optimizedTIRound rand_seq data_set ((1 : Int) + (m : Int)) st s
      = .die .exit1 s1) := by
  obtain ⟨hsize, hlen1, hlen2, hids, hicd⟩ := hinv
  obtain ⟨T, mp, c1, htab, g1, g2, g3, _⟩ :=
    optimizedTITable_ok s.cluster_centers data_set m0 m st.2 st.1 hsize
      (fun hm => (hicd hm).1) hlen1 hlen2 hids data_set.vectors_.length (le_refl _)
  rw [← numExamples_eq] at htab
  unfold optimizedTIRound
  simp only [km_bind_apply, Km.ofExcept, htab]
  rcases sampleAndAdd_cases rand_seq data_set T mp s with ⟨e, _, h1⟩ | h1
  · left
    rw [h1]
    simp only
    have hsize2 : (s.cluster_centers.AddClusterCenterAt (data_set.VectorAt e.2)).Size
        = m0 + m + 1 + 1 := by
      rw [size_addClusterCenterAt, hsize]
    have hrange : (((s.cluster_centers.AddClusterCenterAt (data_set.VectorAt e.2)).Size : Nat)
        : Int) - 1 = ((m0 + m + 1 : Nat) : Int) := by
      rw [hsize2]
      push_cast
      omega
    rw [hrange, interCenterDistances_eq _ _ (m0 + m + 1) (by omega)]
    refine ⟨_, _, rfl, g3, ?_⟩
    intro hids1
    refine ⟨?_, g1, g2, ?_, ?_⟩
    · show (s.cluster_centers.AddClusterCenterAt _).Size = m0 + (m + 1) + 1
      rw [hsize2]
      omega
    · intro j hj
      obtain ⟨c, hc, hcm⟩ := hids1 j hj
      exact ⟨c, hc, Or.inl hcm⟩
    · intro _
      refine ⟨by simp only [List.length_map, List.length_range]; omega, s.cluster_centers,
        e.2, rfl, ?_⟩
      intro c hc
      show ((List.range (m0 + m + 1)).map _).getD c 0 = _
      rw [List.getD_eq_getElem _ _ (by simp only [List.length_map, List.length_range]; omega)]
      simp
  · right
    rw [h1]
    exact ⟨_, rfl⟩

/-- One round of `OptimizedKmeansPlusPlusTI` that stores a center id of at most `16777218`
keeps the table of inter-center distances and the cached center ids in step, or dies with
`exit(1)`. -/
theorem optimizedTIRound_step (rand_seq : Nat → Nat) (data_set : SfDataSet) (m0 m : Nat)
    (st : BestCache × List ℚ) (s : KmState) (hm : m ≤ 16777218)
    (hinv : TableInBounds data_set m0 m st s) :
    (∃ st1 s1, optimizedTIRound rand_seq data_set ((1 : Int) + (m : Int)) st s = .ok st1 s1 ∧
      TableInBounds data_set m0 (m + 1) st1 s1) ∨
    (∃ s1, optimizedTIRound rand_seq data_set ((1 : Int) + (m : Int)) st s
      = .die .exit1 s1) := by
  rcases optimizedTIRound_cases rand_seq data_set m0 m st s hinv with
    ⟨st1, s1, h1, h2, h3⟩ | h
  · left
    refine ⟨st1, s1, h1, h3 ?_⟩
    intro j hj
    rcases h2 j hj with h4 | h4
    · obtain ⟨c, hc, hcm⟩ := hinv.2.2.2.1 j hj
      refine ⟨c, by rw [h4, hc], ?_⟩
      rcases hcm with hcm | hcm
      · omega
      · omega
    · obtain ⟨c, hc, hcm⟩ := floatOfInt_le_self m hm
      exact ⟨c, by rw [h4, hc], by omega⟩
  · exact Or.inr h

/-- The code of `OptimizedKmeansPlusPlusTI` before the rounds, with a valid `k`: every
cached center id is 0. -/
theorem optimizedTISeed_ok (rand_seq : Nat → Nat) (k : Int) (data_set : SfDataSet)
    (s : KmState) (hk : 0 < k ∧ k ≤ data_set.NumExamples) :
    ∃ st, optimizedTISeed rand_seq k data_set s
        = .ok st (seededState data_set (drawIndex rand_seq data_set s.rand_calls) s) ∧
      TableInBounds data_set s.cluster_centers.Size 0 st
        (seededState data_set (drawIndex rand_seq data_set s.rand_calls) s) := by
  have hsize : (seededState data_set (drawIndex rand_seq data_set s.rand_calls)
      s).cluster_centers.Size = s.cluster_centers.Size + 0 + 1 := by
    show (s.cluster_centers.AddClusterCenterAt _).Size = _
    rw [size_addClusterCenterAt]
  obtain ⟨b, hb, hlen, _⟩ := initBestDistances_eq
    (seededState data_set (drawIndex rand_seq data_set s.rand_calls) s).cluster_centers
    data_set (by omega) (List.replicate data_set.NumExamples.toNat 0)
    data_set.vectors_.length (by simp [SfDataSet.NumExamples])
  refine ⟨({ best_center_ids := List.replicate data_set.NumExamples.toNat 0,
             best_distances := b }, []), ?_, hsize, ?_, ?_, ?_, ?_⟩
  · unfold optimizedTISeed
    rw [km_bind_apply]
    simp only [Km.assert, if_pos hk]
    rw [km_bind_apply, randInt_eq rand_seq data_set s (by omega)]
    simp only [km_bind_apply, Km.modifyCenters, Km.ofExcept]
    rw [← numExamples_eq] at hb
    have hb2 : initBestDistances
        (s.cluster_centers.AddClusterCenterAt
          (data_set.VectorAt (drawIndex rand_seq data_set s.rand_calls)))
        data_set (intRange 0 data_set.NumExamples)
        (List.replicate data_set.NumExamples.toNat 0) = .ok b := hb
    rw [hb2]
    rfl
  · show b.length = _
    rw [hlen]
    simp [SfDataSet.NumExamples]
  · show (List.replicate data_set.NumExamples.toNat (0 : ℚ)).length = _
    simp [SfDataSet.NumExamples]
  · intro j hj
    refine ⟨0, ?_, Or.inr ⟨rfl, rfl⟩⟩
    show (List.replicate data_set.NumExamples.toNat (0 : ℚ)).getD j 0 = _
    rw [List.getD_eq_getElem _ _ (by simp [SfDataSet.NumExamples]; exact hj)]
    simp
  · intro h
    omega

/-- A run of `OptimizedKmeansPlusPlusTI` with a valid `k`, up to the start of a round
`i <= 16777220`: it gets there with the table and the cached center ids in step, or it has
died with `exit(1)`. -/
theorem optimizedTIUpTo_cases (rand_seq : Nat → Nat) (k : Int) (data_set : SfDataSet)
    (s0 : KmState) (i : Int) (hk : 0 < k ∧ k ≤ data_set.NumExamples) (hi : i ≤ 16777220) :
    (∃ st s, optimizedTIUpTo rand_seq k data_set i s0 = .ok st s ∧
      TableInBounds data_set s0.cluster_centers.Size (i - 1).toNat st s) ∨
    (∃ s, optimizedTIUpTo rand_seq k data_set i s0 = .die .exit1 s) := by
  obtain ⟨st0, hseed, hinv0⟩ := optimizedTISeed_ok rand_seq k data_set s0 hk
  unfold optimizedTIUpTo
  rw [km_bind_apply, hseed]
  simp only
  rw [intRange_eq_range']
  have h := forFold_range_inv (optimizedTIRound rand_seq data_set)
    (fun (n : Nat) => (1 : Int) + (n : Int))
    (fun m st s1 => TableInBounds data_set s0.cluster_centers.Size m st s1)
    (fun e => e = .exit1) (i - 1).toNat
    (fun m st s1 hm hinv => by
      rcases optimizedTIRound_step rand_seq data_set _ m st s1 (by omega) hinv with
        ⟨st1, s2, h1, h2⟩ | ⟨s2, h1⟩
      · exact Or.inl ⟨st1, s2, h1, h2⟩
      · exact Or.inr ⟨_, s2, h1, rfl⟩)
    (i - 1).toNat 0 st0 _ (by omega) hinv0
  rcases h with ⟨st1, s1, h1, h2⟩ | ⟨e, s1, h1, h2⟩
  · left
    rw [Nat.zero_add] at h2
    exact ⟨st1, s1, h1, h2⟩
  · right
    rw [h2] at h1
    exact ⟨s1, h1⟩

theorem intRange_single (i : Int) : intRange i (i + 1) = [i] := by
  unfold intRange
  rw [show (i + 1 - i).toNat = 1 by omega]
  show [i + ((0 : Nat) : Int)] = [i]
  rw [Int.natCast_zero, Int.add_zero]

/-- The run of `OptimizedKmeansPlusPlusTI` up to the start of round `i + 1` is the run up to
the start of round `i` followed by round `i`. -/
theorem optimizedTIUpTo_succ (rand_seq : Nat → Nat) (k : Int) (data_set : SfDataSet)
    (s0 : KmState) (i : Int) (hi : 1 ≤ i) :
    optimizedTIUpTo rand_seq k data_set (i + 1) s0
      = match optimizedTIUpTo rand_seq k data_set i s0 with
        | .ok st s => optimizedTIRound rand_seq data_set i st s
        | .die e s => .die e s := by
  unfold optimizedTIUpTo
  rw [km_bind_apply, km_bind_apply]
  cases hseed : optimizedTISeed rand_seq k data_set s0 with
  | die e s1 => rfl
  | ok c0 s1 =>
    simp only
    rw [intRange_split 1 i (i + 1) hi (by omega), forFold_append]
    cases hrun : Km.forFold (optimizedTIRound rand_seq data_set) (intRange 1 i) c0 s1 with
    | die e s2 => rfl
    | ok st s2 =>
      rw [intRange_single]
      simp only [Km.forFold, Km.andThen]
      cases optimizedTIRound rand_seq data_set i st s2 <;> rfl

/-- A run of `OptimizedKmeansPlusPlusTI` with a valid `k <= 16777221` ends normally or with
`exit(1)`: the center ids that the rounds before the last one store are at most
`16777218`, and those that the last round stores are not read. -/
theorem optimizedTI_run_cases (rand_seq : Nat → Nat) (k : Int) (data_set : SfDataSet)
    (s0 : KmState) (hk : 0 < k ∧ k ≤ data_set.NumExamples) (hkb : k ≤ 16777221) :
    (∃ st s, optimizedTIUpTo rand_seq k data_set k s0 = .ok st s) ∨
    (∃ s, optimizedTIUpTo rand_seq k data_set k s0 = .die .exit1 s) := by
  by_cases h1 : k = 1
  · subst h1
    rcases optimizedTIUpTo_cases rand_seq 1 data_set s0 1 hk (by omega) with
      ⟨st, s, h, _⟩ | h
    · exact Or.inl ⟨st, s, h⟩
    · exact Or.inr h
  · have hsucc := optimizedTIUpTo_succ rand_seq k data_set s0 (k - 1) (by omega)
    rw [show k - 1 + 1 = k by omega] at hsucc
    rw [hsucc]
    rcases optimizedTIUpTo_cases rand_seq k data_set s0 (k - 1) hk (by omega) with
      ⟨st, s, h, hinv⟩ | ⟨s, h⟩
    · rw [h]
      simp only
      have hround := optimizedTIRound_cases rand_seq data_set _ _ st s hinv
      rw [show (1 : Int) + (((k - 1 - 1).toNat : Nat) : Int) = k - 1 by omega] at hround
      rcases hround with ⟨st1, s1, h2, _⟩ | h2
      · exact Or.inl ⟨st1, s1, h2⟩
      · exact Or.inr h2
    · rw [h]
      exact Or.inr ⟨s, rfl⟩

/-! ## Draws with replacement -/

theorem nodup_map_range {α : Type} (f : Nat → α) (n : Nat) :
    ((List.range n).map f).Nodup ↔ ∀ i j, i < j → j < n → f i ≠ f j := by
  unfold List.Nodup
  rw [List.pairwise_map]
  constructor
  · intro h i j hij hj
    have h2 := List.pairwise_iff_getElem.mp h i j (by simp; omega) (by simp; omega) hij
    simpa using h2
  · intro h
    refine (List.pairwise_lt_range n).imp_of_mem ?_
    intro a b _ hb hab
    exact h a b hab (List.mem_range.mp hb)

/-! ## The sampling variants as seed and rounds -/

/-- A loop over `i .. k - 1` with `i < k` is its pass `i` followed by the loop over
`i + 1 .. k - 1`. -/
theorem forEach_range_cons (body : Int → Km Unit) (i k : Int) (h : i < k) (s : KmState) :
    Km.forEach body (intRange i k) s
      = match body i s with
        | .ok _ s1 => Km.forEach body (intRange (i + 1) k) s1
        | .die e s1 => .die e s1 := by
  unfold Km.forEach
  rw [intRange_split i (i + 1) k (by omega) (by omega), forFold_append, intRange_single]
  simp only [Km.forFold, Km.andThen]
  cases body i s <;> rfl

theorem forEach_range_split (body : Int → Km Unit) (lo mid hi : Int) (h1 : lo ≤ mid)
    (h2 : mid ≤ hi) (s : KmState) :
    Km.forEach body (intRange lo hi) s
      = match Km.forEach body (intRange lo mid) s with
        | .ok _ s1 => Km.forEach body (intRange mid hi) s1
        | .die e s1 => .die e s1 := by
  unfold Km.forEach
  rw [intRange_split lo mid hi h1 h2, forFold_append]
  cases Km.forFold (fun b _ => body b) (intRange lo mid) () s <;> rfl

theorem farthestFirst_eq_upTo (rand_seq : Nat → Nat) (k sample_size : Int)
    (data_set : SfDataSet) :
    SamplingFarthestFirst rand_seq k sample_size data_set
      = farthestFirstUpTo rand_seq k sample_size data_set k := rfl

theorem samplingPlusPlus_eq_upTo (rand_seq : Nat → Nat) (k sample_size : Int)
    (data_set : SfDataSet) :
    SamplingKmeansPlusPlus rand_seq k sample_size data_set
      = samplingPlusPlusUpTo rand_seq k sample_size data_set k := rfl

/-- When the run of `SamplingFarthestFirst` has reached the start of round `i` in the state
`s`, the routine goes on from `s` with the rounds `i .. k - 1`. -/
theorem farthestFirst_continue (rand_seq : Nat → Nat) (k sample_size : Int)
    (data_set : SfDataSet) (s0 s : KmState) (i : Int) (hi : 1 ≤ i) (hik : i ≤ k)
    (hrun : farthestFirstUpTo rand_seq k sample_size data_set i s0 = .ok () s) :
    SamplingFarthestFirst rand_seq k sample_size data_set s0
      = Km.forEach (farthestFirstRound rand_seq data_set sample_size) (intRange i k) s := by
  rw [farthestFirst_eq_upTo]
  unfold farthestFirstUpTo at hrun ⊢
  simp only [km_bind_apply] at hrun ⊢
  cases h1 : Km.assert (0 < k ∧ k ≤ data_set.NumExamples) s0 with
  | die e s1 =>
    rw [h1] at hrun
    exact Outcome.noConfusion hrun
  | ok u s1 =>
    rw [h1] at hrun
    simp only at hrun ⊢
    cases h2 : RandInt rand_seq data_set.NumExamples s1 with
    | die e s2 =>
      rw [h2] at hrun
      exact Outcome.noConfusion hrun
    | ok id s2 =>
      rw [h2] at hrun
      simp only at hrun ⊢
      cases h3 : Km.modifyCenters
          (fun cc => cc.AddClusterCenterAt (data_set.VectorAt id)) s2 with
      | die e s3 =>
        rw [h3] at hrun
        exact Outcome.noConfusion hrun
      | ok u3 s3 =>
        rw [h3] at hrun
        simp only at hrun ⊢
        rw [forEach_range_split _ 1 i k hi hik, hrun]

/-- When the run of `SamplingKmeansPlusPlus` has reached the start of round `i` in the
state `s`, the routine goes on from `s` with the rounds `i .. k - 1`. -/
theorem samplingPlusPlus_continue (rand_seq : Nat → Nat) (k sample_size : Int)
    (data_set : SfDataSet) (s0 s : KmState) (i : Int) (hi : 1 ≤ i) (hik : i ≤ k)
    (hrun : samplingPlusPlusUpTo rand_seq k sample_size data_set i s0 = .ok () s) :
    SamplingKmeansPlusPlus rand_seq k sample_size data_set s0
      = Km.forEach (samplingPlusPlusRound rand_seq data_set sample_size) (intRange i k) s := by
  rw [samplingPlusPlus_eq_upTo]
  unfold samplingPlusPlusUpTo at hrun ⊢
  simp only [km_bind_apply] at hrun ⊢
  cases h1 : Km.assert (0 < k ∧ k ≤ data_set.NumExamples) s0 with
  | die e s1 =>
    rw [h1] at hrun
    exact Outcome.noConfusion hrun
  | ok u s1 =>
    rw [h1] at hrun
    simp only at hrun ⊢
    cases h1b : Km.assert (0 < sample_size) s1 with
    | die e s1b =>
      rw [h1b] at hrun
      exact Outcome.noConfusion hrun
    | ok u1b s1b =>
      rw [h1b] at hrun
      simp only at hrun ⊢
      cases h2 : RandInt rand_seq data_set.NumExamples s1b with
      | die e s2 =>
        rw [h2] at hrun
        exact Outcome.noConfusion hrun
      | ok id s2 =>
        rw [h2] at hrun
        simp only at hrun ⊢
        cases h3 : Km.modifyCenters
            (fun cc => cc.AddClusterCenterAt (data_set.VectorAt id)) s2 with
        | die e s3 =>
          rw [h3] at hrun
          exact Outcome.noConfusion hrun
        | ok u3 s3 =>
          rw [h3] at hrun
          simp only at hrun ⊢
          rw [forEach_range_split _ 1 i k hi hik, hrun]

/-! ## A run of `OptimizedKmeansPlusPlusTI` that reads past the end of the table -/

theorem sqDist_one_one : sqDist (centerAt pointOne) pointOne = 0 := by decide!

theorem sqDist_one_two : sqDist (centerAt pointOne) pointTwo = 1 := by decide!

theorem sqDist_two_two : sqDist (centerAt pointTwo) pointTwo = 0 := by decide!

theorem lateOutlier_length (n : Nat) : (lateOutlier n).vectors_.length = n + 1 := by
  simp [lateOutlier]

theorem lateOutlier_numExamples (n : Nat) :
    (lateOutlier n).NumExamples = ((n + 1 : Nat) : Int) := by
  unfold SfDataSet.NumExamples
  rw [lateOutlier_length]

theorem lateOutlier_vectorAt_lt (n j : Nat) (h : j < n) :
    (lateOutlier n).VectorAt (j : Int) = pointOne := by
  unfold SfDataSet.VectorAt lateOutlier
  rw [if_pos (Int.natCast_nonneg j), Int.toNat_ofNat,
    List.getD_append _ _ _ _ (by simpa using h)]
  simp [h]

theorem lateOutlier_vectorAt_last (n : Nat) :
    (lateOutlier n).VectorAt (n : Int) = pointTwo := by
  unfold SfDataSet.VectorAt lateOutlier
  rw [if_pos (Int.natCast_nonneg n), Int.toNat_ofNat,
    List.getD_append_right _ _ _ _ (by simp)]
  simp

theorem onesThen_size (m : Nat) (rest : List SfWeightVector) :
    (onesThen m rest).Size = m + rest.length := by
  simp [onesThen, SfClusterCenters.Size]

theorem onesThen_center_lt (m : Nat) (rest : List SfWeightVector) (j : Nat) (h : j < m) :
    (onesThen m rest).ClusterCenter j = centerAt pointOne := by
  unfold SfClusterCenters.ClusterCenter onesThen
  rw [List.getD_append _ _ _ _ (by simpa using h)]
  simp [h]

theorem onesThen_center_ge (m : Nat) (rest : List SfWeightVector) (j : Nat) :
    (onesThen m rest).ClusterCenter (m + j) = rest.getD j { weights_ := [] } := by
  unfold SfClusterCenters.ClusterCenter onesThen
  rw [List.getD_append_right _ _ _ _ (by simp)]
  simp

theorem onesThen_add (m : Nat) (rest : List SfWeightVector) (x : SfSparseVector) :
    (onesThen m rest).AddClusterCenterAt x = onesThen m (rest ++ [centerAt x]) := by
  rw [addClusterCenterAt_eq _ _ (show (0 : Int) ≤ 5 by decide)]
  simp only [onesThen, List.append_assoc]
  rfl

theorem onesThen_succ (m : Nat) :
    onesThen m [centerAt pointOne] = onesThen (m + 1) [] := by
  simp only [onesThen, List.replicate_succ', List.append_nil]

theorem drawFraction_maxAtCall_ne (c t : Nat) (h : t ≠ c) :
    drawFraction (maxAtCall c) t = 0 := by
  unfold drawFraction maxAtCall
  rw [if_neg h]
  have h0 : floatOfInt ((0 : Nat) : Int) = 0 := by decide!
  rw [h0, zero_div]

theorem drawFraction_maxAtCall_eq (c : Nat) : drawFraction (maxAtCall c) c = 1 :=
  drawFraction_max _ _ (by simp [maxAtCall])

theorem sampleAndAdd_some (rand_seq : Nat → Nat) (data_set : SfDataSet) (T : ℚ)
    (m : FloatIntMap) (s : KmState) (e : ℚ × Int)
    (hl : FloatIntMap.lower_bound m (drawFraction rand_seq s.rand_calls * T) = some e) :
    sampleAndAdd rand_seq data_set T m s
      = .ok e.2 { cluster_centers :=
                    s.cluster_centers.AddClusterCenterAt (data_set.VectorAt e.2),
                  rand_calls := s.rand_calls + 1 } := by
  simp only [sampleAndAdd, km_bind_apply, sampleDistance_eq, lookupAndAdd]
  rw [hl]
  rfl

/-- One pass of the loop over `j` of `OptimizedKmeansPlusPlusTI` in which the distance call
is skipped. -/
theorem optimizedTITable_pruned (cc : SfClusterCenters) (data_set : SfDataSet) (i : Int)
    (icd : List ℚ) (j : Int) (acc : ℚ × FloatIntMap × BestCache) (d : ℚ) (h2 : 2 ≤ i)
    (hd : icd.get? (truncToInt (acc.2.2.best_center_ids.getD j.toNat 0)).toNat = some d)
    (hp : d > 2 * acc.2.2.best_distances.getD j.toNat 0) :
    optimizedTITable cc data_set i icd [j] acc
      = .ok (cacheStep j (acc.2.2.best_distances.getD j.toNat 0) (i - 1) acc) := by
  simp only [optimizedTITable, if_pos h2, hd, if_pos hp]

/-- One pass of the loop over `j` of `OptimizedKmeansPlusPlusTI` in which the distance call
is made. -/
theorem optimizedTITable_computed (cc : SfClusterCenters) (data_set : SfDataSet) (i : Int)
    (icd : List ℚ) (j : Int) (acc : ℚ × FloatIntMap × BestCache) (dist : ℚ)
    (hnp : 2 ≤ i → ∃ d,
      icd.get? (truncToInt (acc.2.2.best_center_ids.getD j.toNat 0)).toNat = some d ∧
      ¬ d > 2 * acc.2.2.best_distances.getD j.toNat 0)
    (hcall : cc.SqDistanceToCenterId (i - 1) (data_set.VectorAt j) = .ok dist) :
    optimizedTITable cc data_set i icd [j] acc = .ok (cacheStep j dist (i - 1) acc) := by
  by_cases h2 : 2 ≤ i
  · obtain ⟨d, hd, hp⟩ := hnp h2
    simp only [optimizedTITable, if_pos h2, hd, if_neg hp, hcall]
  · simp only [optimizedTITable, if_neg h2, hcall]

/-- One pass of the loop over `j` of `OptimizedKmeansPlusPlusTI` in which the cached center
id is not an index into the table. -/
theorem optimizedTITable_out_of_bounds (cc : SfClusterCenters) (data_set : SfDataSet)
    (i : Int) (icd : List ℚ) (j : Int) (acc : ℚ × FloatIntMap × BestCache) (h2 : 2 ≤ i)
    (hd : icd.get? (truncToInt (acc.2.2.best_center_ids.getD j.toNat 0)).toNat = none) :
    optimizedTITable cc data_set i icd [j] acc = .error .outOfBounds := by
  simp only [optimizedTITable, if_pos h2, hd]

/-- The passes of the loop over `j` for examples whose cached distance is 0 and whose pass
works with the distance 0: the total distance mass stays 0 and the map holds the last of
them at the key 0. -/
theorem optimizedTITable_zero_prefix (cc : SfClusterCenters) (data_set : SfDataSet) (i : Int)
    (icd : List ℚ) (cache : BestCache) (n : Nat)
    (hbest : ∀ j : Nat, j < n → cache.best_distances.getD j 0 = 0)
    (hstep : ∀ j : Nat, j < n → ∀ (T : ℚ) (mp : FloatIntMap),
      optimizedTITable cc data_set i icd [(j : Int)] (T, mp, cache)
        = .ok (cacheStep (j : Int) 0 (i - 1) (T, mp, cache))) :
    ∀ p : Nat, p ≤ n →
      optimizedTITable cc data_set i icd (intRange 0 (p : Int)) (0, [], cache)
        = .ok (0, (if p = 0 then [] else [(0, ((p - 1 : Nat) : Int))]), cache) := by
  intro p
  induction p with
  | zero => intro _; rfl
  | succ p ih =>
    intro hp
    rw [intRange_zero_succ, optimizedTITable_append, ih (by omega)]
    simp only
    rw [hstep p (by omega)]
    simp only [cacheStep, Int.toNat_ofNat, hbest p (by omega), lt_irrefl, if_false, add_zero]
    by_cases h0 : p = 0
    · subst h0
      rfl
    · rw [if_neg h0, if_neg (by omega)]
      simp only [FloatIntMap.set, lt_irrefl, if_false, if_true, Nat.add_sub_cancel]

theorem truncToInt_zero : truncToInt 0 = 0 := by
  have h := truncToInt_intCast 0
  rwa [Int.cast_zero] at h

theorem truncToInt_natCast (c : Nat) : truncToInt ((c : Nat) : ℚ) = (c : Int) := by
  have h := truncToInt_intCast (c : Int)
  rwa [Int.cast_natCast] at h

/-- The loop over `j` of a round of `OptimizedKmeansPlusPlusTI` on `lateOutlier n` in which
every center is at the point 1: the caches stay as they are, the total distance mass is 1,
and the map holds example `n - 1` at the key 0 and example `n` at the key 1. -/
theorem lateOutlier_table_ones (n m : Nat) (hn : 1 ≤ n) (icd : List ℚ) (cache : BestCache)
    (hicd : 0 < m → icd.get? 0 = some 0)
    (hbest : ∀ j : Nat, j < n → cache.best_distances.getD j 0 = 0)
    (hlast : cache.best_distances.getD n 0 = 1)
    (hids : ∀ j : Nat, cache.best_center_ids.getD j 0 = 0) :
    optimizedTITable (onesThen (m + 1) []) (lateOutlier n) ((1 : Int) + (m : Int)) icd
        (intRange 0 (lateOutlier n).NumExamples) (0, [], cache)
      = .ok (1, [(0, ((n - 1 : Nat) : Int)), (1, (n : Int))], cache) := by
  have hcenter : (onesThen (m + 1) []).ClusterCenter m = centerAt pointOne :=
    onesThen_center_lt _ _ _ (by omega)
  have hcall : ∀ x, (onesThen (m + 1) []).SqDistanceToCenterId ((1 : Int) + (m : Int) - 1) x
      = .ok (sqDist (centerAt pointOne) x) := by
    intro x
    rw [show (1 : Int) + (m : Int) - 1 = (m : Int) by omega,
      sqDistanceToCenterId_ok _ _ m (by rw [onesThen_size]; omega), hcenter]
  have hread : ∀ j : Nat, 2 ≤ (1 : Int) + (m : Int) →
      icd.get? (truncToInt (cache.best_center_ids.getD ((j : Int)).toNat 0)).toNat
        = some 0 := by
    intro j h2
    rw [Int.toNat_ofNat, hids j, truncToInt_zero]
    exact hicd (by omega)
  have hprefix := optimizedTITable_zero_prefix (onesThen (m + 1) []) (lateOutlier n)
    ((1 : Int) + (m : Int)) icd cache n hbest (by
      intro j hj T mp
      refine optimizedTITable_computed _ _ _ _ _ _ 0 ?_ ?_
      · intro h2
        refine ⟨0, hread j h2, ?_⟩
        show ¬ (0 : ℚ) > 2 * cache.best_distances.getD ((j : Int)).toNat 0
        rw [Int.toNat_ofNat, hbest j hj]
        norm_num
      · rw [hcall, lateOutlier_vectorAt_lt n j hj, sqDist_one_one]) n (le_refl n)
  rw [lateOutlier_numExamples, intRange_zero_succ, optimizedTITable_append, hprefix]
  simp only
  rw [optimizedTITable_computed _ _ _ _ _ _ 1 (by
      intro h2
      refine ⟨0, hread n h2, ?_⟩
      show ¬ (0 : ℚ) > 2 * cache.best_distances.getD ((n : Int)).toNat 0
      rw [Int.toNat_ofNat, hlast]
      norm_num) (by rw [hcall, lateOutlier_vectorAt_last, sqDist_one_two])]
  simp only [cacheStep, Int.toNat_ofNat, hlast, lt_irrefl, if_false, add_zero, zero_add]
  rw [if_neg (by omega)]
  simp [FloatIntMap.set]

/-- The loop over `j` of the round of `OptimizedKmeansPlusPlusTI` on `lateOutlier n` that
follows the addition of the point 2 as center `c`: the examples at the point 1 are pruned,
example `n` gets the distance 0 and the center id `c` converted to `float`. -/
theorem lateOutlier_table_two (n c : Nat) (hn : 1 ≤ n) (hc : 1 ≤ c) (icd : List ℚ)
    (cache : BestCache)
    (hicd : icd.get? 0 = some 1)
    (hbest : ∀ j : Nat, j < n → cache.best_distances.getD j 0 = 0)
    (hlast : cache.best_distances.getD n 0 = 1)
    (hids : ∀ j : Nat, cache.best_center_ids.getD j 0 = 0) :
    optimizedTITable (onesThen c [centerAt pointTwo]) (lateOutlier n) ((1 : Int) + (c : Int))
        icd (intRange 0 (lateOutlier n).NumExamples) (0, [], cache)
      = .ok (0, [(0, (n : Int))],
          { best_center_ids := cache.best_center_ids.set n (floatOfInt (c : Int)),
            best_distances := cache.best_distances.set n 0 }) := by
  have hread : ∀ j : Nat,
      icd.get? (truncToInt (cache.best_center_ids.getD ((j : Int)).toNat 0)).toNat
        = some 1 := by
    intro j
    rw [Int.toNat_ofNat, hids j, truncToInt_zero]
    exact hicd
  have hprefix := optimizedTITable_zero_prefix (onesThen c [centerAt pointTwo])
    (lateOutlier n) ((1 : Int) + (c : Int)) icd cache n hbest (by
      intro j hj T mp
      have h := optimizedTITable_pruned (onesThen c [centerAt pointTwo]) (lateOutlier n)
        ((1 : Int) + (c : Int)) icd (j : Int) (T, mp, cache) 1 (by omega) (hread j) (by
          show (1 : ℚ) > 2 * cache.best_distances.getD ((j : Int)).toNat 0
          rw [Int.toNat_ofNat, hbest j hj]
          norm_num)
      rw [h]
      show Except.ok (cacheStep _ (cache.best_distances.getD ((j : Int)).toNat 0) _ _) = _
      rw [Int.toNat_ofNat, hbest j hj]) n (le_refl n)
  have hcall : (onesThen c [centerAt pointTwo]).SqDistanceToCenterId
      ((1 : Int) + (c : Int) - 1) ((lateOutlier n).VectorAt (n : Int)) = .ok 0 := by
    rw [show (1 : Int) + (c : Int) - 1 = (c : Int) by omega,
      sqDistanceToCenterId_ok _ _ c (by rw [onesThen_size]; simp),
      lateOutlier_vectorAt_last]
    have h := onesThen_center_ge c [centerAt pointTwo] 0
    rw [Nat.add_zero] at h
    rw [h]
    show Except.ok (sqDist (centerAt pointTwo) pointTwo) = _
    rw [sqDist_two_two]
  rw [lateOutlier_numExamples, intRange_zero_succ, optimizedTITable_append, hprefix]
  simp only
  rw [optimizedTITable_computed _ _ _ _ _ _ 0 (by
      intro _
      refine ⟨1, hread n, ?_⟩
      show ¬ (1 : ℚ) > 2 * cache.best_distances.getD ((n : Int)).toNat 0
      rw [Int.toNat_ofNat, hlast]
      norm_num) hcall]
  simp only [cacheStep, Int.toNat_ofNat, hlast, add_zero]
  rw [if_pos (by norm_num), if_neg (by omega),
    show (1 : Int) + (c : Int) - 1 = (c : Int) by omega]
  simp [FloatIntMap.set]

/-- The loop over `j` of the next round: the center id of example `n`, which the conversion
to `float` has made `c + 1`, is read as an index into a table of `c + 1` entries. -/
theorem lateOutlier_table_out_of_bounds (n c : Nat) (hc : 1 ≤ c) (icd : List ℚ)
    (cache : BestCache) (cc : SfClusterCenters)
    (hfloat : floatOfInt (c : Int) = ((c + 1 : Nat) : ℚ))
    (hicd : icd.get? 0 = some 1) (hlen : icd.length = c + 1)
    (hleni : cache.best_center_ids.length = n + 1)
    (hbest : ∀ j : Nat, j < n → cache.best_distances.getD j 0 = 0)
    (hids : ∀ j : Nat, cache.best_center_ids.getD j 0 = 0) :
    optimizedTITable cc (lateOutlier n) ((1 : Int) + ((c + 1 : Nat) : Int)) icd
        (intRange 0 (lateOutlier n).NumExamples)
        (0, [], { best_center_ids := cache.best_center_ids.set n (floatOfInt (c : Int)),
                  best_distances := cache.best_distances.set n 0 })
      = .error .outOfBounds := by
  have hb : ∀ j : Nat, j < n → (cache.best_distances.set n 0).getD j 0 = 0 := by
    intro j hj
    rw [getD_set_gen, if_neg (by omega)]
    exact hbest j hj
  have hi : ∀ j : Nat, j < n →
      (cache.best_center_ids.set n (floatOfInt (c : Int))).getD j 0 = 0 := by
    intro j hj
    rw [getD_set_gen, if_neg (by omega)]
    exact hids j
  have hprefix := optimizedTITable_zero_prefix cc (lateOutlier n)
    ((1 : Int) + ((c + 1 : Nat) : Int)) icd
    { best_center_ids := cache.best_center_ids.set n (floatOfInt (c : Int)),
      best_distances := cache.best_distances.set n 0 } n hb (by
      intro j hj T mp
      have h := optimizedTITable_pruned cc (lateOutlier n)
        ((1 : Int) + ((c + 1 : Nat) : Int)) icd (j : Int)
        (T, mp, { best_center_ids := cache.best_center_ids.set n (floatOfInt (c : Int)),
                  best_distances := cache.best_distances.set n 0 }) 1 (by omega) (by
          show icd.get? (truncToInt ((cache.best_center_ids.set n
            (floatOfInt (c : Int))).getD ((j : Int)).toNat 0)).toNat = some 1
          rw [Int.toNat_ofNat, hi j hj, truncToInt_zero]
          exact hicd) (by
          show (1 : ℚ) > 2 * (cache.best_distances.set n 0).getD ((j : Int)).toNat 0
          rw [Int.toNat_ofNat, hb j hj]
          norm_num)
      rw [h]
      show Except.ok (cacheStep _ ((cache.best_distances.set n 0).getD ((j : Int)).toNat 0)
        _ _) = _
      rw [Int.toNat_ofNat, hb j hj]) n (le_refl n)
  rw [lateOutlier_numExamples, intRange_zero_succ, optimizedTITable_append, hprefix]
  simp only
  refine optimizedTITable_out_of_bounds _ _ _ _ _ _ (by omega) ?_
  show icd.get? (truncToInt ((cache.best_center_ids.set n
    (floatOfInt (c : Int))).getD ((n : Int)).toNat 0)).toNat = none
  rw [Int.toNat_ofNat, getD_set_gen, if_pos ⟨rfl, by omega⟩, hfloat, truncToInt_natCast,
    Int.toNat_ofNat, List.get?_eq_getElem?, List.getElem?_eq_none (by omega)]

/-- A round of `OptimizedKmeansPlusPlusTI` on `lateOutlier n` in which every center is at
the point 1 and `rand()` returns 0: the draw is 0, the example found at the key 0 is
example `n - 1`, at the point 1, and it becomes the next center. -/
theorem lateOutlier_round_ones (n c m : Nat) (hn : 1 ≤ n) (hm : m + 1 ≠ c) (icd : List ℚ)
    (cache : BestCache)
    (hicd : 0 < m → icd.get? 0 = some 0)
    (hbest : ∀ j : Nat, j < n → cache.best_distances.getD j 0 = 0)
    (hlast : cache.best_distances.getD n 0 = 1)
    (hids : ∀ j : Nat, cache.best_center_ids.getD j 0 = 0) :
    optimizedTIRound (maxAtCall c) (lateOutlier n) ((1 : Int) + (m : Int)) (cache, icd)
        { cluster_centers := onesThen (m + 1) [], rand_calls := m + 1 }
      = .ok (cache, (List.range (m + 1)).map
              (fun (j : Nat) => sqDist ((onesThen (m + 2) []).ClusterCenter j) pointOne))
          { cluster_centers := onesThen (m + 2) [], rand_calls := m + 2 } := by
  have htab := lateOutlier_table_ones n m hn icd cache hicd hbest hlast hids
  have hl : FloatIntMap.lower_bound [(0, ((n - 1 : Nat) : Int)), (1, (n : Int))]
      (drawFraction (maxAtCall c) (m + 1) * 1) = some (0, ((n - 1 : Nat) : Int)) := by
    rw [drawFraction_maxAtCall_ne _ _ hm]
    simp [FloatIntMap.lower_bound]
  have hrange : (((onesThen (m + 2) []).Size : Nat) : Int) - 1 = ((m + 1 : Nat) : Int) := by
    rw [onesThen_size]
    simp only [List.length_nil, List.length_cons]
    omega
  unfold optimizedTIRound
  simp only [km_bind_apply, Km.ofExcept, htab]
  rw [sampleAndAdd_some (maxAtCall c) (lateOutlier n) 1 _
    { cluster_centers := onesThen (m + 1) [], rand_calls := m + 1 } _ hl]
  simp only
  rw [lateOutlier_vectorAt_lt n (n - 1) (by omega), onesThen_add, List.nil_append,
    onesThen_succ, hrange, interCenterDistances_eq _ _ (m + 1) (by rw [onesThen_size]; simp)]
  rfl

/-- The round of `OptimizedKmeansPlusPlusTI` on `lateOutlier n` in which `rand()` returns
`RAND_MAX`: the draw is the total distance mass 1, the example found at the key 1 is
example `n`, at the point 2, and it becomes center `c`. -/
theorem lateOutlier_round_max (n c : Nat) (hn : 1 ≤ n) (hc : 1 ≤ c) (icd : List ℚ)
    (cache : BestCache)
    (hicd : 0 < c - 1 → icd.get? 0 = some 0)
    (hbest : ∀ j : Nat, j < n → cache.best_distances.getD j 0 = 0)
    (hlast : cache.best_distances.getD n 0 = 1)
    (hids : ∀ j : Nat, cache.best_center_ids.getD j 0 = 0) :
    optimizedTIRound (maxAtCall c) (lateOutlier n) (c : Int) (cache, icd)
        { cluster_centers := onesThen c [], rand_calls := c }
      = .ok (cache, (List.range c).map
              (fun (j : Nat) =>
                sqDist ((onesThen c [centerAt pointTwo]).ClusterCenter j) pointTwo))
          { cluster_centers := onesThen c [centerAt pointTwo], rand_calls := c + 1 } := by
  obtain ⟨m, rfl⟩ : ∃ m, c = m + 1 := ⟨c - 1, by omega⟩
  have htab := lateOutlier_table_ones n m hn icd cache hicd hbest hlast hids
  have hl : FloatIntMap.lower_bound [(0, ((n - 1 : Nat) : Int)), (1, (n : Int))]
      (drawFraction (maxAtCall (m + 1)) (m + 1) * 1) = some (1, (n : Int)) := by
    rw [drawFraction_maxAtCall_eq]
    simp [FloatIntMap.lower_bound]
  have hrange : (((onesThen (m + 1) [centerAt pointTwo]).Size : Nat) : Int) - 1
      = ((m + 1 : Nat) : Int) := by
    rw [onesThen_size]
    simp only [List.length_nil, List.length_cons]
    omega
  rw [show (((m + 1 : Nat) : Int)) = (1 : Int) + (m : Int) by omega]
  unfold optimizedTIRound
  simp only [km_bind_apply, Km.ofExcept, htab]
  rw [sampleAndAdd_some (maxAtCall (m + 1)) (lateOutlier n) 1 _
    { cluster_centers := onesThen (m + 1) [], rand_calls := m + 1 } _ hl]
  simp only
  rw [lateOutlier_vectorAt_last, onesThen_add, List.nil_append, hrange,
    interCenterDistances_eq _ _ (m + 1) (by rw [onesThen_size]; simp)]
  rfl

/-- The round of `OptimizedKmeansPlusPlusTI` on `lateOutlier n` that follows: example `n`
gets the center id `c` converted to `float`, the total distance mass is 0, and example `n`
becomes a center again. -/
theorem lateOutlier_round_two (n c : Nat) (hn : 1 ≤ n) (hc : 1 ≤ c) (icd : List ℚ)
    (cache : BestCache)
    (hicd : icd.get? 0 = some 1)
    (hbest : ∀ j : Nat, j < n → cache.best_distances.getD j 0 = 0)
    (hlast : cache.best_distances.getD n 0 = 1)
    (hids : ∀ j : Nat, cache.best_center_ids.getD j 0 = 0) :
    optimizedTIRound (maxAtCall c) (lateOutlier n) ((c : Int) + 1) (cache, icd)
        { cluster_centers := onesThen c [centerAt pointTwo], rand_calls := c + 1 }
      = .ok ({ best_center_ids := cache.best_center_ids.set n (floatOfInt (c : Int)),
               best_distances := cache.best_distances.set n 0 },
             (List.range (c + 1)).map
              (fun (j : Nat) =>
                sqDist ((onesThen c [centerAt pointTwo, centerAt pointTwo]).ClusterCenter j)
                  pointTwo))
          { cluster_centers := onesThen c [centerAt pointTwo, centerAt pointTwo],
            rand_calls := c + 2 } := by
  have htab := lateOutlier_table_two n c hn hc icd cache hicd hbest hlast hids
  have hl : FloatIntMap.lower_bound [(0, (n : Int))]
      (drawFraction (maxAtCall c) (c + 1) * 0) = some (0, (n : Int)) := by
    rw [mul_zero]
    simp [FloatIntMap.lower_bound]
  have hrange : (((onesThen c [centerAt pointTwo, centerAt pointTwo]).Size : Nat) : Int) - 1
      = ((c + 1 : Nat) : Int) := by
    rw [onesThen_size]
    simp only [List.length_nil, List.length_cons]
    omega
  rw [show (c : Int) + 1 = (1 : Int) + (c : Int) by omega]
  unfold optimizedTIRound
  simp only [km_bind_apply, Km.ofExcept, htab]
  rw [sampleAndAdd_some (maxAtCall c) (lateOutlier n) 0 _
    { cluster_centers := onesThen c [centerAt pointTwo], rand_calls := c + 1 } _ hl]
  simp only
  rw [lateOutlier_vectorAt_last, onesThen_add, List.singleton_append, hrange,
    interCenterDistances_eq _ _ (c + 1) (by rw [onesThen_size]; simp)]
  rfl

/-- The round after that dies in its loop over `j`, at the read of the table for example
`n`. -/
theorem lateOutlier_round_out_of_bounds (n c : Nat) (hc : 1 ≤ c) (icd : List ℚ)
    (cache : BestCache) (s : KmState)
    (hfloat : floatOfInt (c : Int) = ((c + 1 : Nat) : ℚ))
    (hicd : icd.get? 0 = some 1) (hlen : icd.length = c + 1)
    (hleni : cache.best_center_ids.length = n + 1)
    (hbest : ∀ j : Nat, j < n → cache.best_distances.getD j 0 = 0)
    (hids : ∀ j : Nat, cache.best_center_ids.getD j 0 = 0) :
    optimizedTIRound (maxAtCall c) (lateOutlier n) ((c : Int) + 2)
        ({ best_center_ids := cache.best_center_ids.set n (floatOfInt (c : Int)),
           best_distances := cache.best_distances.set n 0 }, icd) s
      = .die .outOfBounds s := by
  have htab := lateOutlier_table_out_of_bounds n c hc icd cache s.cluster_centers hfloat hicd
    hlen hleni hbest hids
  rw [show (c : Int) + 2 = (1 : Int) + ((c + 1 : Nat) : Int) by omega]
  unfold optimizedTIRound
  simp only [km_bind_apply, Km.ofExcept, htab]

/-- The code of `OptimizedKmeansPlusPlusTI` before the rounds, on `lateOutlier n` with
`rand()` returning 0: the first center is example 0, at the point 1; the cached distances
are 0 for the examples at the point 1 and 1 for example `n`; every cached center id is
0. -/
theorem lateOutlier_seed (n c : Nat) (k : Int) (hn : 1 ≤ n) (hc : 1 ≤ c)
    (hk : 0 < k ∧ k ≤ (lateOutlier n).NumExamples) :
    ∃ cache : BestCache,
      optimizedTISeed (maxAtCall c) k (lateOutlier n) emptyState
        = .ok (cache, []) { cluster_centers := onesThen 1 [], rand_calls := 1 } ∧
      cache.best_center_ids.length = n + 1 ∧
      (∀ j : Nat, j < n → cache.best_distances.getD j 0 = 0) ∧
      cache.best_distances.getD n 0 = 1 ∧
      (∀ j : Nat, cache.best_center_ids.getD j 0 = 0) := by
  have hnum := lateOutlier_numExamples n
  have hdraw : drawIndex (maxAtCall c) (lateOutlier n) emptyState.rand_calls = 0 := by
    show ((maxAtCall c 0 : Nat) : Int) % (lateOutlier n).NumExamples = 0
    unfold maxAtCall
    rw [if_neg (by omega)]
    simp
  have hcc : emptyState.cluster_centers.AddClusterCenterAt ((lateOutlier n).VectorAt 0)
      = onesThen 1 [] := by
    have h0 : (lateOutlier n).VectorAt ((0 : Nat) : Int) = pointOne :=
      lateOutlier_vectorAt_lt n 0 (by omega)
    rw [show (0 : Int) = ((0 : Nat) : Int) from rfl, h0,
      show emptyState.cluster_centers = onesThen 0 [] from rfl, onesThen_add, List.nil_append,
      onesThen_succ]
  obtain ⟨b, hb, _, hget⟩ := initBestDistances_eq (onesThen 1 []) (lateOutlier n)
    (by rw [onesThen_size]; omega) (List.replicate (lateOutlier n).NumExamples.toNat 0)
    (n + 1) (by rw [hnum]; simp)
  have hcenter : (onesThen 1 []).ClusterCenter 0 = centerAt pointOne :=
    onesThen_center_lt _ _ _ (by omega)
  refine ⟨{ best_center_ids := List.replicate (lateOutlier n).NumExamples.toNat 0,
            best_distances := b }, ?_, ?_, ?_, ?_, ?_⟩
  · unfold optimizedTISeed
    rw [km_bind_apply]
    simp only [Km.assert, if_pos hk]
    rw [km_bind_apply, randInt_eq (maxAtCall c) (lateOutlier n) emptyState (by omega), hdraw]
    simp only [km_bind_apply, Km.modifyCenters, Km.ofExcept]
    rw [← hnum] at hb
    rw [hcc, hb]
    rfl
  · show (List.replicate (lateOutlier n).NumExamples.toNat (0 : ℚ)).length = _
    rw [hnum]
    simp
  · intro j hj
    show b.getD j 0 = 0
    rw [hget j, if_pos (by omega), hcenter, lateOutlier_vectorAt_lt n j hj, sqDist_one_one]
  · show b.getD n 0 = 1
    rw [hget n, if_pos (by omega), hcenter, lateOutlier_vectorAt_last, sqDist_one_two]
  · intro j
    show (List.replicate (lateOutlier n).NumExamples.toNat (0 : ℚ)).getD j 0 = 0
    simp only [List.getD_eq_getElem?_getD, List.getElem?_replicate]
    split <;> rfl

/-- C40's failing run: on `lateOutlier n` with `rand()` returning `RAND_MAX` at call `c`
and 0 otherwise, `k = c + 3 <= n + 1` and a center id `c` that the conversion to `float`
rounds up to `c + 1`, `OptimizedKmeansPlusPlusTI` started on an empty center set reads
`inter_center_distances[c + 1]` in round `c + 2`, when the table holds `c + 1` entries. -/
theorem lateOutlier_run (n c : Nat) (hc : 1 ≤ c) (hn : c + 2 ≤ n)
    (hfloat : floatOfInt (c : Int) = ((c + 1 : Nat) : ℚ)) :
    OptimizedKmeansPlusPlusTI (maxAtCall c) ((c : Int) + 3) (lateOutlier n) emptyState
      = .die .outOfBounds
          { cluster_centers := onesThen c [centerAt pointTwo, centerAt pointTwo],
            rand_calls := c + 2 } := by
  have hk : 0 < (c : Int) + 3 ∧ (c : Int) + 3 ≤ (lateOutlier n).NumExamples := by
    rw [lateOutlier_numExamples]
    omega
  obtain ⟨cache, hseed, hleni, hbest, hlast, hids⟩ :=
    lateOutlier_seed n c ((c : Int) + 3) (by omega) hc hk
  -- the rounds `1 .. c - 1`
  have hphase : ∃ icd : List ℚ,
      optimizedTIUpTo (maxAtCall c) ((c : Int) + 3) (lateOutlier n) (c : Int) emptyState
        = .ok (cache, icd) { cluster_centers := onesThen c [], rand_calls := c } ∧
      (0 < c - 1 → icd.get? 0 = some 0) := by
    unfold optimizedTIUpTo
    rw [km_bind_apply, hseed]
    simp only
    rw [intRange_eq_range']
    have h := forFold_range_inv (optimizedTIRound (maxAtCall c) (lateOutlier n))
      (fun (m : Nat) => (1 : Int) + (m : Int))
      (fun m st s => st.1 = cache ∧ (0 < m → st.2.get? 0 = some 0) ∧
        s = { cluster_centers := onesThen (m + 1) [], rand_calls := m + 1 })
      (fun _ => False) (c - 1)
      (fun m st s hm hinv => by
        obtain ⟨h1, h2, h3⟩ := hinv
        left
        obtain ⟨ch, icd⟩ := st
        simp only at h1 h2
        subst h1
        subst h3
        refine ⟨_, _, lateOutlier_round_ones n c m (by omega) (by omega) icd ch h2 hbest
          hlast hids, rfl, ?_, rfl⟩
        intro _
        show ((List.range (m + 1)).map _).get? 0 = some 0
        rw [List.get?_eq_getElem?, List.getElem?_map, List.getElem?_range (by omega)]
        show some (sqDist ((onesThen (m + 2) []).ClusterCenter 0) pointOne) = some 0
        rw [onesThen_center_lt _ _ _ (by omega), sqDist_one_one])
      (c - 1) 0 (cache, []) { cluster_centers := onesThen 1 [], rand_calls := 1 } (by omega)
      ⟨rfl, fun h => by omega, rfl⟩
    rcases h with ⟨st1, s1, h1, h2, h3, h4⟩ | ⟨e, s1, _, h2⟩
    · obtain ⟨ch, icd⟩ := st1
      simp only at h2 h3
      subst h2
      refine ⟨icd, ?_, ?_⟩
      · rw [show ((c : Int) - 1).toNat = c - 1 by omega, h1, h4,
          show 0 + (c - 1) + 1 = c by omega]
      · intro h
        exact h3 (by omega)
    · exact False.elim h2
  obtain ⟨icd, hupto, hicd⟩ := hphase
  -- round `c`
  have hupto1 := optimizedTIUpTo_succ (maxAtCall c) ((c : Int) + 3) (lateOutlier n)
    emptyState (c : Int) (by omega)
  rw [hupto] at hupto1
  simp only at hupto1
  rw [lateOutlier_round_max n c (by omega) hc icd cache hicd hbest hlast hids] at hupto1
  -- round `c + 1`
  have hupto2 := optimizedTIUpTo_succ (maxAtCall c) ((c : Int) + 3) (lateOutlier n)
    emptyState ((c : Int) + 1) (by omega)
  rw [hupto1] at hupto2
  simp only at hupto2
  rw [lateOutlier_round_two n c (by omega) hc _ cache (by
      rw [List.get?_eq_getElem?, List.getElem?_map, List.getElem?_range (by omega)]
      show some (sqDist ((onesThen c [centerAt pointTwo]).ClusterCenter 0) pointTwo) = some 1
      rw [onesThen_center_lt _ _ _ (by omega), sqDist_one_two]) hbest hlast hids] at hupto2
  -- round `c + 2`
  have hupto3 := optimizedTIUpTo_succ (maxAtCall c) ((c : Int) + 3) (lateOutlier n)
    emptyState ((c : Int) + 1 + 1) (by omega)
  rw [hupto2] at hupto3
  simp only at hupto3
  rw [show (c : Int) + 1 + 1 = (c : Int) + 2 by omega,
    lateOutlier_round_out_of_bounds n c hc _ cache _ hfloat (by
      rw [List.get?_eq_getElem?, List.getElem?_map, List.getElem?_range (by omega)]
      show some (sqDist ((onesThen c [centerAt pointTwo, centerAt pointTwo]).ClusterCenter 0)
        pointTwo) = some 1
      rw [onesThen_center_lt _ _ _ (by omega), sqDist_one_two])
      (by simp) hleni hbest hids,
    show (c : Int) + 2 + 1 = (c : Int) + 3 by omega] at hupto3
  rw [optimizedTI_eq_upTo, hupto3]

/-! # Claims -/
/-- C1: for every center set, every valid center id and every well-formed sparse vector
`x` whose feature ids are below the center's dimensionality, `SqDistanceToCenterId(id, x)`
returns `x.GetSquaredNorm() - 2 * InnerProduct(center, x) + center.GetSquaredNorm()`, and
this value is the squared Euclidean distance, the sum over all coordinates `i` of
`(x_i - c_i)^2`. -/
theorem C1_sqDistanceToCenterId_euclidean (cc : SfClusterCenters) (center_id : Int)
    (x : SfSparseVector) (hid : 0 ≤ center_id ∧ center_id < (cc.Size : Int))
    (hwf : x.WellFormed)
    (hdim : x.FeaturesBelow (cc.ClusterCenter center_id.toNat).weights_.length) :
    cc.SqDistanceToCenterId center_id x
      = .ok (x.GetSquaredNorm
              - 2 * (cc.ClusterCenter center_id.toNat).InnerProduct x 1
              + (cc.ClusterCenter center_id.toNat).GetSquaredNorm) ∧
    x.GetSquaredNorm
        - 2 * (cc.ClusterCenter center_id.toNat).InnerProduct x 1
        + (cc.ClusterCenter center_id.toNat).GetSquaredNorm
      = ∑ i in Finset.range (cc.ClusterCenter center_id.toNat).weights_.length,
          (x.coord (i : Int) - (cc.ClusterCenter center_id.toNat).ValueOf (i : Int)) ^ 2 := by
  have h1 : center_id.toNat < cc.Size := by omega
  have h2 : ((center_id.toNat : Nat) : Int) = center_id := by omega
  constructor
  · have := sqDistanceToCenterId_ok cc x center_id.toNat h1
    rw [h2] at this
    exact this
  · have := sqDist_eq (cc.ClusterCenter center_id.toNat) x _ (le_refl _)
    rw [normExcess_eq_zero x _ hwf hdim, add_zero] at this
    exact this

theorem C1_witness :
    testCenters.SqDistanceToCenterId 1 (SfSparseVector.ofPairs [(1, 1), (2, 2)]) = .ok 11 ∧
    (11 : ℚ) = ∑ i in Finset.range 10,
      ((SfSparseVector.ofPairs [(1, 1), (2, 2)]).coord (i : Int)
        - (testCenters.ClusterCenter 1).ValueOf (i : Int)) ^ 2 := by
  have h := C1_sqDistanceToCenterId_euclidean testCenters 1
    (SfSparseVector.ofPairs [(1, 1), (2, 2)]) (by decide) (by decide!) (by decide!)
  have e : (SfSparseVector.ofPairs [(1, 1), (2, 2)]).GetSquaredNorm
        - 2 * (testCenters.ClusterCenter (1 : Int).toNat).InnerProduct
            (SfSparseVector.ofPairs [(1, 1), (2, 2)]) 1
        + (testCenters.ClusterCenter (1 : Int).toNat).GetSquaredNorm = 11 := by decide!
  have l : (testCenters.ClusterCenter (1 : Int).toNat).weights_.length = 10 := by decide
  rw [e, l] at h
  exact h

/-- C2: for every non-empty center set and every sparse vector `x` whose distances to the
centers are finite single-precision values (at most `FLT_MAX`),
`SqDistanceToClosestCenter(x, &outId)` returns a distance `d` and writes an index `j` such
that `d` equals `SqDistanceToCenterId(j, x)`, `d` is at most `SqDistanceToCenterId(i, x)`
for every center `i`, and `j` is the lowest index whose distance equals that minimum. -/
theorem C2_sqDistanceToClosestCenter_minimum (cc : SfClusterCenters) (x : SfSparseVector)
    (hne : 0 < cc.Size) (hfin : DistancesFinite cc x) :
    ∃ (d : ℚ) (j : Nat), cc.SqDistanceToClosestCenter x = .ok (d, (j : Int)) ∧ j < cc.Size ∧
      cc.SqDistanceToCenterId (j : Int) x = .ok d ∧
      (∀ i : Nat, i < cc.Size →
        ∃ di, cc.SqDistanceToCenterId (i : Int) x = .ok di ∧ d ≤ di) ∧
      (∀ i : Nat, i < j →
        ∃ di, cc.SqDistanceToCenterId (i : Int) x = .ok di ∧ d < di) := by
  obtain ⟨⟨h1, h2, h3⟩, h4⟩ := closest_of_finite cc x hne hfin
  refine ⟨_, _, h4, h1, sqDistanceToCenterId_ok cc x _ h1, ?_, ?_⟩
  · intro i hi
    exact ⟨_, sqDistanceToCenterId_ok cc x i hi, h2 i hi⟩
  · intro i hi
    exact ⟨_, sqDistanceToCenterId_ok cc x i (by omega), h3 i hi⟩

theorem C2_witness :
    ∃ (d : ℚ) (j : Nat),
      testCenters.SqDistanceToClosestCenter (SfSparseVector.ofPairs [(1, 2), (2, 5), (3, -1)])
        = .ok (d, (j : Int)) ∧ j < testCenters.Size ∧
      testCenters.SqDistanceToCenterId (j : Int)
        (SfSparseVector.ofPairs [(1, 2), (2, 5), (3, -1)]) = .ok d ∧
      (∀ i : Nat, i < testCenters.Size →
        ∃ di, testCenters.SqDistanceToCenterId (i : Int)
          (SfSparseVector.ofPairs [(1, 2), (2, 5), (3, -1)]) = .ok di ∧ d ≤ di) ∧
      (∀ i : Nat, i < j →
        ∃ di, testCenters.SqDistanceToCenterId (i : Int)
          (SfSparseVector.ofPairs [(1, 2), (2, 5), (3, -1)]) = .ok di ∧ d < di) :=
  C2_sqDistanceToClosestCenter_minimum testCenters
    (SfSparseVector.ofPairs [(1, 2), (2, 5), (3, -1)]) (by decide) (by decide!)

/-- C3: for every non-empty center set and every dataset whose feature ids are below the
set's dimensionality, `OneBatchKmeansOptimization` succeeds, keeps the number of centers,
and each center `i` that has at least one example assigned to it equals the arithmetic
mean of the examples assigned to it, coordinate by coordinate. The examples assigned to
`i` are those for which `SqDistanceToClosestCenter` on the centers before the step writes
`i`, which is the closest center, lowest index on ties (whenever the distances are finite
single-precision values). In particular, with a single center the result is the mean of
all examples whatever the center was before. -/
theorem C3_oneBatch_centers_are_means (data_set : SfDataSet) (cc : SfClusterCenters)
    (hne : 0 < cc.Size) (hdim : 0 ≤ cc.GetDimensionality)
    (hfeat : ∀ x ∈ data_set.vectors_, x.FeaturesBelow cc.GetDimensionality.toNat) :
    ∃ cc1, OneBatchKmeansOptimization data_set cc = .ok cc1 ∧ cc1.Size = cc.Size ∧
      (∀ i, i < cc.Size → assignedTo cc data_set i ≠ [] → ∀ c : Int,
        (cc1.ClusterCenter i).ValueOf c
          = ((assignedTo cc data_set i).map (fun x => x.coord c)).sum
              / ((assignedTo cc data_set i).length : ℚ)) ∧
      (∀ x ∈ data_set.vectors_, DistancesFinite cc x →
        IsClosestCenter cc x (closestCenterId cc x)) ∧
      (cc.Size = 1 → data_set.vectors_ ≠ [] → ∀ c : Int,
        (cc1.ClusterCenter 0).ValueOf c
          = (data_set.vectors_.map (fun x => x.coord c)).sum
              / (data_set.vectors_.length : ℚ)) := by
  obtain ⟨cc1, h1, h2, _, h4⟩ := oneBatch_spec data_set cc hne hdim
  have hmean : ∀ i, i < cc.Size → assignedTo cc data_set i ≠ [] → ∀ c : Int,
      (cc1.ClusterCenter i).ValueOf c
        = ((assignedTo cc data_set i).map (fun x => x.coord c)).sum
            / ((assignedTo cc data_set i).length : ℚ) := by
    intro i hi hnonempty c
    rw [h4 i hi]
    apply valueOf_batchCenter_int _ _ c hdim _ hnonempty
    intro x hx
    exact hfeat x (List.mem_of_mem_filter hx)
  refine ⟨cc1, h1, h2, hmean, ?_, ?_⟩
  · intro x _ hfin
    exact (closest_of_finite cc x hne hfin).1
  · intro hone hdata c
    have hall : assignedTo cc data_set 0 = data_set.vectors_ := by
      unfold assignedTo assignedOf
      apply List.filter_eq_self.mpr
      intro x _
      have := (closest_ok cc x hne).2
      simp only [decide_eq_true_eq]
      omega
    have := hmean 0 hne (by rw [hall]; exact hdata) c
    rw [hall] at this
    exact this

theorem C3_witness :
    ∃ cc1, OneBatchKmeansOptimization toyData oneZeroCenter = .ok cc1 ∧
      cc1.Size = oneZeroCenter.Size ∧
      (∀ i, i < oneZeroCenter.Size → assignedTo oneZeroCenter toyData i ≠ [] → ∀ c : Int,
        (cc1.ClusterCenter i).ValueOf c
          = ((assignedTo oneZeroCenter toyData i).map (fun x => x.coord c)).sum
              / ((assignedTo oneZeroCenter toyData i).length : ℚ)) ∧
      (∀ x ∈ toyData.vectors_, DistancesFinite oneZeroCenter x →
        IsClosestCenter oneZeroCenter x (closestCenterId oneZeroCenter x)) ∧
      (oneZeroCenter.Size = 1 → toyData.vectors_ ≠ [] → ∀ c : Int,
        (cc1.ClusterCenter 0).ValueOf c
          = (toyData.vectors_.map (fun x => x.coord c)).sum
              / (toyData.vectors_.length : ℚ)) :=
  C3_oneBatch_centers_are_means toyData oneZeroCenter (by decide) (by decide) (by decide!)


/-- C4: for every dataset of well-formed examples, every non-empty center set (satisfying
the class invariant) and every `num_iterations`, with L1 projection disabled
(`L1_lambda <= 0`), if `KmeansObjective(data, centers)` before `BatchKmeans` is a finite
value below `FLT_MAX`, then `BatchKmeans(num_iterations, data, centers)` succeeds and
`KmeansObjective(data, centers)` after it is less than or equal to its value before
(in exact arithmetic). -/
theorem C4_batchKmeans_objective_nonincreasing (proj : L1Projection) (num_iterations : Int)
    (data_set : SfDataSet) (cc : SfClusterCenters) (L1_lambda L1_epsilon v0 : ℚ)
    (hvalid : cc.Valid) (hne : 0 < cc.Size)
    (hwf : ∀ x ∈ data_set.vectors_, x.WellFormed) (hl1 : L1_lambda ≤ 0)
    (hobj : KmeansObjective data_set cc = .ok v0) (hfin : v0 < FLT_MAX) :
    ∃ cc1 v1, BatchKmeans proj num_iterations data_set L1_lambda L1_epsilon cc = .ok cc1 ∧
      KmeansObjective data_set cc1 = .ok v1 ∧ v1 ≤ v0 := by
  rw [kmeansObjective_eq data_set cc hne] at hobj
  have hv0 : (data_set.vectors_.map (closestDistance cc)).sum = v0 := Except.ok.inj hobj
  obtain ⟨cc1, h1, h2, h3⟩ := batchKmeansLoop_objective_le proj data_set L1_lambda L1_epsilon
    hl1 hwf (intRange 0 num_iterations) cc hvalid hne (by rw [hv0]; exact hfin)
  exact ⟨cc1, _, h1, kmeansObjective_eq data_set cc1 h2, by rw [← hv0]; exact h3⟩

theorem C4_witness :
    ∃ cc1 v1, BatchKmeans idProjection 2 toyData (-1) 0 oneZeroCenter = .ok cc1 ∧
      KmeansObjective toyData cc1 = .ok v1 ∧ v1 ≤ 4 :=
  C4_batchKmeans_objective_nonincreasing idProjection 2 toyData oneZeroCenter (-1) 0 4
    (by decide!) (by decide) (by decide!) (by norm_num) (by decide!) (by decide!)

/-- C5, counterexample: on the points 1 and 3 with one center at their mean 2, a single
iteration of `SGDKmeans` (and of `MiniBatchKmeans` with a mini-batch of one example),
L1 projection disabled, raises `KmeansObjective` from 2 to 5/2. -/
theorem C5_counterexample :
    KmeansObjective lineData lineCenter = .ok 2 ∧
    (∃ s1, SGDKmeans idProjection (fun _ => 0) 1 lineData (-1) 0
              { cluster_centers := lineCenter, rand_calls := 0 } = .ok () s1 ∧
        KmeansObjective lineData s1.cluster_centers = .ok (5 / 2)) ∧
    (∃ s1, MiniBatchKmeans idProjection (fun _ => 0) 1 1 lineData (-1) 0
              { cluster_centers := lineCenter, rand_calls := 0 } = .ok () s1 ∧
        KmeansObjective lineData s1.cluster_centers = .ok (5 / 2)) ∧
    ¬ ((5 / 2 : ℚ) ≤ 2) := by
  refine ⟨?_, ⟨⟨lineCenterStepped, 1⟩, ?_, ?_⟩, ⟨⟨lineCenterStepped, 1⟩, ?_, ?_⟩, ?_⟩
  · decide!
  · decide!
  · decide!
  · decide!
  · decide!
  · norm_num

/-- C5, amended: with L1 projection disabled, `SGDKmeans` and `MiniBatchKmeans` with
`num_iterations <= 0` leave the state, hence the center set and `KmeansObjective`,
unchanged; and a stochastic update with non-negative visit counts does not increase the
squared distance from the example it uses to the center it updates: after
`OneStochasticKmeansStep` the distance `SqDistanceToClosestCenter` returns for the example
is at most what it was before, and the update of center `i` in
`OneMiniBatchKmeansOptimization` does not increase the distance from the example to
center `i`. (The objective over the whole dataset can increase, see the counterexample.) -/
theorem C5_stochastic_update_guarantee (proj : L1Projection) (rand_seq : Nat → Nat)
    (num_iterations mini_batch_size : Int) (data_set : SfDataSet) (L1_lambda L1_epsilon : ℚ)
    (s : KmState) (x : SfSparseVector) (cc : SfClusterCenters) (counts : List Int)
    (i : Nat) (x_id : Int)
    (hl1 : L1_lambda ≤ 0) (hne : 0 < cc.Size) (hi : i < cc.Size)
    (hlen : counts.length = cc.Size) (hpos : ∀ c ∈ counts, 0 ≤ c) :
    (num_iterations ≤ 0 →
      SGDKmeans proj rand_seq num_iterations data_set L1_lambda L1_epsilon s = .ok () s ∧
      MiniBatchKmeans proj rand_seq num_iterations mini_batch_size data_set
        L1_lambda L1_epsilon s = .ok () s) ∧
    (∃ cc1 counts1, OneStochasticKmeansStep x cc counts = .ok (cc1, counts1) ∧
      cc1.Size = cc.Size ∧ closestDistance cc1 x ≤ closestDistance cc x) ∧
    (∃ cc1 counts1, miniBatchApplyOne data_set i x_id (cc, counts) = .ok (cc1, counts1) ∧
      sqDist (cc1.ClusterCenter i) (data_set.VectorAt x_id)
        ≤ sqDist (cc.ClusterCenter i) (data_set.VectorAt x_id)) :=
  ⟨fun hn => ⟨sgdKmeans_zero proj rand_seq num_iterations data_set L1_lambda L1_epsilon s hn hl1,
      miniBatchKmeans_zero proj rand_seq num_iterations mini_batch_size data_set L1_lambda
        L1_epsilon s hn hl1⟩,
    oneStochastic_closest_le x cc counts hne hlen hpos,
    miniBatchApplyOne_le data_set i x_id cc counts hi hlen hpos⟩

theorem C5_witness :
    (∃ cc1 counts1,
      OneStochasticKmeansStep (SfSparseVector.ofPairs [(1, 1)]) lineCenter [0]
        = .ok (cc1, counts1) ∧
      cc1.Size = lineCenter.Size ∧
      closestDistance cc1 (SfSparseVector.ofPairs [(1, 1)])
        ≤ closestDistance lineCenter (SfSparseVector.ofPairs [(1, 1)])) ∧
    closestDistance lineCenter (SfSparseVector.ofPairs [(1, 1)]) = 1 :=
  ⟨(C5_stochastic_update_guarantee idProjection (fun _ => 0) 0 1 lineData (-1) 0
      { cluster_centers := lineCenter, rand_calls := 0 } (SfSparseVector.ofPairs [(1, 1)])
      lineCenter [0] 0 0 (by norm_num) (by decide) (by decide) (by decide) (by decide)).2.1,
    by decide!⟩

/-- C6: for every non-empty center set, example `x` and visit-count vector of the same
length, `OneStochasticKmeansStep` succeeds; with `j` the center id that
`SqDistanceToClosestCenter` writes for `x` (the closest center, lowest index on ties,
whenever the distances are finite single-precision values) it increments `visitCount[j]`
by exactly one and replaces center `j` by `(1 - eta) * center_j + eta * x`, coordinate by
coordinate, where `eta = c / (visitCount[j] + c)` with `c = 1.0` and `visitCount[j]` read
after the increment (so the first update of a center uses `eta = 1/2`); every other
center and every other visit count is unchanged. -/
theorem C6_oneStochasticKmeansStep (x : SfSparseVector) (cc : SfClusterCenters)
    (counts : List Int) (hne : 0 < cc.Size) (hlen : counts.length = cc.Size) :
    ∃ cc1 counts1, OneStochasticKmeansStep x cc counts = .ok (cc1, counts1) ∧
      closestCenterId cc x < cc.Size ∧
      (DistancesFinite cc x → IsClosestCenter cc x (closestCenterId cc x)) ∧
      counts1.length = counts.length ∧
      counts1.getD (closestCenterId cc x) 0 = counts.getD (closestCenterId cc x) 0 + 1 ∧
      (∀ i, i ≠ closestCenterId cc x → counts1.getD i 0 = counts.getD i 0) ∧
      cc1.Size = cc.Size ∧ cc1.GetDimensionality = cc.GetDimensionality ∧
      (∀ i, i ≠ closestCenterId cc x → cc1.ClusterCenter i = cc.ClusterCenter i) ∧
      (cc1.ClusterCenter (closestCenterId cc x)).GetDimensions
        = (cc.ClusterCenter (closestCenterId cc x)).GetDimensions ∧
      (∀ c : Nat, (c : Int) < (cc.ClusterCenter (closestCenterId cc x)).GetDimensions →
        (cc1.ClusterCenter (closestCenterId cc x)).ValueOf (c : Int)
          = (1 - stepEta (counts1.getD (closestCenterId cc x) 0))
              * (cc.ClusterCenter (closestCenterId cc x)).ValueOf (c : Int)
            + stepEta (counts1.getD (closestCenterId cc x) 0) * x.coord (c : Int)) ∧
      (counts.getD (closestCenterId cc x) 0 = 0 →
        stepEta (counts1.getD (closestCenterId cc x) 0) = 1 / 2) := by
  obtain ⟨_, hj⟩ := closest_ok cc x hne
  have hj2 : closestCenterId cc x < counts.length := by rw [hlen]; exact hj
  have hcnt : (counts.set (closestCenterId cc x)
      (counts.getD (closestCenterId cc x) 0 + 1)).getD (closestCenterId cc x) 0
        = counts.getD (closestCenterId cc x) 0 + 1 := by
    rw [getD_set_int, if_pos ⟨rfl, hj2⟩]
  refine ⟨_, _, oneStochastic_eq x cc counts hne hlen, hj,
    fun hfin => (closest_of_finite cc x hne hfin).1, ?_, hcnt, ?_, ?_, rfl, ?_, ?_, ?_, ?_⟩
  · simp
  · intro i hi
    rw [getD_set_int, if_neg (fun h => hi h.1.symm)]
  · rw [size_modifyCenter, size_modifyCenter]
  · intro i hi
    rw [clusterCenter_step, if_neg (fun h => hi h.1.symm)]
  · rw [clusterCenter_step, if_pos ⟨rfl, hj⟩]
    simp only [SfWeightVector.GetDimensions, length_step]
  · intro c hc
    simp only [SfWeightVector.GetDimensions] at hc
    have hc2 : c < (cc.ClusterCenter (closestCenterId cc x)).weights_.length := by
      exact_mod_cast hc
    rw [clusterCenter_step, if_pos ⟨rfl, hj⟩, hcnt,
      valueOf_addVector _ x _ c (by rw [length_scaleBy]; exact hc2), valueOf_scaleBy]
    ring
  · intro h0
    rw [hcnt, h0]
    unfold stepEta
    norm_num

theorem C6_witness :
    ∃ cc1 counts1,
      OneStochasticKmeansStep (SfSparseVector.ofPairs [(1, 2), (2, 5), (3, -1)]) testCenters
        [0, 3] = .ok (cc1, counts1) ∧
      counts1 = [0, 4] ∧
      cc1.ClusterCenter 0 = testCenters.ClusterCenter 0 ∧
      (cc1.ClusterCenter 1).ValueOf 2
        = (1 - stepEta 4) * (testCenters.ClusterCenter 1).ValueOf 2
          + stepEta 4 * (SfSparseVector.ofPairs [(1, 2), (2, 5), (3, -1)]).coord 2 := by
  obtain ⟨cc1, counts1, h1, _, _, _, _, _, _, _, h9, _, h11, _⟩ :=
    C6_oneStochasticKmeansStep (SfSparseVector.ofPairs [(1, 2), (2, 5), (3, -1)]) testCenters
      [0, 3] (by decide) (by decide)
  have hj : closestCenterId testCenters (SfSparseVector.ofPairs [(1, 2), (2, 5), (3, -1)]) = 1 := by
    decide!
  rw [hj] at h9 h11
  have hc : counts1 = [0, 4] := by
    have h2 : OneStochasticKmeansStep (SfSparseVector.ofPairs [(1, 2), (2, 5), (3, -1)])
        testCenters [0, 3] = .ok (testCenters, [0, 4]) := by decide!
    rw [h2] at h1
    exact (Prod.mk.inj (Except.ok.inj h1)).2.symm
  refine ⟨cc1, counts1, h1, hc, h9 0 (by decide), ?_⟩
  have := h11 2 (by decide!)
  rw [hc] at this
  exact this

/-- C7, counterexample: in a round of `ClassicKmeansPlusPlus` on `toyData` with example 0
as the only center, the total distance mass is 3, and when `rand()` returns `RAND_MAX`
the draw is 3 as well: it does not lie in `[0, T)`. -/
theorem C7_counterexample :
    classicTable toySeeded.cluster_centers toyData (intRange 0 toyData.NumExamples) (0, [])
      = .ok (3, [(1, 1), (3, 2)]) ∧
    sampleDistance (fun _ => RAND_MAX) 3 toySeeded
      = .ok 3 { toySeeded with rand_calls := 2 } ∧
    ¬ ((3 : ℚ) < 3) := by
  refine ⟨?_, ?_, ?_⟩
  · decide!
  · decide!
  · norm_num

/-- C7, amended, for exact arithmetic on the distances (the squared distances, their
partial sums and the product of the random fraction and the total are taken without
rounding; the random fraction itself is the `float` quotient `drawFraction`): in every round
of `ClassicKmeansPlusPlus` after the first center, on a dataset of well-formed examples and
with `rand()` returning a value of at most `RAND_MAX`, let `d_j` be the squared distance of
example `j` to its closest existing center, `T` the total distance mass (the sum of the
`d_j`) and the draw the random fraction times `T`. Then the draw lies in the closed interval
`[0, T]`; the keys of the cumulative-distance map are the partial sums of the distances up
to and including the examples with `d_j > 0`; the example added as the next center is one
whose cumulative key is the smallest key greater than or equal to the draw (the round dies
with `exit(1)` when there is no such key, which happens only when `T = 0`); and every draw
in the interval `(key_j - d_j, key_j]`, of length `d_j`, selects example `j`; the draw is
`T` itself when `rand()` returns `RAND_MAX`. Without the
proviso the statement about the keys does not hold: a `float` partial sum can absorb a
small distance (distances 0, `2^24`, 1 give the key `2^24` twice), and the later example
then overwrites the entry of the earlier one. -/
theorem C7_classic_round_sampling (rand_seq : Nat → Nat) (data_set : SfDataSet)
    (s : KmState) (hne : 0 < s.cluster_centers.Size)
    (hwf : ∀ x ∈ data_set.vectors_, x.WellFormed)
    (hr : rand_seq s.rand_calls ≤ RAND_MAX) :
    ∃ (T : ℚ) (m : FloatIntMap),
      classicTable s.cluster_centers data_set (intRange 0 data_set.NumExamples) (0, [])
        = .ok (T, m) ∧
      T = ((List.range data_set.vectors_.length).map
            (roundDistance s.cluster_centers data_set)).sum ∧
      sampleDistance rand_seq T s
        = .ok (drawFraction rand_seq s.rand_calls * T)
            { s with rand_calls := s.rand_calls + 1 } ∧
      0 ≤ drawFraction rand_seq s.rand_calls * T ∧
      drawFraction rand_seq s.rand_calls * T ≤ T ∧
      (∀ e ∈ m, ∃ j, j < data_set.vectors_.length ∧
        e = (cumulativeKey s.cluster_centers data_set j, (j : Int)) ∧
        0 < roundDistance s.cluster_centers data_set j) ∧
      (∀ e, FloatIntMap.lower_bound m (drawFraction rand_seq s.rand_calls * T)
          = some e →
        classicRound rand_seq data_set s
          = .ok e.2 { cluster_centers :=
                        s.cluster_centers.AddClusterCenterAt (data_set.VectorAt e.2),
                      rand_calls := s.rand_calls + 1 } ∧
        e ∈ m ∧ drawFraction rand_seq s.rand_calls * T ≤ e.1 ∧
        ∀ e1 ∈ m, drawFraction rand_seq s.rand_calls * T ≤ e1.1 → e.1 ≤ e1.1) ∧
      (FloatIntMap.lower_bound m (drawFraction rand_seq s.rand_calls * T) = none →
        classicRound rand_seq data_set s
          = .die .exit1 { s with rand_calls := s.rand_calls + 1 } ∧ T = 0) ∧
      (∀ j, j < data_set.vectors_.length → 0 < roundDistance s.cluster_centers data_set j →
        ∀ t : ℚ, cumulativeKey s.cluster_centers data_set j
              - roundDistance s.cluster_centers data_set j < t →
          t ≤ cumulativeKey s.cluster_centers data_set j →
          FloatIntMap.lower_bound m t
            = some (cumulativeKey s.cluster_centers data_set j, (j : Int))) ∧
      (rand_seq s.rand_calls = RAND_MAX → drawFraction rand_seq s.rand_calls * T = T) := by
  have hd : ∀ i, i < data_set.vectors_.length →
      0 ≤ roundDistance s.cluster_centers data_set i :=
    fun i hi => roundDistance_nonneg s.cluster_centers data_set hne hwf i hi
  have htab := classicTable_eq s.cluster_centers data_set hne data_set.vectors_.length hd
  have htab2 : classicTable s.cluster_centers data_set (intRange 0 data_set.NumExamples) (0, [])
      = .ok ((cumulativeTable (roundDistance s.cluster_centers data_set)
                data_set.vectors_.length).1,
             (cumulativeTable (roundDistance s.cluster_centers data_set)
                data_set.vectors_.length).2) := htab
  have hT := cumulativeTable_total (roundDistance s.cluster_centers data_set)
    data_set.vectors_.length hd
  have hTnn : 0 ≤ (cumulativeTable (roundDistance s.cluster_centers data_set)
      data_set.vectors_.length).1 := by
    rw [hT]; exact range_sum_nonneg _ _ hd
  have hf0 : (0 : ℚ) ≤ drawFraction rand_seq s.rand_calls :=
    drawFraction_nonneg rand_seq s.rand_calls
  have hf1 : drawFraction rand_seq s.rand_calls ≤ 1 :=
    drawFraction_le_one rand_seq s.rand_calls hr
  have hround := classicRound_eq rand_seq data_set s _ _ htab2
  refine ⟨_, _, htab2, hT, sampleDistance_eq rand_seq _ s, mul_nonneg hf0 hTnn, ?_, ?_, ?_, ?_,
    ?_, ?_⟩
  · calc drawFraction rand_seq s.rand_calls
          * (cumulativeTable (roundDistance s.cluster_centers data_set)
              data_set.vectors_.length).1
        ≤ 1 * (cumulativeTable (roundDistance s.cluster_centers data_set)
              data_set.vectors_.length).1 := mul_le_mul_of_nonneg_right hf1 hTnn
      _ = _ := one_mul _
  · intro e he
    obtain ⟨j, hj, e1, e2, _, _⟩ := cumulativeTable_entries _ _ hd e he
    exact ⟨j, hj, e1, e2⟩
  · intro e he
    rw [he] at hround
    exact ⟨hround, lower_bound_some _ _ e (cumulativeTable_sorted _ _ hd) he⟩
  · intro hnone
    rw [hnone] at hround
    refine ⟨hround, ?_⟩
    by_contra hT0
    have hpos : 0 < (cumulativeTable (roundDistance s.cluster_centers data_set)
        data_set.vectors_.length).1 := lt_of_le_of_ne hTnn (Ne.symm hT0)
    obtain ⟨e, he, hek⟩ := cumulativeTable_last _ _ hpos
    have := lower_bound_eq_none _ _ hnone e he
    rw [hek] at this
    have h2 : drawFraction rand_seq s.rand_calls
          * (cumulativeTable (roundDistance s.cluster_centers data_set)
              data_set.vectors_.length).1
        ≤ 1 * (cumulativeTable (roundDistance s.cluster_centers data_set)
              data_set.vectors_.length).1 := mul_le_mul_of_nonneg_right hf1 hTnn
    linarith
  · intro j hj hdj t ht1 ht2
    exact cumulativeTable_interval _ _ hd j hj hdj t ht1 ht2
  · intro hmax
    rw [drawFraction_max rand_seq s.rand_calls hmax, one_mul]

/-- C7 on `toyData` with example 0 as the only center and `rand()` returning 1073741823,
which `RandFloat` turns into the fraction 1/2: the draw lies in `[0, T]`, and every draw
in the interval of an example selects that example. -/
theorem C7_witness :
    ∃ (T : ℚ) (m : FloatIntMap),
      classicTable toySeeded.cluster_centers toyData (intRange 0 toyData.NumExamples) (0, [])
        = .ok (T, m) ∧
      0 ≤ drawFraction (fun _ => 1073741823) toySeeded.rand_calls * T ∧
      drawFraction (fun _ => 1073741823) toySeeded.rand_calls * T ≤ T ∧
      (∀ j, j < toyData.vectors_.length →
        0 < roundDistance toySeeded.cluster_centers toyData j →
        ∀ t : ℚ, cumulativeKey toySeeded.cluster_centers toyData j
              - roundDistance toySeeded.cluster_centers toyData j < t →
          t ≤ cumulativeKey toySeeded.cluster_centers toyData j →
          FloatIntMap.lower_bound m t
            = some (cumulativeKey toySeeded.cluster_centers toyData j, (j : Int))) := by
  obtain ⟨T, m, h1, _, _, h4, h5, _, _, _, h9, _⟩ :=
    C7_classic_round_sampling (fun _ => 1073741823) toyData toySeeded (by decide)
      (by decide!) (by decide)
  exact ⟨T, m, h1, h4, h5, h9⟩

/-- C8, divergence: on `toyData`, from an empty center set, with `k = 2` and the same
random sequence (first center: example 2; draw: about 0.8 of the total mass),
`ClassicKmeansPlusPlus` adds example 1 as the second center while
`OptimizedKmeansPlusPlus` adds example 2 again, the example that already is the first
center: its loop also enters examples at distance zero into the cumulative-distance map,
where they overwrite the entry of the preceding example. -/
theorem C8_optimized_differs_from_classic :
    ClassicKmeansPlusPlus pickLastThenFourFifths 2 toyData emptyState
      = .ok () { cluster_centers :=
                  { cluster_centers_ := [centerAt (SfSparseVector.ofPairs [(2, 1)]),
                                         centerAt (SfSparseVector.ofPairs [(1, 1), (3, 1)])],
                    dimensionality_ := 5 },
                 rand_calls := 2 } ∧
    OptimizedKmeansPlusPlus pickLastThenFourFifths 2 toyData emptyState
      = .ok () { cluster_centers :=
                  { cluster_centers_ := [centerAt (SfSparseVector.ofPairs [(2, 1)]),
                                         centerAt (SfSparseVector.ofPairs [(2, 1)])],
                    dimensionality_ := 5 },
                 rand_calls := 2 } ∧
    centerAt (SfSparseVector.ofPairs [(1, 1), (3, 1)])
      ≠ centerAt (SfSparseVector.ofPairs [(2, 1)]) := by
  refine ⟨?_, ?_, ?_⟩
  · decide!
  · decide!
  · decide!

/-- C9, divergence: `OptimizedKmeansPlusPlusTI` on the points 1, 2 and 5/2 with the
centers at 1 (center 0) and 5/2 (center 1, the newest). The run with `k = 2` reaches these
centers; the caches after round 1 hold the distances 0, 1 and 9/4 to center 0, and the
inter-center table holds 9/4. In round 2 the pruning test holds for example 1
(`9/4 > 2 * 1`), so its cached best distance stays 1, although its squared distance to
the newest center is 1/4: after the round the cache differs from the true distance to the
closest center. -/
theorem C9_pruning_keeps_stale_distance :
    OptimizedKmeansPlusPlusTI pickFirstThenMax 2 threeOnLine emptyState
      = .ok () { cluster_centers := twoOnLineCenters, rand_calls := 2 } ∧
    optimizedTITable
        { cluster_centers_ := [centerAt (SfSparseVector.ofPairs [(1, 1)])],
          dimensionality_ := 5 }
        threeOnLine 1 [] (intRange 0 threeOnLine.NumExamples)
        (0, [], { best_center_ids := [0, 0, 0], best_distances := [0, 1, 9 / 4] })
      = .ok (13 / 4, [(0, 0), (1, 1), (13 / 4, 2)],
             { best_center_ids := [0, 0, 0], best_distances := [0, 1, 9 / 4] }) ∧
    interCenterDistances twoOnLineCenters (SfSparseVector.ofPairs [(1, 5 / 2)])
        (intRange 0 ((twoOnLineCenters.Size : Int) - 1)) []
      = .ok [9 / 4] ∧
    optimizedTITable twoOnLineCenters threeOnLine 2 [9 / 4]
        (intRange 0 threeOnLine.NumExamples)
        (0, [], { best_center_ids := [0, 0, 0], best_distances := [0, 1, 9 / 4] })
      = .ok (1, [(0, 0), (1, 2)],
             { best_center_ids := [0, 0, 1], best_distances := [0, 1, 0] }) ∧
    twoOnLineCenters.SqDistanceToCenterId 1 (SfSparseVector.ofPairs [(1, 2)]) = .ok (1 / 4) ∧
    twoOnLineCenters.SqDistanceToClosestCenter (SfSparseVector.ofPairs [(1, 2)])
      = .ok (1 / 4, 1) := by
  refine ⟨?_, ?_, ?_, ?_, ?_, ?_⟩
  · decide!
  · decide!
  · decide!
  · decide!
  · decide!
  · decide!

/-! ## Preconditions of the seeding functions -/

theorem assert_false_bind {β : Type} (p : Prop) [Decidable p] (hp : ¬ p) (f : Unit → Km β)
    (s : KmState) : (Km.assert p >>= f) s = .die .assertion s := by
  show Km.andThen (Km.assert p) f s = _
  simp [Km.andThen, Km.assert, hp]

/-- C10: for each of the six seeding functions and every dataset of `n` examples, a call
with `k <= 0` or `k > n` dies on the assertion in the state it was called in: no center
has been added (the center set is unchanged) and no random number has been drawn. -/
theorem C10_seeding_precondition (rand_seq : Nat → Nat) (k sample_size : Int)
    (data_set : SfDataSet) (s : KmState) (hk : k ≤ 0 ∨ k > data_set.NumExamples) :
    InitializeWithKRandomCenters rand_seq k data_set s = .die .assertion s ∧
    SamplingFarthestFirst rand_seq k sample_size data_set s = .die .assertion s ∧
    ClassicKmeansPlusPlus rand_seq k data_set s = .die .assertion s ∧
    OptimizedKmeansPlusPlus rand_seq k data_set s = .die .assertion s ∧
    OptimizedKmeansPlusPlusTI rand_seq k data_set s = .die .assertion s ∧
    SamplingKmeansPlusPlus rand_seq k sample_size data_set s = .die .assertion s := by
  have hp : ¬ (0 < k ∧ k ≤ data_set.NumExamples) := by
    intro h
    omega
  refine ⟨?_, ?_, ?_, ?_, ?_, ?_⟩
  · exact assert_false_bind _ hp _ s
  · exact assert_false_bind _ hp _ s
  · exact assert_false_bind _ hp _ s
  · exact assert_false_bind _ hp _ s
  · exact assert_false_bind _ hp _ s
  · exact assert_false_bind _ hp _ s

theorem C10_witness :
    InitializeWithKRandomCenters (fun _ => 7) 4 toyData
        { cluster_centers := oneZeroCenter, rand_calls := 0 }
      = .die .assertion { cluster_centers := oneZeroCenter, rand_calls := 0 } ∧
    SamplingFarthestFirst (fun _ => 7) 4 2 toyData
        { cluster_centers := oneZeroCenter, rand_calls := 0 }
      = .die .assertion { cluster_centers := oneZeroCenter, rand_calls := 0 } ∧
    ClassicKmeansPlusPlus (fun _ => 7) 4 toyData
        { cluster_centers := oneZeroCenter, rand_calls := 0 }
      = .die .assertion { cluster_centers := oneZeroCenter, rand_calls := 0 } ∧
    OptimizedKmeansPlusPlus (fun _ => 7) 4 toyData
        { cluster_centers := oneZeroCenter, rand_calls := 0 }
      = .die .assertion { cluster_centers := oneZeroCenter, rand_calls := 0 } ∧
    OptimizedKmeansPlusPlusTI (fun _ => 7) 4 toyData
        { cluster_centers := oneZeroCenter, rand_calls := 0 }
      = .die .assertion { cluster_centers := oneZeroCenter, rand_calls := 0 } ∧
    SamplingKmeansPlusPlus (fun _ => 7) 4 2 toyData
        { cluster_centers := oneZeroCenter, rand_calls := 0 }
      = .die .assertion { cluster_centers := oneZeroCenter, rand_calls := 0 } :=
  C10_seeding_precondition (fun _ => 7) 4 2 toyData
    { cluster_centers := oneZeroCenter, rand_calls := 0 } (Or.inr (by decide))

/-- C11: for every dataset of `n` examples whose feature ids are below the set's
dimensionality, every `k` with `0 < k <= n` and every random sequence `r`,
`InitializeWithKRandomCenters(k, data, centers)` succeeds, draws `k` random numbers and
increases the number of centers by exactly `k`; the centers that were there keep their
place, and the `i`-th added center is coordinate for coordinate identical to the dataset
example with index `r_i mod n`, where `r_i` is the `i`-th number drawn: each draw selects
its example whatever the other draws selected (with replacement). -/
theorem C11_initializeWithKRandomCenters (rand_seq : Nat → Nat) (k : Int)
    (data_set : SfDataSet) (s : KmState)
    (hk : 0 < k) (hkn : k ≤ data_set.NumExamples)
    (hd : 0 ≤ s.cluster_centers.GetDimensionality)
    (hfeat : ∀ x ∈ data_set.vectors_,
      x.FeaturesBelow s.cluster_centers.GetDimensionality.toNat) :
    ∃ s1, InitializeWithKRandomCenters rand_seq k data_set s = .ok () s1 ∧
      (s1.cluster_centers.Size : Int) = (s.cluster_centers.Size : Int) + k ∧
      s1.rand_calls = s.rand_calls + k.toNat ∧
      s1.cluster_centers.GetDimensionality = s.cluster_centers.GetDimensionality ∧
      (∀ j, j < s.cluster_centers.Size →
        s1.cluster_centers.ClusterCenter j = s.cluster_centers.ClusterCenter j) ∧
      (∀ i : Nat, (i : Int) < k →
        data_set.VectorAt ((rand_seq (s.rand_calls + i) : Int) % data_set.NumExamples)
          ∈ data_set.vectors_ ∧
        ∀ c : Int,
          (s1.cluster_centers.ClusterCenter (s.cluster_centers.Size + i)).ValueOf c
            = (data_set.VectorAt
                ((rand_seq (s.rand_calls + i) : Int) % data_set.NumExamples)).coord c) := by
  have hn : 0 < data_set.NumExamples := by omega
  have hd2 : 0 ≤ s.cluster_centers.dimensionality_ := hd
  have hlen : (intRange 0 k).length = k.toNat := by
    rw [length_intRange]
    simp
  have hrun := randomCenters_loop rand_seq data_set hn (intRange 0 k) s hd2
  have hinit : InitializeWithKRandomCenters rand_seq k data_set s
      = Km.forEach (fun _ => do
          let x ← RandomExample rand_seq data_set
          Km.modifyCenters (fun cc => cc.AddClusterCenterAt x)) (intRange 0 k) s := by
    unfold InitializeWithKRandomCenters
    rw [km_bind_apply]
    simp only [Km.assert, if_pos (And.intro hk hkn)]
  rw [hinit, hrun]
  refine ⟨_, rfl, ?_, ?_, rfl, ?_, ?_⟩
  · simp only [SfClusterCenters.Size, List.length_append, List.length_map, List.length_range,
      hlen]
    push_cast
    omega
  · rw [hlen]
  · intro j hj
    have hj2 : j < s.cluster_centers.cluster_centers_.length := hj
    simp only [SfClusterCenters.ClusterCenter, List.getD_eq_getElem?_getD,
      List.getElem?_append_left hj2]
  · intro i hi
    have hi2 : i < (intRange 0 k).length := by
      rw [hlen]
      omega
    have hmem := vectorAt_mem data_set
      ((rand_seq (s.rand_calls + i) : Int) % data_set.NumExamples)
      (Int.emod_nonneg _ (by omega)) (Int.emod_lt_of_pos _ hn)
    refine ⟨hmem, ?_⟩
    intro c
    simp only [SfClusterCenters.ClusterCenter, SfClusterCenters.Size]
    rw [getD_append_map_range _ _ _ _ _ hi2]
    exact valueOf_centerOf _ _ (hfeat _ hmem) c

theorem C11_witness :
    ∃ s1, InitializeWithKRandomCenters (fun _ => 7) 3 toyData emptyState = .ok () s1 ∧
      (s1.cluster_centers.Size : Int) = (emptyState.cluster_centers.Size : Int) + 3 ∧
      s1.rand_calls = emptyState.rand_calls + (3 : Int).toNat ∧
      s1.cluster_centers.GetDimensionality = emptyState.cluster_centers.GetDimensionality ∧
      (∀ j, j < emptyState.cluster_centers.Size →
        s1.cluster_centers.ClusterCenter j = emptyState.cluster_centers.ClusterCenter j) ∧
      (∀ i : Nat, (i : Int) < 3 →
        toyData.VectorAt (((fun _ => 7) (emptyState.rand_calls + i) : Nat) % toyData.NumExamples)
          ∈ toyData.vectors_ ∧
        ∀ c : Int,
          (s1.cluster_centers.ClusterCenter (emptyState.cluster_centers.Size + i)).ValueOf c
            = (toyData.VectorAt
                (((fun _ => 7) (emptyState.rand_calls + i) : Nat) % toyData.NumExamples)).coord
                c) :=
  C11_initializeWithKRandomCenters (fun _ => 7) 3 toyData emptyState (by decide) (by decide)
    (by decide) (by decide!)

/-- C12: for every center set of dimensionality `d` and every sparse vector `x` whose
feature ids are below `d`, `AddClusterCenterAt(x)` increases the number of centers by one
and leaves the dimensionality bound as it is; the new (last) center has dimensionality `d`
and equals `x`: its `ValueOf(i)` is the coordinate of `x` at `i` for every `i`, that is 0
for every `i` that is not a feature of `x` and (the ids of `x` being strictly ascending)
the value of the entry for every `i` that is a feature of `x`; all previously existing
centers keep their index and values. -/
theorem C12_addClusterCenterAt (cc : SfClusterCenters) (x : SfSparseVector)
    (hd : 0 ≤ cc.GetDimensionality) (hfeat : x.FeaturesBelow cc.GetDimensionality.toNat) :
    (cc.AddClusterCenterAt x).Size = cc.Size + 1 ∧
    (cc.AddClusterCenterAt x).GetDimensionality = cc.GetDimensionality ∧
    ((cc.AddClusterCenterAt x).ClusterCenter cc.Size).GetDimensions = cc.GetDimensionality ∧
    (∀ i : Int, ((cc.AddClusterCenterAt x).ClusterCenter cc.Size).ValueOf i = x.coord i) ∧
    (∀ i : Int, (∀ p ∈ x.features_, p.id_ ≠ i) →
      ((cc.AddClusterCenterAt x).ClusterCenter cc.Size).ValueOf i = 0) ∧
    (x.features_.Pairwise (fun p q => p.id_ < q.id_) → ∀ p ∈ x.features_,
      ((cc.AddClusterCenterAt x).ClusterCenter cc.Size).ValueOf p.id_ = p.value_) ∧
    (∀ j, j < cc.Size →
      (cc.AddClusterCenterAt x).ClusterCenter j = cc.ClusterCenter j) := by
  have hd2 : 0 ≤ cc.dimensionality_ := hd
  have hlast : (cc.AddClusterCenterAt x).ClusterCenter cc.Size
      = centerOf cc.dimensionality_ x := by
    unfold SfClusterCenters.AddClusterCenterAt
    rw [clusterCenter_addClusterCenter_last]
    rfl
  have hval : ∀ i : Int,
      ((cc.AddClusterCenterAt x).ClusterCenter cc.Size).ValueOf i = x.coord i := by
    intro i
    rw [hlast]
    exact valueOf_centerOf _ x hfeat i
  refine ⟨?_, ?_, ?_, hval, ?_, ?_, ?_⟩
  · unfold SfClusterCenters.AddClusterCenterAt
    exact size_addClusterCenter _ _
  · rw [addClusterCenterAt_eq cc x hd2]
    rfl
  · rw [hlast]
    simp only [SfWeightVector.GetDimensions, length_centerOf, SfClusterCenters.GetDimensionality]
    omega
  · intro i hi
    rw [hval i]
    exact featSum_eq_zero_of_not_mem x.features_ i hi
  · intro hasc p hp
    rw [hval p.id_]
    exact coord_of_mem x.features_ hasc p hp
  · intro j hj
    unfold SfClusterCenters.AddClusterCenterAt
    exact clusterCenter_addClusterCenter_lt _ _ j hj

theorem C12_witness :
    testCenters.Size = 2 ∧
    (testCenters.ClusterCenter 1).GetDimensions = 10 ∧
    (testCenters.ClusterCenter 1).ValueOf 1 = 2 ∧
    (testCenters.ClusterCenter 1).ValueOf 2 = 5 ∧
    (testCenters.ClusterCenter 1).ValueOf 3 = -1 ∧
    (testCenters.ClusterCenter 1).ValueOf 4 = 0 ∧
    testCenters.ClusterCenter 0 = centerOf 10 (SfSparseVector.ofPairs [(1, 1), (2, 2)]) := by
  obtain ⟨h1, _, h3, _, h5, h6, h7⟩ :=
    C12_addClusterCenterAt
      (({ cluster_centers_ := [], dimensionality_ := 10 } : SfClusterCenters).AddClusterCenterAt
        (SfSparseVector.ofPairs [(1, 1), (2, 2)]))
      (SfSparseVector.ofPairs [(1, 2), (2, 5), (3, -1)]) (by decide) (by decide!)
  have hp := h6 (by decide!)
  exact ⟨h1, h3, hp ⟨1, 2⟩ (by decide!), hp ⟨2, 5⟩ (by decide!), hp ⟨3, -1⟩ (by decide!),
    h5 4 (by decide!), h7 0 (by decide)⟩

/-- C13: for every center set with `k` centers, every sparse vector `x` and mapping
parameter `p`, `MapVectorToCenters(x, type, p)` returns a new sparse vector with exactly
`k` features whose `j`-th feature (`j = 0 .. k - 1`) has id `j + 1` and value
`SqDistanceToCenterId(j, x)` when `type` is `SQUARED_DISTANCE`, or
`exp(-p * SqDistanceToCenterId(j, x))` when `type` is `RBF_KERNEL` (so exactly 1 when the
distance is 0, `exp(0)` being 1); the result carries the labels and the group id of `x`
(`x` is an argument passed by const reference, and is a value here: it is not changed). -/
theorem C13_mapVectorToCenters (expf : ℚ → ℚ) (cc : SfClusterCenters) (x : SfSparseVector)
    (p : ℚ) :
    (∃ r, cc.MapVectorToCenters expf x .SQUARED_DISTANCE p = .ok r ∧
      r.NumFeatures = cc.Size ∧ r.y_ = x.y_ ∧ r.group_id_ = x.group_id_ ∧
      ∀ j, j < cc.Size →
        r.FeatureAt j = (j : Int) + 1 ∧
        cc.SqDistanceToCenterId (j : Int) x = .ok (r.ValueAt j)) ∧
    (∃ r, cc.MapVectorToCenters expf x .RBF_KERNEL p = .ok r ∧
      r.NumFeatures = cc.Size ∧ r.y_ = x.y_ ∧ r.group_id_ = x.group_id_ ∧
      ∀ j, j < cc.Size →
        r.FeatureAt j = (j : Int) + 1 ∧
        ∃ d, cc.SqDistanceToCenterId (j : Int) x = .ok d ∧
          r.ValueAt j = expf (-p * d) ∧
          (expf 0 = 1 → d = 0 → r.ValueAt j = 1)) := by
  constructor
  · obtain ⟨r, h1, h2, h3, h4, h5⟩ := mapVectorToCenters_eq expf cc x .SQUARED_DISTANCE p
      (fun d => d) (Or.inl ⟨rfl, rfl⟩)
    refine ⟨r, h1, h2, h3, h4, ?_⟩
    intro j hj
    refine ⟨(h5 j hj).1, ?_⟩
    rw [(h5 j hj).2]
    exact sqDistanceToCenterId_ok cc x j hj
  · obtain ⟨r, h1, h2, h3, h4, h5⟩ := mapVectorToCenters_eq expf cc x .RBF_KERNEL p
      (fun d => expf (-1 * p * d)) (Or.inr ⟨rfl, rfl⟩)
    refine ⟨r, h1, h2, h3, h4, ?_⟩
    intro j hj
    refine ⟨(h5 j hj).1, _, sqDistanceToCenterId_ok cc x j hj, ?_, ?_⟩
    · rw [(h5 j hj).2]
      simp only [neg_mul, one_mul]
    · intro h0 hd
      rw [(h5 j hj).2]
      simp only [hd, mul_zero]
      exact h0

theorem C13_witness :
    ∃ r, testCenters.MapVectorToCenters (fun d => if d = 0 then 1 else 0)
          (SfSparseVector.ofPairs [(1, 1), (2, 2)]) .RBF_KERNEL 1 = .ok r ∧
      r.NumFeatures = 2 ∧ r.FeatureAt 0 = 1 ∧ r.ValueAt 0 = 1 ∧ r.FeatureAt 1 = 2 := by
  obtain ⟨r, h1, h2, _, _, h5⟩ :=
    (C13_mapVectorToCenters (fun d => if d = 0 then 1 else 0) testCenters
      (SfSparseVector.ofPairs [(1, 1), (2, 2)]) 1).2
  obtain ⟨h6, d, h7, _, h9⟩ := h5 0 (by decide)
  have hd : d = 0 := by
    have h10 : testCenters.SqDistanceToCenterId ((0 : Nat) : Int)
        (SfSparseVector.ofPairs [(1, 1), (2, 2)]) = .ok 0 := by decide!
    rw [h10] at h7
    exact (Except.ok.inj h7).symm
  exact ⟨r, h1, h2, h6, h9 (by simp) hd, (h5 1 (by decide)).1⟩

/-- C14: for every dataset and center set, `KmeansObjective(data, centers)` returns,
when the center set is non-empty, the sum over all examples of the distance that
`SqDistanceToClosestCenter` returns for the example (every one of these calls succeeds),
so it is 0 for an empty dataset; when the center set is empty it returns `FLT_MAX`,
without failing. -/
theorem C14_kmeansObjective (data_set : SfDataSet) (cc : SfClusterCenters) :
    (0 < cc.Size →
      (∀ x, ∃ j, cc.SqDistanceToClosestCenter x = .ok (closestDistance cc x, j)) ∧
      KmeansObjective data_set cc
        = .ok ((data_set.vectors_.map (closestDistance cc)).sum) ∧
      (data_set.NumExamples = 0 → KmeansObjective data_set cc = .ok 0)) ∧
    (cc.Size = 0 → KmeansObjective data_set cc = .ok FLT_MAX) := by
  constructor
  · intro hne
    refine ⟨fun x => ⟨_, (closest_ok cc x hne).1⟩, kmeansObjective_eq data_set cc hne, ?_⟩
    intro h0
    have hnil : data_set.vectors_ = [] := by
      unfold SfDataSet.NumExamples at h0
      exact List.length_eq_zero.mp (by omega)
    rw [kmeansObjective_eq data_set cc hne, hnil]
    rfl
  · intro h0
    unfold KmeansObjective
    rw [if_pos h0]

theorem C14_witness :
    KmeansObjective toyData oneZeroCenter = .ok 4 ∧
    KmeansObjective { vectors_ := [] } oneZeroCenter = .ok 0 ∧
    KmeansObjective toyData { cluster_centers_ := [], dimensionality_ := 10 }
      = .ok FLT_MAX := by
  refine ⟨?_, ?_, ?_⟩
  · rw [((C14_kmeansObjective toyData oneZeroCenter).1 (by decide)).2.1]
    decide!
  · exact ((C14_kmeansObjective { vectors_ := [] } oneZeroCenter).1 (by decide)).2.2
      (by decide)
  · exact (C14_kmeansObjective toyData { cluster_centers_ := [], dimensionality_ := 10 }).2
      (by decide)

/-- C15, counterexample: a vector whose only feature has id 0 accepts `PushPair(0, 3)`,
although 0 is less than or equal to the id of its last feature, and a vector with last
feature id 5 accepts `PushPair(0, 1)` and then `PushPair(3, 1)`: the vector built by
these `PushPair` calls has the feature ids 5, 0, 3, which are not strictly increasing. -/
theorem C15_counterexample :
    0 < (SfSparseVector.ofPairs [(0, 1)]).NumFeatures ∧
    (0 : Int) ≤ (SfSparseVector.ofPairs [(0, 1)]).FeatureAt
      ((SfSparseVector.ofPairs [(0, 1)]).NumFeatures - 1) ∧
    (SfSparseVector.ofPairs [(0, 1)]).PushPair 0 3
      = .ok (SfSparseVector.ofPairs [(0, 1), (0, 3)]) ∧
    SfSparseVector.pushAll SfSparseVector.empty [(5, 1), (0, 1), (3, 1)]
      = .ok (SfSparseVector.ofPairs [(5, 1), (0, 1), (3, 1)]) ∧
    ¬ (SfSparseVector.ofPairs [(5, 1), (0, 1), (3, 1)]).features_.Pairwise
        (fun p q => p.id_ < q.id_) := by
  refine ⟨?_, ?_, ?_, ?_, ?_⟩
  · decide
  · decide
  · decide!
  · decide!
  · decide!

/-- C15, amended: for every sparse vector whose last feature is `p`, `PushPair(id, value)`
is a fatal format error (`exit(1)`, nothing is appended) when `0 < id <= p.id_`; an id
that is not positive is never refused, whatever the last feature is, and neither is any id
on a vector without features: the pair is appended and `value * value` added to the
cached squared norm. A sequence of `PushPair` calls on the empty vector succeeds exactly
when every pushed id is not positive or is above the id pushed right before it; the
features then are the pushed pairs in order, and their ids are strictly increasing when
every id after the first one is positive. -/
theorem C15_pushPair_order (x : SfSparseVector) (id : Int) (value : ℚ)
    (ps : List (Int × ℚ)) :
    (∀ p, x.features_.getLast? = some p → 0 < id → id ≤ p.id_ →
      x.PushPair id value = .error .exit1) ∧
    (id ≤ 0 ∨ x.features_ = [] →
      x.PushPair id value
        = .ok { x with features_ := x.features_ ++ [{ id_ := id, value_ := value }],
                       squared_norm_ := x.squared_norm_ + value * value }) ∧
    ((∃ r, SfSparseVector.pushAll SfSparseVector.empty ps = .ok r)
      ↔ (entriesOf ps).Chain' pushOrder) ∧
    (∀ r, SfSparseVector.pushAll SfSparseVector.empty ps = .ok r →
      r.features_ = entriesOf ps ∧
      r.squared_norm_ = (ps.map (fun q => q.2 * q.2)).sum ∧
      ((∀ q ∈ ps.tail, 0 < q.1) → r.features_.Pairwise (fun p q => p.id_ < q.id_))) := by
  refine ⟨?_, ?_, ?_, ?_⟩
  · intro p hp h1 h2
    exact pushPair_error x id value p hp h1 h2
  · intro h
    apply pushPair_ok
    intro p hp
    rcases h with h | h
    · exact Or.inl h
    · rw [h] at hp
      simp at hp
  · constructor
    · rintro ⟨r, hr⟩
      obtain ⟨h1, _, h3⟩ := pushAll_sound ps SfSparseVector.empty r hr
      have h4 := h3 List.chain'_nil
      rw [h1] at h4
      simpa [SfSparseVector.empty] using h4
    · intro hc
      apply pushAll_complete
      simpa [SfSparseVector.empty] using hc
  · intro r hr
    obtain ⟨h1, h2, h3⟩ := pushAll_sound ps SfSparseVector.empty r hr
    have hf : r.features_ = entriesOf ps := by
      rw [h1]
      simp [SfSparseVector.empty]
    refine ⟨hf, ?_, ?_⟩
    · rw [h2]
      simp [SfSparseVector.empty]
    · intro hpos
      apply pairwise_lt_of_pushOrder _ (h3 List.chain'_nil)
      intro q hq
      rw [hf] at hq
      unfold entriesOf at hq
      rw [← List.map_tail] at hq
      obtain ⟨a, ha, rfl⟩ := List.mem_map.mp hq
      exact hpos a ha

theorem C15_witness :
    (SfSparseVector.ofPairs [(1, 1), (4, 2)]).PushPair 4 1 = .error .exit1 ∧
    (SfSparseVector.ofPairs [(1, 1), (4, 2)]).PushPair 0 3
      = .ok (SfSparseVector.ofPairs [(1, 1), (4, 2), (0, 3)]) ∧
    (∃ r, SfSparseVector.pushAll SfSparseVector.empty [(0, 1), (2, 5), (7, 1)] = .ok r) ∧
    (SfSparseVector.ofPairs [(0, 1), (2, 5), (7, 1)]).features_.Pairwise
      (fun p q => p.id_ < q.id_) := by
  refine ⟨?_, ?_, ?_, ?_⟩
  · exact (C15_pushPair_order (SfSparseVector.ofPairs [(1, 1), (4, 2)]) 4 1 []).1 ⟨4, 2⟩
      (by decide!) (by decide) (by decide)
  · rw [(C15_pushPair_order (SfSparseVector.ofPairs [(1, 1), (4, 2)]) 0 3 []).2.1
      (Or.inl (by decide))]
    decide!
  · exact (C15_pushPair_order SfSparseVector.empty 0 0 [(0, 1), (2, 5), (7, 1)]).2.2.1.mpr
      (by simp [entriesOf, pushOrder])
  · exact ((C15_pushPair_order SfSparseVector.empty 0 0 [(0, 1), (2, 5), (7, 1)]).2.2.2
      (SfSparseVector.ofPairs [(0, 1), (2, 5), (7, 1)]) (by decide!)).2.2 (by decide!)

/-- C16: for all sparse vectors `a` and `b` with strictly ascending feature ids and every
label `y`, the differencing constructor `SfSparseVector(a, b, y)` raises no format error
and yields a vector whose feature ids are strictly ascending and are exactly the union of
the ids of `a` and `b`, whose value at each id `f` is the value of `a` at `f` minus the
value of `b` at `f` (a missing feature counting as 0), whose only label is `y` and whose
group id is the group id of `a`; its cached squared norm is the sum of the squares of its
values. -/
theorem C16_differencing_constructor (a b : SfSparseVector) (y : ℚ)
    (ha : a.features_.Pairwise (fun p q => p.id_ < q.id_))
    (hb : b.features_.Pairwise (fun p q => p.id_ < q.id_)) :
    ∃ r, SfSparseVector.ofDifference a b y = .ok r ∧
      r.features_.Pairwise (fun p q => p.id_ < q.id_) ∧
      (∀ f : Int, f ∈ r.ids ↔ f ∈ a.ids ∨ f ∈ b.ids) ∧
      (∀ f : Int, r.coord f = a.coord f - b.coord f) ∧
      (∀ p ∈ r.features_, p.value_ = a.coord p.id_ - b.coord p.id_) ∧
      r.y_ = [y] ∧ r.group_id_ = a.group_id_ ∧ r.WellFormed := by
  obtain ⟨r, h1, new, h2, h3, h4, h5, h6, h7, h8⟩ :=
    diffLoop_spec a.features_ ha b.features_
      { features_ := [], y_ := [y], a_ := 0, squared_norm_ := 0,
        group_id_ := a.GetGroupId, comment_ := "" }
      hb (by intro q hq; simp at hq) (by intro q hq; simp at hq)
  have hf : r.features_ = new := by
    rw [h2]
    rfl
  have hcoord : ∀ f : Int, r.coord f = a.coord f - b.coord f := by
    intro f
    have := h8 f
    unfold featSum at this
    unfold SfSparseVector.coord
    rw [hf]
    exact this
  refine ⟨r, h1, ?_, ?_, hcoord, ?_, h4, h5, ?_, ?_⟩
  · rw [hf]
    exact h6
  · intro f
    unfold SfSparseVector.ids
    rw [hf]
    exact h7 f
  · intro p hp
    rw [← hcoord p.id_]
    exact (coord_of_mem r.features_ (by rw [hf]; exact h6) p hp).symm
  · rw [hf]
    exact h6
  · rw [h3, hf]
    simp only [zero_add]

theorem C16_witness :
    ∃ r, SfSparseVector.ofDifference (SfSparseVector.ofPairs [(1, 1), (3, 2)])
          (SfSparseVector.ofPairs [(2, 5), (3, 1)]) 7 = .ok r ∧
      r.features_.Pairwise (fun p q => p.id_ < q.id_) ∧
      (∀ f : Int, f ∈ r.ids ↔ f ∈ (SfSparseVector.ofPairs [(1, 1), (3, 2)]).ids ∨
        f ∈ (SfSparseVector.ofPairs [(2, 5), (3, 1)]).ids) ∧
      (∀ f : Int, r.coord f = (SfSparseVector.ofPairs [(1, 1), (3, 2)]).coord f
        - (SfSparseVector.ofPairs [(2, 5), (3, 1)]).coord f) ∧
      (∀ p ∈ r.features_, p.value_ = (SfSparseVector.ofPairs [(1, 1), (3, 2)]).coord p.id_
        - (SfSparseVector.ofPairs [(2, 5), (3, 1)]).coord p.id_) ∧
      r.y_ = [7] ∧ r.group_id_ = (SfSparseVector.ofPairs [(1, 1), (3, 2)]).group_id_ ∧
      r.WellFormed :=
  C16_differencing_constructor (SfSparseVector.ofPairs [(1, 1), (3, 2)])
    (SfSparseVector.ofPairs [(2, 5), (3, 1)]) 7 (by decide!) (by decide!)

/-- C17: for every center set, `AsString()` is the concatenation, in center order, of
each center's serialization followed by one newline; and, given that the `SfWeightVector`
string constructor inverts `SfWeightVector::AsString` (the vector read back has the same
`ValueOf(i)` for every `i`) and that a serialized center contains no newline, constructing
a new `SfClusterCenters` from a file holding `AsString()` succeeds and yields the same
number of centers in the same order, with identical `ValueOf(i)` for every coordinate `i`
of every center. -/
theorem C17_asString_round_trip (txt : WeightVectorText) (cc : SfClusterCenters)
    (uninitialised : Int)
    (hinv : ∀ w ∈ cc.cluster_centers_, ∀ i : Int,
      (txt.ofString (txt.AsString w)).ValueOf i = w.ValueOf i)
    (hnl : ∀ w ∈ cc.cluster_centers_, newline ∉ txt.AsString w) :
    cc.AsString txt
      = (cc.cluster_centers_.map (fun w => txt.AsString w ++ [newline])).flatten ∧
    ∃ c2, SfClusterCenters.ofFile txt uninitialised (some (cc.AsString txt)) = .ok c2 ∧
      c2.Size = cc.Size ∧
      ∀ j, j < cc.Size → ∀ i : Int,
        (c2.ClusterCenter j).ValueOf i = (cc.ClusterCenter j).ValueOf i := by
  refine ⟨asString_eq txt cc, ?_⟩
  have hlines : getlines (cc.AsString txt) [] = cc.cluster_centers_.map txt.AsString := by
    rw [asString_eq]
    have h := getlines_flatten (cc.cluster_centers_.map txt.AsString) (by
      intro l hl
      obtain ⟨w, hw, rfl⟩ := List.mem_map.mp hl
      exact hnl w hw)
    rw [List.map_map] at h
    exact h
  rw [ofFile_eq, hlines]
  refine ⟨_, rfl, ?_, ?_⟩
  · simp [SfClusterCenters.Size]
  · intro j hj i
    have hj2 : j < cc.cluster_centers_.length := hj
    have hc : cc.ClusterCenter j = cc.cluster_centers_[j] := by
      simp [SfClusterCenters.ClusterCenter, List.getD_eq_getElem, hj2]
    have hlen : j < ((cc.cluster_centers_.map txt.AsString).map txt.ofString).length := by
      simpa using hj2
    rw [hc]
    simp only [SfClusterCenters.ClusterCenter]
    rw [List.getD_eq_getElem _ _ hlen]
    simp only [List.getElem_map]
    exact hinv _ (List.getElem_mem hj2) i

theorem C17_witness :
    digitCenters.AsString digitText = "0123".toList ++ [newline] ++ "405".toList ++ [newline] ∧
    ∃ c2, SfClusterCenters.ofFile digitText 0 (some (digitCenters.AsString digitText))
        = .ok c2 ∧
      c2.Size = digitCenters.Size ∧
      ∀ j, j < digitCenters.Size → ∀ i : Int,
        (c2.ClusterCenter j).ValueOf i = (digitCenters.ClusterCenter j).ValueOf i := by
  refine ⟨by decide!, ?_⟩
  have hback : ∀ w ∈ digitCenters.cluster_centers_,
      digitText.ofString (digitText.AsString w) = w := by decide!
  exact (C17_asString_round_trip digitText digitCenters 0
    (fun w hw i => by rw [hback w hw]) (by decide!)).2

/-- C18, divergence: for every model file with lines `l_1 .. l_m` the file constructor
produces a center set with exactly `m` centers, the `i`-th being the weight vector parsed
from `l_i`; but the constructor never initialises `dimensionality_`, so
`GetDimensionality()` of the result is the maximum of the value the member happened to
hold and the dimensionalities of the loaded centers: it is never below that value and
equals it when no loaded center has more dimensions. With the member holding 1000, the
file with the single line `123` (a center of 3 dimensions) gives a center set whose
`GetDimensionality()` is 1000, not 3. -/
theorem C18_file_constructor_dimensionality (txt : WeightVectorText) (uninitialised : Int)
    (content : List Char) :
    (∃ cc, SfClusterCenters.ofFile txt uninitialised (some content) = .ok cc ∧
      cc.Size = (getlines content []).length ∧
      cc.cluster_centers_ = (getlines content []).map txt.ofString ∧
      cc.GetDimensionality
        = ((getlines content []).map (fun l => (txt.ofString l).GetDimensions)).foldl max
            uninitialised ∧
      uninitialised ≤ cc.GetDimensionality ∧
      ((∀ l ∈ getlines content [], (txt.ofString l).GetDimensions ≤ uninitialised) →
        cc.GetDimensionality = uninitialised)) ∧
    SfClusterCenters.ofFile digitText 1000 (some ("123".toList ++ [newline]))
      = .ok { cluster_centers_ := [{ weights_ := [1, 2, 3] }], dimensionality_ := 1000 } ∧
    ({ weights_ := [1, 2, 3] } : SfWeightVector).GetDimensions = 3 := by
  refine ⟨?_, by decide!, by decide⟩
  rw [ofFile_eq]
  refine ⟨_, rfl, ?_, rfl, rfl, ?_, ?_⟩
  · simp [SfClusterCenters.Size]
  · exact le_foldl_max _ _
  · intro h
    apply foldl_max_eq_of_le
    intro d hd
    obtain ⟨l, hl, rfl⟩ := List.mem_map.mp hd
    exact h l hl

/-- C19: for every center set created by `SfClusterCenters(dimensionality)` or
`SfClusterCenters(dimensionality, num_clusters)` and then changed by any sequence of
`AddClusterCenter`, `AddClusterCenterAt`, `Clear` and `OneBatchKmeansOptimization`, the
dimensionality bound `GetDimensionality()` is greater than or equal to `GetDimensions()`
of every contained center (and it is not negative). A sequence of the three member
functions always runs to its end; `OneBatchKmeansOptimization` can only stop a sequence
by its assertion on an empty center set. -/
theorem C19_dimensionality_bound (dimensionality num_clusters : Int) (ops : List CenterOp)
    (c0 : SfClusterCenters)
    (hc0 : SfClusterCenters.mk1 dimensionality = .ok c0 ∨
      SfClusterCenters.mk2 dimensionality num_clusters = .ok c0) :
    (∀ cc, runOps ops c0 = .ok cc →
      0 ≤ cc.GetDimensionality ∧
      ∀ i, i < cc.Size → (cc.ClusterCenter i).GetDimensions ≤ cc.GetDimensionality) ∧
    ((∀ op ∈ ops, ∀ d, op ≠ .oneBatchKmeansOptimization d) →
      ∃ cc, runOps ops c0 = .ok cc) := by
  have hv0 : c0.Valid := by
    rcases hc0 with h | h
    · exact valid_mk1 dimensionality c0 h
    · exact valid_mk2 dimensionality num_clusters c0 h
  constructor
  · intro cc hrun
    have hv := valid_runOps ops c0 cc hv0 hrun
    refine ⟨hv.1, ?_⟩
    intro i hi
    exact hv.2 _ (clusterCenter_mem cc i hi)
  · intro hops
    exact runOps_ok ops c0 hv0 hops

theorem C19_witness :
    runOps boundOps oneZeroCenter = .ok boundOpsResult ∧
    (0 ≤ boundOpsResult.GetDimensionality ∧
      ∀ i, i < boundOpsResult.Size →
        (boundOpsResult.ClusterCenter i).GetDimensions ≤ boundOpsResult.GetDimensionality) ∧
    ∃ cc, runOps [.addClusterCenter { weights_ := [1, 2, 3] }, .clear] oneZeroCenter
      = .ok cc :=
  ⟨by decide!,
   (C19_dimensionality_bound 10 1 boundOps oneZeroCenter (Or.inr (by decide!))).1
     boundOpsResult (by decide!),
   (C19_dimensionality_bound 10 1 [.addClusterCenter { weights_ := [1, 2, 3] }, .clear]
     oneZeroCenter (Or.inr (by decide!))).2 (by simp)⟩

/-- C20: for every center set and every weight vector `c`, `AddClusterCenter(c)` increases
the number of centers by exactly one, places a copy of `c` at the last index, leaves every
previously existing center at the same index with the same values, and sets the
dimensionality bound to `max(old bound, c.GetDimensions())`. -/
theorem C20_addClusterCenter (cc : SfClusterCenters) (c : SfWeightVector) :
    (cc.AddClusterCenter c).Size = cc.Size + 1 ∧
    (cc.AddClusterCenter c).ClusterCenter cc.Size = c ∧
    (cc.AddClusterCenter c).cluster_centers_ = cc.cluster_centers_ ++ [c] ∧
    (∀ i, i < cc.Size → (cc.AddClusterCenter c).ClusterCenter i = cc.ClusterCenter i) ∧
    (cc.AddClusterCenter c).GetDimensionality = max cc.GetDimensionality c.GetDimensions :=
  ⟨size_addClusterCenter cc c, clusterCenter_addClusterCenter_last cc c, rfl,
    fun i hi => clusterCenter_addClusterCenter_lt cc c i hi,
    dimensionality_addClusterCenter cc c⟩

theorem C20_witness :
    (oneZeroCenter.AddClusterCenter { weights_ := [1, 2, 3] }).Size = 2 ∧
    (oneZeroCenter.AddClusterCenter { weights_ := [1, 2, 3] }).ClusterCenter 1
      = { weights_ := [1, 2, 3] } ∧
    (oneZeroCenter.AddClusterCenter { weights_ := [1, 2, 3] }).ClusterCenter 0
      = oneZeroCenter.ClusterCenter 0 ∧
    (oneZeroCenter.AddClusterCenter { weights_ := [1, 2, 3] }).GetDimensionality = 10 := by
  obtain ⟨h1, h2, _, h4, h5⟩ := C20_addClusterCenter oneZeroCenter { weights_ := [1, 2, 3] }
  exact ⟨h1, h2, h4 0 (by decide), by rw [h5]; decide⟩

/-- C21: for every well-formed sparse vector `x` whose feature ids are below the set's
dimensionality, if center `c` was created at the same point as `x` (by
`AddClusterCenterAt(x)`), then `SqDistanceToCenterId(c, x)` returns exactly 0, right after
the center was added and also after any number of further centers were added. -/
theorem C21_distance_to_own_center (cc : SfClusterCenters) (x : SfSparseVector)
    (ys : List SfSparseVector)
    (hwf : x.WellFormed)
    (hfeat : x.FeaturesBelow cc.GetDimensionality.toNat) :
    (cc.AddClusterCenterAt x).SqDistanceToCenterId (cc.Size : Int) x = .ok 0 ∧
    (ys.foldl (fun c y => c.AddClusterCenterAt y)
      (cc.AddClusterCenterAt x)).SqDistanceToCenterId (cc.Size : Int) x = .ok 0 := by
  have hs : (cc.AddClusterCenterAt x).Size = cc.Size + 1 := size_addClusterCenter cc _
  have h0 : sqDist ((cc.AddClusterCenterAt x).ClusterCenter cc.Size) x = 0 := by
    rw [clusterCenter_addClusterCenterAt_last]
    exact sqDist_centerOf_self _ x hwf hfeat
  obtain ⟨h1, h2⟩ := foldl_addClusterCenterAt_frame ys (cc.AddClusterCenterAt x)
  constructor
  · rw [sqDistanceToCenterId_ok _ x cc.Size (by omega), h0]
  · rw [sqDistanceToCenterId_ok _ x cc.Size (by omega), h2 cc.Size (by omega), h0]

theorem C21_witness :
    testCenters.SqDistanceToCenterId 0 (SfSparseVector.ofPairs [(1, 1), (2, 2)]) = .ok 0 ∧
    testCenters.SqDistanceToCenterId 1 (SfSparseVector.ofPairs [(1, 2), (2, 5), (3, -1)])
      = .ok 0 :=
  ⟨(C21_distance_to_own_center { cluster_centers_ := [], dimensionality_ := 10 }
      (SfSparseVector.ofPairs [(1, 1), (2, 2)])
      [SfSparseVector.ofPairs [(1, 2), (2, 5), (3, -1)]]
      (by decide!) (by decide!)).2,
   (C21_distance_to_own_center
      (({ cluster_centers_ := [], dimensionality_ := 10 } : SfClusterCenters).AddClusterCenterAt
        (SfSparseVector.ofPairs [(1, 1), (2, 2)]))
      (SfSparseVector.ofPairs [(1, 2), (2, 5), (3, -1)]) []
      (by decide!) (by decide!)).1⟩

/-- C22: for all well-formed sparse vectors `x` and `y` whose feature ids are below the
set's dimensionality, with center `cx` created by `AddClusterCenterAt(x)` and center `cy`
created by `AddClusterCenterAt(y)`, `SqDistanceToCenterId(cy, x)` equals
`SqDistanceToCenterId(cx, y)`: both return the sum over the coordinates `i` of
`(x_i - y_i)^2`. -/
theorem C22_distance_symmetric (cc : SfClusterCenters) (x y : SfSparseVector)
    (hd : 0 ≤ cc.GetDimensionality) (hwfx : x.WellFormed) (hwfy : y.WellFormed)
    (hx : x.FeaturesBelow cc.GetDimensionality.toNat)
    (hy : y.FeaturesBelow cc.GetDimensionality.toNat) :
    ∃ d : ℚ,
      ((cc.AddClusterCenterAt x).AddClusterCenterAt y).SqDistanceToCenterId
        ((cc.Size : Int) + 1) x = .ok d ∧
      ((cc.AddClusterCenterAt x).AddClusterCenterAt y).SqDistanceToCenterId
        (cc.Size : Int) y = .ok d ∧
      d = ∑ i in Finset.range cc.GetDimensionality.toNat,
            (x.coord (i : Int) - y.coord (i : Int)) ^ 2 := by
  have hd2 : 0 ≤ cc.dimensionality_ := hd
  have hs : (cc.AddClusterCenterAt x).Size = cc.Size + 1 := size_addClusterCenter cc _
  have hs2 : ((cc.AddClusterCenterAt x).AddClusterCenterAt y).Size = cc.Size + 2 := by
    rw [show ((cc.AddClusterCenterAt x).AddClusterCenterAt y).Size
      = (cc.AddClusterCenterAt x).Size + 1 from size_addClusterCenter _ _, hs]
  have hdim : (cc.AddClusterCenterAt x).dimensionality_ = cc.dimensionality_ := by
    rw [addClusterCenterAt_eq cc x hd2]
  have hcy : ((cc.AddClusterCenterAt x).AddClusterCenterAt y).ClusterCenter (cc.Size + 1)
      = centerOf cc.dimensionality_ y := by
    rw [← hs, clusterCenter_addClusterCenterAt_last, hdim]
  have hcx : ((cc.AddClusterCenterAt x).AddClusterCenterAt y).ClusterCenter cc.Size
      = centerOf cc.dimensionality_ x := by
    rw [show ((cc.AddClusterCenterAt x).AddClusterCenterAt y).ClusterCenter cc.Size
      = (cc.AddClusterCenterAt x).ClusterCenter cc.Size from
        clusterCenter_addClusterCenter_lt _ _ cc.Size (by omega),
      clusterCenter_addClusterCenterAt_last]
  refine ⟨sqDist (centerOf cc.dimensionality_ y) x, ?_, ?_, ?_⟩
  · have h := sqDistanceToCenterId_ok ((cc.AddClusterCenterAt x).AddClusterCenterAt y) x
      (cc.Size + 1) (by omega)
    rw [hcy] at h
    rw [← h]
    push_cast
    rfl
  · rw [sqDistanceToCenterId_ok _ y cc.Size (by omega), hcx]
    exact congrArg Except.ok (sqDist_centerOf_symm _ x y hwfx hwfy hx hy).symm
  · exact sqDist_centerOf _ x y hwfx hx hy

theorem C22_witness :
    testCenters.SqDistanceToCenterId 1 (SfSparseVector.ofPairs [(1, 1), (2, 2)]) = .ok 11 ∧
    testCenters.SqDistanceToCenterId 0 (SfSparseVector.ofPairs [(1, 2), (2, 5), (3, -1)])
      = .ok 11 := by
  obtain ⟨d, h1, h2, _⟩ := C22_distance_symmetric
    { cluster_centers_ := [], dimensionality_ := 10 }
    (SfSparseVector.ofPairs [(1, 1), (2, 2)])
    (SfSparseVector.ofPairs [(1, 2), (2, 5), (3, -1)])
    (by decide) (by decide!) (by decide!) (by decide!) (by decide!)
  have h3 : testCenters.SqDistanceToCenterId 1 (SfSparseVector.ofPairs [(1, 1), (2, 2)])
      = .ok 11 := by decide!
  have h4 : ((({ cluster_centers_ := [], dimensionality_ := 10 } :
      SfClusterCenters).AddClusterCenterAt
        (SfSparseVector.ofPairs [(1, 1), (2, 2)])).AddClusterCenterAt
      (SfSparseVector.ofPairs [(1, 2), (2, 5), (3, -1)])).SqDistanceToCenterId
        ((({ cluster_centers_ := [], dimensionality_ := 10 } : SfClusterCenters).Size : Int) + 1)
        (SfSparseVector.ofPairs [(1, 1), (2, 2)]) = .ok 11 := by decide!
  rw [h4] at h1
  have hd : d = 11 := (Except.ok.inj h1).symm
  rw [hd] at h2
  exact ⟨h3, h2⟩

/-- C23: for every center set with `k` centers and every sparse vector `x`,
`SqDistanceToCenterId(id, x)` fails (on its assertion) if and only if `id < 0` or
`id >= k`; for every `id` with `0 <= id < k` it returns a value. -/
theorem C23_sqDistanceToCenterId_range (cc : SfClusterCenters) (center_id : Int)
    (x : SfSparseVector) :
    ((∃ e, cc.SqDistanceToCenterId center_id x = .error e)
      ↔ (center_id < 0 ∨ (cc.Size : Int) ≤ center_id)) ∧
    (center_id < 0 ∨ (cc.Size : Int) ≤ center_id →
      cc.SqDistanceToCenterId center_id x = .error .assertion) ∧
    (0 ≤ center_id ∧ center_id < (cc.Size : Int) →
      ∃ d, cc.SqDistanceToCenterId center_id x = .ok d) := by
  refine ⟨⟨?_, ?_⟩, sqDistanceToCenterId_error cc x center_id, ?_⟩
  · rintro ⟨e, he⟩
    by_contra hc
    rw [sqDistanceToCenterId_ok_int cc x center_id (by omega) (by omega)] at he
    exact Except.noConfusion he
  · intro h
    exact ⟨_, sqDistanceToCenterId_error cc x center_id h⟩
  · rintro ⟨h0, h1⟩
    exact ⟨_, sqDistanceToCenterId_ok_int cc x center_id h0 h1⟩

theorem C23_witness :
    testCenters.SqDistanceToCenterId (-1) (SfSparseVector.ofPairs [(1, 1), (2, 2)])
      = .error .assertion ∧
    testCenters.SqDistanceToCenterId 2 (SfSparseVector.ofPairs [(1, 1), (2, 2)])
      = .error .assertion ∧
    ∃ d, testCenters.SqDistanceToCenterId 1 (SfSparseVector.ofPairs [(1, 1), (2, 2)])
      = .ok d :=
  ⟨(C23_sqDistanceToCenterId_range testCenters (-1)
      (SfSparseVector.ofPairs [(1, 1), (2, 2)])).2.1 (Or.inl (by decide)),
   (C23_sqDistanceToCenterId_range testCenters 2
      (SfSparseVector.ofPairs [(1, 1), (2, 2)])).2.1 (Or.inr (by decide)),
   (C23_sqDistanceToCenterId_range testCenters 1
      (SfSparseVector.ofPairs [(1, 1), (2, 2)])).2.2 ⟨by decide, by decide⟩⟩

/-- C24: for every sparse vector `x` and every non-null output location,
`SqDistanceToClosestCenter(x, &outId)` fails if and only if the center set is empty; on
failure nothing is written to the output id (the location holds what it held before the
call), and on success the call returns the distance and writes the id. -/
theorem C24_sqDistanceToClosestCenter_failure (cc : SfClusterCenters) (x : SfSparseVector)
    (held : Int) :
    ((∃ e, (cc.SqDistanceToClosestCenterInto x (some held)).1 = .error e) ↔ cc.Size = 0) ∧
    (cc.Size = 0 →
      cc.SqDistanceToClosestCenterInto x (some held) = (.error .assertion, some held)) ∧
    (0 < cc.Size →
      ∃ d j, cc.SqDistanceToClosestCenterInto x (some held) = (.ok d, some j) ∧
        cc.SqDistanceToClosestCenter x = .ok (d, j)) ∧
    ((∃ e, cc.SqDistanceToClosestCenter x = .error e) ↔ cc.Size = 0) := by
  have hempty : cc.Size = 0 →
      cc.SqDistanceToClosestCenterInto x (some held) = (.error .assertion, some held) := by
    intro h0
    rw [sqDistanceToClosestCenterInto_eq, sqDistanceToClosestCenter_empty cc x h0]
  have hok : 0 < cc.Size →
      ∃ d j, cc.SqDistanceToClosestCenterInto x (some held) = (.ok d, some j) ∧
        cc.SqDistanceToClosestCenter x = .ok (d, j) := by
    intro hne
    have h := (closest_ok cc x hne).1
    refine ⟨_, _, ?_, h⟩
    rw [sqDistanceToClosestCenterInto_eq, h]
  refine ⟨⟨?_, ?_⟩, hempty, hok, ⟨?_, ?_⟩⟩
  · rintro ⟨e, he⟩
    by_contra hc
    obtain ⟨d, j, h1, _⟩ := hok (by omega)
    rw [h1] at he
    exact Except.noConfusion he
  · intro h0
    exact ⟨.assertion, by rw [hempty h0]⟩
  · rintro ⟨e, he⟩
    by_contra hc
    rw [(closest_ok cc x (by omega)).1] at he
    exact Except.noConfusion he
  · intro h0
    exact ⟨_, sqDistanceToClosestCenter_empty cc x h0⟩

theorem C24_witness :
    ({ cluster_centers_ := [], dimensionality_ := 10 } :
      SfClusterCenters).SqDistanceToClosestCenterInto
        (SfSparseVector.ofPairs [(1, 1), (2, 2)]) (some 7) = (.error .assertion, some 7) ∧
    ∃ d j, testCenters.SqDistanceToClosestCenterInto
        (SfSparseVector.ofPairs [(1, 1), (2, 2)]) (some 7) = (.ok d, some j) ∧
      testCenters.SqDistanceToClosestCenter (SfSparseVector.ofPairs [(1, 1), (2, 2)])
        = .ok (d, j) :=
  ⟨(C24_sqDistanceToClosestCenter_failure { cluster_centers_ := [], dimensionality_ := 10 }
      (SfSparseVector.ofPairs [(1, 1), (2, 2)]) 7).2.1 (by decide),
   (C24_sqDistanceToClosestCenter_failure testCenters
      (SfSparseVector.ofPairs [(1, 1), (2, 2)]) 7).2.2.1 (by decide)⟩

/-- C25, counterexample: on the points 1 and 3 with the centers 2 and 10, both examples
are assigned to center 0 and none to center 1; after `OneBatchKmeansOptimization` center 1
is the zero vector: its coordinate 1 was 10 before the step and is 0 after it. -/
theorem C25_counterexample :
    assignedTo lineTwoCenters lineData 1 = [] ∧
    OneBatchKmeansOptimization lineData lineTwoCenters
      = .ok { cluster_centers_ := [{ weights_ := [0, 2] }, { weights_ := [0, 0] }],
              dimensionality_ := 2 } ∧
    (lineTwoCenters.ClusterCenter 1).ValueOf 1 = 10 ∧
    (({ cluster_centers_ := [{ weights_ := [0, 2] }, { weights_ := [0, 0] }],
        dimensionality_ := 2 } : SfClusterCenters).ClusterCenter 1).ValueOf 1 = 0 := by
  refine ⟨?_, ?_, ?_, ?_⟩
  · decide!
  · decide!
  · decide!
  · decide!

/-- C25, amended: for every dataset and every non-empty center set,
`OneBatchKmeansOptimization` succeeds, and a center to which it assigns zero examples is
after the step the zero vector of the set's dimensionality, whatever it was before: all
its coordinates are 0. Such a center is unchanged by the step exactly when all its
coordinates were 0 before the step. -/
theorem C25_empty_cluster_becomes_zero (data_set : SfDataSet) (cc : SfClusterCenters)
    (hne : 0 < cc.Size) (hdim : 0 ≤ cc.GetDimensionality) :
    ∃ cc1, OneBatchKmeansOptimization data_set cc = .ok cc1 ∧ cc1.Size = cc.Size ∧
      ∀ i, i < cc.Size → assignedTo cc data_set i = [] →
        cc1.ClusterCenter i = SfWeightVector.zero cc.GetDimensionality ∧
        (cc1.ClusterCenter i).GetDimensions = cc.GetDimensionality ∧
        (∀ c : Int, (cc1.ClusterCenter i).ValueOf c = 0) ∧
        ((∀ c : Int, (cc1.ClusterCenter i).ValueOf c = (cc.ClusterCenter i).ValueOf c)
          ↔ ∀ c : Int, (cc.ClusterCenter i).ValueOf c = 0) := by
  obtain ⟨cc1, h1, h2, _, h4⟩ := oneBatch_spec data_set cc hne hdim
  refine ⟨cc1, h1, h2, ?_⟩
  intro i hi hempty
  have hz : cc1.ClusterCenter i = SfWeightVector.zero cc.GetDimensionality := by
    rw [h4 i hi, hempty]
    rfl
  have hv : ∀ c : Int, (cc1.ClusterCenter i).ValueOf c = 0 := by
    intro c
    rw [hz]
    exact valueOf_zero _ c
  refine ⟨hz, ?_, hv, ?_⟩
  · rw [hz]
    simp only [SfWeightVector.GetDimensions, length_zero]
    omega
  · constructor
    · intro h c
      rw [← h c]
      exact hv c
    · intro h c
      rw [hv c, h c]

theorem C25_witness :
    ∃ cc1, OneBatchKmeansOptimization lineData lineTwoCenters = .ok cc1 ∧
      cc1.Size = lineTwoCenters.Size ∧
      cc1.ClusterCenter 1 = SfWeightVector.zero 2 ∧
      ∀ c : Int, (cc1.ClusterCenter 1).ValueOf c = 0 := by
  obtain ⟨cc1, h1, h2, h3⟩ :=
    C25_empty_cluster_becomes_zero lineData lineTwoCenters (by decide) (by decide)
  obtain ⟨h4, _, h6, _⟩ := h3 1 (by decide) (by decide!)
  exact ⟨cc1, h1, h2, h4, h6⟩

/-- C26: for every dataset with examples, non-empty center set, visit counts of the
centers' number, `mini_batch_size >= 0` and random sequence,
`OneMiniBatchKmeansOptimization` succeeds with `mini_batch_size` calls of `rand()`. It
computes the closest center of all drawn examples against the centers as they were before
the call; then, for each center in increasing index order and for each example grouped
under it in draw order, it applies the stochastic update rule (increment the visit count
of that center, `eta = 1 / (count + 1)`, `center <- (1 - eta) * center + eta * example`),
continuing the running visit counts. Afterwards the visit count of each center has grown
by the number of drawn examples grouped under it, so the counts grow by `mini_batch_size`
in total. -/
theorem C26_oneMiniBatchKmeansOptimization (rand_seq : Nat → Nat) (data_set : SfDataSet)
    (mini_batch_size : Int) (counts : List Int) (s : KmState)
    (hne : 0 < s.cluster_centers.Size) (hn : 0 < data_set.NumExamples)
    (hm : 0 ≤ mini_batch_size) (hlen : counts.length = s.cluster_centers.Size) :
    ∃ counts1 s1,
      OneMiniBatchKmeansOptimization rand_seq data_set mini_batch_size counts s
        = .ok counts1 s1 ∧
      s1.rand_calls = s.rand_calls + mini_batch_size.toNat ∧
      ((miniBatchDraws rand_seq data_set s.rand_calls mini_batch_size.toNat).length : Int)
        = mini_batch_size ∧
      (∀ x_id ∈ miniBatchDraws rand_seq data_set s.rand_calls mini_batch_size.toNat,
        0 ≤ x_id ∧ x_id < data_set.NumExamples ∧
        s.cluster_centers.SqDistanceToClosestCenter (data_set.VectorAt x_id)
          = .ok (closestDistance s.cluster_centers (data_set.VectorAt x_id),
                 ((closestCenterId s.cluster_centers (data_set.VectorAt x_id) : Nat) : Int)) ∧
        closestCenterId s.cluster_centers (data_set.VectorAt x_id) < s.cluster_centers.Size) ∧
      (s1.cluster_centers, counts1)
        = (miniBatchUpdates s.cluster_centers data_set
            (miniBatchDraws rand_seq data_set s.rand_calls mini_batch_size.toNat)).foldl
            (fun a p => stochasticUpdate (data_set.VectorAt p.2) p.1 a)
            (s.cluster_centers, counts) ∧
      (∀ (x : SfSparseVector) (i : Nat) (acc : SfClusterCenters × List Int),
        i < acc.1.Size → i < acc.2.length →
        (stochasticUpdate x i acc).2.getD i 0 = acc.2.getD i 0 + 1 ∧
        (∀ j, j ≠ i → (stochasticUpdate x i acc).2.getD j 0 = acc.2.getD j 0 ∧
          (stochasticUpdate x i acc).1.ClusterCenter j = acc.1.ClusterCenter j) ∧
        (∀ c : Nat, (c : Int) < (acc.1.ClusterCenter i).GetDimensions →
          ((stochasticUpdate x i acc).1.ClusterCenter i).ValueOf (c : Int)
            = (1 - stepEta (acc.2.getD i 0 + 1)) * (acc.1.ClusterCenter i).ValueOf (c : Int)
              + stepEta (acc.2.getD i 0 + 1) * x.coord (c : Int))) ∧
      counts1.length = counts.length ∧
      s1.cluster_centers.Size = s.cluster_centers.Size ∧
      (∀ i, i < s.cluster_centers.Size →
        counts1.getD i 0 = counts.getD i 0
          + ((miniBatchGroup s.cluster_centers data_set
              (miniBatchDraws rand_seq data_set s.rand_calls mini_batch_size.toNat) i).length
              : Int)) ∧
      (((List.range s.cluster_centers.Size).map
          (fun i => (miniBatchGroup s.cluster_centers data_set
            (miniBatchDraws rand_seq data_set s.rand_calls mini_batch_size.toNat) i).length)).sum
          : Int) = mini_batch_size := by
  have hrun := oneMiniBatch_eq rand_seq data_set mini_batch_size counts s.cluster_centers
    s.rand_calls hne hn hlen
  have hpairs : ∀ p ∈ miniBatchUpdates s.cluster_centers data_set
      (miniBatchDraws rand_seq data_set s.rand_calls mini_batch_size.toNat),
      p.1 < (s.cluster_centers, counts).2.length := by
    intro p hp
    unfold miniBatchUpdates at hp
    obtain ⟨i, hi, hp2⟩ := List.mem_flatMap.mp hp
    obtain ⟨x, _, rfl⟩ := List.mem_map.mp hp2
    simp only
    rw [hlen]
    exact List.mem_range.mp hi
  obtain ⟨h1, h2, h3⟩ := foldl_stochasticUpdate_counts data_set _ _ hpairs
  have hdl : (miniBatchDraws rand_seq data_set s.rand_calls mini_batch_size.toNat).length
      = mini_batch_size.toNat := by
    simp [miniBatchDraws]
  refine ⟨_, _, hrun, rfl, ?_, ?_, rfl, ?_, h1, h2, ?_, ?_⟩
  · rw [hdl]
    omega
  · intro x_id hx
    unfold miniBatchDraws at hx
    obtain ⟨t, _, rfl⟩ := List.mem_map.mp hx
    obtain ⟨hr1, hr2⟩ := drawIndex_range rand_seq data_set (s.rand_calls + t) hn
    exact ⟨hr1, hr2, (closest_ok _ _ hne).1, (closest_ok _ _ hne).2⟩
  · intro x i acc hi hl
    exact stochasticUpdate_spec x i acc hi hl
  · intro i hi
    rw [h3 i, miniBatchUpdates_count _ _ _ i hi]
  · rw [miniBatchGroup_total _ _ hne, hdl]
    omega

theorem C26_witness :
    ∃ counts1 s1,
      OneMiniBatchKmeansOptimization countUp lineData 2 [0]
          { cluster_centers := lineCenter, rand_calls := 0 } = .ok counts1 s1 ∧
      s1.rand_calls = 2 ∧ counts1.getD 0 0 = 2 ∧ s1.cluster_centers.Size = 1 := by
  obtain ⟨counts1, s1, h1, h2, _, _, _, _, _, h8, h9, h10⟩ :=
    C26_oneMiniBatchKmeansOptimization countUp lineData 2 [0]
      { cluster_centers := lineCenter, rand_calls := 0 } (by decide) (by decide) (by decide)
      (by decide)
  refine ⟨counts1, s1, h1, ?_, ?_, h8⟩
  · rw [h2]
    rfl
  · have h := h9 0 (by decide)
    have hsum : ((miniBatchGroup lineCenter lineData
        (miniBatchDraws countUp lineData 0 (2 : Int).toNat) 0).length : Int) = 2 := by
      have h11 : (((List.range 1).map
          (fun i => (miniBatchGroup lineCenter lineData
            (miniBatchDraws countUp lineData 0 (2 : Int).toNat) i).length)).sum : Int)
          = 2 := h10
      simpa using h11
    rw [h, hsum]
    rfl

/-- C27, divergence: `SamplingFarthestFirst` keeps the running best distance in an `int`.
On the points 1, 3/2 and 5/4, with `k = 2`, `sample_size = 2` and `rand()` returning
0, 1, 2, the first center is the point 1 and the round draws the candidates 3/2 (example 1,
squared distance 1/4) and 5/4 (example 2, squared distance 1/16). Example 1 becomes the
running best with `best_distance = 0` (1/4 converted to `int`), so example 2 replaces it
(`1/16 > 0`): the center added is example 2, not example 1, the candidate with the
largest distance. -/
theorem C27_farthest_first_truncates :
    SamplingFarthestFirst countUp 2 2 closeByData emptyState
      = .ok () { cluster_centers :=
                  { cluster_centers_ := [centerAt (SfSparseVector.ofPairs [(1, 1)]),
                                         centerAt (SfSparseVector.ofPairs [(1, 5 / 4)])],
                    dimensionality_ := 5 },
                 rand_calls := 3 } ∧
    farthestFirstSample countUp closeByData 2 toySeeded
      = .ok (0, 2) { toySeeded with rand_calls := 3 } ∧
    drawIndex countUp closeByData 1 = 1 ∧ drawIndex countUp closeByData 2 = 2 ∧
    toySeeded.cluster_centers.SqDistanceToClosestCenter (closeByData.VectorAt 1)
      = .ok (1 / 4, 0) ∧
    toySeeded.cluster_centers.SqDistanceToClosestCenter (closeByData.VectorAt 2)
      = .ok (1 / 16, 0) ∧
    farthestStep toySeeded.cluster_centers closeByData (0, 0) 1 = (0, 1) ∧
    farthestStep toySeeded.cluster_centers closeByData (0, 1) 2 = (0, 2) := by
  refine ⟨?_, ?_, ?_, ?_, ?_, ?_, ?_, ?_⟩
  · decide!
  · decide!
  · decide!
  · decide!
  · decide!
  · decide!
  · decide!
  · decide!

/-- C29, divergence: ties do not resolve to the first-encountered candidate. On the points 1,
3/2 and 1/2 (`tiedData`), from an empty center set, with `k = 2`, `sample_size = 2` and
`rand()` returning 0, 1, 2, `SamplingFarthestFirst` takes example 0 as the first center
and draws example 1 and then example 2, both at squared distance 1/4: it adds example 2,
the one drawn later. On `toyData`, with `k = 2` and `rand()` returning 2 and then
`RAND_MAX`, the first center is example 2; the loop of the optimized variants writes
example 1 at the cumulative key 5 and then example 2 (distance 0) at the same key 5, the
draw is 5 and lands on that key, and `OptimizedKmeansPlusPlus` and
`OptimizedKmeansPlusPlusTI` add example 2, the higher index, a second time. -/
theorem C29_ties_not_first_encountered :
    toySeeded.cluster_centers.SqDistanceToClosestCenter (tiedData.VectorAt 1)
      = .ok (1 / 4, 0) ∧
    toySeeded.cluster_centers.SqDistanceToClosestCenter (tiedData.VectorAt 2)
      = .ok (1 / 4, 0) ∧
    seededState tiedData (drawIndex countUp tiedData 0) emptyState = toySeeded ∧
    drawIndex countUp tiedData 1 = 1 ∧ drawIndex countUp tiedData 2 = 2 ∧
    farthestFirstSample countUp tiedData 2 toySeeded
      = .ok (0, 2) { toySeeded with rand_calls := 3 } ∧
    SamplingFarthestFirst countUp 2 2 tiedData emptyState
      = .ok () { cluster_centers :=
                  { cluster_centers_ := [centerAt (SfSparseVector.ofPairs [(1, 1)]),
                                         centerAt (SfSparseVector.ofPairs [(1, 1 / 2)])],
                    dimensionality_ := 5 },
                 rand_calls := 3 } ∧
    optimizedTable (seededState toyData 2 emptyState).cluster_centers toyData 0 [0, 1]
        (0, [], { best_center_ids := [0, 0, 0], best_distances := [2, 3, 0] })
      = .ok (5, [(2, 0), (5, 1)],
             { best_center_ids := [0, 0, 0], best_distances := [2, 3, 0] }) ∧
    optimizedTable (seededState toyData 2 emptyState).cluster_centers toyData 0 [0, 1, 2]
        (0, [], { best_center_ids := [0, 0, 0], best_distances := [2, 3, 0] })
      = .ok (5, [(2, 0), (5, 2)],
             { best_center_ids := [0, 0, 0], best_distances := [2, 3, 0] }) ∧
    sampleDistance pickLastThenMax 5 (seededState toyData 2 emptyState)
      = .ok 5 { seededState toyData 2 emptyState with rand_calls := 2 } ∧
    FloatIntMap.lower_bound [(2, 0), (5, 2)] 5 = some (5, 2) ∧
    OptimizedKmeansPlusPlus pickLastThenMax 2 toyData emptyState
      = .ok () { cluster_centers :=
                  { cluster_centers_ := [centerAt (SfSparseVector.ofPairs [(2, 1)]),
                                         centerAt (SfSparseVector.ofPairs [(2, 1)])],
                    dimensionality_ := 5 },
                 rand_calls := 2 } ∧
    OptimizedKmeansPlusPlusTI pickLastThenMax 2 toyData emptyState
      = .ok () { cluster_centers :=
                  { cluster_centers_ := [centerAt (SfSparseVector.ofPairs [(2, 1)]),
                                         centerAt (SfSparseVector.ofPairs [(2, 1)])],
                    dimensionality_ := 5 },
                 rand_calls := 2 } := by
  refine ⟨?_, ?_, ?_, ?_, ?_, ?_, ?_, ?_, ?_, ?_, ?_, ?_, ?_⟩
  · decide!
  · decide!
  · decide!
  · decide!
  · decide!
  · decide!
  · decide!
  · decide!
  · decide!
  · decide!
  · decide!
  · decide!
  · decide!
/-- C30, counterexample: on the three examples of `toyData` with `k = 3`, when `rand()`
returns 7 at every call, `InitializeWithKRandomCenters` uses the dataset index
`7 mod 3 = 1` three times: the three seed centers are three copies of example 1, and the
indices used are not pairwise distinct. -/
theorem C30_counterexample :
    InitializeWithKRandomCenters (fun _ => 7) 3 toyData emptyState
      = .ok () { cluster_centers :=
                  { cluster_centers_ :=
                      [centerAt (SfSparseVector.ofPairs [(1, 1), (3, 1)]),
                       centerAt (SfSparseVector.ofPairs [(1, 1), (3, 1)]),
                       centerAt (SfSparseVector.ofPairs [(1, 1), (3, 1)])],
                    dimensionality_ := 5 },
                 rand_calls := 3 } ∧
    randomCenterDraws (fun _ => 7) toyData 0 3 = [1, 1, 1] ∧
    ¬ (randomCenterDraws (fun _ => 7) toyData 0 3).Nodup := by
  refine ⟨?_, ?_, ?_⟩
  · decide!
  · decide
  · decide

/-- C30, amended: `InitializeWithKRandomCenters` draws with replacement. For every dataset
of `n` examples, every `k` with `0 < k <= n`, every random sequence and every center set of
non-negative dimensionality, the routine succeeds with `k` calls of `rand()` and appends
`k` centers, the `i`-th of them at the dataset example with index `r_i mod n`, where `r_i`
is the `i`-th number drawn; each index is in `0 .. n - 1`. The `k` indices are pairwise
distinct exactly when the numbers drawn are pairwise distinct modulo `n`; they are not
when `k >= 2` and `rand()` returns the same number at every call. -/
theorem C30_random_centers_with_replacement (rand_seq : Nat → Nat) (k : Int)
    (data_set : SfDataSet) (s : KmState)
    (hk : 0 < k) (hkn : k ≤ data_set.NumExamples)
    (hd : 0 ≤ s.cluster_centers.GetDimensionality) :
    InitializeWithKRandomCenters rand_seq k data_set s
      = .ok () { cluster_centers :=
                  { cluster_centers_ := s.cluster_centers.cluster_centers_ ++
                      (randomCenterDraws rand_seq data_set s.rand_calls k).map
                        (fun id => centerOf s.cluster_centers.dimensionality_
                          (data_set.VectorAt id)),
                    dimensionality_ := s.cluster_centers.dimensionality_ },
                 rand_calls := s.rand_calls + k.toNat } ∧
    (randomCenterDraws rand_seq data_set s.rand_calls k).length = k.toNat ∧
    (∀ i : Nat, i < k.toNat →
      (randomCenterDraws rand_seq data_set s.rand_calls k).getD i 0
        = (rand_seq (s.rand_calls + i) : Int) % data_set.NumExamples ∧
      0 ≤ (randomCenterDraws rand_seq data_set s.rand_calls k).getD i 0 ∧
      (randomCenterDraws rand_seq data_set s.rand_calls k).getD i 0 < data_set.NumExamples) ∧
    ((randomCenterDraws rand_seq data_set s.rand_calls k).Nodup ↔
      ∀ i j : Nat, i < j → j < k.toNat →
        (rand_seq (s.rand_calls + i) : Int) % data_set.NumExamples
          ≠ (rand_seq (s.rand_calls + j) : Int) % data_set.NumExamples) ∧
    (2 ≤ k → (∀ t, rand_seq t = rand_seq 0) →
      ¬ (randomCenterDraws rand_seq data_set s.rand_calls k).Nodup) := by
  have hn : 0 < data_set.NumExamples := by omega
  have hd2 : 0 ≤ s.cluster_centers.dimensionality_ := hd
  have hlen : (intRange 0 k).length = k.toNat := by
    rw [length_intRange]
    simp
  have hrun := randomCenters_loop rand_seq data_set hn (intRange 0 k) s hd2
  have hinit : InitializeWithKRandomCenters rand_seq k data_set s
      = Km.forEach (fun _ => do
          let x ← RandomExample rand_seq data_set
          Km.modifyCenters (fun cc => cc.AddClusterCenterAt x)) (intRange 0 k) s := by
    unfold InitializeWithKRandomCenters
    rw [km_bind_apply]
    simp only [Km.assert, if_pos (And.intro hk hkn)]
  have hnd := nodup_map_range
    (fun (i : Nat) => drawIndex rand_seq data_set (s.rand_calls + i)) k.toNat
  refine ⟨?_, ?_, ?_, hnd, ?_⟩
  · rw [hinit, hrun, hlen]
    simp only [randomCenterDraws, drawIndex, List.map_map]
    rfl
  · simp [randomCenterDraws]
  · intro i hi
    have hget : (randomCenterDraws rand_seq data_set s.rand_calls k).getD i 0
        = (rand_seq (s.rand_calls + i) : Int) % data_set.NumExamples := by
      unfold randomCenterDraws
      rw [List.getD_eq_getElem _ _ (by simpa using hi)]
      simp [drawIndex]
    rw [hget]
    exact ⟨rfl, Int.emod_nonneg _ (by omega), Int.emod_lt_of_pos _ hn⟩
  · intro h2 hconst hnodup
    have h := hnd.mp hnodup 0 1 (by omega) (by omega)
    apply h
    show drawIndex rand_seq data_set (s.rand_calls + 0) = drawIndex rand_seq data_set
      (s.rand_calls + 1)
    unfold drawIndex
    rw [hconst (s.rand_calls + 0), hconst (s.rand_calls + 1)]

/-- C30 on `toyData` with `k = 3` and the random numbers 0, 1, 2, ...: the three indices
used are 0, 1 and 2, pairwise distinct, because the numbers drawn are distinct modulo 3. -/
theorem C30_witness :
    InitializeWithKRandomCenters countUp 3 toyData emptyState
      = .ok () { cluster_centers :=
                  { cluster_centers_ := emptyState.cluster_centers.cluster_centers_ ++
                      (randomCenterDraws countUp toyData emptyState.rand_calls 3).map
                        (fun id => centerOf emptyState.cluster_centers.dimensionality_
                          (toyData.VectorAt id)),
                    dimensionality_ := emptyState.cluster_centers.dimensionality_ },
                 rand_calls := emptyState.rand_calls + (3 : Int).toNat } ∧
    randomCenterDraws countUp toyData emptyState.rand_calls 3 = [0, 1, 2] ∧
    (randomCenterDraws countUp toyData emptyState.rand_calls 3).Nodup :=
  ⟨(C30_random_centers_with_replacement countUp 3 toyData emptyState (by decide) (by decide)
      (by decide)).1, by decide, by decide⟩

/-- C31: for every center set and every `L1_epsilon`, the cluster-level
`ProjectToL1Ball(L1_lambda, L1_epsilon, centers)` leaves every center unchanged when
`L1_lambda <= 0`; when `L1_lambda > 0` it never changes the number of centers and replaces
every center by its per-center projection, applied once: the exact projection when
`L1_epsilon == 0` and the approximate one otherwise. Hence with `L1_lambda <= 0`, as with
the default `L1_lambda = -1`, `BatchKmeans(m)` has the same effect as `m` successive calls
of `OneBatchKmeansOptimization`. -/
theorem C31_projectToL1Ball (proj : L1Projection) (L1_lambda L1_epsilon : ℚ)
    (cc : SfClusterCenters) (data_set : SfDataSet) (num_iterations : Int) :
    (L1_lambda ≤ 0 → ProjectToL1Ball proj L1_lambda L1_epsilon cc = cc) ∧
    (0 < L1_lambda →
      (ProjectToL1Ball proj L1_lambda L1_epsilon cc).Size = cc.Size ∧
      (ProjectToL1Ball proj L1_lambda L1_epsilon cc).GetDimensionality
        = cc.GetDimensionality ∧
      ∀ i, i < cc.Size →
        (ProjectToL1Ball proj L1_lambda L1_epsilon cc).ClusterCenter i
          = if L1_epsilon = 0 then proj.exact (cc.ClusterCenter i) L1_lambda
            else proj.approximate (cc.ClusterCenter i) L1_lambda L1_epsilon) ∧
    (L1_lambda ≤ 0 →
      BatchKmeans proj num_iterations data_set L1_lambda L1_epsilon cc
        = oneBatchTimes data_set num_iterations.toNat cc) ∧
    BatchKmeans proj num_iterations data_set (-1) 0 cc
      = oneBatchTimes data_set num_iterations.toNat cc := by
  have hbatch : ∀ lam : ℚ, lam ≤ 0 → ∀ eps : ℚ,
      BatchKmeans proj num_iterations data_set lam eps cc
        = oneBatchTimes data_set num_iterations.toNat cc := by
    intro lam hlam eps
    unfold BatchKmeans
    rw [batchKmeansLoop_disabled proj data_set lam eps hlam, length_intRange]
    simp
  exact ⟨projectToL1Ball_disabled proj L1_lambda L1_epsilon cc,
    projectToL1Ball_enabled proj L1_lambda L1_epsilon cc,
    fun h => hbatch L1_lambda h L1_epsilon, hbatch (-1) (by norm_num) 0⟩

theorem C31_witness :
    ProjectToL1Ball idProjection (-1) 0 lineTwoCenters = lineTwoCenters ∧
    (ProjectToL1Ball { exact := fun w lam => w.ScaleBy lam, approximate := fun w _ _ => w } 2 0
      lineTwoCenters).ClusterCenter 1 = { weights_ := [0, 20] } ∧
    BatchKmeans idProjection 2 toyData (-1) 0 oneZeroCenter
      = oneBatchTimes toyData 2 oneZeroCenter := by
  refine ⟨?_, ?_, ?_⟩
  · exact (C31_projectToL1Ball idProjection (-1) 0 lineTwoCenters toyData 2).1 (by norm_num)
  · rw [((C31_projectToL1Ball
        { exact := fun w lam => w.ScaleBy lam, approximate := fun w _ _ => w } 2 0
        lineTwoCenters toyData 2).2.1 (by norm_num)).2.2 1 (by decide)]
    decide!
  · exact (C31_projectToL1Ball idProjection (-1) 0 oneZeroCenter toyData 2).2.2.1
      (by norm_num)

/-- C32: the cached squared norm is in step with the pairs. Both parsing constructors come to
an end on every line, and the vector they build has `GetSquaredNorm()` equal to the sum of
`value * value` over its feature/value pairs; so has every vector the differencing
constructor builds, and every vector that a sequence of `PushPair` calls makes of a freshly
constructed vector or of any vector whose norm was in step. -/
theorem C32_cached_norm_in_step (lib : NumberText) :
    (∀ in_string use_bias_term, ∃ res,
      SfSparseVector.ofStringBias lib in_string use_bias_term = some res ∧
      ∀ r, res = .ok r →
        r.GetSquaredNorm = (r.features_.map (fun p => p.value_ * p.value_)).sum) ∧
    (∀ in_string, ∃ res,
      SfSparseVector.ofString lib in_string = some res ∧
      ∀ r, res = .ok r →
        r.GetSquaredNorm = (r.features_.map (fun p => p.value_ * p.value_)).sum) ∧
    (∀ a b y r, SfSparseVector.ofDifference a b y = .ok r →
      r.GetSquaredNorm = (r.features_.map (fun p => p.value_ * p.value_)).sum) ∧
    (∀ ps r, SfSparseVector.pushAll SfSparseVector.empty ps = .ok r →
      r.GetSquaredNorm = (r.features_.map (fun p => p.value_ * p.value_)).sum) ∧
    (∀ (x : SfSparseVector) ps r,
      x.GetSquaredNorm = (x.features_.map (fun p => p.value_ * p.value_)).sum →
      SfSparseVector.pushAll x ps = .ok r →
      r.GetSquaredNorm = (r.features_.map (fun p => p.value_ * p.value_)).sum) := by
  have hbias : ∀ (v : ℚ) x, SfSparseVector.empty.PushPair 0 v = .ok x → x.NormInStep :=
    fun v x h => pushPair_normInStep _ x 0 v normInStep_empty h
  refine ⟨?_, ?_, ?_, ?_, ?_⟩
  · intro in_string use_bias_term
    unfold SfSparseVector.ofStringBias
    cases hb : (if use_bias_term = true then SfSparseVector.SetBias SfSparseVector.empty
        else SfSparseVector.NoBias SfSparseVector.empty) with
    | error e => exact ⟨_, rfl, fun r hr => by simp at hr⟩
    | ok x =>
      have hx : x.NormInStep := by
        cases use_bias_term with
        | true => exact hbias 1 x hb
        | false => exact hbias 0 x hb
      obtain ⟨res, hres⟩ := init_some lib in_string x
      refine ⟨res, hres, fun r hr => ?_⟩
      rw [hr] at hres
      exact init_normInStep lib in_string x r hx hres
  · intro in_string
    unfold SfSparseVector.ofString
    cases hb : SfSparseVector.NoBias SfSparseVector.empty with
    | error e => exact ⟨_, rfl, fun r hr => by simp at hr⟩
    | ok x =>
      obtain ⟨res, hres⟩ := init_some lib in_string x
      refine ⟨res, hres, fun r hr => ?_⟩
      rw [hr] at hres
      exact init_normInStep lib in_string x r (hbias 0 x hb) hres
  · intro a b y r h
    refine diffLoop_normInStep a.features_ b.features_ _ r ?_ h
    simp [SfSparseVector.NormInStep]
  · intro ps r h
    exact pushAll_normInStep ps _ r normInStep_empty h
  · intro x ps r hx h
    exact pushAll_normInStep ps x r hx h

/-- C32 at the line `1,-2 qid:7 1:3 4:-5 #a note, 9:9`: the parsing constructor builds the
pairs (0,0), (1,3), (4,-5), and the cached norm is 0 + 9 + 25 = 34. -/
theorem C32_witness :
    SfSparseVector.ofString wholeNumberText exampleLine = some (.ok exampleLineVector) ∧
    exampleLineVector.GetSquaredNorm = 34 ∧
    exampleLineVector.GetSquaredNorm
      = (exampleLineVector.features_.map (fun p => p.value_ * p.value_)).sum := by
  have hparse : SfSparseVector.ofString wholeNumberText exampleLine
      = some (.ok exampleLineVector) := by decide!
  refine ⟨hparse, by decide!, ?_⟩
  obtain ⟨res, hres, hnorm⟩ := (C32_cached_norm_in_step wholeNumberText).2.1 exampleLine
  rw [hparse] at hres
  exact hnorm exampleLineVector (Option.some.inj hres).symm

/-- C33: the parsing constructor on a line `l1[,l2,...] [group:ID] f1:v1 ... fn:vn [#comment]`
with single-space separators. The tokens hold no separating character, the group name
starts with a letter and no feature id does, the library calls read the numbers `lvals`
from the label tokens and the pairs `pairs` from the feature tokens, and the feature ids
are positive and strictly ascending. Then the constructor ends without an error, and the
vector has the labels `lvals` in order, the group id `ID` (empty without a group token),
the reserved feature 0 followed by exactly the pairs `pairs` in order, and as comment the
text after the comment sign (empty without one): nothing of the comment is among the
features. -/
theorem C33_parsing_constructor (lib : NumberText) (labels : List (List Char))
    (lvals : List ℚ) (group : Option (List Char × List Char))
    (features : List (List Char × List Char)) (pairs : List FeatureValuePair)
    (comment : Option (List Char)) (use_bias_term : Bool)
    (hne : labels ≠ [])
    (hlabels : List.Forall₂ (fun tok v => Word tok ∧ ReadsLabel lib tok v) labels lvals)
    (hgroup : ∀ g, group = some g → Word g.1 ∧ isLetter (charAt g.1) = true ∧ Word g.2)
    (hfeatures : List.Forall₂ (fun t p => Word t.1 ∧ isLetter (charAt t.1) = false ∧
      Word t.2 ∧ ReadsId lib t.1 p.id_ ∧ ReadsValue lib t.2 p.value_) features pairs)
    (hasc : pairs.Pairwise (fun p q => p.id_ < q.id_))
    (hpos : ∀ p ∈ pairs, 0 < p.id_) :
    SfSparseVector.ofStringBias lib (lineText labels group features comment) use_bias_term
      = some (.ok
          { features_ := { id_ := 0, value_ := biasValue use_bias_term } :: pairs,
            y_ := lvals,
            a_ := 0,
            squared_norm_ := biasValue use_bias_term * biasValue use_bias_term
              + (pairs.map (fun p => p.value_ * p.value_)).sum,
            group_id_ := storedText (group.map (fun g => g.2)),
            comment_ := storedText comment }) ∧
    (use_bias_term = false →
      SfSparseVector.ofString lib (lineText labels group features comment)
        = SfSparseVector.ofStringBias lib (lineText labels group features comment)
            use_bias_term) := by
  refine ⟨?_, fun hb => by subst hb; rfl⟩
  -- the words of the line
  have hlw : ∀ t ∈ labels, Word t := fun t ht =>
    (forall₂_of_mem _ _ _ hlabels t ht).elim (fun _ hv => hv.1)
  have hfw : ∀ t ∈ features, Word t.1 ∧ Word t.2 := fun t ht =>
    (forall₂_of_mem _ _ _ hfeatures t ht).elim (fun _ hv => ⟨hv.1, hv.2.2.1⟩)
  have hgw : ∀ g, group = some g → Word g.1 ∧ Word g.2 := fun g hg =>
    ⟨(hgroup g hg).1, (hgroup g hg).2.2⟩
  have hline : lineText labels group features comment
      = joinWith ',' labels ++ ' ' :: joinWith ' ' (groupItems group
          ++ features.map featureItem ++ commentItems comment) := rfl
  have hlen : (lineText labels group features comment).length
      = (joinWith ',' labels).length + 1 + (joinWith ' ' (groupItems group
          ++ features.map featureItem ++ commentItems comment)).length := by
    rw [hline, List.length_append, List.length_cons]
    omega
  have hspace : strchr (lineText labels group features comment) ' '
      = some (' ' :: joinWith ' ' (groupItems group ++ features.map featureItem
          ++ commentItems comment)) := by
    rw [hline, strchr_append _ _ ' ' (not_mem_joinWith ',' ' ' (by decide) labels
      (fun t ht => word_not_mem t (hlw t ht) ' ' (by decide))), strchr_cons_self]
  -- the label loop
  have hlabel : labelLoop lib (strchr (lineText labels group features comment) ' ')
      ((lineText labels group features comment).length + 1)
      (lineText labels group features comment) 0 [] = some (.ok lvals) := by
    rw [hspace]
    have h := labelLoop_labels lib (joinWith ' ' (groupItems group
      ++ features.map featureItem ++ commentItems comment)) labels lvals
      ((lineText labels group features comment).length + 1) 0 [] hne hlabels
      (by rw [hline]; omega)
    rw [List.nil_append, ← hline] at h
    exact h
  -- the group token and the feature loop
  have hts : commentItems comment = [] ∨ ∃ c, commentItems comment = ['#' :: c] := by
    cases comment with
    | none => exact Or.inl rfl
    | some c => exact Or.inr ⟨c, rfl⟩
  have hitems : ∃ ptr, parseGroup (joinWith ' ' (groupItems group
      ++ features.map featureItem ++ commentItems comment)) ""
        = .ok (storedText (group.map (fun g => g.2)), ptr) ∧
      ∀ x, featureLoop lib ((lineText labels group features comment).length + 1) ptr x
        = some (SfSparseVector.pushAll x (pairs.map (fun p => (p.id_, p.value_)))) := by
    cases group with
    | none =>
      simp only [groupItems, List.nil_append] at hlen ⊢
      refine ⟨_, parseGroup_absent _ _ (body_no_letter lib features pairs comment hfeatures),
        fun x => ?_⟩
      exact featureLoop_items lib _ hts features pairs _ x hfeatures (by omega)
    | some g =>
      obtain ⟨hg1, hgl, hg2⟩ := hgroup g rfl
      simp only [groupItems, List.singleton_append, List.cons_append, List.nil_append]
        at hlen ⊢
      by_cases hnil : features.map featureItem ++ commentItems comment = []
      · have hfs : features = [] := by
          cases features with
          | nil => rfl
          | cons a b => simp at hnil
        subst hfs
        cases hfeatures
        rw [hnil]
        have htext : joinWith ' ' [g.1 ++ ':' :: g.2] = g.1 ++ ':' :: (g.2 ++ []) := by
          simp [joinWith]
        rw [htext, parseGroup_present g [] "" hg1 hgl hg2 (Or.inl rfl)]
        exact ⟨_, rfl, fun x => rfl⟩
      · have htext : joinWith ' ' ((g.1 ++ ':' :: g.2)
              :: (features.map featureItem ++ commentItems comment))
            = g.1 ++ ':' :: (g.2 ++ ' ' :: joinWith ' ' (features.map featureItem
                ++ commentItems comment)) := by
          rw [joinWith_cons _ _ _ hnil]
          simp
        rw [htext] at hlen ⊢
        rw [parseGroup_present g _ "" hg1 hgl hg2 (Or.inr ⟨_, rfl⟩)]
        refine ⟨_, rfl, fun x => ?_⟩
        apply featureLoop_items lib _ hts features pairs _ x hfeatures
        simp only [List.length_append, List.length_cons] at hlen
        omega
  obtain ⟨ptr, hgrp, hloop⟩ := hitems
  have hcomment := parseComment_lineText labels group features comment hlw hgw hfw
  -- the constructor
  unfold SfSparseVector.ofStringBias
  rw [bias_vector use_bias_term]
  simp only [SfSparseVector.Init, SfSparseVector.empty]
  rw [if_neg (by omega), hlabel]
  simp only [hspace, plusOne, List.tail_cons, hgrp, hloop]
  rw [pushAll_ascending pairs _ hasc]
  · simp only [hcomment, List.singleton_append]
  · intro q hq p hp
    simp only [List.getLast?_singleton, Option.some.injEq] at hq
    rw [← hq]
    exact hpos p hp

/-- C33 at the line `1,-2 qid:7 1:3 4:-5 #a note, 9:9`, read with whole numbers: the labels
are 1 and -2, the group id is 7, the features after the reserved slot are (1,3) and (4,-5),
and the comment is `a note, 9:9`, of which nothing is parsed as a feature. -/
theorem C33_witness :
    lineText exampleLabels exampleGroup exampleFeatures exampleComment = exampleLine ∧
    SfSparseVector.ofStringBias wholeNumberText exampleLine false
      = some (.ok exampleLineVector) := by
  have h := (C33_parsing_constructor wholeNumberText exampleLabels [1, -2] exampleGroup
    exampleFeatures [⟨1, 3⟩, ⟨4, -5⟩] exampleComment false (by decide)
    (.cons ⟨by decide, fun _ => ⟨rfl, rfl⟩⟩ (.cons ⟨by decide, fun _ => ⟨rfl, rfl⟩⟩ .nil))
    (fun g hg => by
      rw [← Option.some.inj hg]
      exact ⟨by decide, by decide, by decide⟩)
    (.cons ⟨by decide, by decide, by decide, fun _ => rfl, rfl, fun _ => rfl⟩
      (.cons ⟨by decide, by decide, by decide, fun _ => rfl, rfl, fun _ => rfl⟩ .nil))
    (by simp) (by simp)).1
  have hline : lineText exampleLabels exampleGroup exampleFeatures exampleComment
      = exampleLine := by decide
  rw [hline] at h
  refine ⟨hline, ?_⟩
  rw [h]
  decide!

/-- C34: for every `SfMultiLabelWeightVector` with `L` labels and every selected label
`s < L`, the mutating operations `AddVector`, `ScaleBy` and `ProjectToL1Ball` (both
overloads) succeed, change only the weight vector of label `s`, to what the operation
makes of it, and leave the weight vectors of all other labels, their number and the
selection unchanged; the reading operations `ValueOf`, `GetSquaredNorm`, `GetDimensions`
and `InnerProduct` return exactly what the weight vector of label `s` returns; and
`InnerProductAll`, called with an `out` of `L` entries, fills `out[i]` with
`InnerProductLabel(x, i)` for every `i < L`. -/
theorem C34_multiLabel_delegation (proj : L1Projection) (w : SfMultiLabelWeightVector)
    (s : Nat) (x : SfSparseVector) (x_scale scaling_factor lambda epsilon : ℚ) (index : Int)
    (out : List ℚ)
    (hs : s < w.NumLabels) (hsel : w.selected_vector_ = (s : Int)) :
    (∀ (op : Except Failure SfMultiLabelWeightVector) (f : SfWeightVector → SfWeightVector),
      (op = w.AddVector x x_scale ∧ f = (fun v => v.AddVector x x_scale)) ∨
      (op = w.ScaleBy scaling_factor ∧ f = (fun v => v.ScaleBy scaling_factor)) ∨
      (op = SfMultiLabelWeightVector.ProjectToL1Ball proj w lambda
        ∧ f = (fun v => proj.exact v lambda)) ∨
      (op = SfMultiLabelWeightVector.ProjectToL1BallApproximate proj w lambda epsilon
        ∧ f = (fun v => proj.approximate v lambda epsilon)) →
      ∃ w1, op = .ok w1 ∧
        w1.selected_vector_ = w.selected_vector_ ∧ w1.NumLabels = w.NumLabels ∧
        w1.vectors_.getD s { weights_ := [] } = f (w.vectors_.getD s { weights_ := [] }) ∧
        ∀ i, i ≠ s →
          w1.vectors_.getD i { weights_ := [] } = w.vectors_.getD i { weights_ := [] }) ∧
    w.ValueOf index = .ok ((w.vectors_.getD s { weights_ := [] }).ValueOf index) ∧
    w.GetSquaredNorm = .ok (w.vectors_.getD s { weights_ := [] }).GetSquaredNorm ∧
    w.GetDimensions = .ok (w.vectors_.getD s { weights_ := [] }).GetDimensions ∧
    w.InnerProduct x x_scale
      = .ok ((w.vectors_.getD s { weights_ := [] }).InnerProduct x x_scale) ∧
    (out.length = w.NumLabels →
      ∃ out1, w.InnerProductAll x out x_scale = .ok out1 ∧ out1.length = w.NumLabels ∧
        ∀ i, i < w.NumLabels →
          w.InnerProductLabel x (i : Int) x_scale = .ok (out1.getD i 0)) := by
  have hv := multiLabel_vectorAt w s hs
  refine ⟨?_, ?_, ?_, ?_, ?_, ?_⟩
  · intro op f hop
    have hupd := multiLabel_updateAt w s hs f
    rw [← hsel] at hupd
    rcases hop with ⟨h1, h2⟩ | ⟨h1, h2⟩ | ⟨h1, h2⟩ | ⟨h1, h2⟩
    · rw [h1]
      rw [h2] at hupd ⊢
      exact hupd
    · rw [h1]
      rw [h2] at hupd ⊢
      exact hupd
    · rw [h1]
      rw [h2] at hupd ⊢
      exact hupd
    · rw [h1]
      rw [h2] at hupd ⊢
      exact hupd
  · unfold SfMultiLabelWeightVector.ValueOf
    rw [hsel, hv]
  · unfold SfMultiLabelWeightVector.GetSquaredNorm
    rw [hsel, hv]
  · unfold SfMultiLabelWeightVector.GetDimensions
    rw [hsel, hv]
  · unfold SfMultiLabelWeightVector.InnerProduct
    rw [hsel, hv]
  · intro hlen
    obtain ⟨out1, h1, h2, h3⟩ := innerProductAllLoop_spec w x x_scale out.length 0 out
      (by omega)
    refine ⟨out1, ?_, by rw [h2, hlen], ?_⟩
    · unfold SfMultiLabelWeightVector.InnerProductAll
      rw [List.range_eq_range']
      exact h1
    · intro i hi
      unfold SfMultiLabelWeightVector.InnerProductLabel
      rw [multiLabel_vectorAt w i hi, h3 i, if_pos ⟨by omega, by omega, by omega⟩]

theorem C34_witness :
    (∃ w1, testMultiLabel.ScaleBy 2 = .ok w1 ∧
      w1.vectors_.getD 0 { weights_ := [] } = { weights_ := [2, 2, 4, 0, 6] } ∧
      w1.vectors_.getD 1 { weights_ := [] } = { weights_ := [0, 0, 6, 0, 2] }) ∧
    testMultiLabel.ValueOf 4 = .ok 3 ∧
    testMultiLabel.GetSquaredNorm = .ok 15 ∧
    ∃ out1, testMultiLabel.InnerProductAll
        (SfSparseVector.ofPairs [(0, 1), (1, 1), (2, 2), (4, 3)]) [0, 0] 1 = .ok out1 ∧
      out1.length = 2 ∧
      testMultiLabel.InnerProductLabel
        (SfSparseVector.ofPairs [(0, 1), (1, 1), (2, 2), (4, 3)]) 1 1
          = .ok (out1.getD 1 0) := by
  have h := C34_multiLabel_delegation idProjection testMultiLabel 0
    (SfSparseVector.ofPairs [(0, 1), (1, 1), (2, 2), (4, 3)]) 1 2 1 0 4 [0, 0]
    (by decide) (by decide)
  obtain ⟨hop, hval, hnorm, _, _, hall⟩ := h
  refine ⟨?_, ?_, ?_, ?_⟩
  · obtain ⟨w1, h1, _, _, h4, h5⟩ := hop (testMultiLabel.ScaleBy 2) (fun v => v.ScaleBy 2)
      (Or.inr (Or.inl ⟨rfl, rfl⟩))
    refine ⟨w1, h1, ?_, ?_⟩
    · rw [h4]
      decide!
    · rw [h5 1 (by decide)]
      decide!
  · rw [hval]
    decide!
  · rw [hnorm]
    decide!
  · obtain ⟨out1, h1, h2, h3⟩ := hall (by decide)
    exact ⟨out1, h1, h2, h3 1 (by decide)⟩

/-- C35: a run of `OptimizedKmeansPlusPlus` that started on an empty center set, every
squared distance between two examples being within the range of `float`, has reached the
start of round `i >= 1` with the caches `cache` in the state `s`. Then the set holds `i`
centers, and the loop over `j` of round `i`, which computes only the distances to center
`i - 1`, the one added last, ends with caches in which the best distance of every example
`j` is the distance that `SqDistanceToClosestCenter` returns for it on the current set;
the total distance mass of the round is the sum of these closest-center distances over
all examples. The run of the routine goes on from `cache` and `s` with the rounds
`i .. k - 1`. -/
theorem C35_optimized_cache_exact (rand_seq : Nat → Nat) (k : Int) (data_set : SfDataSet)
    (s0 : KmState) (i : Int) (cache : BestCache) (s : KmState)
    (hempty : s0.cluster_centers.Size = 0)
    (hfin : ∀ y ∈ data_set.vectors_, ∀ x ∈ data_set.vectors_,
      sqDist (centerOf s0.cluster_centers.dimensionality_ y) x ≤ FLT_MAX)
    (hi : 1 ≤ i)
    (hrun : optimizedUpTo rand_seq k data_set i s0 = .ok cache s) :
    (s.cluster_centers.Size : Int) = i ∧
    (∃ T m c1,
      optimizedTable s.cluster_centers data_set (i - 1) (intRange 0 data_set.NumExamples)
          (0, [], cache) = .ok (T, m, c1) ∧
      (∀ j : Nat, j < data_set.vectors_.length →
        c1.best_distances.getD j 0
            = closestDistance s.cluster_centers (data_set.VectorAt (j : Int)) ∧
        ∃ id, s.cluster_centers.SqDistanceToClosestCenter (data_set.VectorAt (j : Int))
            = .ok (c1.best_distances.getD j 0, id)) ∧
      T = ((List.range data_set.vectors_.length).map
            (fun (j : Nat) =>
              closestDistance s.cluster_centers (data_set.VectorAt (j : Int)))).sum) ∧
    (i ≤ k →
      OptimizedKmeansPlusPlus rand_seq k data_set s0
        = match Km.forFold (optimizedRound rand_seq data_set) (intRange i k) cache s with
          | .ok _ s1 => .ok () s1
          | .die e s1 => .die e s1) := by
  have hinv := optimizedUpTo_exact rand_seq k data_set s0 i cache s hempty hfin hrun
  have hsize := hinv.1
  refine ⟨by rw [hsize]; omega, ?_, ?_⟩
  · obtain ⟨T, m, c1, htab, _, hget, hT⟩ :=
      optimizedTable_exact data_set (i - 1).toNat cache s hinv
    rw [show (1 : Int) + (((i - 1).toNat : Nat) : Int) - 1 = i - 1 by omega] at htab
    refine ⟨T, m, c1, htab, ?_, hT⟩
    intro j hj
    refine ⟨hget j hj, ((closestCenterId s.cluster_centers
      (data_set.VectorAt (j : Int)) : Nat) : Int), ?_⟩
    rw [hget j hj]
    exact (closest_ok s.cluster_centers _ (by omega)).1
  · intro hik
    rw [optimized_eq_upTo]
    unfold optimizedUpTo at hrun ⊢
    rw [km_bind_apply] at hrun ⊢
    cases hseed : optimizedSeed rand_seq k data_set s0 with
    | die e s1 =>
      rw [hseed] at hrun
      exact Outcome.noConfusion hrun
    | ok c0 s1 =>
      rw [hseed] at hrun
      simp only at hrun ⊢
      rw [intRange_split 1 i k hi hik, forFold_append, hrun]
/-- C35 on the three points 1, 2 and 5/2 of a line, at the start of round 2 with the
centers 1 and 5/2: the loop over `j` ends with the best distances 0, 1/4 and 0, which are
the closest-center distances, and the total distance mass 1/4. -/
theorem C35_witness :
    optimizedUpTo pickFirstThenMax 3 threeOnLine 2 emptyState
      = .ok threeOnLineCache twoOnLineState ∧
    (twoOnLineState.cluster_centers.Size : Int) = 2 ∧
    ∃ T m c1,
      optimizedTable twoOnLineState.cluster_centers threeOnLine (2 - 1)
          (intRange 0 threeOnLine.NumExamples) (0, [], threeOnLineCache) = .ok (T, m, c1) ∧
      (∀ j : Nat, j < threeOnLine.vectors_.length →
        c1.best_distances.getD j 0
            = closestDistance twoOnLineState.cluster_centers (threeOnLine.VectorAt (j : Int)) ∧
        ∃ id, twoOnLineState.cluster_centers.SqDistanceToClosestCenter
              (threeOnLine.VectorAt (j : Int))
            = .ok (c1.best_distances.getD j 0, id)) ∧
      T = ((List.range threeOnLine.vectors_.length).map
            (fun (j : Nat) =>
              closestDistance twoOnLineState.cluster_centers
                (threeOnLine.VectorAt (j : Int)))).sum ∧
      T = 1 / 4 ∧ c1.best_distances = [0, 1 / 4, 0] := by
  have hrun : optimizedUpTo pickFirstThenMax 3 threeOnLine 2 emptyState
      = .ok threeOnLineCache twoOnLineState := by decide!
  have h := C35_optimized_cache_exact pickFirstThenMax 3 threeOnLine emptyState 2
    threeOnLineCache twoOnLineState rfl (by decide!) (by decide) hrun
  obtain ⟨h1, ⟨T, m, c1, htab, hget, hT⟩, _⟩ := h
  refine ⟨hrun, h1, T, m, c1, htab, hget, hT, ?_⟩
  have hval : optimizedTable twoOnLineState.cluster_centers threeOnLine (2 - 1)
      (intRange 0 threeOnLine.NumExamples) (0, [], threeOnLineCache)
      = .ok (1 / 4, [(0, 0), (1 / 4, 2)],
          { best_center_ids := [0, 1, 1], best_distances := [0, 1 / 4, 0] }) := by decide!
  rw [hval] at htab
  injection htab with htab
  injection htab with h2 h3
  injection h3 with _ h4
  rw [← h2, ← h4]
  exact ⟨rfl, rfl⟩

/-- C36: on a dataset of well-formed examples, every example that a round of
`ClassicKmeansPlusPlus` adds to a set with centers, whatever the random sequence, is a
dataset example at strictly positive squared distance from every center in the set at
that time. Hence a successful run that started on an empty center set, whose
dimensionality bound covers the features of the dataset, ends with `k` centers of which no
two are the same vector. -/
theorem C36_classic_centers_distinct (rand_seq : Nat → Nat) (k : Int) (data_set : SfDataSet)
    (hwf : ∀ x ∈ data_set.vectors_, x.WellFormed) :
    (∀ (s s1 : KmState) (e : Int), 0 < s.cluster_centers.Size →
      classicRound rand_seq data_set s = .ok e s1 →
      s1.cluster_centers = s.cluster_centers.AddClusterCenterAt (data_set.VectorAt e) ∧
      0 ≤ e ∧ e < data_set.NumExamples ∧
      ∀ c, c < s.cluster_centers.Size →
        0 < sqDist (s.cluster_centers.ClusterCenter c) (data_set.VectorAt e)) ∧
    (∀ (s s1 : KmState), s.cluster_centers.Size = 0 →
      0 ≤ s.cluster_centers.dimensionality_ →
      (∀ x ∈ data_set.vectors_, x.FeaturesBelow s.cluster_centers.dimensionality_.toNat) →
      ClassicKmeansPlusPlus rand_seq k data_set s = .ok () s1 →
      (s1.cluster_centers.Size : Int) = k ∧
      ∀ a b, a < b → b < s1.cluster_centers.Size →
        s1.cluster_centers.ClusterCenter a ≠ s1.cluster_centers.ClusterCenter b) := by
  constructor
  · intro s s1 e hne hrun
    rcases classicRound_cases rand_seq data_set s hne hwf with ⟨j, hj, hpos, h1⟩ | ⟨h1, _⟩
    · rw [h1] at hrun
      injection hrun with he hs
      rw [← he, ← hs]
      refine ⟨rfl, Int.natCast_nonneg j, by unfold SfDataSet.NumExamples; omega, ?_⟩
      intro c hc
      exact lt_of_lt_of_le hpos (closestDistance_le _ _ hne c hc)
    · rw [h1] at hrun
      exact Outcome.noConfusion hrun
  · intro s s1 hempty hD hfb hrun
    have hk : 0 < k ∧ k ≤ data_set.NumExamples := by
      by_contra hk
      have : ClassicKmeansPlusPlus rand_seq k data_set s = .die .assertion s :=
        assert_fails_bind _ hk _ s
      rw [this] at hrun
      exact Outcome.noConfusion hrun
    rcases classicRun_cases rand_seq k data_set s hk hD hempty hwf hfb with
      ⟨s2, h1, hinv⟩ | ⟨s2, h1⟩
    · rw [h1] at hrun
      injection hrun with _ hs
      rw [← hs]
      obtain ⟨_, hlen, hnd, _⟩ := hinv
      have hsize : s2.cluster_centers.Size = k.toNat := hlen
      refine ⟨by rw [hsize]; omega, ?_⟩
      intro a b hab hb heq
      have ha : a < s2.cluster_centers.cluster_centers_.length := lt_trans hab hb
      have hb2 : b < s2.cluster_centers.cluster_centers_.length := hb
      unfold SfClusterCenters.ClusterCenter at heq
      rw [List.getD_eq_getElem _ _ ha, List.getD_eq_getElem _ _ hb2] at heq
      have := (List.Nodup.getElem_inj_iff hnd).mp heq
      omega
    · rw [h1] at hrun
      exact Outcome.noConfusion hrun
/-- C36 on the three points 1, 2 and 5/2 of a line, with `k = 3`: the run from the empty
set adds the points in the order 1, 5/2, 2, and the three centers differ from each
other. -/
theorem C36_witness :
    ClassicKmeansPlusPlus pickFirstThenMax 3 threeOnLine emptyState
      = .ok () threeOnLineSeeded ∧
    (threeOnLineSeeded.cluster_centers.Size : Int) = 3 ∧
    ∀ a b, a < b → b < threeOnLineSeeded.cluster_centers.Size →
      threeOnLineSeeded.cluster_centers.ClusterCenter a
        ≠ threeOnLineSeeded.cluster_centers.ClusterCenter b := by
  have hrun : ClassicKmeansPlusPlus pickFirstThenMax 3 threeOnLine emptyState
      = .ok () threeOnLineSeeded := by decide!
  exact ⟨hrun, (C36_classic_centers_distinct pickFirstThenMax 3 threeOnLine
    (by decide!)).2 emptyState threeOnLineSeeded rfl (by decide) (by decide!) hrun⟩

/-- C37: on a dataset of well-formed examples, a round of `ClassicKmeansPlusPlus` on a set
with centers, `rand()` having returned a value of at most `RAND_MAX`, dies with `exit(1)`
("No unique points left for cluster centers.") if and only if every example is at squared
distance zero from its closest center, and a round dies in no other way. Started on an
empty center set whose dimensionality bound covers the features of the dataset, with
`0 < k <= n`: when the dataset holds fewer than `k` distinct points the run dies with
`exit(1)` for every random sequence, and when it holds at least `k` distinct points the
run ends normally for every random sequence within the range of `rand()`. -/
theorem C37_no_unique_points_left (rand_seq : Nat → Nat) (k : Int) (data_set : SfDataSet)
    (hwf : ∀ x ∈ data_set.vectors_, x.WellFormed) :
    (∀ s : KmState, 0 < s.cluster_centers.Size → rand_seq s.rand_calls ≤ RAND_MAX →
      ((∃ s1, classicRound rand_seq data_set s = .die .exit1 s1) ↔
        ∀ j : Nat, j < data_set.vectors_.length →
          closestDistance s.cluster_centers (data_set.VectorAt (j : Int)) = 0)) ∧
    (∀ (s s1 : KmState) (e : Failure), 0 < s.cluster_centers.Size →
      classicRound rand_seq data_set s = .die e s1 → e = .exit1) ∧
    (∀ s : KmState, s.cluster_centers.Size = 0 → 0 ≤ s.cluster_centers.dimensionality_ →
      (∀ x ∈ data_set.vectors_, x.FeaturesBelow s.cluster_centers.dimensionality_.toNat) →
      0 < k → k ≤ data_set.NumExamples →
      distinctPoints s.cluster_centers.dimensionality_ data_set < k.toNat →
      ∃ s1, ClassicKmeansPlusPlus rand_seq k data_set s = .die .exit1 s1) ∧
    (∀ s : KmState, s.cluster_centers.Size = 0 → 0 ≤ s.cluster_centers.dimensionality_ →
      (∀ x ∈ data_set.vectors_, x.FeaturesBelow s.cluster_centers.dimensionality_.toNat) →
      0 < k → k ≤ data_set.NumExamples →
      k.toNat ≤ distinctPoints s.cluster_centers.dimensionality_ data_set →
      (∀ t, rand_seq t ≤ RAND_MAX) →
      ∃ s1, ClassicKmeansPlusPlus rand_seq k data_set s = .ok () s1) := by
  refine ⟨?_, ?_, ?_, ?_⟩
  · intro s hne hr
    constructor
    · rintro ⟨s1, h1⟩
      rcases classicRound_cases rand_seq data_set s hne hwf with ⟨j, _, _, h2⟩ | ⟨_, hzero⟩
      · rw [h2] at h1
        exact Outcome.noConfusion h1
      · exact hzero hr
    · intro hzero
      exact ⟨_, classicRound_exit rand_seq data_set s hne hzero⟩
  · intro s s1 e hne hrun
    rcases classicRound_cases rand_seq data_set s hne hwf with ⟨j, _, _, h2⟩ | ⟨h2, _⟩
    · rw [h2] at hrun
      exact Outcome.noConfusion hrun
    · rw [h2] at hrun
      injection hrun with he _
      exact he.symm
  · intro s hempty hD hfb hk0 hkn hfew
    rcases classicRun_cases rand_seq k data_set s ⟨hk0, hkn⟩ hD hempty hwf hfb with
      ⟨s1, _, hinv⟩ | h
    · exfalso
      obtain ⟨_, hlen, hnd, hmem⟩ := hinv
      have := length_le_of_nodup_subset s1.cluster_centers.cluster_centers_
        (dataPoints s.cluster_centers.dimensionality_ data_set).dedup hnd
        (fun a ha => List.mem_dedup.mpr (hmem a ha))
      unfold distinctPoints at hfew
      omega
    · exact h
  · intro s hempty hD hfb hk0 hkn hmany hr
    exact classicRun_ok rand_seq k data_set s ⟨hk0, hkn⟩ hD hempty hwf hfb hr hmany

/-- C37 on `twoPointData`, three examples that are two points, with `k = 3`: the run from
the empty set dies with `exit(1)`; it does so in the second round, the two centers being
the points 1 and 2. -/
theorem C37_witness :
    distinctPoints 5 twoPointData = 2 ∧
    (∃ s1, ClassicKmeansPlusPlus countUp 3 twoPointData emptyState = .die .exit1 s1) ∧
    ClassicKmeansPlusPlus countUp 3 twoPointData emptyState
      = .die .exit1
          { cluster_centers :=
              { cluster_centers_ := [centerAt (SfSparseVector.ofPairs [(1, 1)]),
                                     centerAt (SfSparseVector.ofPairs [(1, 2)])],
                dimensionality_ := 5 },
            rand_calls := 3 } :=
  ⟨by decide!,
   (C37_no_unique_points_left countUp 3 twoPointData (by decide!)).2.2.1 emptyState rfl
     (by decide) (by decide!) (by decide) (by decide) (by decide!),
   by decide!⟩

/-- C38: with the visit count of a center starting at zero and no L1 projection, a center
whose initial value is `c0` and which has since been updated by the stochastic rule with
the examples `x_1, ..., x_m` (the updates of other centers coming in between in any way)
equals `(c0 + x_1 + ... + x_m) / (m + 1)` at every coordinate: the running average of its
initial position and all examples assigned to it; the result is the same for every order
of the updates. `OneStochasticKmeansStep` and the update of the mini-batch step are this
rule, applied to the center that `SqDistanceToClosestCenter` writes, respectively to the
center of the group. -/
theorem C38_running_average (ps : List (Nat × SfSparseVector)) (cc : SfClusterCenters)
    (counts : List Int) (i : Nat)
    (hi : i < cc.Size) (hlen : counts.length = cc.Size) (hzero : counts.getD i 0 = 0) :
    (∀ c : Nat, (c : Int) < (cc.ClusterCenter i).GetDimensions →
      ((ps.foldl (fun a p => stochasticUpdate p.2 p.1 a)
          (cc, counts)).1.ClusterCenter i).ValueOf (c : Int)
        = ((cc.ClusterCenter i).ValueOf (c : Int)
            + ((ps.filter (fun p => decide (p.1 = i))).map
                (fun p => p.2.coord (c : Int))).sum)
          / (((ps.filter (fun p => decide (p.1 = i))).length : ℚ) + 1) ∧
      ∀ ps1 : List (Nat × SfSparseVector), ps1.Perm ps →
        ((ps1.foldl (fun a p => stochasticUpdate p.2 p.1 a)
            (cc, counts)).1.ClusterCenter i).ValueOf (c : Int)
          = ((ps.foldl (fun a p => stochasticUpdate p.2 p.1 a)
              (cc, counts)).1.ClusterCenter i).ValueOf (c : Int)) ∧
    (∀ x : SfSparseVector,
      OneStochasticKmeansStep x cc counts
        = .ok (stochasticUpdate x (closestCenterId cc x) (cc, counts))) ∧
    (∀ (data_set : SfDataSet) (x_id : Int),
      miniBatchApplyOne data_set i x_id (cc, counts)
        = .ok (stochasticUpdate (data_set.VectorAt x_id) i (cc, counts))) := by
  have hform : ∀ (qs : List (Nat × SfSparseVector)) (c : Nat),
      (c : Int) < (cc.ClusterCenter i).GetDimensions →
      ((qs.foldl (fun a p => stochasticUpdate p.2 p.1 a)
          (cc, counts)).1.ClusterCenter i).ValueOf (c : Int)
        = ((cc.ClusterCenter i).ValueOf (c : Int)
            + ((qs.filter (fun p => decide (p.1 = i))).map
                (fun p => p.2.coord (c : Int))).sum)
          / (((qs.filter (fun p => decide (p.1 = i))).length : ℚ) + 1) := by
    intro qs c hc
    have h := foldl_stochasticUpdate_average i c qs (cc, counts) hi (by rw [hlen]; exact hi)
      (by rw [hzero]) hc
    simp only [hzero, Int.cast_zero, zero_add, mul_one] at h
    have hne : (((qs.filter (fun p => decide (p.1 = i))).length : ℚ) + 1) ≠ 0 := by
      have : (0 : ℚ) ≤ ((qs.filter (fun p => decide (p.1 = i))).length : ℚ) :=
        Nat.cast_nonneg _
      linarith
    rw [eq_div_iff hne]
    exact h
  refine ⟨?_, ?_, ?_⟩
  · intro c hc
    refine ⟨hform ps c hc, ?_⟩
    intro ps1 hperm
    rw [hform ps1 c hc, hform ps c hc]
    have hf := hperm.filter (fun p => decide (p.1 = i))
    rw [hf.length_eq, (hf.map (fun p => p.2.coord (c : Int))).sum_eq]
  · intro x
    exact oneStochastic_eq x cc counts (by omega) hlen
  · intro data_set x_id
    exact miniBatchApplyOne_eq data_set i x_id (cc, counts) (by rw [hlen]; exact hi)

theorem C38_witness :
    ([(0, SfSparseVector.ofPairs [(1, 1)]), (0, SfSparseVector.ofPairs [(1, 3)])].foldl
        (fun a p => stochasticUpdate p.2 p.1 a) (lineCenter, [0])).1.ClusterCenter 0
      = { weights_ := [0, 2] } ∧
    ((([(0, SfSparseVector.ofPairs [(1, 1)]), (0, SfSparseVector.ofPairs [(1, 3)])].foldl
        (fun a p => stochasticUpdate p.2 p.1 a) (lineCenter, [0])).1.ClusterCenter 0).ValueOf
          ((1 : Nat) : Int)
      = ((lineCenter.ClusterCenter 0).ValueOf ((1 : Nat) : Int)
          + (([(0, SfSparseVector.ofPairs [(1, 1)]),
                (0, SfSparseVector.ofPairs [(1, 3)])].filter
                  (fun p => decide (p.1 = 0))).map
              (fun p => p.2.coord ((1 : Nat) : Int))).sum)
        / ((([(0, SfSparseVector.ofPairs [(1, 1)]),
                (0, SfSparseVector.ofPairs [(1, 3)])].filter
                  (fun p => decide (p.1 = 0))).length : ℚ) + 1)) :=
  ⟨by decide!,
   ((C38_running_average
      [(0, SfSparseVector.ofPairs [(1, 1)]), (0, SfSparseVector.ofPairs [(1, 3)])]
      lineCenter [0] 0 (by decide) (by decide) (by decide)).1 1 (by decide)).1⟩

/-- C39: in a round of `SamplingFarthestFirst` (after the first center) in which no drawn
candidate has a distance greater than the running best, which then stays 0 (for example
when every candidate coincides with an existing center, or `sample_size <= 0`), and in a
round of `SamplingKmeansPlusPlus` in which no candidate is accepted (for example when
every drawn candidate has distance zero), the center added is dataset example 0, whether
or not example 0 was among the drawn candidates. This is what the routines do: when a run
of `SamplingFarthestFirst` or of `SamplingKmeansPlusPlus` has reached the start of such a
round `i < k` in the state `s`, the routine ends as its rounds `i + 1 .. k - 1` do from
the state in which example 0 has been added to the centers of `s`. -/
theorem C39_round_without_acceptance (rand_seq : Nat → Nat) (data_set : SfDataSet)
    (sample_size : Int) (s : KmState)
    (hne : 0 < s.cluster_centers.Size) (hn : 0 < data_set.NumExamples) :
    ((∀ t, t < sample_size.toNat →
        closestDistance s.cluster_centers
          (data_set.VectorAt (drawIndex rand_seq data_set (s.rand_calls + t))) ≤ 0) →
      farthestFirstSample rand_seq data_set sample_size s
        = .ok (0, 0) { s with rand_calls := s.rand_calls + sample_size.toNat } ∧
      (farthestFirstSample rand_seq data_set sample_size >>= fun best =>
          Km.modifyCenters (fun cc => cc.AddClusterCenterAt (data_set.VectorAt best.2))) s
        = .ok () { cluster_centers :=
                    s.cluster_centers.AddClusterCenterAt (data_set.VectorAt 0),
                   rand_calls := s.rand_calls + sample_size.toNat }) ∧
    (sample_size ≤ 0 →
      (farthestFirstSample rand_seq data_set sample_size >>= fun best =>
          Km.modifyCenters (fun cc => cc.AddClusterCenterAt (data_set.VectorAt best.2))) s
        = .ok () { cluster_centers :=
                    s.cluster_centers.AddClusterCenterAt (data_set.VectorAt 0),
                   rand_calls := s.rand_calls }) ∧
    ((∀ t, t < sample_size.toNat →
        ¬ candidateAccepted s.cluster_centers rand_seq data_set s.rand_calls t) →
      (samplingPlusPlusSample rand_seq data_set sample_size >>= fun sel =>
          Km.modifyCenters (fun cc => cc.AddClusterCenterAt (data_set.VectorAt sel.1))) s
        = .ok () { cluster_centers :=
                    s.cluster_centers.AddClusterCenterAt (data_set.VectorAt 0),
                   rand_calls := s.rand_calls + 2 * sample_size.toNat }) ∧
    ((∀ t, t < sample_size.toNat →
        candidateDistance s.cluster_centers rand_seq data_set s.rand_calls t = 0) →
      ∀ t, t < sample_size.toNat →
        ¬ candidateAccepted s.cluster_centers rand_seq data_set s.rand_calls t) ∧
    (∀ (k : Int) (s0 : KmState) (i : Int), 1 ≤ i → i < k →
      farthestFirstUpTo rand_seq k sample_size data_set i s0 = .ok () s →
      (∀ t, t < sample_size.toNat →
        closestDistance s.cluster_centers
          (data_set.VectorAt (drawIndex rand_seq data_set (s.rand_calls + t))) ≤ 0) →
      SamplingFarthestFirst rand_seq k sample_size data_set s0
        = Km.forEach (farthestFirstRound rand_seq data_set sample_size) (intRange (i + 1) k)
            { cluster_centers :=
                s.cluster_centers.AddClusterCenterAt (data_set.VectorAt 0),
              rand_calls := s.rand_calls + sample_size.toNat }) ∧
    (∀ (k : Int) (s0 : KmState) (i : Int), 1 ≤ i → i < k →
      samplingPlusPlusUpTo rand_seq k sample_size data_set i s0 = .ok () s →
      (∀ t, t < sample_size.toNat →
        ¬ candidateAccepted s.cluster_centers rand_seq data_set s.rand_calls t) →
      SamplingKmeansPlusPlus rand_seq k sample_size data_set s0
        = Km.forEach (samplingPlusPlusRound rand_seq data_set sample_size)
            (intRange (i + 1) k)
            { cluster_centers :=
                s.cluster_centers.AddClusterCenterAt (data_set.VectorAt 0),
              rand_calls := s.rand_calls + 2 * sample_size.toNat }) := by
  have hrun := farthestFirstSample_eq rand_seq data_set sample_size s.cluster_centers
    s.rand_calls hne hn
  have hfar : (∀ t, t < sample_size.toNat →
        closestDistance s.cluster_centers
          (data_set.VectorAt (drawIndex rand_seq data_set (s.rand_calls + t))) ≤ 0) →
      farthestFirstSample rand_seq data_set sample_size s
        = .ok (0, 0) { cluster_centers := s.cluster_centers,
                       rand_calls := s.rand_calls + sample_size.toNat } := by
    intro h
    have hr2 : farthestFirstSample rand_seq data_set sample_size s = _ := hrun
    rw [hr2, farthestFold_none s.cluster_centers data_set
      (fun t => drawIndex rand_seq data_set (s.rand_calls + t)) _ h]
  have hfarRound : (∀ t, t < sample_size.toNat →
        closestDistance s.cluster_centers
          (data_set.VectorAt (drawIndex rand_seq data_set (s.rand_calls + t))) ≤ 0) →
      (farthestFirstSample rand_seq data_set sample_size >>= fun best =>
          Km.modifyCenters (fun cc => cc.AddClusterCenterAt (data_set.VectorAt best.2))) s
        = .ok () { cluster_centers :=
                    s.cluster_centers.AddClusterCenterAt (data_set.VectorAt 0),
                   rand_calls := s.rand_calls + sample_size.toNat } := by
    intro h
    rw [km_bind_apply, hfar h]
    rfl
  have hppRound : (∀ t, t < sample_size.toNat →
        ¬ candidateAccepted s.cluster_centers rand_seq data_set s.rand_calls t) →
      (samplingPlusPlusSample rand_seq data_set sample_size >>= fun sel =>
          Km.modifyCenters (fun cc => cc.AddClusterCenterAt (data_set.VectorAt sel.1))) s
        = .ok () { cluster_centers :=
                    s.cluster_centers.AddClusterCenterAt (data_set.VectorAt 0),
                   rand_calls := s.rand_calls + 2 * sample_size.toNat } := by
    intro h
    have h28 := samplingPlusPlusSample_eq rand_seq data_set sample_size s.cluster_centers
      s.rand_calls hne hn
    have hsel := (samplingAfter_last s.cluster_centers rand_seq data_set s.rand_calls
      sample_size.toNat).2 h
    have hr2 : samplingPlusPlusSample rand_seq data_set sample_size s
        = .ok (samplingAfter s.cluster_centers rand_seq data_set s.rand_calls
            sample_size.toNat)
          { cluster_centers := s.cluster_centers,
            rand_calls := s.rand_calls + 2 * sample_size.toNat } := h28
    rw [km_bind_apply, hr2]
    show Km.modifyCenters _ _ = _
    unfold Km.modifyCenters
    simp only [hsel]
  refine ⟨?_, ?_, hppRound, ?_, ?_, ?_⟩
  · intro h
    exact ⟨hfar h, hfarRound h⟩
  · intro h0
    have hm : sample_size.toNat = 0 := by omega
    have h := hfar (by
      intro t ht
      omega)
    rw [km_bind_apply, h, hm]
    rfl
  · intro h t ht
    exact candidateAccepted_zero _ _ _ _ _ (h t ht)
  · intro k s0 i hi hik hupto h
    have hround2 : farthestFirstRound rand_seq data_set sample_size i s = _ := hfarRound h
    rw [farthestFirst_continue rand_seq k sample_size data_set s0 s i hi (by omega) hupto,
      forEach_range_cons _ i k hik, hround2]
  · intro k s0 i hi hik hupto h
    have hround2 : samplingPlusPlusRound rand_seq data_set sample_size i s = _ := hppRound h
    rw [samplingPlusPlus_continue rand_seq k sample_size data_set s0 s i hi (by omega) hupto,
      forEach_range_cons _ i k hik, hround2]

/-- C39 on `toyData` with `k = 2` and `rand()` returning 1 at every call: the first center
is example 1 and every candidate is example 1 again, at distance 0; `SamplingFarthestFirst`
(`sample_size = 2`) and `SamplingKmeansPlusPlus` (`sample_size = 1`) add example 0. -/
theorem C39_witness :
    drawIndex (fun _ => 1) toyData 1 = 1 ∧ drawIndex (fun _ => 1) toyData 2 = 1 ∧
    farthestFirstUpTo (fun _ => 1) 2 2 toyData 1 emptyState = .ok () toySeededAtOne ∧
    SamplingFarthestFirst (fun _ => 1) 2 2 toyData emptyState
      = .ok () { cluster_centers :=
                  toySeededAtOne.cluster_centers.AddClusterCenterAt (toyData.VectorAt 0),
                 rand_calls := 3 } ∧
    samplingPlusPlusUpTo (fun _ => 1) 2 1 toyData 1 emptyState = .ok () toySeededAtOne ∧
    SamplingKmeansPlusPlus (fun _ => 1) 2 1 toyData emptyState
      = .ok () { cluster_centers :=
                  toySeededAtOne.cluster_centers.AddClusterCenterAt (toyData.VectorAt 0),
                 rand_calls := 3 } ∧
    (farthestFirstSample (fun _ => 1) toyData 2 >>= fun best =>
        Km.modifyCenters (fun cc => cc.AddClusterCenterAt (toyData.VectorAt best.2)))
        toySeededAtOne
      = .ok () { cluster_centers :=
                  toySeededAtOne.cluster_centers.AddClusterCenterAt
                    (SfSparseVector.ofPairs [(1, 1)]),
                 rand_calls := 3 } ∧
    (samplingPlusPlusSample (fun _ => 1) toyData 1 >>= fun sel =>
        Km.modifyCenters (fun cc => cc.AddClusterCenterAt (toyData.VectorAt sel.1)))
        toySeededAtOne
      = .ok () { cluster_centers :=
                  toySeededAtOne.cluster_centers.AddClusterCenterAt
                    (SfSparseVector.ofPairs [(1, 1)]),
                 rand_calls := 3 } := by
  have h := C39_round_without_acceptance (fun _ => 1) toyData 2 toySeededAtOne (by decide)
    (by decide)
  have h1 := C39_round_without_acceptance (fun _ => 1) toyData 1 toySeededAtOne (by decide)
    (by decide)
  have hfar : ∀ t, t < (2 : Int).toNat →
      closestDistance toySeededAtOne.cluster_centers
        (toyData.VectorAt (drawIndex (fun _ => 1) toyData (toySeededAtOne.rand_calls + t)))
        ≤ 0 := by
    intro t _
    have hd : drawIndex (fun _ => 1) toyData (toySeededAtOne.rand_calls + t) = 1 := rfl
    rw [hd]
    have : closestDistance toySeededAtOne.cluster_centers (toyData.VectorAt 1) = 0 := by
      decide!
    rw [this]
  have hpp : ∀ t, t < (1 : Int).toNat →
      ¬ candidateAccepted toySeededAtOne.cluster_centers (fun _ => 1) toyData
        toySeededAtOne.rand_calls t :=
    h1.2.2.2.1 (by
      intro t _
      unfold candidateDistance roundCandidate
      have hd : drawIndex (fun _ => 1) toyData (toySeededAtOne.rand_calls + 2 * t) = 1 :=
        rfl
      rw [hd]
      decide!)
  have hupto1 : farthestFirstUpTo (fun _ => 1) 2 2 toyData 1 emptyState
      = .ok () toySeededAtOne := by decide!
  have hupto2 : samplingPlusPlusUpTo (fun _ => 1) 2 1 toyData 1 emptyState
      = .ok () toySeededAtOne := by decide!
  refine ⟨by decide, by decide, hupto1, ?_, hupto2, ?_, (h.1 hfar).2, h1.2.2.1 hpp⟩
  · rw [h.2.2.2.2.1 2 emptyState 1 (by decide) (by decide) hupto1 hfar]
    decide!
  · rw [h1.2.2.2.2.2 2 emptyState 1 (by decide) (by decide) hupto2 hpp]
    decide!
/-- C40, divergence: `best_center_ids` is a `vector<float>`, and the assignment
`best_center_ids[j] = recently_added_center` rounds the center id 16777219 up to 16777220.
With `k = 16777222 <= n` a read `inter_center_distances[best_center_ids[j]]` is out of
bounds: on 16777221 examples at the point 1 followed by one example at the point 2, from
an empty center set, with `rand()` returning `RAND_MAX` at its call number 16777219 and 0
at every other call, the centers 0 to 16777218 are at the point 1, the centers 16777219
and 16777220 at the point 2, the center id of the last example is stored as 16777220, and
round 16777221 reads `inter_center_distances[16777220]` in a table of 16777220 entries.
Up to there the claim holds: for every dataset, every random sequence, every center set to
start on and every `k` with `0 < k <= n` and `k <= 16777221`, a run of
`OptimizedKmeansPlusPlusTI` ends normally or with `exit(1)`, no read of the table being out
of bounds. When such a run has reached the start of a round `i` (`1 <= i < k`) with the
caches and the table `st` in the state `s`, the loop over `j` of round `i` ends without a
failure; for `i >= 2` every cached center id is a whole number of at most `i - 2` and an
index into the table; when the run started on an empty center set, the set holds `i`
centers and the table holds exactly `i - 1` entries, entry `c` being the distance from
center `c` to the example that was added last, as center `i - 1`; and the run of the
routine goes on from `st` and `s` with the rounds `i .. k - 1`. -/
theorem C40_inter_center_table_reads :
    (floatOfInt 16777219 = 16777220 ∧
      (0 : Int) < 16777222 ∧ (16777222 : Int) ≤ (lateOutlier 16777221).NumExamples ∧
      OptimizedKmeansPlusPlusTI (maxAtCall 16777219) 16777222 (lateOutlier 16777221)
          emptyState
        = .die .outOfBounds
            { cluster_centers := onesThen 16777219 [centerAt pointTwo, centerAt pointTwo],
              rand_calls := 16777221 }) ∧
    (∀ (rand_seq : Nat → Nat) (k : Int) (data_set : SfDataSet) (s0 : KmState),
      0 < k → k ≤ data_set.NumExamples → k ≤ 16777221 →
      ((∃ s1, OptimizedKmeansPlusPlusTI rand_seq k data_set s0 = .ok () s1) ∨
        (∃ s1, OptimizedKmeansPlusPlusTI rand_seq k data_set s0 = .die .exit1 s1)) ∧
      (∀ (i : Int) (st : BestCache × List ℚ) (s : KmState), 1 ≤ i → i < k →
        optimizedTIUpTo rand_seq k data_set i s0 = .ok st s →
        (∃ T m c1, optimizedTITable s.cluster_centers data_set i st.2
            (intRange 0 data_set.NumExamples) (0, [], st.1) = .ok (T, m, c1)) ∧
        (2 ≤ i → ∀ j : Nat, j < data_set.vectors_.length →
          ∃ c : Nat, st.1.best_center_ids.getD j 0 = (((c : Nat) : Int) : ℚ) ∧
            (c : Int) ≤ i - 2 ∧ c < st.2.length) ∧
        (2 ≤ i → s0.cluster_centers.Size = 0 →
          (s.cluster_centers.Size : Int) = i ∧ (st.2.length : Int) = i - 1 ∧
          ∃ (prev : SfClusterCenters) (e : Int),
            s.cluster_centers = prev.AddClusterCenterAt (data_set.VectorAt e) ∧
            ∀ c : Nat, (c : Int) < i - 1 →
              st.2.getD c 0
                = sqDist (s.cluster_centers.ClusterCenter c) (data_set.VectorAt e)) ∧
        OptimizedKmeansPlusPlusTI rand_seq k data_set s0
          = match Km.forFold (optimizedTIRound rand_seq data_set) (intRange i k) st s with
            | .ok _ s1 => .ok () s1
            | .die e s1 => .die e s1)) := by
  refine ⟨⟨floatOfInt_round_up, by decide, ?_,
    lateOutlier_run 16777221 16777219 (by omega) (by omega) floatOfInt_round_up⟩, ?_⟩
  · rw [lateOutlier_numExamples]
    decide
  intro rand_seq k data_set s0 hk0 hkn hkb
  refine ⟨?_, ?_⟩
  · rw [optimizedTI_eq_upTo]
    rcases optimizedTI_run_cases rand_seq k data_set s0 ⟨hk0, hkn⟩ hkb with
      ⟨st, s, h1⟩ | ⟨s, h1⟩
    · rw [h1]; exact Or.inl ⟨s, rfl⟩
    · rw [h1]; exact Or.inr ⟨s, rfl⟩
  · intro i st s hi hik hrun
    have hinv : TableInBounds data_set s0.cluster_centers.Size (i - 1).toNat st s := by
      rcases optimizedTIUpTo_cases rand_seq k data_set s0 i ⟨hk0, hkn⟩ (by omega) with
        ⟨st1, s1, h1, h2⟩ | ⟨s1, h1⟩
      · rw [h1] at hrun
        injection hrun with hst hs
        rw [← hst, ← hs]
        exact h2
      · rw [h1] at hrun
        exact Outcome.noConfusion hrun
    obtain ⟨hsize, hlen1, hlen2, hids, hicd⟩ := hinv
    refine ⟨?_, ?_, ?_, ?_⟩
    · obtain ⟨T, mp, c1, htab, _⟩ :=
        optimizedTITable_ok s.cluster_centers data_set s0.cluster_centers.Size
          (i - 1).toNat st.2 st.1 hsize (fun hm => (hicd hm).1) hlen1 hlen2 hids
          data_set.vectors_.length (le_refl _)
      rw [show (1 : Int) + (((i - 1).toNat : Nat) : Int) = i by omega, ← numExamples_eq]
        at htab
      exact ⟨T, mp, c1, htab⟩
    · intro h2 j hj
      obtain ⟨c, hc, hcm⟩ := hids j hj
      have hlen := (hicd (by omega)).1
      refine ⟨c, hc, ?_, ?_⟩
      · rcases hcm with hcm | hcm
        · omega
        · omega
      · rw [hlen]
        rcases hcm with hcm | hcm
        · omega
        · omega
    · intro h2 hempty
      obtain ⟨hlen, prev, e, hprev, hget⟩ := hicd (by omega)
      rw [hempty] at hsize hlen hget
      refine ⟨by rw [hsize]; omega, by rw [hlen]; omega, prev, e, hprev, ?_⟩
      intro c hc
      exact hget c (by omega)
    · rw [optimizedTI_eq_upTo]
      unfold optimizedTIUpTo at hrun ⊢
      rw [km_bind_apply] at hrun ⊢
      cases hseed : optimizedTISeed rand_seq k data_set s0 with
      | die e s1 =>
        rw [hseed] at hrun
        exact Outcome.noConfusion hrun
      | ok c0 s1 =>
        rw [hseed] at hrun
        simp only at hrun ⊢
        rw [intRange_split 1 i k hi (by omega), forFold_append, hrun]

/-- C40 on the three points 1, 2 and 5/2 of a line with `k = 3`: round 2 starts with the
centers 1 and 5/2, the table holds the one entry 9/4, the distance from center 0 to the
point 5/2, and every cached center id is 0. -/
theorem C40_witness :
    optimizedTIUpTo pickFirstThenMax 3 threeOnLine 2 emptyState
      = .ok (threeOnLineCache, [9 / 4]) twoOnLineState ∧
    ((∃ s1, OptimizedKmeansPlusPlusTI pickFirstThenMax 3 threeOnLine emptyState = .ok () s1) ∨
      (∃ s1, OptimizedKmeansPlusPlusTI pickFirstThenMax 3 threeOnLine emptyState
        = .die .exit1 s1)) ∧
    (∃ T m c1, optimizedTITable twoOnLineState.cluster_centers threeOnLine 2
        (threeOnLineCache, ([9 / 4] : List ℚ)).2
        (intRange 0 threeOnLine.NumExamples) (0, [], threeOnLineCache) = .ok (T, m, c1)) ∧
    (∀ j : Nat, j < threeOnLine.vectors_.length →
      ∃ c : Nat, threeOnLineCache.best_center_ids.getD j 0 = (((c : Nat) : Int) : ℚ) ∧
        (c : Int) ≤ 2 - 2 ∧ c < ([9 / 4] : List ℚ).length) := by
  have hrun : optimizedTIUpTo pickFirstThenMax 3 threeOnLine 2 emptyState
      = .ok (threeOnLineCache, [9 / 4]) twoOnLineState := by decide!
  have h := C40_inter_center_table_reads.2 pickFirstThenMax 3 threeOnLine emptyState
    (by decide) (by decide) (by decide)
  obtain ⟨h1, h2, _, _⟩ := h.2 2 (threeOnLineCache, [9 / 4]) twoOnLineState (by decide)
    (by decide) hrun
  exact ⟨hrun, h.1, h1, h2 (by decide)⟩

end SofiaML
